import Mathlib

/-!
# Verification of `AgenticResponse.Serialize` / `Deserialize` (package `schema`)

The source methods are thin wrappers over Go's `encoding/gob`:

```go
func (r *AgenticResponse) Serialize() ([]byte, error) {
	b := bytes.NewBuffer(nil)
	err := gob.NewEncoder(b).Encode(r)
	...
}
func (r *AgenticResponse) Deserialize(data []byte) error {
	return gob.NewDecoder(bytes.NewBuffer(data)).Decode(r)
}
```

This file embeds the data model of `schema/response.go` and the observable
behaviour of gob's encoder/decoder on that model, following gob's documented
wire format and semantics:

* a stream is a sequence of length-prefixed messages (type definitions for the
  transmitted type, then one value message); the decoder reads a whole message
  before decoding any of it;
* unsigned integers: one byte below 128, otherwise a byte `256 - k` followed by
  `k` big-endian bytes, `k ≤ 8` on decode; signed integers use the low-bit
  complement scheme;
* struct values are (field-number delta, value) pairs, terminated by delta 0;
  a field whose value is the zero value of its (pointer-flattened) type is not
  transmitted, and a field absent from the stream leaves the corresponding
  field of the receiver unchanged (gob decodes directly into the receiver);
* interface-typed values (the `Extra map[string]any` entries) are transmitted
  as the registered concrete-type name, a byte count, and the value's own
  encoding; encoding and decoding both fail on a concrete type whose name is
  not registered, while `int`, `bool` and `string` are pre-registered by the
  gob package itself.

Deliberate abstractions, each noted at its definition: bytes are naturals;
Go strings are Lean strings whose characters are transmitted as code points;
wire-type definition messages are abbreviated to (id, name) pairs; the
external `jsonschema.Schema` is opaque; gob's process-global registration is
an explicit parameter; maps are sorted association lists (Go map iteration
order is unspecified, so this picks one admissible encoder order).
-/

namespace GobSpec

/-- Decode-side failures, one constructor per distinct gob decoder error
relevant to this model (`io.EOF`, `io.ErrUnexpectedEOF`, "encoded unsigned
integer out of range", "message too big", incompatible transmitted type
definitions, "invalid field number", "length exceeds input size",
"name not registered for interface", "extra data in buffer", and a bad
singleton/interface frame). -/
inductive DecErr where
  | eof
  | unexpectedEOF
  | badUint
  | messageTooBig
  | typeDefMismatch
  | wrongTypeId
  | invalidField
  | lengthExceedsInput
  | badSingleton
  | nameNotRegistered (name : String)
  | invalidChar
  | extraData
deriving DecidableEq

/-- Encode-side failures: "type not registered for interface" and
"nil pointer" (a nil pointer inside a slice cannot be transmitted). -/
inductive EncErr where
  | typeNotRegistered (name : String)
  | nilPointer
deriving DecidableEq

/-- Big-endian minimal byte representation of a natural number ([] for 0). -/
def beBytes (n : Nat) : List Nat :=
  if n = 0 then [] else beBytes (n / 256) ++ [n % 256]
decreasing_by exact Nat.div_lt_self (Nat.pos_of_ne_zero (by assumption)) (by norm_num)

/-- Reassemble a big-endian byte list. -/
def fromBE (bs : List Nat) : Nat := bs.foldl (fun a b => a * 256 + b) 0

/-- gob's unsigned-integer encoding: a single byte below 128, otherwise a
count byte `256 - k` followed by the `k` big-endian bytes of the value. -/
def encU (n : Nat) : List Nat :=
  if n < 128 then [n] else (256 - (beBytes n).length) :: beBytes n

/-- gob's unsigned-integer decoder: rejects count bytes above 8 ("encoded
unsigned integer out of range") and short input. -/
def decU : List Nat → Except DecErr (Nat × List Nat)
  | [] => .error .eof
  | b :: rest =>
    if b < 128 then .ok (b, rest)
    else
      let k := 256 - b
      if 8 < k then .error .badUint
      else if rest.length < k then .error .unexpectedEOF
      else .ok (fromBE (rest.take k), rest.drop k)

/-- gob's signed-to-unsigned scheme: shift left one, complement if negative. -/
def zig (i : Int) : Nat := if 0 ≤ i then 2 * i.toNat else 2 * (-i).toNat - 1

/-- Inverse of `zig`. -/
def unzig (u : Nat) : Int :=
  if u % 2 = 0 then ((u / 2 : Nat) : Int) else -(((u / 2 : Nat) : Int) + 1)

/-- Signed-integer encoding. -/
def encS (i : Int) : List Nat := encU (zig i)

/-- Signed-integer decoder. -/
def decS (bs : List Nat) : Except DecErr (Int × List Nat) :=
  match decU bs with
  | .error e => .error e
  | .ok (u, r) => .ok (unzig u, r)

/-- Character-sequence encoding. Go strings are raw byte sequences; this model
carries Lean strings and transmits each character as its code point, which is
faithful for every claim under analysis (string contents are opaque there). -/
def encChars : List Char → List Nat
  | [] => []
  | c :: t => encU c.toNat ++ encChars t

/-- String encoding: length, then the characters. -/
def encStr (s : String) : List Nat := encU s.length ++ encChars s.data

/-- Decode `n` characters. -/
def decChars : Nat → List Nat → Except DecErr (List Char × List Nat)
  | 0, bs => .ok ([], bs)
  | n + 1, bs =>
    match decU bs with
    | .error e => .error e
    | .ok (u, r) =>
      if h : u.isValidChar then
        match decChars n r with
        | .error e => .error e
        | .ok (cs, r') => .ok (Char.ofNatAux u h :: cs, r')
      else .error .invalidChar

/-- String decoder, with gob's "length exceeds input size" guard. -/
def decStr (bs : List Nat) : Except DecErr (String × List Nat) :=
  match decU bs with
  | .error e => .error e
  | .ok (n, r) =>
    if r.length < n then .error .lengthExceedsInput
    else
      match decChars n r with
      | .error e => .error e
      | .ok (cs, r') => .ok (⟨cs⟩, r')

/-- The registration state of gob's process-global name registry
(`gob.Register`): the set of user-registered concrete-type names. `int`,
`bool` and `string` are pre-registered by the gob package itself and are
handled separately; `map[string]interface {}` and `[]interface \x7b\x7d` are
not pre-registered. Modelled as an explicit parameter of the codec. -/
abbrev Reg := List String

/-- The Go type name of `map[string]interface \x7b\x7d`. -/
def mapAnyName : String := "map[string]interface \x7b\x7d"

/-- The Go type name of `[]interface \x7b\x7d`. -/
def sliceAnyName : String := "[]interface \x7b\x7d"

/-- The values an `Extra map[string]any` entry can hold in this model: the
primitives gob pre-registers, nil, nested any-maps and any-slices, and an
arbitrary user-registered concrete type abstracted to its registered name and
its encoded payload bytes. -/
inductive GoVal where
  | vNil
  | vString (s : String)
  | vBool (b : Bool)
  | vInt (i : Int)
  | vMap (entries : List (String × GoVal))
  | vSlice (elems : List GoVal)
  | vCustom (name : String) (payload : List Nat)

/-- Go map insertion on the sorted-association-list representation of
`map[string]any`: replaces the value at an existing key, otherwise inserts
keeping keys sorted. -/
def insKV (k : String) (v : GoVal) : List (String × GoVal) → List (String × GoVal)
  | [] => [(k, v)]
  | (k', v') :: t =>
    if k < k' then (k, v) :: (k', v') :: t
    else if k = k' then (k, v) :: t
    else (k', v') :: insKV k v t

/-- The wire form of an interface value: registered concrete-type name, byte
count of the concrete value's encoding, then that encoding. (The per-value
concrete type id and its wire-type definition message are abbreviated away;
the inline name already determines the layout.) -/
def ifaceWire (name : String) (body : List Nat) : List Nat :=
  encStr name ++ encU body.length ++ body

mutual

/-- Encode one interface value. Non-struct concrete values are transmitted as
singletons: a field delta of 1, then the value. A nil interface value is
transmitted as an empty type name. Fails with gob's "type not registered for
interface" when the concrete type's name is not registered. -/
def encGoVal (reg : Reg) : GoVal → Except EncErr (List Nat)
  | .vNil => .ok (encU 0)
  | .vString s => .ok (ifaceWire "string" (encU 1 ++ encStr s))
  | .vBool b => .ok (ifaceWire "bool" (encU 1 ++ encU (if b then 1 else 0)))
  | .vInt i => .ok (ifaceWire "int" (encU 1 ++ encS i))
  | .vMap m =>
    if mapAnyName ∈ reg then
      match encPairs reg m with
      | .error e => .error e
      | .ok body => .ok (ifaceWire mapAnyName (encU 1 ++ encU m.length ++ body))
    else .error (.typeNotRegistered mapAnyName)
  | .vSlice xs =>
    if sliceAnyName ∈ reg then
      match encElems reg xs with
      | .error e => .error e
      | .ok body => .ok (ifaceWire sliceAnyName (encU 1 ++ encU xs.length ++ body))
    else .error (.typeNotRegistered sliceAnyName)
  | .vCustom n p =>
    if n ∈ reg then .ok (ifaceWire n p) else .error (.typeNotRegistered n)

/-- Encode the entries of a nested `map[string]any` value. -/
def encPairs (reg : Reg) : List (String × GoVal) → Except EncErr (List Nat)
  | [] => .ok []
  | (k, v) :: t =>
    match encGoVal reg v with
    | .error e => .error e
    | .ok vb =>
      match encPairs reg t with
      | .error e => .error e
      | .ok tb => .ok (encStr k ++ vb ++ tb)

/-- Encode the elements of a nested `[]any` value. -/
def encElems (reg : Reg) : List GoVal → Except EncErr (List Nat)
  | [] => .ok []
  | v :: t =>
    match encGoVal reg v with
    | .error e => .error e
    | .ok vb =>
      match encElems reg t with
      | .error e => .error e
      | .ok tb => .ok (vb ++ tb)

end

mutual

/-- Decode one interface value. The fuel argument dominates the byte length of
the value's encoding; `decGoVal` is called with the length of the remaining
input. -/
def decGoVal (reg : Reg) : Nat → List Nat → Except DecErr (GoVal × List Nat)
  | 0, _ => .error .unexpectedEOF
  | fuel + 1, bs =>
    match decStr bs with
    | .error e => .error e
    | .ok (name, r) =>
      if name = "" then .ok (.vNil, r)
      else
        match decU r with
        | .error e => .error e
        | .ok (blen, r1) =>
          if r1.length < blen then .error .unexpectedEOF
          else
            match decIface reg fuel name (r1.take blen) with
            | .error e => .error e
            | .ok v => .ok (v, r1.drop blen)

/-- Decode the concrete value inside an interface frame from its counted
body. Resolves the transmitted concrete-type name against the registry and
fails with gob's "name not registered for interface" when absent; a decoded
interface value is assigned to its slot only as a whole, so no partial
interface value is observable. -/
def decIface (reg : Reg) (fuel : Nat) (name : String) (body : List Nat) :
    Except DecErr GoVal :=
  if name = "string" then
    match decU body with
    | .error e => .error e
    | .ok (d, b1) =>
      if d = 1 then
        match decStr b1 with
        | .error e => .error e
        | .ok (s, b2) =>
          if b2 = [] then .ok (.vString s) else .error .extraData
      else .error .badSingleton
  else if name = "bool" then
    match decU body with
    | .error e => .error e
    | .ok (d, b1) =>
      if d = 1 then
        match decU b1 with
        | .error e => .error e
        | .ok (u, b2) =>
          if b2 = [] then .ok (.vBool (u != 0)) else .error .extraData
      else .error .badSingleton
  else if name = "int" then
    match decU body with
    | .error e => .error e
    | .ok (d, b1) =>
      if d = 1 then
        match decS b1 with
        | .error e => .error e
        | .ok (i, b2) =>
          if b2 = [] then .ok (.vInt i) else .error .extraData
      else .error .badSingleton
  else if name = mapAnyName then
    if mapAnyName ∈ reg then
      match decU body with
      | .error e => .error e
      | .ok (d, b1) =>
        if d = 1 then
          match decU b1 with
          | .error e => .error e
          | .ok (n, b2) =>
            match decPairs reg fuel n b2 with
            | .error e => .error e
            | .ok (m, b3) =>
              if b3 = [] then .ok (.vMap m) else .error .extraData
        else .error .badSingleton
    else .error (.nameNotRegistered mapAnyName)
  else if name = sliceAnyName then
    if sliceAnyName ∈ reg then
      match decU body with
      | .error e => .error e
      | .ok (d, b1) =>
        if d = 1 then
          match decU b1 with
          | .error e => .error e
          | .ok (n, b2) =>
            match decElemsD reg fuel n b2 with
            | .error e => .error e
            | .ok (xs, b3) =>
              if b3 = [] then .ok (.vSlice xs) else .error .extraData
        else .error .badSingleton
    else .error (.nameNotRegistered sliceAnyName)
  else if name ∈ reg then .ok (.vCustom name body)
  else .error (.nameNotRegistered name)

/-- Decode `n` entries of a nested `map[string]any` value, building the map
by repeated insertion as gob does. -/
def decPairs (reg : Reg) (fuel : Nat) :
    Nat → List Nat → Except DecErr (List (String × GoVal) × List Nat)
  | 0, bs => .ok ([], bs)
  | n + 1, bs =>
    match decStr bs with
    | .error e => .error e
    | .ok (k, r) =>
      match decGoVal reg fuel r with
      | .error e => .error e
      | .ok (v, r1) =>
        match decPairs reg fuel n r1 with
        | .error e => .error e
        | .ok (m, r2) => .ok (insKV k v m, r2)

/-- Decode `n` elements of a nested `[]any` value. -/
def decElemsD (reg : Reg) (fuel : Nat) :
    Nat → List Nat → Except DecErr (List GoVal × List Nat)
  | 0, bs => .ok ([], bs)
  | n + 1, bs =>
    match decGoVal reg fuel bs with
    | .error e => .error e
    | .ok (v, r) =>
      match decElemsD reg fuel n r with
      | .error e => .error e
      | .ok (xs, r1) => .ok (v :: xs, r1)

end

/-- The result of decoding into a value of type `σ` gob-style: the (possibly
partially) updated value, and either the remaining bytes or the error.
Decoding writes directly into the receiver, so fields decoded before a
failure keep their new values. -/
abbrev DR (σ : Type) := σ × Except DecErr (List Nat)

/-- Keep the present (non-zero, hence transmitted) fields of a struct:
each entry is a field number with the field's value encoding. -/
def opts : List (Nat × Option (List Nat)) → List (Nat × List Nat)
  | [] => []
  | (_, none) :: t => opts t
  | (f, some vb) :: t => (f, vb) :: opts t

/-- Encode a struct body from its present fields: each field is preceded by
the delta from the previous field number (`prevP` is that number plus one,
starting at 0), and the body ends with delta 0. -/
def encEnts : Nat → List (Nat × List Nat) → List Nat
  | _, [] => [0]
  | prevP, (f, vb) :: t => encU (f + 1 - prevP) ++ vb ++ encEnts (f + 1) t

/-- gob's struct-body decoder: read a field delta (0 terminates), compute the
field number, check it against the struct's field count, and dispatch to the
field's decoder, writing into the receiver as it goes. Field numbers strictly
increase, so `numF + 1 - prevP` steps always suffice; `gas` is a structural
bound kept above that. -/
def decLoop {σ : Type} (dispatch : Nat → List Nat → σ → DR σ) (numF : Nat) :
    Nat → Nat → List Nat → σ → DR σ
  | gas, prevP, bs, s =>
    match decU bs with
    | .error e => (s, .error e)
    | .ok (0, r) => (s, .ok r)
    | .ok (d + 1, r) =>
      let f := prevP + d
      if f < numF then
        match gas with
        | 0 => (s, .error .invalidField)
        | gas' + 1 =>
          match dispatch f r s with
          | (s', .ok r') => decLoop dispatch numF gas' (f + 1) r' s'
          | (s', .error e) => (s', .error e)
      else (s, .error .invalidField)

/-- Decode a string-valued field. -/
def dStrField {σ : Type} (set : σ → String → σ) (bs : List Nat) (s : σ) : DR σ :=
  match decStr bs with
  | .error e => (s, .error e)
  | .ok (v, r) => (set s v, .ok r)

/-- Decode a signed-integer-valued field. -/
def dIntField {σ : Type} (set : σ → Int → σ) (bs : List Nat) (s : σ) : DR σ :=
  match decS bs with
  | .error e => (s, .error e)
  | .ok (v, r) => (set s v, .ok r)

/-- Decode a bool-valued field; gob takes any non-zero to `true`. -/
def dBoolField {σ : Type} (set : σ → Bool → σ) (bs : List Nat) (s : σ) : DR σ :=
  match decU bs with
  | .error e => (s, .error e)
  | .ok (u, r) => (set s (u != 0), .ok r)

/-- Decode a struct-valued (or pointer-to-struct) field into its current
value; gob allocates a zero value for a nil pointer and assigns the pointer
to the parent before filling it, so the parent keeps the partially decoded
sub-value even when the sub-decode fails. -/
def dSubField {σ τ : Type} (body : List Nat → τ → DR τ) (get : σ → τ)
    (set : σ → τ → σ) (bs : List Nat) (s : σ) : DR σ :=
  match body bs (get s) with
  | (t, .ok r) => (set s t, .ok r)
  | (t, .error e) => (set s t, .error e)

/-- Decode `n` slice elements, each into a freshly allocated zero value (gob
makes a zeroed slice first, so elements after a failure stay zero). -/
def dList {τ : Type} (elemDec : List Nat → τ → DR τ) (zero : τ) :
    Nat → List Nat → List τ × Except DecErr (List Nat)
  | 0, bs => ([], .ok bs)
  | n + 1, bs =>
    match elemDec bs zero with
    | (t, .ok r) =>
      match dList elemDec zero n r with
      | (ts, res) => (t :: ts, res)
    | (t, .error e) => (t :: List.replicate n zero, .error e)

/-- Decode a slice-valued field: length (with gob's "length exceeds input
size" guard), then the elements; the slice is assigned to the field before
the elements are decoded. -/
def dSliceField {σ τ : Type} (elemDec : List Nat → τ → DR τ) (zero : τ)
    (set : σ → List τ → σ) (bs : List Nat) (s : σ) : DR σ :=
  match decU bs with
  | .error e => (s, .error e)
  | .ok (n, r) =>
    if r.length < n then (s, .error .lengthExceedsInput)
    else
      match dList elemDec zero n r with
      | (ts, .ok r') => (set s ts, .ok r')
      | (ts, .error e) => (set s ts, .error e)

/-- Decode `n` entries of a struct's `map[string]any` field, inserting into
the existing map one entry at a time as gob does (entries decoded before a
failure stay inserted). -/
def dKVs (reg : Reg) :
    Nat → List Nat → List (String × GoVal) →
    List (String × GoVal) × Except DecErr (List Nat)
  | 0, bs, acc => (acc, .ok bs)
  | n + 1, bs, acc =>
    match decStr bs with
    | .error e => (acc, .error e)
    | .ok (k, r) =>
      match decGoVal reg r.length r with
      | .error e => (acc, .error e)
      | .ok (v, r1) => dKVs reg n r1 (insKV k v acc)

/-- Decode a `map[string]any`-valued field: entry count, then the entries,
inserted into the field's existing map (gob allocates an empty map for a nil
field and assigns it before filling). -/
def dMapField {σ : Type} (reg : Reg) (get : σ → List (String × GoVal))
    (set : σ → List (String × GoVal) → σ) (bs : List Nat) (s : σ) : DR σ :=
  match decU bs with
  | .error e => (s, .error e)
  | .ok (n, r) =>
    match dKVs reg n r (get s) with
    | (m, .ok r') => (set s m, .ok r')
    | (m, .error e) => (set s m, .error e)

/-- Encode a struct's `map[string]any` field body: entry count, then each
key with its interface-encoded value. -/
def encMapBody (reg : Reg) (m : List (String × GoVal)) : Except EncErr (List Nat) :=
  match encPairs reg m with
  | .error e => .error e
  | .ok body => .ok (encU m.length ++ body)

/-- Sequence the per-field encode results of a struct, keeping gob's
field-order-of-first-failure behaviour. -/
def seqEnts : List (Except EncErr (Nat × Option (List Nat))) →
    Except EncErr (List (Nat × Option (List Nat)))
  | [] => .ok []
  | e :: t =>
    match e with
    | .error x => .error x
    | .ok p =>
      match seqEnts t with
      | .error x => .error x
      | .ok ps => .ok (p :: ps)

/-- A string field: omitted when it is the zero string. -/
def fStr (f : Nat) (v : String) : Nat × Option (List Nat) :=
  (f, if v = "" then none else some (encStr v))

/-- An int field: omitted when zero. -/
def fInt (f : Nat) (i : Int) : Nat × Option (List Nat) :=
  (f, if i = 0 then none else some (encS i))

/-- A bool field: omitted when false. -/
def fBool (f : Nat) (b : Bool) : Nat × Option (List Nat) :=
  (f, if b then some (encU 1) else none)

/-- A `*int` field: gob flattens the pointer, so both a nil pointer and a
pointer to zero are omitted. -/
def fOptInt (f : Nat) (o : Option Int) : Nat × Option (List Nat) :=
  (f, if o.getD 0 = 0 then none else some (encS (o.getD 0)))

/-- A `*string` field: both nil and a pointer to the empty string are
omitted. -/
def fOptStr (f : Nat) (o : Option String) : Nat × Option (List Nat) :=
  (f, if o.getD "" = "" then none else some (encStr (o.getD "")))

/-- A struct-valued field with the given zero test and body: omitted when the
value is its type's zero value. -/
def fSubV (f : Nat) (isZero : Bool) (body : List Nat) : Nat × Option (List Nat) :=
  (f, if isZero then none else some body)

/-- A pointer-to-struct field whose body encoding can fail: nil pointers and
pointers to zero values are omitted. -/
def fPtrSubE {τ : Type} (f : Nat) (o : Option τ) (isZ : τ → Bool)
    (encB : τ → Except EncErr (List Nat)) : Except EncErr (Nat × Option (List Nat)) :=
  match o with
  | none => .ok (f, none)
  | some t =>
    if isZ t then .ok (f, none)
    else
      match encB t with
      | .error e => .error e
      | .ok b => .ok (f, some b)

/-- Encode the elements of a slice of pointers; a nil element cannot be
transmitted ("encodeReflectValue: nil pointer"). -/
def encOptElems {τ : Type} (encB : τ → Except EncErr (List Nat)) :
    List (Option τ) → Except EncErr (List Nat)
  | [] => .ok []
  | none :: _ => .error .nilPointer
  | some t :: tl =>
    match encB t with
    | .error e => .error e
    | .ok b =>
      match encOptElems encB tl with
      | .error e => .error e
      | .ok bs => .ok (b ++ bs)

/-- A slice-of-pointers field: nil and empty slices are both zero and
omitted; otherwise element count then the flattened elements. -/
def fSliceOptE {τ : Type} (f : Nat) (o : Option (List (Option τ)))
    (encB : τ → Except EncErr (List Nat)) : Except EncErr (Nat × Option (List Nat)) :=
  match o with
  | none => .ok (f, none)
  | some [] => .ok (f, none)
  | some l =>
    match encOptElems encB l with
    | .error e => .error e
    | .ok bs => .ok (f, some (encU l.length ++ bs))

/-- A slice field with struct (value) elements and infallible encoding. -/
def fSliceVal {τ : Type} (f : Nat) (o : Option (List τ)) (encB : τ → List Nat) :
    Nat × Option (List Nat) :=
  match o with
  | none => (f, none)
  | some [] => (f, none)
  | some l => (f, some (encU l.length ++ (l.map encB).flatten))

/-- A `map[string]any` field: a nil map is zero and omitted, but gob sends
zero-length non-nil maps (so the receiver can use the map): an allocated map
is always transmitted, its entry count first. -/
def fMapE (f : Nat) (reg : Reg) (o : Option (List (String × GoVal))) :
    Except EncErr (Nat × Option (List Nat)) :=
  match o with
  | none => .ok (f, none)
  | some m =>
    match encMapBody reg m with
    | .error e => .error e
    | .ok b => .ok (f, some b)

/-- Zero test of a `map[string]any` field (nil or empty). -/
def isZeroMap (o : Option (List (String × GoVal))) : Bool :=
  match o with
  | none => true
  | some [] => true
  | some (_ :: _) => false

/-- Merge of a decoded `map[string]any` field into the receiver's field: a
nil source map was omitted and keeps the receiver's field; a transmitted map
— even a zero-length one — leaves the field allocated, its entries inserted
one at a time into the receiver's (possibly nil) map, which gob allocates
before filling. -/
def mergeMap (s x : Option (List (String × GoVal))) :
    Option (List (String × GoVal)) :=
  match x with
  | none => s
  | some m => some (m.foldl (fun a e => insKV e.1 e.2 a) (s.getD []))

/-- Strictly sorted keys of an association-list map (the canonical
representation of a Go map in this model). -/
def keysSorted : List (String × GoVal) → Bool
  | [] => true
  | [_] => true
  | a :: b :: t => (decide (a.1 < b.1)) && keysSorted ((b :: t))

mutual

/-- Wellformedness of an extension value: ints fit in 64 bits (Go `int`),
nested maps are in canonical sorted form, and custom names do not collide
with the pre-registered primitive names. -/
def wfGoVal : GoVal → Bool
  | .vNil => true
  | .vString _ => true
  | .vBool _ => true
  | .vInt i => decide (-(2 ^ 63) ≤ i ∧ i < 2 ^ 63)
  | .vMap m => keysSorted m && wfPairs m
  | .vSlice xs => wfElems xs
  | .vCustom n _ =>
    decide (¬n = "" ∧ ¬n = "string" ∧ ¬n = "bool" ∧ ¬n = "int" ∧
      ¬n = mapAnyName ∧ ¬n = sliceAnyName)

/-- Wellformedness of nested map entries. -/
def wfPairs : List (String × GoVal) → Bool
  | [] => true
  | (_, v) :: t => wfGoVal v && wfPairs t

/-- Wellformedness of nested slice elements. -/
def wfElems : List GoVal → Bool
  | [] => true
  | v :: t => wfGoVal v && wfElems t

end

mutual

/-- All concrete-type names used by an extension value are available to a
process with user registrations `reg` (the primitives are always
available). -/
def namesOKV (reg : Reg) : GoVal → Bool
  | .vNil => true
  | .vString _ => true
  | .vBool _ => true
  | .vInt _ => true
  | .vMap m => decide (mapAnyName ∈ reg) && namesOKPairs reg m
  | .vSlice xs => decide (sliceAnyName ∈ reg) && namesOKElems reg xs
  | .vCustom n _ => decide (n ∈ reg)

/-- Name availability over nested map entries. -/
def namesOKPairs (reg : Reg) : List (String × GoVal) → Bool
  | [] => true
  | (_, v) :: t => namesOKV reg v && namesOKPairs reg t

/-- Name availability over nested slice elements. -/
def namesOKElems (reg : Reg) : List GoVal → Bool
  | [] => true
  | v :: t => namesOKV reg v && namesOKElems reg t

end

/-- Wellformedness of a `map[string]any` field. -/
def wfMapField (o : Option (List (String × GoVal))) : Bool :=
  match o with
  | none => true
  | some m => keysSorted m && wfPairs m

/-- Name availability over a `map[string]any` field. -/
def namesOKMap (reg : Reg) (o : Option (List (String × GoVal))) : Bool :=
  match o with
  | none => true
  | some m => namesOKPairs reg m

/-- A 64-bit-range test for the model's Go ints. -/
def int64OK (i : Int) : Bool := decide (-(2 ^ 63) ≤ i ∧ i < 2 ^ 63)

/-- Wellformedness of a `*int` field. -/
def wfOptInt (o : Option Int) : Bool := int64OK (o.getD 0)

/-! ## The data model of `schema/response.go`

Go struct types become Lean structures with the same names and field order
(field numbers are declaration order, as gob assigns them). Nilable pointers
become `Option`; slices and maps become `Option` of a list, `none` for the
nil collection and `some []` for the allocated empty one (Go's
`reflect.DeepEqual` keeps that distinction). The field name `Type` is spelled
`Typ` (`Type` is a Lean keyword). The string-kinded named types `RoleType`,
`ImageURLDetail` (both declared elsewhere in the repository), and the enum
types of this file are plain strings. -/

/-- Go `type ContentBlockType string` constant. -/
def ContentBlockTypeMessage : String := "message"

/-- Go constant `ContentBlockTypeReasoning`. -/
def ContentBlockTypeReasoning : String := "reasoning"

/-- Go constant `ContentBlockTypeToolCall`. -/
def ContentBlockTypeToolCall : String := "tool_call"

/-- Go constant `ContentBlockTypeToolCallOutput`. -/
def ContentBlockTypeToolCallOutput : String := "tool_call_output"

/-- Go constant `ContentBlockTypeMCPListTools`. -/
def ContentBlockTypeMCPListTools : String := "mcp_list_tools"

/-- Go constant `ContentBlockTypeMCPToolApprovalRequest`. -/
def ContentBlockTypeMCPToolApprovalRequest : String := "mcp_tool_approval_request"

/-- Go constant `ContentBlockTypeMCPToolApprovalResponse`. -/
def ContentBlockTypeMCPToolApprovalResponse : String := "mcp_tool_approval_response"

/-- Go constant `FinishStatusCompleted`. -/
def FinishStatusCompleted : String := "completed"

/-- Go constant `FinishStatusIncomplete`. -/
def FinishStatusIncomplete : String := "incomplete"

/-- `FinishReason`. -/
structure FinishReason where
  Status : String
  Reason : String

/-- Zero value of `FinishReason`. -/
def zeroFinishReason : FinishReason := ⟨"", ""⟩

/-- gob zero test for `FinishReason`. -/
def isZeroFinishReason (x : FinishReason) : Bool := x.Status = "" && x.Reason = ""

/-- Present fields of `FinishReason`. -/
def entsFinishReason (x : FinishReason) : List (Nat × Option (List Nat)) :=
  [fStr 0 x.Status, fStr 1 x.Reason]

/-- Struct-body encoding of `FinishReason`. -/
def encFinishReasonB (x : FinishReason) : List Nat :=
  encEnts 0 (opts (entsFinishReason x))

/-- gob decode-merge of `FinishReason` into a receiver. -/
def mergeFinishReason (s x : FinishReason) : FinishReason :=
  { Status := if x.Status = "" then s.Status else x.Status
    Reason := if x.Reason = "" then s.Reason else x.Reason }

/-- Field dispatch of `FinishReason`. -/
def dispFinishReason : Nat → List Nat → FinishReason → DR FinishReason
  | 0, bs, s => dStrField (fun s v => { s with Status := v }) bs s
  | 1, bs, s => dStrField (fun s v => { s with Reason := v }) bs s
  | _, _, s => (s, .error .invalidField)

/-- Struct-body decoder of `FinishReason`. -/
def decFinishReasonB (bs : List Nat) (s : FinishReason) : DR FinishReason :=
  decLoop dispFinishReason 2 3 0 bs s

/-- `InputTokensUsageDetails`. -/
structure InputTokensUsageDetails where
  CachedTokens : Int

/-- Zero value of `InputTokensUsageDetails`. -/
def zeroInputTokensUsageDetails : InputTokensUsageDetails := ⟨0⟩

/-- gob zero test for `InputTokensUsageDetails`. -/
def isZeroInputTokensUsageDetails (x : InputTokensUsageDetails) : Bool :=
  x.CachedTokens = 0

/-- Present fields of `InputTokensUsageDetails`. -/
def entsInputTokensUsageDetails (x : InputTokensUsageDetails) :
    List (Nat × Option (List Nat)) :=
  [fInt 0 x.CachedTokens]

/-- Struct-body encoding of `InputTokensUsageDetails`. -/
def encInputTokensUsageDetailsB (x : InputTokensUsageDetails) : List Nat :=
  encEnts 0 (opts (entsInputTokensUsageDetails x))

/-- gob decode-merge of `InputTokensUsageDetails`. -/
def mergeInputTokensUsageDetails (s x : InputTokensUsageDetails) :
    InputTokensUsageDetails :=
  { CachedTokens := if x.CachedTokens = 0 then s.CachedTokens else x.CachedTokens }

/-- Field dispatch of `InputTokensUsageDetails`. -/
def dispInputTokensUsageDetails :
    Nat → List Nat → InputTokensUsageDetails → DR InputTokensUsageDetails
  | 0, bs, s => dIntField (fun s v => { s with CachedTokens := v }) bs s
  | _, _, s => (s, .error .invalidField)

/-- Struct-body decoder of `InputTokensUsageDetails`. -/
def decInputTokensUsageDetailsB (bs : List Nat) (s : InputTokensUsageDetails) :
    DR InputTokensUsageDetails :=
  decLoop dispInputTokensUsageDetails 1 2 0 bs s

/-- Wellformedness of `InputTokensUsageDetails`. -/
def wfInputTokensUsageDetails (x : InputTokensUsageDetails) : Bool :=
  int64OK x.CachedTokens

/-- `OutputTokensUsageDetails`. -/
structure OutputTokensUsageDetails where
  ReasoningTokens : Int

/-- Zero value of `OutputTokensUsageDetails`. -/
def zeroOutputTokensUsageDetails : OutputTokensUsageDetails := ⟨0⟩

/-- gob zero test for `OutputTokensUsageDetails`. -/
def isZeroOutputTokensUsageDetails (x : OutputTokensUsageDetails) : Bool :=
  x.ReasoningTokens = 0

/-- Present fields of `OutputTokensUsageDetails`. -/
def entsOutputTokensUsageDetails (x : OutputTokensUsageDetails) :
    List (Nat × Option (List Nat)) :=
  [fInt 0 x.ReasoningTokens]

/-- Struct-body encoding of `OutputTokensUsageDetails`. -/
def encOutputTokensUsageDetailsB (x : OutputTokensUsageDetails) : List Nat :=
  encEnts 0 (opts (entsOutputTokensUsageDetails x))

/-- gob decode-merge of `OutputTokensUsageDetails`. -/
def mergeOutputTokensUsageDetails (s x : OutputTokensUsageDetails) :
    OutputTokensUsageDetails :=
  { ReasoningTokens := if x.ReasoningTokens = 0 then s.ReasoningTokens else x.ReasoningTokens }

/-- Field dispatch of `OutputTokensUsageDetails`. -/
def dispOutputTokensUsageDetails :
    Nat → List Nat → OutputTokensUsageDetails → DR OutputTokensUsageDetails
  | 0, bs, s => dIntField (fun s v => { s with ReasoningTokens := v }) bs s
  | _, _, s => (s, .error .invalidField)

/-- Struct-body decoder of `OutputTokensUsageDetails`. -/
def decOutputTokensUsageDetailsB (bs : List Nat) (s : OutputTokensUsageDetails) :
    DR OutputTokensUsageDetails :=
  decLoop dispOutputTokensUsageDetails 1 2 0 bs s

/-- Wellformedness of `OutputTokensUsageDetails`. -/
def wfOutputTokensUsageDetails (x : OutputTokensUsageDetails) : Bool :=
  int64OK x.ReasoningTokens

/-- `TokenUsageMeta`. The details fields are struct values, not pointers. -/
structure TokenUsageMeta where
  InputTokens : Int
  InputTokensDetails : InputTokensUsageDetails
  OutputTokens : Int
  OutputTokensDetails : OutputTokensUsageDetails
  TotalTokens : Int

/-- Zero value of `TokenUsageMeta`. -/
def zeroTokenUsageMeta : TokenUsageMeta :=
  ⟨0, zeroInputTokensUsageDetails, 0, zeroOutputTokensUsageDetails, 0⟩

/-- gob zero test for `TokenUsageMeta` (recursively all fields zero). -/
def isZeroTokenUsageMeta (x : TokenUsageMeta) : Bool :=
  x.InputTokens = 0 && isZeroInputTokensUsageDetails x.InputTokensDetails &&
  x.OutputTokens = 0 && isZeroOutputTokensUsageDetails x.OutputTokensDetails &&
  x.TotalTokens = 0

/-- Present fields of `TokenUsageMeta`. -/
def entsTokenUsageMeta (x : TokenUsageMeta) : List (Nat × Option (List Nat)) :=
  [fInt 0 x.InputTokens,
   fSubV 1 (isZeroInputTokensUsageDetails x.InputTokensDetails)
     (encInputTokensUsageDetailsB x.InputTokensDetails),
   fInt 2 x.OutputTokens,
   fSubV 3 (isZeroOutputTokensUsageDetails x.OutputTokensDetails)
     (encOutputTokensUsageDetailsB x.OutputTokensDetails),
   fInt 4 x.TotalTokens]

/-- Struct-body encoding of `TokenUsageMeta`. -/
def encTokenUsageMetaB (x : TokenUsageMeta) : List Nat :=
  encEnts 0 (opts (entsTokenUsageMeta x))

/-- gob decode-merge of `TokenUsageMeta` (struct-valued fields merge
recursively). -/
def mergeTokenUsageMeta (s x : TokenUsageMeta) : TokenUsageMeta :=
  { InputTokens := if x.InputTokens = 0 then s.InputTokens else x.InputTokens
    InputTokensDetails :=
      if isZeroInputTokensUsageDetails x.InputTokensDetails then s.InputTokensDetails
      else mergeInputTokensUsageDetails s.InputTokensDetails x.InputTokensDetails
    OutputTokens := if x.OutputTokens = 0 then s.OutputTokens else x.OutputTokens
    OutputTokensDetails :=
      if isZeroOutputTokensUsageDetails x.OutputTokensDetails then s.OutputTokensDetails
      else mergeOutputTokensUsageDetails s.OutputTokensDetails x.OutputTokensDetails
    TotalTokens := if x.TotalTokens = 0 then s.TotalTokens else x.TotalTokens }

/-- Field dispatch of `TokenUsageMeta`. -/
def dispTokenUsageMeta : Nat → List Nat → TokenUsageMeta → DR TokenUsageMeta
  | 0, bs, s => dIntField (fun s v => { s with InputTokens := v }) bs s
  | 1, bs, s =>
    dSubField decInputTokensUsageDetailsB (fun s => s.InputTokensDetails)
      (fun s t => { s with InputTokensDetails := t }) bs s
  | 2, bs, s => dIntField (fun s v => { s with OutputTokens := v }) bs s
  | 3, bs, s =>
    dSubField decOutputTokensUsageDetailsB (fun s => s.OutputTokensDetails)
      (fun s t => { s with OutputTokensDetails := t }) bs s
  | 4, bs, s => dIntField (fun s v => { s with TotalTokens := v }) bs s
  | _, _, s => (s, .error .invalidField)

/-- Struct-body decoder of `TokenUsageMeta`. -/
def decTokenUsageMetaB (bs : List Nat) (s : TokenUsageMeta) : DR TokenUsageMeta :=
  decLoop dispTokenUsageMeta 5 6 0 bs s

/-- Wellformedness of `TokenUsageMeta`. -/
def wfTokenUsageMeta (x : TokenUsageMeta) : Bool :=
  int64OK x.InputTokens && wfInputTokensUsageDetails x.InputTokensDetails &&
  int64OK x.OutputTokens && wfOutputTokensUsageDetails x.OutputTokensDetails &&
  int64OK x.TotalTokens

/-- Finish a struct's field-list encode into a body encode. -/
def encOf (es : Except EncErr (List (Nat × Option (List Nat)))) :
    Except EncErr (List Nat) :=
  match es with
  | .error e => .error e
  | .ok l => .ok (encEnts 0 (opts l))

/-- Merge of a decoded string field. -/
def mStr (s x : String) : String := if x = "" then s else x

/-- Merge of a decoded int field. -/
def mInt (s x : Int) : Int := if x = 0 then s else x

/-- Merge of a decoded bool field. -/
def mBool (s x : Bool) : Bool := if x then true else s

/-- Merge of a decoded `*int` field. -/
def mOptInt (s x : Option Int) : Option Int :=
  if x.getD 0 = 0 then s else some (x.getD 0)

/-- Merge of a decoded `*string` field. -/
def mOptStr (s x : Option String) : Option String :=
  if x.getD "" = "" then s else some (x.getD "")

/-- Merge of a decoded pointer-to-struct field: an omitted (nil-or-zero)
source keeps the receiver's value; a present one merges into the receiver's
existing value, allocating a zero value when the receiver's pointer is
nil. -/
def mPtrSub {τ : Type} (isZ : τ → Bool) (mrg : τ → τ → τ) (zero : τ)
    (s x : Option τ) : Option τ :=
  match x with
  | none => s
  | some t => if isZ t then s else some (mrg (s.getD zero) t)

/-- Merge of a decoded slice-of-pointers field: an omitted (nil-or-empty)
source keeps the receiver's slice; a present one replaces it with elements
decoded into fresh zero values. -/
def mSliceOpt {τ : Type} (mrgZ : τ → τ) (s x : Option (List (Option τ))) :
    Option (List (Option τ)) :=
  match x with
  | none => s
  | some [] => s
  | some l => some (l.map (fun o => o.map mrgZ))

/-- Merge of a decoded slice-of-values field. -/
def mSliceVal {τ : Type} (mrgZ : τ → τ) (s x : Option (List τ)) :
    Option (List τ) :=
  match x with
  | none => s
  | some [] => s
  | some l => some (l.map mrgZ)

/-- Wellformedness lifted over an optional sub-structure. -/
def wfOpt {τ : Type} (wf : τ → Bool) : Option τ → Bool
  | none => true
  | some t => wf t

/-- A predicate over all elements of an optional list. -/
def allOpt {τ : Type} (p : τ → Bool) : Option (List τ) → Bool
  | none => true
  | some l => l.all p

/-- `AgenticMessageInputText`. -/
structure AgenticMessageInputText where
  Content : String

/-- Zero value of `AgenticMessageInputText`. -/
def zeroAgenticMessageInputText : AgenticMessageInputText := ⟨""⟩

/-- gob zero test for `AgenticMessageInputText`. -/
def isZeroAgenticMessageInputText (x : AgenticMessageInputText) : Bool :=
  x.Content = ""

/-- Struct-body encoding of `AgenticMessageInputText`. -/
def encAgenticMessageInputTextB (x : AgenticMessageInputText) : List Nat :=
  encEnts 0 (opts [fStr 0 x.Content])

/-- gob decode-merge of `AgenticMessageInputText`. -/
def mergeAgenticMessageInputText (s x : AgenticMessageInputText) :
    AgenticMessageInputText :=
  { Content := mStr s.Content x.Content }

/-- Field dispatch of `AgenticMessageInputText`. -/
def dispAgenticMessageInputText :
    Nat → List Nat → AgenticMessageInputText → DR AgenticMessageInputText
  | 0, bs, s => dStrField (fun s v => { s with Content := v }) bs s
  | _, _, s => (s, .error .invalidField)

/-- Struct-body decoder of `AgenticMessageInputText`. -/
def decAgenticMessageInputTextB (bs : List Nat) (s : AgenticMessageInputText) :
    DR AgenticMessageInputText :=
  decLoop dispAgenticMessageInputText 1 2 0 bs s

/-- `AgenticMessageInputImage`. -/
structure AgenticMessageInputImage where
  URL : Option String
  Base64Data : Option String
  MIMEType : String
  Detail : String
  Extra : Option (List (String × GoVal))

/-- Zero value of `AgenticMessageInputImage`. -/
def zeroAgenticMessageInputImage : AgenticMessageInputImage :=
  ⟨none, none, "", "", none⟩

/-- gob zero test for `AgenticMessageInputImage`. -/
def isZeroAgenticMessageInputImage (x : AgenticMessageInputImage) : Bool :=
  x.URL.getD "" = "" && x.Base64Data.getD "" = "" && x.MIMEType = "" &&
  x.Detail = "" && isZeroMap x.Extra

/-- Present fields of `AgenticMessageInputImage`. -/
def entsAgenticMessageInputImage (reg : Reg) (x : AgenticMessageInputImage) :
    Except EncErr (List (Nat × Option (List Nat))) :=
  seqEnts [.ok (fOptStr 0 x.URL), .ok (fOptStr 1 x.Base64Data),
    .ok (fStr 2 x.MIMEType), .ok (fStr 3 x.Detail), fMapE 4 reg x.Extra]

/-- Struct-body encoding of `AgenticMessageInputImage`. -/
def encAgenticMessageInputImageB (reg : Reg) (x : AgenticMessageInputImage) :
    Except EncErr (List Nat) :=
  encOf (entsAgenticMessageInputImage reg x)

/-- gob decode-merge of `AgenticMessageInputImage`. -/
def mergeAgenticMessageInputImage (s x : AgenticMessageInputImage) :
    AgenticMessageInputImage :=
  { URL := mOptStr s.URL x.URL
    Base64Data := mOptStr s.Base64Data x.Base64Data
    MIMEType := mStr s.MIMEType x.MIMEType
    Detail := mStr s.Detail x.Detail
    Extra := mergeMap s.Extra x.Extra }

/-- Field dispatch of `AgenticMessageInputImage`. -/
def dispAgenticMessageInputImage (reg : Reg) :
    Nat → List Nat → AgenticMessageInputImage → DR AgenticMessageInputImage
  | 0, bs, s => dStrField (fun s v => { s with URL := some v }) bs s
  | 1, bs, s => dStrField (fun s v => { s with Base64Data := some v }) bs s
  | 2, bs, s => dStrField (fun s v => { s with MIMEType := v }) bs s
  | 3, bs, s => dStrField (fun s v => { s with Detail := v }) bs s
  | 4, bs, s =>
    dMapField reg (fun s => s.Extra.getD []) (fun s m => { s with Extra := some m }) bs s
  | _, _, s => (s, .error .invalidField)

/-- Struct-body decoder of `AgenticMessageInputImage`. -/
def decAgenticMessageInputImageB (reg : Reg) (bs : List Nat)
    (s : AgenticMessageInputImage) : DR AgenticMessageInputImage :=
  decLoop (dispAgenticMessageInputImage reg) 5 6 0 bs s

/-- Wellformedness of `AgenticMessageInputImage`. -/
def wfAgenticMessageInputImage (x : AgenticMessageInputImage) : Bool :=
  wfMapField x.Extra

/-- Name availability of `AgenticMessageInputImage`. -/
def namesOKAgenticMessageInputImage (reg : Reg) (x : AgenticMessageInputImage) : Bool :=
  namesOKMap reg x.Extra

/-- `AgenticMessageInputAudio`. -/
structure AgenticMessageInputAudio where
  URL : Option String
  Base64Data : Option String
  MIMEType : String
  Extra : Option (List (String × GoVal))

/-- Zero value of `AgenticMessageInputAudio`. -/
def zeroAgenticMessageInputAudio : AgenticMessageInputAudio := ⟨none, none, "", none⟩

/-- gob zero test for `AgenticMessageInputAudio`. -/
def isZeroAgenticMessageInputAudio (x : AgenticMessageInputAudio) : Bool :=
  x.URL.getD "" = "" && x.Base64Data.getD "" = "" && x.MIMEType = "" &&
  isZeroMap x.Extra

/-- Present fields of `AgenticMessageInputAudio`. -/
def entsAgenticMessageInputAudio (reg : Reg) (x : AgenticMessageInputAudio) :
    Except EncErr (List (Nat × Option (List Nat))) :=
  seqEnts [.ok (fOptStr 0 x.URL), .ok (fOptStr 1 x.Base64Data),
    .ok (fStr 2 x.MIMEType), fMapE 3 reg x.Extra]

/-- Struct-body encoding of `AgenticMessageInputAudio`. -/
def encAgenticMessageInputAudioB (reg : Reg) (x : AgenticMessageInputAudio) :
    Except EncErr (List Nat) :=
  encOf (entsAgenticMessageInputAudio reg x)

/-- gob decode-merge of `AgenticMessageInputAudio`. -/
def mergeAgenticMessageInputAudio (s x : AgenticMessageInputAudio) :
    AgenticMessageInputAudio :=
  { URL := mOptStr s.URL x.URL
    Base64Data := mOptStr s.Base64Data x.Base64Data
    MIMEType := mStr s.MIMEType x.MIMEType
    Extra := mergeMap s.Extra x.Extra }

/-- Field dispatch of `AgenticMessageInputAudio`. -/
def dispAgenticMessageInputAudio (reg : Reg) :
    Nat → List Nat → AgenticMessageInputAudio → DR AgenticMessageInputAudio
  | 0, bs, s => dStrField (fun s v => { s with URL := some v }) bs s
  | 1, bs, s => dStrField (fun s v => { s with Base64Data := some v }) bs s
  | 2, bs, s => dStrField (fun s v => { s with MIMEType := v }) bs s
  | 3, bs, s =>
    dMapField reg (fun s => s.Extra.getD []) (fun s m => { s with Extra := some m }) bs s
  | _, _, s => (s, .error .invalidField)

/-- Struct-body decoder of `AgenticMessageInputAudio`. -/
def decAgenticMessageInputAudioB (reg : Reg) (bs : List Nat)
    (s : AgenticMessageInputAudio) : DR AgenticMessageInputAudio :=
  decLoop (dispAgenticMessageInputAudio reg) 4 5 0 bs s

/-- Wellformedness of `AgenticMessageInputAudio`. -/
def wfAgenticMessageInputAudio (x : AgenticMessageInputAudio) : Bool :=
  wfMapField x.Extra

/-- Name availability of `AgenticMessageInputAudio`. -/
def namesOKAgenticMessageInputAudio (reg : Reg) (x : AgenticMessageInputAudio) : Bool :=
  namesOKMap reg x.Extra

/-- `AgenticMessageInputVideo` (same shape as the audio part). -/
structure AgenticMessageInputVideo where
  URL : Option String
  Base64Data : Option String
  MIMEType : String
  Extra : Option (List (String × GoVal))

/-- Zero value of `AgenticMessageInputVideo`. -/
def zeroAgenticMessageInputVideo : AgenticMessageInputVideo := ⟨none, none, "", none⟩

/-- gob zero test for `AgenticMessageInputVideo`. -/
def isZeroAgenticMessageInputVideo (x : AgenticMessageInputVideo) : Bool :=
  x.URL.getD "" = "" && x.Base64Data.getD "" = "" && x.MIMEType = "" &&
  isZeroMap x.Extra

/-- Present fields of `AgenticMessageInputVideo`. -/
def entsAgenticMessageInputVideo (reg : Reg) (x : AgenticMessageInputVideo) :
    Except EncErr (List (Nat × Option (List Nat))) :=
  seqEnts [.ok (fOptStr 0 x.URL), .ok (fOptStr 1 x.Base64Data),
    .ok (fStr 2 x.MIMEType), fMapE 3 reg x.Extra]

/-- Struct-body encoding of `AgenticMessageInputVideo`. -/
def encAgenticMessageInputVideoB (reg : Reg) (x : AgenticMessageInputVideo) :
    Except EncErr (List Nat) :=
  encOf (entsAgenticMessageInputVideo reg x)

/-- gob decode-merge of `AgenticMessageInputVideo`. -/
def mergeAgenticMessageInputVideo (s x : AgenticMessageInputVideo) :
    AgenticMessageInputVideo :=
  { URL := mOptStr s.URL x.URL
    Base64Data := mOptStr s.Base64Data x.Base64Data
    MIMEType := mStr s.MIMEType x.MIMEType
    Extra := mergeMap s.Extra x.Extra }

/-- Field dispatch of `AgenticMessageInputVideo`. -/
def dispAgenticMessageInputVideo (reg : Reg) :
    Nat → List Nat → AgenticMessageInputVideo → DR AgenticMessageInputVideo
  | 0, bs, s => dStrField (fun s v => { s with URL := some v }) bs s
  | 1, bs, s => dStrField (fun s v => { s with Base64Data := some v }) bs s
  | 2, bs, s => dStrField (fun s v => { s with MIMEType := v }) bs s
  | 3, bs, s =>
    dMapField reg (fun s => s.Extra.getD []) (fun s m => { s with Extra := some m }) bs s
  | _, _, s => (s, .error .invalidField)

/-- Struct-body decoder of `AgenticMessageInputVideo`. -/
def decAgenticMessageInputVideoB (reg : Reg) (bs : List Nat)
    (s : AgenticMessageInputVideo) : DR AgenticMessageInputVideo :=
  decLoop (dispAgenticMessageInputVideo reg) 4 5 0 bs s

/-- Wellformedness of `AgenticMessageInputVideo`. -/
def wfAgenticMessageInputVideo (x : AgenticMessageInputVideo) : Bool :=
  wfMapField x.Extra

/-- Name availability of `AgenticMessageInputVideo`. -/
def namesOKAgenticMessageInputVideo (reg : Reg) (x : AgenticMessageInputVideo) : Bool :=
  namesOKMap reg x.Extra

/-- `AgenticMessageInputFile`. -/
structure AgenticMessageInputFile where
  URL : Option String
  Name : Option String
  Base64Data : Option String
  MIMEType : String
  Extra : Option (List (String × GoVal))

/-- Zero value of `AgenticMessageInputFile`. -/
def zeroAgenticMessageInputFile : AgenticMessageInputFile :=
  ⟨none, none, none, "", none⟩

/-- gob zero test for `AgenticMessageInputFile`. -/
def isZeroAgenticMessageInputFile (x : AgenticMessageInputFile) : Bool :=
  x.URL.getD "" = "" && x.Name.getD "" = "" && x.Base64Data.getD "" = "" &&
  x.MIMEType = "" && isZeroMap x.Extra

/-- Present fields of `AgenticMessageInputFile`. -/
def entsAgenticMessageInputFile (reg : Reg) (x : AgenticMessageInputFile) :
    Except EncErr (List (Nat × Option (List Nat))) :=
  seqEnts [.ok (fOptStr 0 x.URL), .ok (fOptStr 1 x.Name),
    .ok (fOptStr 2 x.Base64Data), .ok (fStr 3 x.MIMEType), fMapE 4 reg x.Extra]

/-- Struct-body encoding of `AgenticMessageInputFile`. -/
def encAgenticMessageInputFileB (reg : Reg) (x : AgenticMessageInputFile) :
    Except EncErr (List Nat) :=
  encOf (entsAgenticMessageInputFile reg x)

/-- gob decode-merge of `AgenticMessageInputFile`. -/
def mergeAgenticMessageInputFile (s x : AgenticMessageInputFile) :
    AgenticMessageInputFile :=
  { URL := mOptStr s.URL x.URL
    Name := mOptStr s.Name x.Name
    Base64Data := mOptStr s.Base64Data x.Base64Data
    MIMEType := mStr s.MIMEType x.MIMEType
    Extra := mergeMap s.Extra x.Extra }

/-- Field dispatch of `AgenticMessageInputFile`. -/
def dispAgenticMessageInputFile (reg : Reg) :
    Nat → List Nat → AgenticMessageInputFile → DR AgenticMessageInputFile
  | 0, bs, s => dStrField (fun s v => { s with URL := some v }) bs s
  | 1, bs, s => dStrField (fun s v => { s with Name := some v }) bs s
  | 2, bs, s => dStrField (fun s v => { s with Base64Data := some v }) bs s
  | 3, bs, s => dStrField (fun s v => { s with MIMEType := v }) bs s
  | 4, bs, s =>
    dMapField reg (fun s => s.Extra.getD []) (fun s m => { s with Extra := some m }) bs s
  | _, _, s => (s, .error .invalidField)

/-- Struct-body decoder of `AgenticMessageInputFile`. -/
def decAgenticMessageInputFileB (reg : Reg) (bs : List Nat)
    (s : AgenticMessageInputFile) : DR AgenticMessageInputFile :=
  decLoop (dispAgenticMessageInputFile reg) 5 6 0 bs s

/-- Wellformedness of `AgenticMessageInputFile`. -/
def wfAgenticMessageInputFile (x : AgenticMessageInputFile) : Bool :=
  wfMapField x.Extra

/-- Name availability of `AgenticMessageInputFile`. -/
def namesOKAgenticMessageInputFile (reg : Reg) (x : AgenticMessageInputFile) : Bool :=
  namesOKMap reg x.Extra

/-- `AgenticMessageInputPart` (discriminated union of the input media
variants; the Go field `Type` is spelled `Typ`). -/
structure AgenticMessageInputPart where
  Typ : String
  Text : Option AgenticMessageInputText
  Image : Option AgenticMessageInputImage
  Audio : Option AgenticMessageInputAudio
  Video : Option AgenticMessageInputVideo
  File : Option AgenticMessageInputFile

/-- Zero value of `AgenticMessageInputPart`. -/
def zeroAgenticMessageInputPart : AgenticMessageInputPart :=
  ⟨"", none, none, none, none, none⟩

/-- gob zero test lifted over a pointer field. -/
def isZeroOpt {τ : Type} (isZ : τ → Bool) : Option τ → Bool
  | none => true
  | some t => isZ t

/-- gob zero test for `AgenticMessageInputPart`. -/
def isZeroAgenticMessageInputPart (x : AgenticMessageInputPart) : Bool :=
  x.Typ = "" && isZeroOpt isZeroAgenticMessageInputText x.Text &&
  isZeroOpt isZeroAgenticMessageInputImage x.Image &&
  isZeroOpt isZeroAgenticMessageInputAudio x.Audio &&
  isZeroOpt isZeroAgenticMessageInputVideo x.Video &&
  isZeroOpt isZeroAgenticMessageInputFile x.File

/-- Present fields of `AgenticMessageInputPart`. -/
def entsAgenticMessageInputPart (reg : Reg) (x : AgenticMessageInputPart) :
    Except EncErr (List (Nat × Option (List Nat))) :=
  seqEnts [.ok (fStr 0 x.Typ),
    fPtrSubE 1 x.Text isZeroAgenticMessageInputText
      (fun t => .ok (encAgenticMessageInputTextB t)),
    fPtrSubE 2 x.Image isZeroAgenticMessageInputImage
      (encAgenticMessageInputImageB reg),
    fPtrSubE 3 x.Audio isZeroAgenticMessageInputAudio
      (encAgenticMessageInputAudioB reg),
    fPtrSubE 4 x.Video isZeroAgenticMessageInputVideo
      (encAgenticMessageInputVideoB reg),
    fPtrSubE 5 x.File isZeroAgenticMessageInputFile
      (encAgenticMessageInputFileB reg)]

/-- Struct-body encoding of `AgenticMessageInputPart`. -/
def encAgenticMessageInputPartB (reg : Reg) (x : AgenticMessageInputPart) :
    Except EncErr (List Nat) :=
  encOf (entsAgenticMessageInputPart reg x)

/-- gob decode-merge of `AgenticMessageInputPart`. -/
def mergeAgenticMessageInputPart (s x : AgenticMessageInputPart) :
    AgenticMessageInputPart :=
  { Typ := mStr s.Typ x.Typ
    Text := mPtrSub isZeroAgenticMessageInputText mergeAgenticMessageInputText
      zeroAgenticMessageInputText s.Text x.Text
    Image := mPtrSub isZeroAgenticMessageInputImage mergeAgenticMessageInputImage
      zeroAgenticMessageInputImage s.Image x.Image
    Audio := mPtrSub isZeroAgenticMessageInputAudio mergeAgenticMessageInputAudio
      zeroAgenticMessageInputAudio s.Audio x.Audio
    Video := mPtrSub isZeroAgenticMessageInputVideo mergeAgenticMessageInputVideo
      zeroAgenticMessageInputVideo s.Video x.Video
    File := mPtrSub isZeroAgenticMessageInputFile mergeAgenticMessageInputFile
      zeroAgenticMessageInputFile s.File x.File }

/-- Field dispatch of `AgenticMessageInputPart`. -/
def dispAgenticMessageInputPart (reg : Reg) :
    Nat → List Nat → AgenticMessageInputPart → DR AgenticMessageInputPart
  | 0, bs, s => dStrField (fun s v => { s with Typ := v }) bs s
  | 1, bs, s =>
    dSubField decAgenticMessageInputTextB
      (fun s => s.Text.getD zeroAgenticMessageInputText)
      (fun s t => { s with Text := some t }) bs s
  | 2, bs, s =>
    dSubField (decAgenticMessageInputImageB reg)
      (fun s => s.Image.getD zeroAgenticMessageInputImage)
      (fun s t => { s with Image := some t }) bs s
  | 3, bs, s =>
    dSubField (decAgenticMessageInputAudioB reg)
      (fun s => s.Audio.getD zeroAgenticMessageInputAudio)
      (fun s t => { s with Audio := some t }) bs s
  | 4, bs, s =>
    dSubField (decAgenticMessageInputVideoB reg)
      (fun s => s.Video.getD zeroAgenticMessageInputVideo)
      (fun s t => { s with Video := some t }) bs s
  | 5, bs, s =>
    dSubField (decAgenticMessageInputFileB reg)
      (fun s => s.File.getD zeroAgenticMessageInputFile)
      (fun s t => { s with File := some t }) bs s
  | _, _, s => (s, .error .invalidField)

/-- Struct-body decoder of `AgenticMessageInputPart`. -/
def decAgenticMessageInputPartB (reg : Reg) (bs : List Nat)
    (s : AgenticMessageInputPart) : DR AgenticMessageInputPart :=
  decLoop (dispAgenticMessageInputPart reg) 6 7 0 bs s

/-- Wellformedness of `AgenticMessageInputPart`. -/
def wfAgenticMessageInputPart (x : AgenticMessageInputPart) : Bool :=
  wfOpt wfAgenticMessageInputImage x.Image &&
  wfOpt wfAgenticMessageInputAudio x.Audio &&
  wfOpt wfAgenticMessageInputVideo x.Video &&
  wfOpt wfAgenticMessageInputFile x.File

/-- Name availability of `AgenticMessageInputPart`. -/
def namesOKAgenticMessageInputPart (reg : Reg) (x : AgenticMessageInputPart) : Bool :=
  wfOpt (namesOKAgenticMessageInputImage reg) x.Image &&
  wfOpt (namesOKAgenticMessageInputAudio reg) x.Audio &&
  wfOpt (namesOKAgenticMessageInputVideo reg) x.Video &&
  wfOpt (namesOKAgenticMessageInputFile reg) x.File

/-- `AgenticMessageOutputText`. -/
structure AgenticMessageOutputText where
  Content : String
  Extra : Option (List (String × GoVal))

/-- Zero value of `AgenticMessageOutputText`. -/
def zeroAgenticMessageOutputText : AgenticMessageOutputText := ⟨"", none⟩

/-- gob zero test for `AgenticMessageOutputText`. -/
def isZeroAgenticMessageOutputText (x : AgenticMessageOutputText) : Bool :=
  x.Content = "" && isZeroMap x.Extra

/-- Present fields of `AgenticMessageOutputText`. -/
def entsAgenticMessageOutputText (reg : Reg) (x : AgenticMessageOutputText) :
    Except EncErr (List (Nat × Option (List Nat))) :=
  seqEnts [.ok (fStr 0 x.Content), fMapE 1 reg x.Extra]

/-- Struct-body encoding of `AgenticMessageOutputText`. -/
def encAgenticMessageOutputTextB (reg : Reg) (x : AgenticMessageOutputText) :
    Except EncErr (List Nat) :=
  encOf (entsAgenticMessageOutputText reg x)

/-- gob decode-merge of `AgenticMessageOutputText`. -/
def mergeAgenticMessageOutputText (s x : AgenticMessageOutputText) :
    AgenticMessageOutputText :=
  { Content := mStr s.Content x.Content
    Extra := mergeMap s.Extra x.Extra }

/-- Field dispatch of `AgenticMessageOutputText`. -/
def dispAgenticMessageOutputText (reg : Reg) :
    Nat → List Nat → AgenticMessageOutputText → DR AgenticMessageOutputText
  | 0, bs, s => dStrField (fun s v => { s with Content := v }) bs s
  | 1, bs, s =>
    dMapField reg (fun s => s.Extra.getD []) (fun s m => { s with Extra := some m }) bs s
  | _, _, s => (s, .error .invalidField)

/-- Struct-body decoder of `AgenticMessageOutputText`. -/
def decAgenticMessageOutputTextB (reg : Reg) (bs : List Nat)
    (s : AgenticMessageOutputText) : DR AgenticMessageOutputText :=
  decLoop (dispAgenticMessageOutputText reg) 2 3 0 bs s

/-- Wellformedness of `AgenticMessageOutputText`. -/
def wfAgenticMessageOutputText (x : AgenticMessageOutputText) : Bool :=
  wfMapField x.Extra

/-- Name availability of `AgenticMessageOutputText`. -/
def namesOKAgenticMessageOutputText (reg : Reg) (x : AgenticMessageOutputText) : Bool :=
  namesOKMap reg x.Extra

/-- `AgenticMessageOutputImage`. -/
structure AgenticMessageOutputImage where
  URL : Option String
  Base64Data : Option String
  MIMEType : String
  Extra : Option (List (String × GoVal))

/-- Zero value of `AgenticMessageOutputImage`. -/
def zeroAgenticMessageOutputImage : AgenticMessageOutputImage := ⟨none, none, "", none⟩

/-- gob zero test for `AgenticMessageOutputImage`. -/
def isZeroAgenticMessageOutputImage (x : AgenticMessageOutputImage) : Bool :=
  x.URL.getD "" = "" && x.Base64Data.getD "" = "" && x.MIMEType = "" &&
  isZeroMap x.Extra

/-- Present fields of `AgenticMessageOutputImage`. -/
def entsAgenticMessageOutputImage (reg : Reg) (x : AgenticMessageOutputImage) :
    Except EncErr (List (Nat × Option (List Nat))) :=
  seqEnts [.ok (fOptStr 0 x.URL), .ok (fOptStr 1 x.Base64Data),
    .ok (fStr 2 x.MIMEType), fMapE 3 reg x.Extra]

/-- Struct-body encoding of `AgenticMessageOutputImage`. -/
def encAgenticMessageOutputImageB (reg : Reg) (x : AgenticMessageOutputImage) :
    Except EncErr (List Nat) :=
  encOf (entsAgenticMessageOutputImage reg x)

/-- gob decode-merge of `AgenticMessageOutputImage`. -/
def mergeAgenticMessageOutputImage (s x : AgenticMessageOutputImage) :
    AgenticMessageOutputImage :=
  { URL := mOptStr s.URL x.URL
    Base64Data := mOptStr s.Base64Data x.Base64Data
    MIMEType := mStr s.MIMEType x.MIMEType
    Extra := mergeMap s.Extra x.Extra }

/-- Field dispatch of `AgenticMessageOutputImage`. -/
def dispAgenticMessageOutputImage (reg : Reg) :
    Nat → List Nat → AgenticMessageOutputImage → DR AgenticMessageOutputImage
  | 0, bs, s => dStrField (fun s v => { s with URL := some v }) bs s
  | 1, bs, s => dStrField (fun s v => { s with Base64Data := some v }) bs s
  | 2, bs, s => dStrField (fun s v => { s with MIMEType := v }) bs s
  | 3, bs, s =>
    dMapField reg (fun s => s.Extra.getD []) (fun s m => { s with Extra := some m }) bs s
  | _, _, s => (s, .error .invalidField)

/-- Struct-body decoder of `AgenticMessageOutputImage`. -/
def decAgenticMessageOutputImageB (reg : Reg) (bs : List Nat)
    (s : AgenticMessageOutputImage) : DR AgenticMessageOutputImage :=
  decLoop (dispAgenticMessageOutputImage reg) 4 5 0 bs s

/-- Wellformedness of `AgenticMessageOutputImage`. -/
def wfAgenticMessageOutputImage (x : AgenticMessageOutputImage) : Bool :=
  wfMapField x.Extra

/-- Name availability of `AgenticMessageOutputImage`. -/
def namesOKAgenticMessageOutputImage (reg : Reg) (x : AgenticMessageOutputImage) : Bool :=
  namesOKMap reg x.Extra

/-- `AgenticMessageOutputAudio`. -/
structure AgenticMessageOutputAudio where
  URL : Option String
  Base64Data : Option String
  MIMEType : String
  Extra : Option (List (String × GoVal))

/-- Zero value of `AgenticMessageOutputAudio`. -/
def zeroAgenticMessageOutputAudio : AgenticMessageOutputAudio := ⟨none, none, "", none⟩

/-- gob zero test for `AgenticMessageOutputAudio`. -/
def isZeroAgenticMessageOutputAudio (x : AgenticMessageOutputAudio) : Bool :=
  x.URL.getD "" = "" && x.Base64Data.getD "" = "" && x.MIMEType = "" &&
  isZeroMap x.Extra

/-- Present fields of `AgenticMessageOutputAudio`. -/
def entsAgenticMessageOutputAudio (reg : Reg) (x : AgenticMessageOutputAudio) :
    Except EncErr (List (Nat × Option (List Nat))) :=
  seqEnts [.ok (fOptStr 0 x.URL), .ok (fOptStr 1 x.Base64Data),
    .ok (fStr 2 x.MIMEType), fMapE 3 reg x.Extra]

/-- Struct-body encoding of `AgenticMessageOutputAudio`. -/
def encAgenticMessageOutputAudioB (reg : Reg) (x : AgenticMessageOutputAudio) :
    Except EncErr (List Nat) :=
  encOf (entsAgenticMessageOutputAudio reg x)

/-- gob decode-merge of `AgenticMessageOutputAudio`. -/
def mergeAgenticMessageOutputAudio (s x : AgenticMessageOutputAudio) :
    AgenticMessageOutputAudio :=
  { URL := mOptStr s.URL x.URL
    Base64Data := mOptStr s.Base64Data x.Base64Data
    MIMEType := mStr s.MIMEType x.MIMEType
    Extra := mergeMap s.Extra x.Extra }

/-- Field dispatch of `AgenticMessageOutputAudio`. -/
def dispAgenticMessageOutputAudio (reg : Reg) :
    Nat → List Nat → AgenticMessageOutputAudio → DR AgenticMessageOutputAudio
  | 0, bs, s => dStrField (fun s v => { s with URL := some v }) bs s
  | 1, bs, s => dStrField (fun s v => { s with Base64Data := some v }) bs s
  | 2, bs, s => dStrField (fun s v => { s with MIMEType := v }) bs s
  | 3, bs, s =>
    dMapField reg (fun s => s.Extra.getD []) (fun s m => { s with Extra := some m }) bs s
  | _, _, s => (s, .error .invalidField)

/-- Struct-body decoder of `AgenticMessageOutputAudio`. -/
def decAgenticMessageOutputAudioB (reg : Reg) (bs : List Nat)
    (s : AgenticMessageOutputAudio) : DR AgenticMessageOutputAudio :=
  decLoop (dispAgenticMessageOutputAudio reg) 4 5 0 bs s

/-- Wellformedness of `AgenticMessageOutputAudio`. -/
def wfAgenticMessageOutputAudio (x : AgenticMessageOutputAudio) : Bool :=
  wfMapField x.Extra

/-- Name availability of `AgenticMessageOutputAudio`. -/
def namesOKAgenticMessageOutputAudio (reg : Reg) (x : AgenticMessageOutputAudio) : Bool :=
  namesOKMap reg x.Extra

/-- `AgenticMessageOutputVideo`. -/
structure AgenticMessageOutputVideo where
  URL : Option String
  Base64Data : Option String
  MIMEType : String
  Extra : Option (List (String × GoVal))

/-- Zero value of `AgenticMessageOutputVideo`. -/
def zeroAgenticMessageOutputVideo : AgenticMessageOutputVideo := ⟨none, none, "", none⟩

/-- gob zero test for `AgenticMessageOutputVideo`. -/
def isZeroAgenticMessageOutputVideo (x : AgenticMessageOutputVideo) : Bool :=
  x.URL.getD "" = "" && x.Base64Data.getD "" = "" && x.MIMEType = "" &&
  isZeroMap x.Extra

/-- Present fields of `AgenticMessageOutputVideo`. -/
def entsAgenticMessageOutputVideo (reg : Reg) (x : AgenticMessageOutputVideo) :
    Except EncErr (List (Nat × Option (List Nat))) :=
  seqEnts [.ok (fOptStr 0 x.URL), .ok (fOptStr 1 x.Base64Data),
    .ok (fStr 2 x.MIMEType), fMapE 3 reg x.Extra]

/-- Struct-body encoding of `AgenticMessageOutputVideo`. -/
def encAgenticMessageOutputVideoB (reg : Reg) (x : AgenticMessageOutputVideo) :
    Except EncErr (List Nat) :=
  encOf (entsAgenticMessageOutputVideo reg x)

/-- gob decode-merge of `AgenticMessageOutputVideo`. -/
def mergeAgenticMessageOutputVideo (s x : AgenticMessageOutputVideo) :
    AgenticMessageOutputVideo :=
  { URL := mOptStr s.URL x.URL
    Base64Data := mOptStr s.Base64Data x.Base64Data
    MIMEType := mStr s.MIMEType x.MIMEType
    Extra := mergeMap s.Extra x.Extra }

/-- Field dispatch of `AgenticMessageOutputVideo`. -/
def dispAgenticMessageOutputVideo (reg : Reg) :
    Nat → List Nat → AgenticMessageOutputVideo → DR AgenticMessageOutputVideo
  | 0, bs, s => dStrField (fun s v => { s with URL := some v }) bs s
  | 1, bs, s => dStrField (fun s v => { s with Base64Data := some v }) bs s
  | 2, bs, s => dStrField (fun s v => { s with MIMEType := v }) bs s
  | 3, bs, s =>
    dMapField reg (fun s => s.Extra.getD []) (fun s m => { s with Extra := some m }) bs s
  | _, _, s => (s, .error .invalidField)

/-- Struct-body decoder of `AgenticMessageOutputVideo`. -/
def decAgenticMessageOutputVideoB (reg : Reg) (bs : List Nat)
    (s : AgenticMessageOutputVideo) : DR AgenticMessageOutputVideo :=
  decLoop (dispAgenticMessageOutputVideo reg) 4 5 0 bs s

/-- Wellformedness of `AgenticMessageOutputVideo`. -/
def wfAgenticMessageOutputVideo (x : AgenticMessageOutputVideo) : Bool :=
  wfMapField x.Extra

/-- Name availability of `AgenticMessageOutputVideo`. -/
def namesOKAgenticMessageOutputVideo (reg : Reg) (x : AgenticMessageOutputVideo) : Bool :=
  namesOKMap reg x.Extra

/-- `AgenticMessageOutputPart` (no file variant). -/
structure AgenticMessageOutputPart where
  Typ : String
  Text : Option AgenticMessageOutputText
  Image : Option AgenticMessageOutputImage
  Audio : Option AgenticMessageOutputAudio
  Video : Option AgenticMessageOutputVideo

/-- Zero value of `AgenticMessageOutputPart`. -/
def zeroAgenticMessageOutputPart : AgenticMessageOutputPart :=
  ⟨"", none, none, none, none⟩

/-- gob zero test for `AgenticMessageOutputPart`. -/
def isZeroAgenticMessageOutputPart (x : AgenticMessageOutputPart) : Bool :=
  x.Typ = "" && isZeroOpt isZeroAgenticMessageOutputText x.Text &&
  isZeroOpt isZeroAgenticMessageOutputImage x.Image &&
  isZeroOpt isZeroAgenticMessageOutputAudio x.Audio &&
  isZeroOpt isZeroAgenticMessageOutputVideo x.Video

/-- Present fields of `AgenticMessageOutputPart`. -/
def entsAgenticMessageOutputPart (reg : Reg) (x : AgenticMessageOutputPart) :
    Except EncErr (List (Nat × Option (List Nat))) :=
  seqEnts [.ok (fStr 0 x.Typ),
    fPtrSubE 1 x.Text isZeroAgenticMessageOutputText
      (encAgenticMessageOutputTextB reg),
    fPtrSubE 2 x.Image isZeroAgenticMessageOutputImage
      (encAgenticMessageOutputImageB reg),
    fPtrSubE 3 x.Audio isZeroAgenticMessageOutputAudio
      (encAgenticMessageOutputAudioB reg),
    fPtrSubE 4 x.Video isZeroAgenticMessageOutputVideo
      (encAgenticMessageOutputVideoB reg)]

/-- Struct-body encoding of `AgenticMessageOutputPart`. -/
def encAgenticMessageOutputPartB (reg : Reg) (x : AgenticMessageOutputPart) :
    Except EncErr (List Nat) :=
  encOf (entsAgenticMessageOutputPart reg x)

/-- gob decode-merge of `AgenticMessageOutputPart`. -/
def mergeAgenticMessageOutputPart (s x : AgenticMessageOutputPart) :
    AgenticMessageOutputPart :=
  { Typ := mStr s.Typ x.Typ
    Text := mPtrSub isZeroAgenticMessageOutputText mergeAgenticMessageOutputText
      zeroAgenticMessageOutputText s.Text x.Text
    Image := mPtrSub isZeroAgenticMessageOutputImage mergeAgenticMessageOutputImage
      zeroAgenticMessageOutputImage s.Image x.Image
    Audio := mPtrSub isZeroAgenticMessageOutputAudio mergeAgenticMessageOutputAudio
      zeroAgenticMessageOutputAudio s.Audio x.Audio
    Video := mPtrSub isZeroAgenticMessageOutputVideo mergeAgenticMessageOutputVideo
      zeroAgenticMessageOutputVideo s.Video x.Video }

/-- Field dispatch of `AgenticMessageOutputPart`. -/
def dispAgenticMessageOutputPart (reg : Reg) :
    Nat → List Nat → AgenticMessageOutputPart → DR AgenticMessageOutputPart
  | 0, bs, s => dStrField (fun s v => { s with Typ := v }) bs s
  | 1, bs, s =>
    dSubField (decAgenticMessageOutputTextB reg)
      (fun s => s.Text.getD zeroAgenticMessageOutputText)
      (fun s t => { s with Text := some t }) bs s
  | 2, bs, s =>
    dSubField (decAgenticMessageOutputImageB reg)
      (fun s => s.Image.getD zeroAgenticMessageOutputImage)
      (fun s t => { s with Image := some t }) bs s
  | 3, bs, s =>
    dSubField (decAgenticMessageOutputAudioB reg)
      (fun s => s.Audio.getD zeroAgenticMessageOutputAudio)
      (fun s t => { s with Audio := some t }) bs s
  | 4, bs, s =>
    dSubField (decAgenticMessageOutputVideoB reg)
      (fun s => s.Video.getD zeroAgenticMessageOutputVideo)
      (fun s t => { s with Video := some t }) bs s
  | _, _, s => (s, .error .invalidField)

/-- Struct-body decoder of `AgenticMessageOutputPart`. -/
def decAgenticMessageOutputPartB (reg : Reg) (bs : List Nat)
    (s : AgenticMessageOutputPart) : DR AgenticMessageOutputPart :=
  decLoop (dispAgenticMessageOutputPart reg) 5 6 0 bs s

/-- Wellformedness of `AgenticMessageOutputPart`. -/
def wfAgenticMessageOutputPart (x : AgenticMessageOutputPart) : Bool :=
  wfOpt wfAgenticMessageOutputText x.Text &&
  wfOpt wfAgenticMessageOutputImage x.Image &&
  wfOpt wfAgenticMessageOutputAudio x.Audio &&
  wfOpt wfAgenticMessageOutputVideo x.Video

/-- Name availability of `AgenticMessageOutputPart`. -/
def namesOKAgenticMessageOutputPart (reg : Reg) (x : AgenticMessageOutputPart) : Bool :=
  wfOpt (namesOKAgenticMessageOutputText reg) x.Text &&
  wfOpt (namesOKAgenticMessageOutputImage reg) x.Image &&
  wfOpt (namesOKAgenticMessageOutputAudio reg) x.Audio &&
  wfOpt (namesOKAgenticMessageOutputVideo reg) x.Video

/-- Decode one pointer element of a slice: allocate a zero value and decode
the flattened struct into it. -/
def dPtrElem {τ : Type} (decB : List Nat → τ → DR τ) (zero : τ)
    (bs : List Nat) (_ : Option τ) : DR (Option τ) :=
  match decB bs zero with
  | (t, res) => (some t, res)

/-- `ContentBlockMessage` (Go field `Type` of its parts is `Typ`; `Role` is
the string-kinded `RoleType` declared elsewhere in the repository). -/
structure ContentBlockMessage where
  Index : Option Int
  Role : String
  InputText : String
  UserInputMultiContent : Option (List (Option AgenticMessageInputPart))
  AssistantGenMultiContent : Option (List (Option AgenticMessageOutputPart))
  Extra : Option (List (String × GoVal))

/-- Zero value of `ContentBlockMessage`. -/
def zeroContentBlockMessage : ContentBlockMessage :=
  ⟨none, "", "", none, none, none⟩

/-- gob zero test of an optional slice field (nil or empty). -/
def isZeroSlice {τ : Type} (o : Option (List τ)) : Bool :=
  match o with
  | none => true
  | some [] => true
  | some (_ :: _) => false

/-- gob zero test for `ContentBlockMessage`. -/
def isZeroContentBlockMessage (x : ContentBlockMessage) : Bool :=
  x.Index.getD 0 = 0 && x.Role = "" && x.InputText = "" &&
  isZeroSlice x.UserInputMultiContent && isZeroSlice x.AssistantGenMultiContent &&
  isZeroMap x.Extra

/-- Present fields of `ContentBlockMessage`. -/
def entsContentBlockMessage (reg : Reg) (x : ContentBlockMessage) :
    Except EncErr (List (Nat × Option (List Nat))) :=
  seqEnts [.ok (fOptInt 0 x.Index), .ok (fStr 1 x.Role), .ok (fStr 2 x.InputText),
    fSliceOptE 3 x.UserInputMultiContent (encAgenticMessageInputPartB reg),
    fSliceOptE 4 x.AssistantGenMultiContent (encAgenticMessageOutputPartB reg),
    fMapE 5 reg x.Extra]

/-- Struct-body encoding of `ContentBlockMessage`. -/
def encContentBlockMessageB (reg : Reg) (x : ContentBlockMessage) :
    Except EncErr (List Nat) :=
  encOf (entsContentBlockMessage reg x)

/-- gob decode-merge of `ContentBlockMessage`. -/
def mergeContentBlockMessage (s x : ContentBlockMessage) : ContentBlockMessage :=
  { Index := mOptInt s.Index x.Index
    Role := mStr s.Role x.Role
    InputText := mStr s.InputText x.InputText
    UserInputMultiContent :=
      mSliceOpt (mergeAgenticMessageInputPart zeroAgenticMessageInputPart)
        s.UserInputMultiContent x.UserInputMultiContent
    AssistantGenMultiContent :=
      mSliceOpt (mergeAgenticMessageOutputPart zeroAgenticMessageOutputPart)
        s.AssistantGenMultiContent x.AssistantGenMultiContent
    Extra := mergeMap s.Extra x.Extra }

/-- Field dispatch of `ContentBlockMessage`. -/
def dispContentBlockMessage (reg : Reg) :
    Nat → List Nat → ContentBlockMessage → DR ContentBlockMessage
  | 0, bs, s => dIntField (fun s v => { s with Index := some v }) bs s
  | 1, bs, s => dStrField (fun s v => { s with Role := v }) bs s
  | 2, bs, s => dStrField (fun s v => { s with InputText := v }) bs s
  | 3, bs, s =>
    dSliceField (dPtrElem (decAgenticMessageInputPartB reg) zeroAgenticMessageInputPart)
      none (fun s l => { s with UserInputMultiContent := some l }) bs s
  | 4, bs, s =>
    dSliceField (dPtrElem (decAgenticMessageOutputPartB reg) zeroAgenticMessageOutputPart)
      none (fun s l => { s with AssistantGenMultiContent := some l }) bs s
  | 5, bs, s =>
    dMapField reg (fun s => s.Extra.getD []) (fun s m => { s with Extra := some m }) bs s
  | _, _, s => (s, .error .invalidField)

/-- Struct-body decoder of `ContentBlockMessage`. -/
def decContentBlockMessageB (reg : Reg) (bs : List Nat) (s : ContentBlockMessage) :
    DR ContentBlockMessage :=
  decLoop (dispContentBlockMessage reg) 6 7 0 bs s

/-- Wellformedness of `ContentBlockMessage`. -/
def wfContentBlockMessage (x : ContentBlockMessage) : Bool :=
  wfOptInt x.Index &&
  allOpt (wfOpt wfAgenticMessageInputPart) x.UserInputMultiContent &&
  allOpt (wfOpt wfAgenticMessageOutputPart) x.AssistantGenMultiContent &&
  wfMapField x.Extra

/-- Name availability of `ContentBlockMessage`. -/
def namesOKContentBlockMessage (reg : Reg) (x : ContentBlockMessage) : Bool :=
  allOpt (wfOpt (namesOKAgenticMessageInputPart reg)) x.UserInputMultiContent &&
  allOpt (wfOpt (namesOKAgenticMessageOutputPart reg)) x.AssistantGenMultiContent &&
  namesOKMap reg x.Extra

/-- No nil pointer inside the slices of `ContentBlockMessage`. -/
def noNilContentBlockMessage (x : ContentBlockMessage) : Bool :=
  allOpt (fun o => o.isSome) x.UserInputMultiContent &&
  allOpt (fun o => o.isSome) x.AssistantGenMultiContent

/-- `ReasoningSummary`. -/
structure ReasoningSummary where
  Text : String
  Extra : Option (List (String × GoVal))

/-- Zero value of `ReasoningSummary`. -/
def zeroReasoningSummary : ReasoningSummary := ⟨"", none⟩

/-- gob zero test for `ReasoningSummary`. -/
def isZeroReasoningSummary (x : ReasoningSummary) : Bool :=
  x.Text = "" && isZeroMap x.Extra

/-- Present fields of `ReasoningSummary`. -/
def entsReasoningSummary (reg : Reg) (x : ReasoningSummary) :
    Except EncErr (List (Nat × Option (List Nat))) :=
  seqEnts [.ok (fStr 0 x.Text), fMapE 1 reg x.Extra]

/-- Struct-body encoding of `ReasoningSummary`. -/
def encReasoningSummaryB (reg : Reg) (x : ReasoningSummary) :
    Except EncErr (List Nat) :=
  encOf (entsReasoningSummary reg x)

/-- gob decode-merge of `ReasoningSummary`. -/
def mergeReasoningSummary (s x : ReasoningSummary) : ReasoningSummary :=
  { Text := mStr s.Text x.Text
    Extra := mergeMap s.Extra x.Extra }

/-- Field dispatch of `ReasoningSummary`. -/
def dispReasoningSummary (reg : Reg) :
    Nat → List Nat → ReasoningSummary → DR ReasoningSummary
  | 0, bs, s => dStrField (fun s v => { s with Text := v }) bs s
  | 1, bs, s =>
    dMapField reg (fun s => s.Extra.getD []) (fun s m => { s with Extra := some m }) bs s
  | _, _, s => (s, .error .invalidField)

/-- Struct-body decoder of `ReasoningSummary`. -/
def decReasoningSummaryB (reg : Reg) (bs : List Nat) (s : ReasoningSummary) :
    DR ReasoningSummary :=
  decLoop (dispReasoningSummary reg) 2 3 0 bs s

/-- Wellformedness of `ReasoningSummary`. -/
def wfReasoningSummary (x : ReasoningSummary) : Bool :=
  wfMapField x.Extra

/-- Name availability of `ReasoningSummary`. -/
def namesOKReasoningSummary (reg : Reg) (x : ReasoningSummary) : Bool :=
  namesOKMap reg x.Extra

/-- `ContentBlockReasoning`. -/
structure ContentBlockReasoning where
  Index : Option Int
  SummaryIndex : Option Int
  Summary : Option (List (Option ReasoningSummary))
  EncryptedContent : String
  Extra : Option (List (String × GoVal))

/-- Zero value of `ContentBlockReasoning`. -/
def zeroContentBlockReasoning : ContentBlockReasoning :=
  ⟨none, none, none, "", none⟩

/-- gob zero test for `ContentBlockReasoning`. -/
def isZeroContentBlockReasoning (x : ContentBlockReasoning) : Bool :=
  x.Index.getD 0 = 0 && x.SummaryIndex.getD 0 = 0 && isZeroSlice x.Summary &&
  x.EncryptedContent = "" && isZeroMap x.Extra

/-- Present fields of `ContentBlockReasoning`. -/
def entsContentBlockReasoning (reg : Reg) (x : ContentBlockReasoning) :
    Except EncErr (List (Nat × Option (List Nat))) :=
  seqEnts [.ok (fOptInt 0 x.Index), .ok (fOptInt 1 x.SummaryIndex),
    fSliceOptE 2 x.Summary (encReasoningSummaryB reg),
    .ok (fStr 3 x.EncryptedContent), fMapE 4 reg x.Extra]

/-- Struct-body encoding of `ContentBlockReasoning`. -/
def encContentBlockReasoningB (reg : Reg) (x : ContentBlockReasoning) :
    Except EncErr (List Nat) :=
  encOf (entsContentBlockReasoning reg x)

/-- gob decode-merge of `ContentBlockReasoning`. -/
def mergeContentBlockReasoning (s x : ContentBlockReasoning) : ContentBlockReasoning :=
  { Index := mOptInt s.Index x.Index
    SummaryIndex := mOptInt s.SummaryIndex x.SummaryIndex
    Summary := mSliceOpt (mergeReasoningSummary zeroReasoningSummary) s.Summary x.Summary
    EncryptedContent := mStr s.EncryptedContent x.EncryptedContent
    Extra := mergeMap s.Extra x.Extra }

/-- Field dispatch of `ContentBlockReasoning`. -/
def dispContentBlockReasoning (reg : Reg) :
    Nat → List Nat → ContentBlockReasoning → DR ContentBlockReasoning
  | 0, bs, s => dIntField (fun s v => { s with Index := some v }) bs s
  | 1, bs, s => dIntField (fun s v => { s with SummaryIndex := some v }) bs s
  | 2, bs, s =>
    dSliceField (dPtrElem (decReasoningSummaryB reg) zeroReasoningSummary)
      none (fun s l => { s with Summary := some l }) bs s
  | 3, bs, s => dStrField (fun s v => { s with EncryptedContent := v }) bs s
  | 4, bs, s =>
    dMapField reg (fun s => s.Extra.getD []) (fun s m => { s with Extra := some m }) bs s
  | _, _, s => (s, .error .invalidField)

/-- Struct-body decoder of `ContentBlockReasoning`. -/
def decContentBlockReasoningB (reg : Reg) (bs : List Nat) (s : ContentBlockReasoning) :
    DR ContentBlockReasoning :=
  decLoop (dispContentBlockReasoning reg) 5 6 0 bs s

/-- Wellformedness of `ContentBlockReasoning`. -/
def wfContentBlockReasoning (x : ContentBlockReasoning) : Bool :=
  wfOptInt x.Index && wfOptInt x.SummaryIndex &&
  allOpt (wfOpt wfReasoningSummary) x.Summary && wfMapField x.Extra

/-- Name availability of `ContentBlockReasoning`. -/
def namesOKContentBlockReasoning (reg : Reg) (x : ContentBlockReasoning) : Bool :=
  allOpt (wfOpt (namesOKReasoningSummary reg)) x.Summary && namesOKMap reg x.Extra

/-- No nil pointer inside the slices of `ContentBlockReasoning`. -/
def noNilContentBlockReasoning (x : ContentBlockReasoning) : Bool :=
  allOpt (fun o => o.isSome) x.Summary

/-- Go constant `ToolCallTypeCustom`. -/
def ToolCallTypeCustom : String := "custom_tool_call"

/-- Go constant `ToolCallTypeMCP`. -/
def ToolCallTypeMCP : String := "mcp_tool_call"

/-- `ContentBlockToolCall` (Go field `Type` is `Typ`). -/
structure ContentBlockToolCall where
  Index : Option Int
  Typ : String
  ID : String
  Name : String
  Arguments : String
  Extra : Option (List (String × GoVal))

/-- Zero value of `ContentBlockToolCall`. -/
def zeroContentBlockToolCall : ContentBlockToolCall :=
  ⟨none, "", "", "", "", none⟩

/-- gob zero test for `ContentBlockToolCall`. -/
def isZeroContentBlockToolCall (x : ContentBlockToolCall) : Bool :=
  x.Index.getD 0 = 0 && x.Typ = "" && x.ID = "" && x.Name = "" &&
  x.Arguments = "" && isZeroMap x.Extra

/-- Present fields of `ContentBlockToolCall`. -/
def entsContentBlockToolCall (reg : Reg) (x : ContentBlockToolCall) :
    Except EncErr (List (Nat × Option (List Nat))) :=
  seqEnts [.ok (fOptInt 0 x.Index), .ok (fStr 1 x.Typ), .ok (fStr 2 x.ID),
    .ok (fStr 3 x.Name), .ok (fStr 4 x.Arguments), fMapE 5 reg x.Extra]

/-- Struct-body encoding of `ContentBlockToolCall`. -/
def encContentBlockToolCallB (reg : Reg) (x : ContentBlockToolCall) :
    Except EncErr (List Nat) :=
  encOf (entsContentBlockToolCall reg x)

/-- gob decode-merge of `ContentBlockToolCall`. -/
def mergeContentBlockToolCall (s x : ContentBlockToolCall) : ContentBlockToolCall :=
  { Index := mOptInt s.Index x.Index
    Typ := mStr s.Typ x.Typ
    ID := mStr s.ID x.ID
    Name := mStr s.Name x.Name
    Arguments := mStr s.Arguments x.Arguments
    Extra := mergeMap s.Extra x.Extra }

/-- Field dispatch of `ContentBlockToolCall`. -/
def dispContentBlockToolCall (reg : Reg) :
    Nat → List Nat → ContentBlockToolCall → DR ContentBlockToolCall
  | 0, bs, s => dIntField (fun s v => { s with Index := some v }) bs s
  | 1, bs, s => dStrField (fun s v => { s with Typ := v }) bs s
  | 2, bs, s => dStrField (fun s v => { s with ID := v }) bs s
  | 3, bs, s => dStrField (fun s v => { s with Name := v }) bs s
  | 4, bs, s => dStrField (fun s v => { s with Arguments := v }) bs s
  | 5, bs, s =>
    dMapField reg (fun s => s.Extra.getD []) (fun s m => { s with Extra := some m }) bs s
  | _, _, s => (s, .error .invalidField)

/-- Struct-body decoder of `ContentBlockToolCall`. -/
def decContentBlockToolCallB (reg : Reg) (bs : List Nat) (s : ContentBlockToolCall) :
    DR ContentBlockToolCall :=
  decLoop (dispContentBlockToolCall reg) 6 7 0 bs s

/-- Wellformedness of `ContentBlockToolCall`. -/
def wfContentBlockToolCall (x : ContentBlockToolCall) : Bool :=
  wfOptInt x.Index && wfMapField x.Extra

/-- Name availability of `ContentBlockToolCall`. -/
def namesOKContentBlockToolCall (reg : Reg) (x : ContentBlockToolCall) : Bool :=
  namesOKMap reg x.Extra

/-- Go constant `ToolCallOutputTypeCustom`. -/
def ToolCallOutputTypeCustom : String := "custom_tool_call_output"

/-- Go constant `ToolCallOutputTypeMCP`. -/
def ToolCallOutputTypeMCP : String := "mcp_tool_call_output"

/-- Go constant `MCPToolCallStatusSuccess`. -/
def MCPToolCallStatusSuccess : String := "success"

/-- Go constant `MCPToolCallStatusError`. -/
def MCPToolCallStatusError : String := "error"

/-- `ToolCallOutputCustom`. -/
structure ToolCallOutputCustom where
  Content : String

/-- Zero value of `ToolCallOutputCustom`. -/
def zeroToolCallOutputCustom : ToolCallOutputCustom := ⟨""⟩

/-- gob zero test for `ToolCallOutputCustom`. -/
def isZeroToolCallOutputCustom (x : ToolCallOutputCustom) : Bool :=
  x.Content = ""

/-- Struct-body encoding of `ToolCallOutputCustom`. -/
def encToolCallOutputCustomB (x : ToolCallOutputCustom) : List Nat :=
  encEnts 0 (opts [fStr 0 x.Content])

/-- gob decode-merge of `ToolCallOutputCustom`. -/
def mergeToolCallOutputCustom (s x : ToolCallOutputCustom) : ToolCallOutputCustom :=
  { Content := mStr s.Content x.Content }

/-- Field dispatch of `ToolCallOutputCustom`. -/
def dispToolCallOutputCustom :
    Nat → List Nat → ToolCallOutputCustom → DR ToolCallOutputCustom
  | 0, bs, s => dStrField (fun s v => { s with Content := v }) bs s
  | _, _, s => (s, .error .invalidField)

/-- Struct-body decoder of `ToolCallOutputCustom`. -/
def decToolCallOutputCustomB (bs : List Nat) (s : ToolCallOutputCustom) :
    DR ToolCallOutputCustom :=
  decLoop dispToolCallOutputCustom 1 2 0 bs s

/-- `ToolCallOutputMCP`. -/
structure ToolCallOutputMCP where
  Content : String
  ApprovalRequestID : String
  Status : String
  Error : String
  Extra : Option (List (String × GoVal))

/-- Zero value of `ToolCallOutputMCP`. -/
def zeroToolCallOutputMCP : ToolCallOutputMCP := ⟨"", "", "", "", none⟩

/-- gob zero test for `ToolCallOutputMCP`. -/
def isZeroToolCallOutputMCP (x : ToolCallOutputMCP) : Bool :=
  x.Content = "" && x.ApprovalRequestID = "" && x.Status = "" && x.Error = "" &&
  isZeroMap x.Extra

/-- Present fields of `ToolCallOutputMCP`. -/
def entsToolCallOutputMCP (reg : Reg) (x : ToolCallOutputMCP) :
    Except EncErr (List (Nat × Option (List Nat))) :=
  seqEnts [.ok (fStr 0 x.Content), .ok (fStr 1 x.ApprovalRequestID),
    .ok (fStr 2 x.Status), .ok (fStr 3 x.Error), fMapE 4 reg x.Extra]

/-- Struct-body encoding of `ToolCallOutputMCP`. -/
def encToolCallOutputMCPB (reg : Reg) (x : ToolCallOutputMCP) :
    Except EncErr (List Nat) :=
  encOf (entsToolCallOutputMCP reg x)

/-- gob decode-merge of `ToolCallOutputMCP`. -/
def mergeToolCallOutputMCP (s x : ToolCallOutputMCP) : ToolCallOutputMCP :=
  { Content := mStr s.Content x.Content
    ApprovalRequestID := mStr s.ApprovalRequestID x.ApprovalRequestID
    Status := mStr s.Status x.Status
    Error := mStr s.Error x.Error
    Extra := mergeMap s.Extra x.Extra }

/-- Field dispatch of `ToolCallOutputMCP`. -/
def dispToolCallOutputMCP (reg : Reg) :
    Nat → List Nat → ToolCallOutputMCP → DR ToolCallOutputMCP
  | 0, bs, s => dStrField (fun s v => { s with Content := v }) bs s
  | 1, bs, s => dStrField (fun s v => { s with ApprovalRequestID := v }) bs s
  | 2, bs, s => dStrField (fun s v => { s with Status := v }) bs s
  | 3, bs, s => dStrField (fun s v => { s with Error := v }) bs s
  | 4, bs, s =>
    dMapField reg (fun s => s.Extra.getD []) (fun s m => { s with Extra := some m }) bs s
  | _, _, s => (s, .error .invalidField)

/-- Struct-body decoder of `ToolCallOutputMCP`. -/
def decToolCallOutputMCPB (reg : Reg) (bs : List Nat) (s : ToolCallOutputMCP) :
    DR ToolCallOutputMCP :=
  decLoop (dispToolCallOutputMCP reg) 5 6 0 bs s

/-- Wellformedness of `ToolCallOutputMCP`. -/
def wfToolCallOutputMCP (x : ToolCallOutputMCP) : Bool :=
  wfMapField x.Extra

/-- Name availability of `ToolCallOutputMCP`. -/
def namesOKToolCallOutputMCP (reg : Reg) (x : ToolCallOutputMCP) : Bool :=
  namesOKMap reg x.Extra

/-- `ContentBlockToolCallOutput` (Go field `Type` is `Typ`). -/
structure ContentBlockToolCallOutput where
  Index : Option Int
  Typ : String
  ToolCallID : String
  ToolName : String
  CustomTool : Option ToolCallOutputCustom
  MCPTool : Option ToolCallOutputMCP

/-- Zero value of `ContentBlockToolCallOutput`. -/
def zeroContentBlockToolCallOutput : ContentBlockToolCallOutput :=
  ⟨none, "", "", "", none, none⟩

/-- gob zero test for `ContentBlockToolCallOutput`. -/
def isZeroContentBlockToolCallOutput (x : ContentBlockToolCallOutput) : Bool :=
  x.Index.getD 0 = 0 && x.Typ = "" && x.ToolCallID = "" && x.ToolName = "" &&
  isZeroOpt isZeroToolCallOutputCustom x.CustomTool &&
  isZeroOpt isZeroToolCallOutputMCP x.MCPTool

/-- Present fields of `ContentBlockToolCallOutput`. -/
def entsContentBlockToolCallOutput (reg : Reg) (x : ContentBlockToolCallOutput) :
    Except EncErr (List (Nat × Option (List Nat))) :=
  seqEnts [.ok (fOptInt 0 x.Index), .ok (fStr 1 x.Typ), .ok (fStr 2 x.ToolCallID),
    .ok (fStr 3 x.ToolName),
    fPtrSubE 4 x.CustomTool isZeroToolCallOutputCustom
      (fun t => .ok (encToolCallOutputCustomB t)),
    fPtrSubE 5 x.MCPTool isZeroToolCallOutputMCP (encToolCallOutputMCPB reg)]

/-- Struct-body encoding of `ContentBlockToolCallOutput`. -/
def encContentBlockToolCallOutputB (reg : Reg) (x : ContentBlockToolCallOutput) :
    Except EncErr (List Nat) :=
  encOf (entsContentBlockToolCallOutput reg x)

/-- gob decode-merge of `ContentBlockToolCallOutput`. -/
def mergeContentBlockToolCallOutput (s x : ContentBlockToolCallOutput) :
    ContentBlockToolCallOutput :=
  { Index := mOptInt s.Index x.Index
    Typ := mStr s.Typ x.Typ
    ToolCallID := mStr s.ToolCallID x.ToolCallID
    ToolName := mStr s.ToolName x.ToolName
    CustomTool := mPtrSub isZeroToolCallOutputCustom mergeToolCallOutputCustom
      zeroToolCallOutputCustom s.CustomTool x.CustomTool
    MCPTool := mPtrSub isZeroToolCallOutputMCP mergeToolCallOutputMCP
      zeroToolCallOutputMCP s.MCPTool x.MCPTool }

/-- Field dispatch of `ContentBlockToolCallOutput`. -/
def dispContentBlockToolCallOutput (reg : Reg) :
    Nat → List Nat → ContentBlockToolCallOutput → DR ContentBlockToolCallOutput
  | 0, bs, s => dIntField (fun s v => { s with Index := some v }) bs s
  | 1, bs, s => dStrField (fun s v => { s with Typ := v }) bs s
  | 2, bs, s => dStrField (fun s v => { s with ToolCallID := v }) bs s
  | 3, bs, s => dStrField (fun s v => { s with ToolName := v }) bs s
  | 4, bs, s =>
    dSubField decToolCallOutputCustomB
      (fun s => s.CustomTool.getD zeroToolCallOutputCustom)
      (fun s t => { s with CustomTool := some t }) bs s
  | 5, bs, s =>
    dSubField (decToolCallOutputMCPB reg)
      (fun s => s.MCPTool.getD zeroToolCallOutputMCP)
      (fun s t => { s with MCPTool := some t }) bs s
  | _, _, s => (s, .error .invalidField)

/-- Struct-body decoder of `ContentBlockToolCallOutput`. -/
def decContentBlockToolCallOutputB (reg : Reg) (bs : List Nat)
    (s : ContentBlockToolCallOutput) : DR ContentBlockToolCallOutput :=
  decLoop (dispContentBlockToolCallOutput reg) 6 7 0 bs s

/-- Wellformedness of `ContentBlockToolCallOutput`. -/
def wfContentBlockToolCallOutput (x : ContentBlockToolCallOutput) : Bool :=
  wfOptInt x.Index && wfOpt wfToolCallOutputMCP x.MCPTool

/-- Name availability of `ContentBlockToolCallOutput`. -/
def namesOKContentBlockToolCallOutput (reg : Reg) (x : ContentBlockToolCallOutput) : Bool :=
  wfOpt (namesOKToolCallOutputMCP reg) x.MCPTool

/-- The external `jsonschema.Schema` held by `MCPListToolsItem.InputSchema`,
modelled opaquely (the spec treats it as an opaque structure this core only
stores and round-trips). -/
structure Schema where
  Raw : String

/-- Zero value of `Schema`. -/
def zeroSchema : Schema := ⟨""⟩

/-- gob zero test for `Schema`. -/
def isZeroSchema (x : Schema) : Bool := x.Raw = ""

/-- Struct-body encoding of `Schema`. -/
def encSchemaB (x : Schema) : List Nat :=
  encEnts 0 (opts [fStr 0 x.Raw])

/-- gob decode-merge of `Schema`. -/
def mergeSchema (s x : Schema) : Schema := { Raw := mStr s.Raw x.Raw }

/-- Field dispatch of `Schema`. -/
def dispSchema : Nat → List Nat → Schema → DR Schema
  | 0, bs, s => dStrField (fun s v => { s with Raw := v }) bs s
  | _, _, s => (s, .error .invalidField)

/-- Struct-body decoder of `Schema`. -/
def decSchemaB (bs : List Nat) (s : Schema) : DR Schema :=
  decLoop dispSchema 1 2 0 bs s

/-- `MCPListToolsItem` (`InputSchema` is a nilable pointer). -/
structure MCPListToolsItem where
  Name : String
  Description : String
  InputSchema : Option Schema

/-- Zero value of `MCPListToolsItem`. -/
def zeroMCPListToolsItem : MCPListToolsItem := ⟨"", "", none⟩

/-- gob zero test for `MCPListToolsItem`. -/
def isZeroMCPListToolsItem (x : MCPListToolsItem) : Bool :=
  x.Name = "" && x.Description = "" && isZeroOpt isZeroSchema x.InputSchema

/-- Struct-body encoding of `MCPListToolsItem`. -/
def encMCPListToolsItemB (x : MCPListToolsItem) : List Nat :=
  encEnts 0 (opts [fStr 0 x.Name, fStr 1 x.Description,
    (2, match x.InputSchema with
        | none => none
        | some t => if isZeroSchema t then none else some (encSchemaB t))])

/-- gob decode-merge of `MCPListToolsItem`. -/
def mergeMCPListToolsItem (s x : MCPListToolsItem) : MCPListToolsItem :=
  { Name := mStr s.Name x.Name
    Description := mStr s.Description x.Description
    InputSchema := mPtrSub isZeroSchema mergeSchema zeroSchema s.InputSchema x.InputSchema }

/-- Field dispatch of `MCPListToolsItem`. -/
def dispMCPListToolsItem : Nat → List Nat → MCPListToolsItem → DR MCPListToolsItem
  | 0, bs, s => dStrField (fun s v => { s with Name := v }) bs s
  | 1, bs, s => dStrField (fun s v => { s with Description := v }) bs s
  | 2, bs, s =>
    dSubField decSchemaB (fun s => s.InputSchema.getD zeroSchema)
      (fun s t => { s with InputSchema := some t }) bs s
  | _, _, s => (s, .error .invalidField)

/-- Struct-body decoder of `MCPListToolsItem`. -/
def decMCPListToolsItemB (bs : List Nat) (s : MCPListToolsItem) : DR MCPListToolsItem :=
  decLoop dispMCPListToolsItem 3 4 0 bs s

/-- `ContentBlockMCPListTools` (`Tools` is a slice of struct values, so its
elements cannot be nil). -/
structure ContentBlockMCPListTools where
  ServerLabel : String
  Tools : Option (List MCPListToolsItem)
  Error : String

/-- Zero value of `ContentBlockMCPListTools`. -/
def zeroContentBlockMCPListTools : ContentBlockMCPListTools := ⟨"", none, ""⟩

/-- gob zero test for `ContentBlockMCPListTools`. -/
def isZeroContentBlockMCPListTools (x : ContentBlockMCPListTools) : Bool :=
  x.ServerLabel = "" && isZeroSlice x.Tools && x.Error = ""

/-- Struct-body encoding of `ContentBlockMCPListTools`. -/
def encContentBlockMCPListToolsB (x : ContentBlockMCPListTools) : List Nat :=
  encEnts 0 (opts [fStr 0 x.ServerLabel,
    fSliceVal 1 x.Tools encMCPListToolsItemB, fStr 2 x.Error])

/-- gob decode-merge of `ContentBlockMCPListTools`. -/
def mergeContentBlockMCPListTools (s x : ContentBlockMCPListTools) :
    ContentBlockMCPListTools :=
  { ServerLabel := mStr s.ServerLabel x.ServerLabel
    Tools := mSliceVal (mergeMCPListToolsItem zeroMCPListToolsItem) s.Tools x.Tools
    Error := mStr s.Error x.Error }

/-- Field dispatch of `ContentBlockMCPListTools`. -/
def dispContentBlockMCPListTools :
    Nat → List Nat → ContentBlockMCPListTools → DR ContentBlockMCPListTools
  | 0, bs, s => dStrField (fun s v => { s with ServerLabel := v }) bs s
  | 1, bs, s =>
    dSliceField decMCPListToolsItemB zeroMCPListToolsItem
      (fun s l => { s with Tools := some l }) bs s
  | 2, bs, s => dStrField (fun s v => { s with Error := v }) bs s
  | _, _, s => (s, .error .invalidField)

/-- Struct-body decoder of `ContentBlockMCPListTools`. -/
def decContentBlockMCPListToolsB (bs : List Nat) (s : ContentBlockMCPListTools) :
    DR ContentBlockMCPListTools :=
  decLoop dispContentBlockMCPListTools 3 4 0 bs s

/-- `ContentBlockMCPToolApprovalRequest`. -/
structure ContentBlockMCPToolApprovalRequest where
  Name : String
  Arguments : String
  ServerLabel : String

/-- Zero value of `ContentBlockMCPToolApprovalRequest`. -/
def zeroContentBlockMCPToolApprovalRequest : ContentBlockMCPToolApprovalRequest :=
  ⟨"", "", ""⟩

/-- gob zero test for `ContentBlockMCPToolApprovalRequest`. -/
def isZeroContentBlockMCPToolApprovalRequest
    (x : ContentBlockMCPToolApprovalRequest) : Bool :=
  x.Name = "" && x.Arguments = "" && x.ServerLabel = ""

/-- Struct-body encoding of `ContentBlockMCPToolApprovalRequest`. -/
def encContentBlockMCPToolApprovalRequestB
    (x : ContentBlockMCPToolApprovalRequest) : List Nat :=
  encEnts 0 (opts [fStr 0 x.Name, fStr 1 x.Arguments, fStr 2 x.ServerLabel])

/-- gob decode-merge of `ContentBlockMCPToolApprovalRequest`. -/
def mergeContentBlockMCPToolApprovalRequest
    (s x : ContentBlockMCPToolApprovalRequest) : ContentBlockMCPToolApprovalRequest :=
  { Name := mStr s.Name x.Name
    Arguments := mStr s.Arguments x.Arguments
    ServerLabel := mStr s.ServerLabel x.ServerLabel }

/-- Field dispatch of `ContentBlockMCPToolApprovalRequest`. -/
def dispContentBlockMCPToolApprovalRequest :
    Nat → List Nat → ContentBlockMCPToolApprovalRequest →
    DR ContentBlockMCPToolApprovalRequest
  | 0, bs, s => dStrField (fun s v => { s with Name := v }) bs s
  | 1, bs, s => dStrField (fun s v => { s with Arguments := v }) bs s
  | 2, bs, s => dStrField (fun s v => { s with ServerLabel := v }) bs s
  | _, _, s => (s, .error .invalidField)

/-- Struct-body decoder of `ContentBlockMCPToolApprovalRequest`. -/
def decContentBlockMCPToolApprovalRequestB (bs : List Nat)
    (s : ContentBlockMCPToolApprovalRequest) : DR ContentBlockMCPToolApprovalRequest :=
  decLoop dispContentBlockMCPToolApprovalRequest 3 4 0 bs s

/-- `ContentBlockMCPToolApprovalResponse`. -/
structure ContentBlockMCPToolApprovalResponse where
  ApprovalRequestID : String
  Approve : Bool
  Reason : String

/-- Zero value of `ContentBlockMCPToolApprovalResponse`. -/
def zeroContentBlockMCPToolApprovalResponse : ContentBlockMCPToolApprovalResponse :=
  ⟨"", false, ""⟩

/-- gob zero test for `ContentBlockMCPToolApprovalResponse`. -/
def isZeroContentBlockMCPToolApprovalResponse
    (x : ContentBlockMCPToolApprovalResponse) : Bool :=
  x.ApprovalRequestID = "" && !x.Approve && x.Reason = ""

/-- Struct-body encoding of `ContentBlockMCPToolApprovalResponse`. -/
def encContentBlockMCPToolApprovalResponseB
    (x : ContentBlockMCPToolApprovalResponse) : List Nat :=
  encEnts 0 (opts [fStr 0 x.ApprovalRequestID, fBool 1 x.Approve, fStr 2 x.Reason])

/-- gob decode-merge of `ContentBlockMCPToolApprovalResponse`. -/
def mergeContentBlockMCPToolApprovalResponse
    (s x : ContentBlockMCPToolApprovalResponse) : ContentBlockMCPToolApprovalResponse :=
  { ApprovalRequestID := mStr s.ApprovalRequestID x.ApprovalRequestID
    Approve := mBool s.Approve x.Approve
    Reason := mStr s.Reason x.Reason }

/-- Field dispatch of `ContentBlockMCPToolApprovalResponse`. -/
def dispContentBlockMCPToolApprovalResponse :
    Nat → List Nat → ContentBlockMCPToolApprovalResponse →
    DR ContentBlockMCPToolApprovalResponse
  | 0, bs, s => dStrField (fun s v => { s with ApprovalRequestID := v }) bs s
  | 1, bs, s => dBoolField (fun s v => { s with Approve := v }) bs s
  | 2, bs, s => dStrField (fun s v => { s with Reason := v }) bs s
  | _, _, s => (s, .error .invalidField)

/-- Struct-body decoder of `ContentBlockMCPToolApprovalResponse`. -/
def decContentBlockMCPToolApprovalResponseB (bs : List Nat)
    (s : ContentBlockMCPToolApprovalResponse) : DR ContentBlockMCPToolApprovalResponse :=
  decLoop dispContentBlockMCPToolApprovalResponse 3 4 0 bs s

/-- `ContentBlock` (the discriminated-union struct; Go field `Type` is
`Typ`). -/
structure ContentBlock where
  Typ : String
  Message : Option ContentBlockMessage
  Reasoning : Option ContentBlockReasoning
  ToolCall : Option ContentBlockToolCall
  ToolCallOutput : Option ContentBlockToolCallOutput
  MCPListTools : Option ContentBlockMCPListTools
  MCPToolApprovalRequest : Option ContentBlockMCPToolApprovalRequest
  MCPToolApprovalResponse : Option ContentBlockMCPToolApprovalResponse

/-- Zero value of `ContentBlock`. -/
def zeroContentBlock : ContentBlock :=
  ⟨"", none, none, none, none, none, none, none⟩

/-- gob zero test for `ContentBlock`. -/
def isZeroContentBlock (x : ContentBlock) : Bool :=
  x.Typ = "" && isZeroOpt isZeroContentBlockMessage x.Message &&
  isZeroOpt isZeroContentBlockReasoning x.Reasoning &&
  isZeroOpt isZeroContentBlockToolCall x.ToolCall &&
  isZeroOpt isZeroContentBlockToolCallOutput x.ToolCallOutput &&
  isZeroOpt isZeroContentBlockMCPListTools x.MCPListTools &&
  isZeroOpt isZeroContentBlockMCPToolApprovalRequest x.MCPToolApprovalRequest &&
  isZeroOpt isZeroContentBlockMCPToolApprovalResponse x.MCPToolApprovalResponse

/-- Present fields of `ContentBlock`. -/
def entsContentBlock (reg : Reg) (x : ContentBlock) :
    Except EncErr (List (Nat × Option (List Nat))) :=
  seqEnts [.ok (fStr 0 x.Typ),
    fPtrSubE 1 x.Message isZeroContentBlockMessage (encContentBlockMessageB reg),
    fPtrSubE 2 x.Reasoning isZeroContentBlockReasoning (encContentBlockReasoningB reg),
    fPtrSubE 3 x.ToolCall isZeroContentBlockToolCall (encContentBlockToolCallB reg),
    fPtrSubE 4 x.ToolCallOutput isZeroContentBlockToolCallOutput
      (encContentBlockToolCallOutputB reg),
    fPtrSubE 5 x.MCPListTools isZeroContentBlockMCPListTools
      (fun t => .ok (encContentBlockMCPListToolsB t)),
    fPtrSubE 6 x.MCPToolApprovalRequest isZeroContentBlockMCPToolApprovalRequest
      (fun t => .ok (encContentBlockMCPToolApprovalRequestB t)),
    fPtrSubE 7 x.MCPToolApprovalResponse isZeroContentBlockMCPToolApprovalResponse
      (fun t => .ok (encContentBlockMCPToolApprovalResponseB t))]

/-- Struct-body encoding of `ContentBlock`. -/
def encContentBlockB (reg : Reg) (x : ContentBlock) : Except EncErr (List Nat) :=
  encOf (entsContentBlock reg x)

/-- gob decode-merge of `ContentBlock`. -/
def mergeContentBlock (s x : ContentBlock) : ContentBlock :=
  { Typ := mStr s.Typ x.Typ
    Message := mPtrSub isZeroContentBlockMessage mergeContentBlockMessage
      zeroContentBlockMessage s.Message x.Message
    Reasoning := mPtrSub isZeroContentBlockReasoning mergeContentBlockReasoning
      zeroContentBlockReasoning s.Reasoning x.Reasoning
    ToolCall := mPtrSub isZeroContentBlockToolCall mergeContentBlockToolCall
      zeroContentBlockToolCall s.ToolCall x.ToolCall
    ToolCallOutput := mPtrSub isZeroContentBlockToolCallOutput
      mergeContentBlockToolCallOutput zeroContentBlockToolCallOutput
      s.ToolCallOutput x.ToolCallOutput
    MCPListTools := mPtrSub isZeroContentBlockMCPListTools
      mergeContentBlockMCPListTools zeroContentBlockMCPListTools
      s.MCPListTools x.MCPListTools
    MCPToolApprovalRequest := mPtrSub isZeroContentBlockMCPToolApprovalRequest
      mergeContentBlockMCPToolApprovalRequest zeroContentBlockMCPToolApprovalRequest
      s.MCPToolApprovalRequest x.MCPToolApprovalRequest
    MCPToolApprovalResponse := mPtrSub isZeroContentBlockMCPToolApprovalResponse
      mergeContentBlockMCPToolApprovalResponse zeroContentBlockMCPToolApprovalResponse
      s.MCPToolApprovalResponse x.MCPToolApprovalResponse }

/-- Field dispatch of `ContentBlock`. -/
def dispContentBlock (reg : Reg) :
    Nat → List Nat → ContentBlock → DR ContentBlock
  | 0, bs, s => dStrField (fun s v => { s with Typ := v }) bs s
  | 1, bs, s =>
    dSubField (decContentBlockMessageB reg)
      (fun s => s.Message.getD zeroContentBlockMessage)
      (fun s t => { s with Message := some t }) bs s
  | 2, bs, s =>
    dSubField (decContentBlockReasoningB reg)
      (fun s => s.Reasoning.getD zeroContentBlockReasoning)
      (fun s t => { s with Reasoning := some t }) bs s
  | 3, bs, s =>
    dSubField (decContentBlockToolCallB reg)
      (fun s => s.ToolCall.getD zeroContentBlockToolCall)
      (fun s t => { s with ToolCall := some t }) bs s
  | 4, bs, s =>
    dSubField (decContentBlockToolCallOutputB reg)
      (fun s => s.ToolCallOutput.getD zeroContentBlockToolCallOutput)
      (fun s t => { s with ToolCallOutput := some t }) bs s
  | 5, bs, s =>
    dSubField decContentBlockMCPListToolsB
      (fun s => s.MCPListTools.getD zeroContentBlockMCPListTools)
      (fun s t => { s with MCPListTools := some t }) bs s
  | 6, bs, s =>
    dSubField decContentBlockMCPToolApprovalRequestB
      (fun s => s.MCPToolApprovalRequest.getD zeroContentBlockMCPToolApprovalRequest)
      (fun s t => { s with MCPToolApprovalRequest := some t }) bs s
  | 7, bs, s =>
    dSubField decContentBlockMCPToolApprovalResponseB
      (fun s => s.MCPToolApprovalResponse.getD zeroContentBlockMCPToolApprovalResponse)
      (fun s t => { s with MCPToolApprovalResponse := some t }) bs s
  | _, _, s => (s, .error .invalidField)

/-- Struct-body decoder of `ContentBlock`. -/
def decContentBlockB (reg : Reg) (bs : List Nat) (s : ContentBlock) : DR ContentBlock :=
  decLoop (dispContentBlock reg) 8 9 0 bs s

/-- Wellformedness of `ContentBlock`. -/
def wfContentBlock (x : ContentBlock) : Bool :=
  wfOpt wfContentBlockMessage x.Message &&
  wfOpt wfContentBlockReasoning x.Reasoning &&
  wfOpt wfContentBlockToolCall x.ToolCall &&
  wfOpt wfContentBlockToolCallOutput x.ToolCallOutput

/-- Name availability of `ContentBlock`. -/
def namesOKContentBlock (reg : Reg) (x : ContentBlock) : Bool :=
  wfOpt (namesOKContentBlockMessage reg) x.Message &&
  wfOpt (namesOKContentBlockReasoning reg) x.Reasoning &&
  wfOpt (namesOKContentBlockToolCall reg) x.ToolCall &&
  wfOpt (namesOKContentBlockToolCallOutput reg) x.ToolCallOutput

/-- No nil pointer inside the slices of `ContentBlock`. -/
def noNilContentBlock (x : ContentBlock) : Bool :=
  wfOpt noNilContentBlockMessage x.Message &&
  wfOpt noNilContentBlockReasoning x.Reasoning

/-- `AgenticResponse`, the serialized top-level type. -/
structure AgenticResponse where
  ID : String
  FinishReason : Option FinishReason
  Usage : Option TokenUsageMeta
  Blocks : Option (List (Option ContentBlock))

/-- Zero value of `AgenticResponse` (a freshly allocated receiver). -/
def zeroAgenticResponse : AgenticResponse := ⟨"", none, none, none⟩

/-- Present fields of `AgenticResponse`. -/
def entsAgenticResponse (reg : Reg) (x : AgenticResponse) :
    Except EncErr (List (Nat × Option (List Nat))) :=
  seqEnts [.ok (fStr 0 x.ID),
    fPtrSubE 1 x.FinishReason isZeroFinishReason (fun t => .ok (encFinishReasonB t)),
    fPtrSubE 2 x.Usage isZeroTokenUsageMeta (fun t => .ok (encTokenUsageMetaB t)),
    fSliceOptE 3 x.Blocks (encContentBlockB reg)]

/-- Struct-body encoding of `AgenticResponse`: the payload of the gob value
message. -/
def encAgenticResponseB (reg : Reg) (x : AgenticResponse) :
    Except EncErr (List Nat) :=
  encOf (entsAgenticResponse reg x)

/-- gob decode-merge of `AgenticResponse`: the value a receiver holds after a
successful decode of the encoding of `x`. -/
def mergeAgenticResponse (s x : AgenticResponse) : AgenticResponse :=
  { ID := mStr s.ID x.ID
    FinishReason := mPtrSub isZeroFinishReason mergeFinishReason zeroFinishReason
      s.FinishReason x.FinishReason
    Usage := mPtrSub isZeroTokenUsageMeta mergeTokenUsageMeta zeroTokenUsageMeta
      s.Usage x.Usage
    Blocks := mSliceOpt (mergeContentBlock zeroContentBlock) s.Blocks x.Blocks }

/-- Field dispatch of `AgenticResponse`. -/
def dispAgenticResponse (reg : Reg) :
    Nat → List Nat → AgenticResponse → DR AgenticResponse
  | 0, bs, s => dStrField (fun s v => { s with ID := v }) bs s
  | 1, bs, s =>
    dSubField decFinishReasonB (fun s => s.FinishReason.getD zeroFinishReason)
      (fun s t => { s with FinishReason := some t }) bs s
  | 2, bs, s =>
    dSubField decTokenUsageMetaB (fun s => s.Usage.getD zeroTokenUsageMeta)
      (fun s t => { s with Usage := some t }) bs s
  | 3, bs, s =>
    dSliceField (dPtrElem (decContentBlockB reg) zeroContentBlock)
      none (fun s l => { s with Blocks := some l }) bs s
  | _, _, s => (s, .error .invalidField)

/-- Struct-body decoder of `AgenticResponse`. -/
def decAgenticResponseB (reg : Reg) (bs : List Nat) (s : AgenticResponse) :
    DR AgenticResponse :=
  decLoop (dispAgenticResponse reg) 4 5 0 bs s

/-- Wellformedness of `AgenticResponse`. -/
def wfAgenticResponse (x : AgenticResponse) : Bool :=
  wfOpt wfTokenUsageMeta x.Usage && allOpt (wfOpt wfContentBlock) x.Blocks

/-- Name availability of `AgenticResponse`: every extension-map value's
concrete type has its name available to a process with user registrations
`reg`. -/
def namesOKAgenticResponse (reg : Reg) (x : AgenticResponse) : Bool :=
  allOpt (wfOpt (namesOKContentBlock reg)) x.Blocks

/-- No nil pointer inside any slice of the response. -/
def noNilAgenticResponse (x : AgenticResponse) : Bool :=
  allOpt (fun o => o.isSome) x.Blocks && allOpt (wfOpt noNilContentBlock) x.Blocks

/-! ## The gob stream: framed messages around the value body -/

/-- gob's decoder-side bound on a single message ("message too big"; the
value on 64-bit platforms). -/
def tooBig : Nat := 2 ^ 31

/-- The wire-type definition messages the encoder emits for
`AgenticResponse` before the value message, abbreviated to the model type id
and the type's name. (Real gob transmits full `wireType` descriptors; no
claim under analysis depends on descriptor contents, and the decoder of this
model checks the definitions against the expected constants.) -/
def gobTypeIdTable : List (Int × String) :=
  [(65, "AgenticResponse"), (66, "FinishReason"), (67, "TokenUsageMeta"),
   (68, "InputTokensUsageDetails"), (69, "OutputTokensUsageDetails"),
   (70, "ContentBlock"), (71, "ContentBlockMessage"),
   (72, "AgenticMessageInputPart"), (73, "AgenticMessageInputText"),
   (74, "AgenticMessageInputImage"), (75, "AgenticMessageInputAudio"),
   (76, "AgenticMessageInputVideo"), (77, "AgenticMessageInputFile"),
   (78, "AgenticMessageOutputPart"), (79, "AgenticMessageOutputText"),
   (80, "AgenticMessageOutputImage"), (81, "AgenticMessageOutputAudio"),
   (82, "AgenticMessageOutputVideo"), (83, "ContentBlockReasoning"),
   (84, "ReasoningSummary"), (85, "ContentBlockToolCall"),
   (86, "ContentBlockToolCallOutput"), (87, "ToolCallOutputCustom"),
   (88, "ToolCallOutputMCP"), (89, "ContentBlockMCPListTools"),
   (90, "MCPListToolsItem"), (91, "Schema"),
   (92, "ContentBlockMCPToolApprovalRequest"),
   (93, "ContentBlockMCPToolApprovalResponse")]

/-- The payloads of the type-definition messages (a negative type id marks a
definition). -/
def typeDefMsgs : List (List Nat) :=
  gobTypeIdTable.map (fun p => encS (-p.1) ++ encStr p.2)

/-- The type id under which the value message is sent. -/
def respTypeId : Int := 65

/-- Frame one message: its byte count, then its payload. -/
def frameB (payload : List Nat) : List Nat := encU payload.length ++ payload

/-- Read one framed message whole, as gob's decoder does, before decoding any
of it: byte count (with the "message too big" bound), then exactly that many
payload bytes. -/
def readFrame (bs : List Nat) : Except DecErr (List Nat × List Nat) :=
  match decU bs with
  | .error e => .error e
  | .ok (n, r) =>
    if tooBig ≤ n then .error .messageTooBig
    else if r.length < n then .error .unexpectedEOF
    else .ok (r.take n, r.drop n)

/-- Consume the expected type-definition messages (this model requires the
definitions it itself emits; any other stream is from an incompatible
encoder). -/
def checkTypeDefs : List (List Nat) → List Nat → Except DecErr (List Nat)
  | [], bs => .ok bs
  | p :: ps, bs =>
    match readFrame bs with
    | .error e => .error e
    | .ok (pl, r) => if pl = p then checkTypeDefs ps r else .error .typeDefMismatch

/-- The receiver-independent front of `Deserialize`: read the type
definitions and the value message, returning the value body. No receiver
state is touched while this stage runs. -/
def stage1 (bs : List Nat) : Except DecErr (List Nat) :=
  match checkTypeDefs typeDefMsgs bs with
  | .error e => .error e
  | .ok r =>
    match readFrame r with
    | .error e => .error e
    | .ok (pl, _) =>
      match decS pl with
      | .error e => .error e
      | .ok (tid, body) => if tid = respTypeId then .ok body else .error .wrongTypeId

/-- The constant leading bytes of every successful encoding: the framed
type-definition messages. -/
def tdefBytes : List Nat := (typeDefMsgs.map frameB).flatten

/-- `AgenticResponse.Serialize`: gob-encode the receiver — type-definition
messages, then the framed value message. Returns the bytes, or the encoding
error (in which case Go returns `nil` bytes). -/
def Serialize (reg : Reg) (r : AgenticResponse) : Except EncErr (List Nat) :=
  match encAgenticResponseB reg r with
  | .error e => .error e
  | .ok body => .ok (tdefBytes ++ frameB (encS respTypeId ++ body))

/-- `AgenticResponse.Deserialize`: gob-decode `data` into the receiver `r`,
returning the receiver's final state and the error if any. gob decodes the
value message directly into the receiver, so a failure inside the value body
leaves the fields decoded so far modified; a failure before the value body is
reached leaves the receiver untouched. -/
def Deserialize (reg : Reg) (data : List Nat) (r : AgenticResponse) :
    AgenticResponse × Option DecErr :=
  match stage1 data with
  | .error e => (r, some e)
  | .ok body =>
    match decAgenticResponseB reg body r with
    | (r', .ok rest) => if rest = [] then (r', none) else (r', some .extraData)
    | (r', .error e) => (r', some e)

/-- The value body of `r` encodes and its value message stays under gob's
message-size bound (automatic for any response a real process can hold). -/
def serializeFits (reg : Reg) (r : AgenticResponse) : Bool :=
  match encAgenticResponseB reg r with
  | .error _ => false
  | .ok b => decide (b.length + 2 < 2 ^ 31)

/-- The message used by the extension-map example family: all fields zero
except the extension map. -/
def msgExtra (m : List (String × GoVal)) : ContentBlockMessage :=
  { Index := none, Role := "", InputText := "",
    UserInputMultiContent := none, AssistantGenMultiContent := none,
    Extra := some m }

/-- A content block holding only that message. -/
def blockExtra (m : List (String × GoVal)) : ContentBlock :=
  { Typ := ContentBlockTypeMessage, Message := some (msgExtra m),
    Reasoning := none, ToolCall := none, ToolCallOutput := none,
    MCPListTools := none, MCPToolApprovalRequest := none,
    MCPToolApprovalResponse := none }

/-- A response whose only content is one message block carrying the
extension map `m`. -/
def respExtra (m : List (String × GoVal)) : AgenticResponse :=
  { ID := "", FinishReason := none, Usage := none,
    Blocks := some [some (blockExtra m)] }

/-- The decode contract of one optional struct-field entry: an absent entry
leaves the receiver alone, and a present entry's dispatch consumes exactly
the entry's body and applies the field's merge function. -/
def fieldContract {σ : Type} (disp : Nat → List Nat → σ → DR σ)
    (e : Nat × Option (List Nat)) (m : σ → σ) : Prop :=
  match e.2 with
  | none => ∀ s, m s = s
  | some vb => ∀ (s : σ) (r : List Nat), disp e.1 (vb ++ r) s = (m s, .ok r)

/-! ## Example values and the specification-side predicates of the claims -/

/-- A flat primitive extension value: a string, a boolean, or a 64-bit
integer, with no nesting and no custom type. -/
def primVal : GoVal → Bool
  | .vString _ => true
  | .vBool _ => true
  | .vInt i => int64OK i
  | _ => false

/-- An extension map holding only flat primitive values. -/
def primPairs (m : List (String × GoVal)) : Bool := m.all (fun p => primVal p.2)

/-- How many payload fields of a `ContentBlock` are populated. -/
def payloadCount (x : ContentBlock) : Nat :=
  (if x.Message.isSome then 1 else 0) + (if x.Reasoning.isSome then 1 else 0) +
  (if x.ToolCall.isSome then 1 else 0) + (if x.ToolCallOutput.isSome then 1 else 0) +
  (if x.MCPListTools.isSome then 1 else 0) +
  (if x.MCPToolApprovalRequest.isSome then 1 else 0) +
  (if x.MCPToolApprovalResponse.isSome then 1 else 0)

/-- The `Validate` check the specification requires of every decoded block
(exactly one payload field populated, and the `Type` tag naming it), stated
from the specification: `response.go` declares no such function, and this
predicate exists only to compare the specified behaviour with the code. -/
def specValidateBlock (x : ContentBlock) : Bool :=
  decide (payloadCount x = 1) &&
  (!x.Message.isSome || (x.Typ == ContentBlockTypeMessage)) &&
  (!x.Reasoning.isSome || (x.Typ == ContentBlockTypeReasoning)) &&
  (!x.ToolCall.isSome || (x.Typ == ContentBlockTypeToolCall)) &&
  (!x.ToolCallOutput.isSome || (x.Typ == ContentBlockTypeToolCallOutput)) &&
  (!x.MCPListTools.isSome || (x.Typ == ContentBlockTypeMCPListTools)) &&
  (!x.MCPToolApprovalRequest.isSome ||
    (x.Typ == ContentBlockTypeMCPToolApprovalRequest)) &&
  (!x.MCPToolApprovalResponse.isSome ||
    (x.Typ == ContentBlockTypeMCPToolApprovalResponse))

/-- A block that is parseable but invalid under the specified validation: its
type tag says "message" while no payload field is populated. -/
def blockNoPayload : ContentBlock :=
  { Typ := ContentBlockTypeMessage, Message := none, Reasoning := none,
    ToolCall := none, ToolCallOutput := none, MCPListTools := none,
    MCPToolApprovalRequest := none, MCPToolApprovalResponse := none }

/-- A response carrying only that invalid block. -/
def respNoPayload : AgenticResponse :=
  { ID := "", FinishReason := none, Usage := none,
    Blocks := some [some blockNoPayload] }

/-- A canonical response with only a non-empty ID. -/
def respRound : AgenticResponse :=
  { ID := "a", FinishReason := none, Usage := none, Blocks := none }

/-- A response whose `Blocks` slice is allocated but empty (non-nil, length
zero: distinguishable from nil by `reflect.DeepEqual`). -/
def respEmptyBlocks : AgenticResponse :=
  { ID := "x", FinishReason := none, Usage := none, Blocks := some [] }

/-- A receiver that already holds an ID before a decode. -/
def respKeep : AgenticResponse :=
  { ID := "keep", FinishReason := none, Usage := none, Blocks := none }

/-- A response whose `Blocks` slice contains a nil pointer. -/
def respNilElem : AgenticResponse :=
  { ID := "", FinishReason := none, Usage := none, Blocks := some [none] }

/-- An extension map whose value is itself a map: an interface value of
concrete type map[string]interface{}, which gob transmits under that
registered name. -/
def extraNested : List (String × GoVal) :=
  [("k", GoVal.vMap [("a", GoVal.vString "b")])]

/-- An extension map holding a value of a user-defined concrete type
registered under the name "pkg.T". -/
def extraCustom : List (String × GoVal) := [("k", GoVal.vCustom "pkg.T" [7])]

/-- A flat primitive extension map with sorted keys. -/
def extraPrim : List (String × GoVal) :=
  [("a", GoVal.vBool true), ("b", GoVal.vInt 3), ("c", GoVal.vString "s")]

/-- A value body that sets the ID field to "x" and then breaks off inside an
unsigned-integer count: 1 (field delta), 1, 120 (the string "x"), 255 (a
count byte promising one more byte that never comes). -/
def corruptBody : List Nat := [1, 1, 120, 255]

/-- A full stream whose type definitions and value-message framing are
correct but whose value body is corrupt after its first field. -/
def corruptStream : List Nat :=
  tdefBytes ++ frameB (encS respTypeId ++ corruptBody)

/-- A message whose only content is the role "u" and the extension map `m`:
nonzero regardless of `m`, so the enclosing block and this message are
transmitted even when `m` is the allocated empty map. -/
def msgRole (m : List (String × GoVal)) : ContentBlockMessage :=
  { Index := none, Role := "u", InputText := "",
    UserInputMultiContent := none, AssistantGenMultiContent := none,
    Extra := some m }

/-- A content block holding only that message. -/
def blockRole (m : List (String × GoVal)) : ContentBlock :=
  { Typ := ContentBlockTypeMessage, Message := some (msgRole m),
    Reasoning := none, ToolCall := none, ToolCallOutput := none,
    MCPListTools := none, MCPToolApprovalRequest := none,
    MCPToolApprovalResponse := none }

/-- A response whose only content is one message block carrying the role and
the extension map `m` (at `m = []`: an allocated-but-empty Extra map). -/
def respMsg (m : List (String × GoVal)) : AgenticResponse :=
  { ID := "", FinishReason := none, Usage := none,
    Blocks := some [some (blockRole m)] }

/-! ## Properties of the integer, character and string encodings -/

theorem fromBE_append (l : List Nat) (b : Nat) :
    fromBE (l ++ [b]) = fromBE l * 256 + b := by
  simp [fromBE]

theorem fromBE_beBytes (n : Nat) : fromBE (beBytes n) = n := by
  induction n using Nat.strong_induction_on with
  | _ n ih =>
    by_cases h : n = 0
    · subst h; simp [beBytes, fromBE]
    · rw [beBytes, if_neg h, fromBE_append,
        ih (n / 256) (Nat.div_lt_self (Nat.pos_of_ne_zero h) (by norm_num))]
      omega

theorem beBytes_length_le (k : Nat) : ∀ n, n < 256 ^ k → (beBytes n).length ≤ k := by
  induction k with
  | zero =>
    intro n h
    interval_cases n
    simp [beBytes]
  | succ k ih =>
    intro n h
    by_cases h0 : n = 0
    · subst h0; simp [beBytes]
    · rw [beBytes, if_neg h0]
      have : n / 256 < 256 ^ k := by
        rw [Nat.div_lt_iff_lt_mul (by norm_num)]
        calc n < 256 ^ (k + 1) := h
        _ = 256 ^ k * 256 := by ring
      simpa using Nat.succ_le_succ (ih (n / 256) this)

theorem beBytes_length_pos (n : Nat) (h : n ≠ 0) : 1 ≤ (beBytes n).length := by
  rw [beBytes, if_neg h]
  simp

theorem decU_encU (n : Nat) (hn : n < 2 ^ 64) (rest : List Nat) :
    decU (encU n ++ rest) = .ok (n, rest) := by
  by_cases h : n < 128
  · simp [encU, h, decU]
  · have hL8 : (beBytes n).length ≤ 8 := beBytes_length_le 8 n (by norm_num at hn ⊢; omega)
    have hL1 : 1 ≤ (beBytes n).length := beBytes_length_pos n (by omega)
    rw [encU, if_neg h]
    show decU ((256 - (beBytes n).length) :: (beBytes n ++ rest)) = _
    rw [decU]
    rw [if_neg (by omega)]
    have hk : 256 - (256 - (beBytes n).length) = (beBytes n).length := by omega
    rw [if_neg (by omega)]
    rw [if_neg (by rw [hk]; simp)]
    simp only [hk]
    rw [List.take_left, List.drop_left, fromBE_beBytes]

theorem encU_length_pos (n : Nat) : 1 ≤ (encU n).length := by
  unfold encU
  split <;> simp

theorem decU_nil : decU [] = .error .eof := rfl

theorem decU_zero (rest : List Nat) : decU (0 :: rest) = .ok (0, rest) := by
  simp [decU]

theorem unzig_zig (i : Int) : unzig (zig i) = i := by
  unfold zig unzig
  by_cases h : 0 ≤ i
  · rw [if_pos h]
    have h2 : 2 * i.toNat % 2 = 0 := by omega
    rw [if_pos h2]
    omega
  · rw [if_neg h]
    have h1 : 1 ≤ (-i).toNat := by omega
    have h2 : ¬(2 * (-i).toNat - 1) % 2 = 0 := by omega
    rw [if_neg h2]
    omega

theorem zig_lt (i : Int) (h1 : -(2 ^ 63) ≤ i) (h2 : i < 2 ^ 63) :
    zig i < 2 ^ 64 := by
  unfold zig
  split <;> omega

theorem decS_encS (i : Int) (h1 : -(2 ^ 63) ≤ i) (h2 : i < 2 ^ 63)
    (rest : List Nat) : decS (encS i ++ rest) = .ok (i, rest) := by
  rw [encS, decS, decU_encU (zig i) (zig_lt i h1 h2)]
  show Except.ok (unzig (zig i), rest) = _
  rw [unzig_zig]

theorem encS_length_pos (i : Int) : 1 ≤ (encS i).length := encU_length_pos _

theorem char_toNat_isValidChar (c : Char) : c.toNat.isValidChar := c.valid

theorem char_toNat_lt (c : Char) : c.toNat < 2 ^ 64 := by
  have := c.valid
  rcases this with h | h
  · have : c.toNat < 55296 := h
    omega
  · have : c.toNat < 1114112 := h.2
    omega

theorem ofNatAux_toNat (c : Char) (h : c.toNat.isValidChar) :
    Char.ofNatAux c.toNat h = c := by
  have h2 := Char.ofNat_toNat c
  rwa [Char.ofNat, dif_pos h] at h2

theorem decChars_encChars (cs : List Char) (rest : List Nat) :
    decChars cs.length (encChars cs ++ rest) = .ok (cs, rest) := by
  induction cs generalizing rest with
  | nil => simp [encChars, decChars]
  | cons c t ih =>
    show decChars (t.length + 1) (encU c.toNat ++ encChars t ++ rest) = _
    rw [decChars, List.append_assoc, decU_encU c.toNat (char_toNat_lt c)]
    simp only [dif_pos (char_toNat_isValidChar c), ih, ofNatAux_toNat]

theorem encChars_length_ge (cs : List Char) : cs.length ≤ (encChars cs).length := by
  induction cs with
  | nil => simp [encChars]
  | cons c t ih =>
    have := encU_length_pos c.toNat
    simp only [encChars, List.length_append, List.length_cons]
    omega

theorem decStr_encStr (s : String) (hs : s.length < 2 ^ 64) (rest : List Nat) :
    decStr (encStr s ++ rest) = .ok (s, rest) := by
  rw [encStr, decStr, List.append_assoc, decU_encU s.length hs]
  have hg : ¬((encChars s.data ++ rest).length < s.length) := by
    have := encChars_length_ge s.data
    simp only [List.length_append]
    have : s.length = s.data.length := rfl
    omega
  show (if (encChars s.data ++ rest).length < s.length then _ else _) = _
  rw [if_neg hg]
  have h3 : s.length = s.data.length := rfl
  rw [h3, decChars_encChars]

theorem encStr_length_ge (s : String) : s.length + 1 ≤ (encStr s).length := by
  have h1 := encU_length_pos s.length
  have h2 := encChars_length_ge s.data
  have h3 : s.length = s.data.length := rfl
  simp only [encStr, List.length_append]
  omega

/-! ## Properties of the generic struct-body encoder and decoder -/

theorem mem_opts {l : List (Nat × Option (List Nat))} {e : Nat × List Nat}
    (h : e ∈ opts l) : (e.1, some e.2) ∈ l := by
  induction l with
  | nil => simp [opts] at h
  | cons hd t ih =>
    obtain ⟨f, v⟩ := hd
    cases v with
    | none =>
      simp only [opts] at h
      exact List.mem_cons_of_mem _ (ih h)
    | some vb =>
      simp only [opts, List.mem_cons] at h
      rcases h with h | h
      · subst h; simp
      · exact List.mem_cons_of_mem _ (ih h)

theorem opts_pairwise {l : List (Nat × Option (List Nat))}
    (h : l.Pairwise (fun a b => a.1 < b.1)) :
    (opts l).Pairwise (fun a b => a.1 < b.1) := by
  induction l with
  | nil => simp [opts]
  | cons hd t ih =>
    obtain ⟨f, v⟩ := hd
    rw [List.pairwise_cons] at h
    cases v with
    | none => exact ih h.2
    | some vb =>
      simp only [opts]
      rw [List.pairwise_cons]
      refine ⟨fun e he => ?_, ih h.2⟩
      exact h.1 _ (mem_opts he)

theorem encEnts_length_pos (p : Nat) (ents : List (Nat × List Nat)) :
    1 ≤ (encEnts p ents).length := by
  cases ents with
  | nil => simp [encEnts]
  | cons hd t =>
    obtain ⟨f, vb⟩ := hd
    have := encU_length_pos (f + 1 - p)
    simp only [encEnts, List.length_append]
    omega

theorem mem_encEnts_length_le {ents : List (Nat × List Nat)}
    {e : Nat × List Nat} (h : e ∈ ents) (p : Nat) :
    e.2.length ≤ (encEnts p ents).length := by
  induction ents generalizing p with
  | nil => simp at h
  | cons hd t ih =>
    obtain ⟨f, vb⟩ := hd
    rw [List.mem_cons] at h
    simp only [encEnts, List.length_append]
    rcases h with h | h
    · subst h; dsimp only; omega
    · have := ih h (f + 1)
      omega

theorem decLoop_encEnts {σ : Type} (dispatch : Nat → List Nat → σ → DR σ)
    (numF : Nat) (upd : Nat × List Nat → σ → σ) (hNF : numF < 2 ^ 63) :
    ∀ (ents : List (Nat × List Nat)) (prevP gas : Nat) (s : σ) (rest : List Nat),
    (∀ e ∈ ents, prevP ≤ e.1 ∧ e.1 < numF) →
    List.Pairwise (fun a b => a.1 < b.1) ents →
    (∀ e ∈ ents, ∀ (s' : σ) (r' : List Nat),
      dispatch e.1 (e.2 ++ r') s' = (upd e s', .ok r')) →
    numF + 1 ≤ gas + prevP →
    decLoop dispatch numF gas prevP (encEnts prevP ents ++ rest) s
      = (ents.foldl (fun a e => upd e a) s, .ok rest) := by
  intro ents
  induction ents with
  | nil =>
    intro prevP gas s rest _ _ _ _
    show decLoop dispatch numF gas prevP (0 :: rest) s = (s, .ok rest)
    rw [decLoop, decU_zero]
  | cons hd t ih =>
    intro prevP gas s rest hb hp hd' hg
    obtain ⟨f, vb⟩ := hd
    have hf := hb (f, vb) (List.mem_cons_self _ _)
    have hfp : prevP ≤ f := hf.1
    have hfN : f < numF := hf.2
    show decLoop dispatch numF gas prevP
      ((encU (f + 1 - prevP) ++ vb ++ encEnts (f + 1) t) ++ rest) s = _
    rw [decLoop]
    rw [List.append_assoc, List.append_assoc,
      decU_encU (f + 1 - prevP) (by omega)]
    have hd1 : f + 1 - prevP = (f - prevP) + 1 := by omega
    rw [hd1]
    show (if prevP + (f - prevP) < numF then _ else _) = _
    rw [if_pos (by omega)]
    have hpf : prevP + (f - prevP) = f := by omega
    cases gas with
    | zero => omega
    | succ gas' =>
      show (match dispatch (prevP + (f - prevP)) (vb ++ (encEnts (f + 1) t ++ rest)) s with
        | (s', .ok r') => decLoop dispatch numF gas' (prevP + (f - prevP) + 1) r' s'
        | (s', .error e) => (s', .error e)) = _
      rw [hpf, hd' (f, vb) (List.mem_cons_self _ _) s (encEnts (f + 1) t ++ rest)]
      show decLoop dispatch numF gas' (f + 1) (encEnts (f + 1) t ++ rest)
        (upd (f, vb) s) = _
      rw [List.pairwise_cons] at hp
      rw [ih (f + 1) gas' (upd (f, vb) s) rest
        (fun e he => ⟨hp.1 e he, (hb e (List.mem_cons_of_mem _ he)).2⟩)
        hp.2 (fun e he => hd' e (List.mem_cons_of_mem _ he)) (by omega)]
      rfl

theorem decLoop_encEnts_err {σ : Type} (dispatch : Nat → List Nat → σ → DR σ)
    (numF : Nat) (upd : Nat × List Nat → σ → σ) (err : DecErr) (hNF : numF < 2 ^ 63) :
    ∀ (pre : List (Nat × List Nat)) (ef : Nat × List Nat)
      (suf : List (Nat × List Nat)) (prevP gas : Nat) (s : σ) (rest : List Nat),
    (∀ e ∈ pre ++ ef :: suf, prevP ≤ e.1 ∧ e.1 < numF) →
    (pre ++ ef :: suf).Pairwise (fun a b => a.1 < b.1) →
    (∀ e ∈ pre, ∀ (s' : σ) (r' : List Nat),
      dispatch e.1 (e.2 ++ r') s' = (upd e s', .ok r')) →
    (∀ (s' : σ) (r' : List Nat), ∃ s'',
      dispatch ef.1 (ef.2 ++ r') s' = (s'', .error err)) →
    numF + 1 ≤ gas + prevP →
    ∃ s', decLoop dispatch numF gas prevP
      (encEnts prevP (pre ++ ef :: suf) ++ rest) s = (s', .error err) := by
  intro pre
  induction pre with
  | nil =>
    intro ef suf prevP gas s rest hb _ _ hfail hg
    obtain ⟨f, vb⟩ := ef
    have hf := hb (f, vb) (by simp)
    show ∃ s', decLoop dispatch numF gas prevP
      ((encU (f + 1 - prevP) ++ vb ++ encEnts (f + 1) suf) ++ rest) s = _
    rw [decLoop]
    rw [List.append_assoc, List.append_assoc,
      decU_encU (f + 1 - prevP) (by omega)]
    have hd1 : f + 1 - prevP = (f - prevP) + 1 := by omega
    rw [hd1]
    show ∃ s', (if prevP + (f - prevP) < numF then _ else _) = _
    rw [if_pos (by omega)]
    have hpf : prevP + (f - prevP) = f := by omega
    cases gas with
    | zero => omega
    | succ gas' =>
      obtain ⟨s'', hs''⟩ := hfail s (encEnts (f + 1) suf ++ rest)
      refine ⟨s'', ?_⟩
      show (match dispatch (prevP + (f - prevP)) (vb ++ (encEnts (f + 1) suf ++ rest)) s with
        | (s', .ok r') => decLoop dispatch numF gas' (prevP + (f - prevP) + 1) r' s'
        | (s', .error e) => (s', .error e)) = _
      rw [hpf, hs'']
  | cons hd t ih =>
    intro ef suf prevP gas s rest hb hp hok hfail hg
    obtain ⟨f, vb⟩ := hd
    have hf := hb (f, vb) (by simp)
    show ∃ s', decLoop dispatch numF gas prevP
      ((encU (f + 1 - prevP) ++ vb ++ encEnts (f + 1) (t ++ ef :: suf)) ++ rest) s = _
    rw [decLoop]
    rw [List.append_assoc, List.append_assoc,
      decU_encU (f + 1 - prevP) (by omega)]
    have hd1 : f + 1 - prevP = (f - prevP) + 1 := by omega
    rw [hd1]
    show ∃ s', (if prevP + (f - prevP) < numF then _ else _) = _
    rw [if_pos (by omega)]
    have hpf : prevP + (f - prevP) = f := by omega
    cases gas with
    | zero => omega
    | succ gas' =>
      show ∃ s', (match dispatch (prevP + (f - prevP))
          (vb ++ (encEnts (f + 1) (t ++ ef :: suf) ++ rest)) s with
        | (s', .ok r') => decLoop dispatch numF gas' (prevP + (f - prevP) + 1) r' s'
        | (s', .error e) => (s', .error e)) = _
      rw [hpf, hok (f, vb) (List.mem_cons_self _ _) s
        (encEnts (f + 1) (t ++ ef :: suf) ++ rest)]
      show ∃ s', decLoop dispatch numF gas' (f + 1)
        (encEnts (f + 1) (t ++ ef :: suf) ++ rest) (upd (f, vb) s) = _
      simp only [List.cons_append, List.pairwise_cons] at hp
      exact ih ef suf (f + 1) gas' (upd (f, vb) s) rest
        (fun e he => ⟨hp.1 e he, (hb e (List.mem_cons_of_mem _ he)).2⟩)
        hp.2 (fun e he => hok e (List.mem_cons_of_mem _ he)) hfail (by omega)

/-! ## Field-decoder specifications -/

theorem dStrField_spec {σ : Type} (set : σ → String → σ) (v : String)
    (hv : v.length < 2 ^ 64) (r : List Nat) (s : σ) :
    dStrField set (encStr v ++ r) s = (set s v, .ok r) := by
  rw [dStrField, decStr_encStr v hv]

theorem dIntField_spec {σ : Type} (set : σ → Int → σ) (i : Int)
    (h1 : -(2 ^ 63) ≤ i) (h2 : i < 2 ^ 63) (r : List Nat) (s : σ) :
    dIntField set (encS i ++ r) s = (set s i, .ok r) := by
  rw [dIntField, decS_encS i h1 h2]

theorem dBoolField_true {σ : Type} (set : σ → Bool → σ) (r : List Nat) (s : σ) :
    dBoolField set (encU 1 ++ r) s = (set s true, .ok r) := by
  rw [dBoolField, decU_encU 1 (by norm_num)]
  rfl

theorem dSubField_spec {σ τ : Type} (body : List Nat → τ → DR τ) (get : σ → τ)
    (set : σ → τ → σ) (bs : List Nat) (t' : τ) (r : List Nat) (s : σ)
    (hbody : body (bs ++ r) (get s) = (t', .ok r)) :
    dSubField body get set (bs ++ r) s = (set s t', .ok r) := by
  rw [dSubField, hbody]

/-! ## Sorted-map insertion -/

theorem insKV_gt (k : String) (v : GoVal) :
    ∀ acc, (∀ e ∈ acc, e.1 < k) → insKV k v acc = acc ++ [(k, v)] := by
  intro acc
  induction acc with
  | nil => intro _; rfl
  | cons hd t ih =>
    intro h
    have hk := h hd (List.mem_cons_self _ _)
    rw [insKV, if_neg (by exact fun hlt => absurd hk (lt_asymm hlt)),
      if_neg (by rintro rfl; exact lt_irrefl _ hk)]
    rw [ih (fun e he => h e (List.mem_cons_of_mem _ he))]
    rfl

theorem keysSorted_head {a : String × GoVal} {l : List (String × GoVal)}
    (h : keysSorted (a :: l) = true) : ∀ e ∈ l, a.1 < e.1 := by
  induction l generalizing a with
  | nil => simp
  | cons b t ih =>
    rw [keysSorted, Bool.and_eq_true, decide_eq_true_eq] at h
    intro e he
    rcases List.mem_cons.mp he with rfl | he'
    · exact h.1
    · exact lt_trans h.1 (ih h.2 e he')

theorem keysSorted_tail {a : String × GoVal} {l : List (String × GoVal)}
    (h : keysSorted (a :: l) = true) : keysSorted l = true := by
  cases l with
  | nil => rfl
  | cons b t =>
    rw [keysSorted, Bool.and_eq_true] at h
    exact h.2

theorem foldl_insKV_aux (m : List (String × GoVal)) :
    ∀ acc, keysSorted m = true → (∀ e ∈ acc, ∀ e' ∈ m, e.1 < e'.1) →
    m.foldl (fun a e => insKV e.1 e.2 a) acc = acc ++ m := by
  induction m with
  | nil => intro acc _ _; simp
  | cons hd t ih =>
    intro acc hs hlt
    show t.foldl (fun a e => insKV e.1 e.2 a) (insKV hd.1 hd.2 acc) = _
    rw [insKV_gt hd.1 hd.2 acc (fun e he => hlt e he hd (List.mem_cons_self _ _))]
    rw [ih (acc ++ [(hd.1, hd.2)]) (keysSorted_tail hs) ?_]
    · simp
    · intro e he e' he'
      rcases List.mem_append.mp he with h | h
      · exact hlt e h e' (List.mem_cons_of_mem _ he')
      · simp at h
        rw [h]
        exact keysSorted_head hs e' he'

theorem foldl_insKV_sorted (m : List (String × GoVal))
    (hs : keysSorted m = true) :
    m.foldl (fun a e => insKV e.1 e.2 a) [] = m := by
  simpa using foldl_insKV_aux m [] hs (by simp)

/-! ## The interface-value codec round trip -/

theorem insKV_lt (k : String) (v : GoVal) (l : List (String × GoVal))
    (h : ∀ e ∈ l, k < e.1) : insKV k v l = (k, v) :: l := by
  cases l with
  | nil => rfl
  | cons hd t => rw [insKV, if_pos (h hd (List.mem_cons_self _ _))]

theorem encGoVal_length_pos (reg : Reg) (v : GoVal) (w : List Nat)
    (h : encGoVal reg v = .ok w) : 1 ≤ w.length := by
  have hifa : ∀ (n : String) (b : List Nat), 1 ≤ (ifaceWire n b).length := by
    intro n b
    have := encU_length_pos n.length
    simp only [ifaceWire, encStr, List.length_append]
    omega
  cases v with
  | vNil =>
    simp only [encGoVal, Except.ok.injEq] at h
    subst h
    exact encU_length_pos 0
  | vString s => simp only [encGoVal, Except.ok.injEq] at h; subst h; exact hifa _ _
  | vBool b => simp only [encGoVal, Except.ok.injEq] at h; subst h; exact hifa _ _
  | vInt i => simp only [encGoVal, Except.ok.injEq] at h; subst h; exact hifa _ _
  | vMap m =>
    rw [encGoVal] at h
    split at h
    · split at h
      · exact absurd h (by simp)
      · simp only [Except.ok.injEq] at h; subst h; exact hifa _ _
    · exact absurd h (by simp)
  | vSlice xs =>
    rw [encGoVal] at h
    split at h
    · split at h
      · exact absurd h (by simp)
      · simp only [Except.ok.injEq] at h; subst h; exact hifa _ _
    · exact absurd h (by simp)
  | vCustom n p =>
    rw [encGoVal] at h
    split at h
    · simp only [Except.ok.injEq] at h; subst h; exact hifa _ _
    · exact absurd h (by simp)

theorem ifaceWire_length (nm : String) (b : List Nat) :
    (ifaceWire nm b).length = (encStr nm).length + (encU b.length).length + b.length := by
  simp only [ifaceWire, List.length_append]

theorem decGoVal_frame (reg : Reg) (fu : Nat) (name : String) (body rest : List Nat)
    (h0 : ¬name = "") (h1 : name.length < 2 ^ 64) (h2 : body.length < 2 ^ 64) :
    decGoVal reg (fu + 1) (ifaceWire name body ++ rest) =
      match decIface reg fu name body with
      | .error e => .error e
      | .ok v => .ok (v, rest) := by
  rw [decGoVal, ifaceWire, List.append_assoc, List.append_assoc,
    decStr_encStr name h1]
  show (if name = "" then _ else _) = _
  rw [if_neg h0, decU_encU body.length h2]
  show (if (body ++ rest).length < body.length then _ else _) = _
  rw [if_neg (by simp)]
  rw [List.take_left, List.drop_left]

theorem decIface_string (reg : Reg) (fu : Nat) (s : String)
    (hs : s.length < 2 ^ 64) :
    decIface reg fu "string" (encU 1 ++ encStr s) = .ok (.vString s) := by
  rw [decIface, if_pos rfl, decU_encU 1 (by norm_num)]
  show (if 1 = 1 then _ else _) = _
  rw [if_pos rfl, ← List.append_nil (encStr s), decStr_encStr s hs]
  rfl

theorem decIface_bool (reg : Reg) (fu : Nat) (b : Bool) :
    decIface reg fu "bool" (encU 1 ++ encU (if b then 1 else 0)) = .ok (.vBool b) := by
  rw [decIface, if_neg (by decide), if_pos rfl, decU_encU 1 (by norm_num)]
  show (if 1 = 1 then _ else _) = _
  rw [if_pos rfl, ← List.append_nil (encU (if b then 1 else 0)),
    decU_encU (if b then 1 else 0) (by split <;> norm_num)]
  cases b <;> rfl

theorem decIface_int (reg : Reg) (fu : Nat) (i : Int)
    (h1 : -(2 ^ 63) ≤ i) (h2 : i < 2 ^ 63) :
    decIface reg fu "int" (encU 1 ++ encS i) = .ok (.vInt i) := by
  rw [decIface, if_neg (by decide), if_neg (by decide), if_pos rfl,
    decU_encU 1 (by norm_num)]
  show (if 1 = 1 then _ else _) = _
  rw [if_pos rfl, ← List.append_nil (encS i), decS_encS i h1 h2]
  rfl

theorem decIface_map (reg : Reg) (fu : Nat) (m : List (String × GoVal))
    (hreg : mapAnyName ∈ reg) (n : Nat) (hn : n < 2 ^ 64) (b2 : List Nat)
    (hp : decPairs reg fu n b2 = .ok (m, [])) :
    decIface reg fu mapAnyName (encU 1 ++ (encU n ++ b2)) = .ok (.vMap m) := by
  rw [decIface, if_neg (by decide), if_neg (by decide), if_neg (by decide),
    if_pos rfl, if_pos hreg, decU_encU 1 (by norm_num)]
  show (if 1 = 1 then _ else _) = _
  rw [if_pos rfl, decU_encU n hn]
  show (match decPairs reg fu n b2 with
    | Except.error e => Except.error e
    | Except.ok (m, b3) =>
      if b3 = [] then Except.ok (GoVal.vMap m) else Except.error DecErr.extraData) = _
  rw [hp]
  rfl

theorem decIface_slice (reg : Reg) (fu : Nat) (xs : List GoVal)
    (hreg : sliceAnyName ∈ reg) (n : Nat) (hn : n < 2 ^ 64) (b2 : List Nat)
    (hp : decElemsD reg fu n b2 = .ok (xs, [])) :
    decIface reg fu sliceAnyName (encU 1 ++ (encU n ++ b2)) = .ok (.vSlice xs) := by
  rw [decIface, if_neg (by decide), if_neg (by decide), if_neg (by decide),
    if_neg (by decide), if_pos rfl, if_pos hreg, decU_encU 1 (by norm_num)]
  show (if 1 = 1 then _ else _) = _
  rw [if_pos rfl, decU_encU n hn]
  show (match decElemsD reg fu n b2 with
    | Except.error e => Except.error e
    | Except.ok (xs, b3) =>
      if b3 = [] then Except.ok (GoVal.vSlice xs) else Except.error DecErr.extraData) = _
  rw [hp]
  rfl

theorem decIface_custom (reg : Reg) (fu : Nat) (nm : String) (p : List Nat)
    (hreg : nm ∈ reg) (hn1 : ¬nm = "string") (hn2 : ¬nm = "bool")
    (hn3 : ¬nm = "int") (hn4 : ¬nm = mapAnyName) (hn5 : ¬nm = sliceAnyName) :
    decIface reg fu nm p = .ok (.vCustom nm p) := by
  rw [decIface, if_neg hn1, if_neg hn2, if_neg hn3, if_neg hn4, if_neg hn5,
    if_pos hreg]

theorem encPairs_length_ge (reg : Reg) :
    ∀ (m : List (String × GoVal)) (body : List Nat),
    encPairs reg m = .ok body → m.length ≤ body.length := by
  intro m
  induction m with
  | nil => intro body h; simp only [encPairs, Except.ok.injEq] at h; subst h; simp
  | cons hd t ih =>
    intro body h
    obtain ⟨k, v⟩ := hd
    rw [encPairs] at h
    cases hv : encGoVal reg v with
    | error e => rw [hv] at h; exact absurd h (by simp)
    | ok vb =>
      rw [hv] at h
      cases ht : encPairs reg t with
      | error e => rw [ht] at h; exact absurd h (by simp)
      | ok tb =>
        rw [ht] at h
        simp only [Except.ok.injEq] at h
        subst h
        have h1 := ih tb ht
        have h2 := encStr_length_ge k
        simp only [List.length_append, List.length_cons]
        omega

theorem encElems_length_ge (reg : Reg) :
    ∀ (xs : List GoVal) (body : List Nat),
    encElems reg xs = .ok body → xs.length ≤ body.length := by
  intro xs
  induction xs with
  | nil => intro body h; simp only [encElems, Except.ok.injEq] at h; subst h; simp
  | cons v t ih =>
    intro body h
    rw [encElems] at h
    cases hv : encGoVal reg v with
    | error e => rw [hv] at h; exact absurd h (by simp)
    | ok vb =>
      rw [hv] at h
      cases ht : encElems reg t with
      | error e => rw [ht] at h; exact absurd h (by simp)
      | ok tb =>
        rw [ht] at h
        simp only [Except.ok.injEq] at h
        subst h
        have h1 := ih tb ht
        have h2 := encGoVal_length_pos reg v vb hv
        simp only [List.length_append, List.length_cons]
        omega

theorem decPairs_enc_aux (reg reg' : Reg) (fu : Nat)
    (IH : ∀ (v : GoVal) (w rest : List Nat), encGoVal reg v = .ok w →
      wfGoVal v = true → namesOKV reg' v = true → w.length ≤ fu → w.length ≤ 2 ^ 63 →
      decGoVal reg' fu (w ++ rest) = .ok (v, rest)) :
    ∀ (m : List (String × GoVal)) (body : List Nat),
    encPairs reg m = .ok body → keysSorted m = true → wfPairs m = true →
    namesOKPairs reg' m = true →
    body.length ≤ fu → body.length ≤ 2 ^ 63 →
    ∀ rest, decPairs reg' fu m.length (body ++ rest) = .ok (m, rest) := by
  intro m
  induction m with
  | nil =>
    intro body henc _ _ _ _ _ rest
    simp only [encPairs, Except.ok.injEq] at henc
    subst henc
    simp [decPairs]
  | cons hd t ih =>
    intro body henc hsort hwf hnm hfu h63 rest
    obtain ⟨k, v⟩ := hd
    rw [encPairs] at henc
    cases hv : encGoVal reg v with
    | error e => rw [hv] at henc; exact absurd henc (by simp)
    | ok vb =>
      rw [hv] at henc
      cases ht : encPairs reg t with
      | error e => rw [ht] at henc; exact absurd henc (by simp)
      | ok tb =>
        rw [ht] at henc
        simp only [Except.ok.injEq] at henc
        subst henc
        have hlen : (encStr k ++ vb ++ tb).length =
            (encStr k).length + vb.length + tb.length := by
          simp only [List.length_append]
        have hk : k.length < 2 ^ 64 := by
          have := encStr_length_ge k
          omega
        simp only [wfPairs, Bool.and_eq_true] at hwf
        simp only [namesOKPairs, Bool.and_eq_true] at hnm
        show decPairs reg' fu (t.length + 1) ((encStr k ++ vb ++ tb) ++ rest) = _
        rw [decPairs, List.append_assoc, List.append_assoc, decStr_encStr k hk]
        show (match decGoVal reg' fu (vb ++ (tb ++ rest)) with
          | Except.error e => Except.error e
          | Except.ok (v, r1) =>
            match decPairs reg' fu t.length r1 with
            | Except.error e => Except.error e
            | Except.ok (m, r2) => Except.ok (insKV k v m, r2)) = _
        rw [IH v vb (tb ++ rest) hv hwf.1 hnm.1 (by omega) (by omega)]
        show (match decPairs reg' fu t.length (tb ++ rest) with
          | Except.error e => Except.error e
          | Except.ok (m, r2) => Except.ok (insKV k v m, r2)) = _
        rw [ih tb ht (keysSorted_tail hsort) hwf.2 hnm.2 (by omega) (by omega) rest]
        show Except.ok (insKV k v t, rest) = _
        rw [insKV_lt k v t (keysSorted_head hsort)]

theorem decElemsD_enc_aux (reg reg' : Reg) (fu : Nat)
    (IH : ∀ (v : GoVal) (w rest : List Nat), encGoVal reg v = .ok w →
      wfGoVal v = true → namesOKV reg' v = true → w.length ≤ fu → w.length ≤ 2 ^ 63 →
      decGoVal reg' fu (w ++ rest) = .ok (v, rest)) :
    ∀ (xs : List GoVal) (body : List Nat),
    encElems reg xs = .ok body → wfElems xs = true →
    namesOKElems reg' xs = true →
    body.length ≤ fu → body.length ≤ 2 ^ 63 →
    ∀ rest, decElemsD reg' fu xs.length (body ++ rest) = .ok (xs, rest) := by
  intro xs
  induction xs with
  | nil =>
    intro body henc _ _ _ _ rest
    simp only [encElems, Except.ok.injEq] at henc
    subst henc
    simp [decElemsD]
  | cons v t ih =>
    intro body henc hwf hnm hfu h63 rest
    rw [encElems] at henc
    cases hv : encGoVal reg v with
    | error e => rw [hv] at henc; exact absurd henc (by simp)
    | ok vb =>
      rw [hv] at henc
      cases ht : encElems reg t with
      | error e => rw [ht] at henc; exact absurd henc (by simp)
      | ok tb =>
        rw [ht] at henc
        simp only [Except.ok.injEq] at henc
        subst henc
        have hlen : (vb ++ tb).length = vb.length + tb.length := by
          simp only [List.length_append]
        simp only [wfElems, Bool.and_eq_true] at hwf
        simp only [namesOKElems, Bool.and_eq_true] at hnm
        show decElemsD reg' fu (t.length + 1) ((vb ++ tb) ++ rest) = _
        rw [decElemsD, List.append_assoc]
        rw [IH v vb (tb ++ rest) hv hwf.1 hnm.1 (by omega) (by omega)]
        show (match decElemsD reg' fu t.length (tb ++ rest) with
          | Except.error e => Except.error e
          | Except.ok (xs, r1) => Except.ok (v :: xs, r1)) = _
        rw [ih tb ht hwf.2 hnm.2 (by omega) (by omega) rest]

theorem decGoVal_enc (reg reg' : Reg) :
    ∀ (fuel : Nat) (v : GoVal) (w rest : List Nat),
    encGoVal reg v = .ok w → wfGoVal v = true → namesOKV reg' v = true →
    w.length ≤ fuel → w.length ≤ 2 ^ 63 →
    decGoVal reg' fuel (w ++ rest) = .ok (v, rest) := by
  intro fuel
  induction fuel using Nat.strong_induction_on with
  | _ fuel IH =>
    intro v w rest henc hwf hnm hfu h63
    have hw1 : 1 ≤ w.length := encGoVal_length_pos reg v w henc
    cases fuel with
    | zero => omega
    | succ fu =>
      have IHfu : ∀ (v : GoVal) (w rest : List Nat), encGoVal reg v = .ok w →
          wfGoVal v = true → namesOKV reg' v = true → w.length ≤ fu → w.length ≤ 2 ^ 63 →
          decGoVal reg' fu (w ++ rest) = .ok (v, rest) :=
        fun v w rest h1 h2 h3 h4 h5 => IH fu (by omega) v w rest h1 h2 h3 h4 h5
      cases v with
      | vNil =>
        simp only [encGoVal, Except.ok.injEq] at henc
        subst henc
        show decGoVal reg' (fu + 1) (0 :: rest) = _
        rw [decGoVal]
        have hds : decStr (0 :: rest) = .ok ("", rest) := by
          show decStr (encStr "" ++ rest) = _
          exact decStr_encStr "" (by decide) rest
        rw [hds]
        rfl
      | vString s =>
        simp only [encGoVal, Except.ok.injEq] at henc
        subst henc
        have h1 := ifaceWire_length "string" (encU 1 ++ encStr s)
        have h2 := encStr_length_ge "string"
        have h3 := encU_length_pos (encU 1 ++ encStr s).length
        have h5 : (encU 1 ++ encStr s).length = (encU 1).length + (encStr s).length := by
          simp only [List.length_append]
        have h6 := encU_length_pos 1
        have hb : (encU 1 ++ encStr s).length ≤ 2 ^ 63 := by omega
        have hs : s.length < 2 ^ 64 := by
          have h4 := encStr_length_ge s
          omega
        rw [decGoVal_frame reg' fu "string" _ rest (by decide) (by decide) (by omega),
          decIface_string reg' fu s hs]
      | vBool b =>
        simp only [encGoVal, Except.ok.injEq] at henc
        subst henc
        have h1 := ifaceWire_length "bool" (encU 1 ++ encU (if b then 1 else 0))
        have h2 := encStr_length_ge "bool"
        have h3 := encU_length_pos (encU 1 ++ encU (if b then 1 else 0)).length
        rw [decGoVal_frame reg' fu "bool" _ rest (by decide) (by decide) (by omega),
          decIface_bool reg' fu b]
      | vInt i =>
        simp only [encGoVal, Except.ok.injEq] at henc
        subst henc
        rw [wfGoVal, decide_eq_true_eq] at hwf
        have h1 := ifaceWire_length "int" (encU 1 ++ encS i)
        have h2 := encStr_length_ge "int"
        have h3 := encU_length_pos (encU 1 ++ encS i).length
        rw [decGoVal_frame reg' fu "int" _ rest (by decide) (by decide) (by omega),
          decIface_int reg' fu i hwf.1 hwf.2]
      | vMap m =>
        rw [encGoVal] at henc
        by_cases hreg : mapAnyName ∈ reg
        · rw [if_pos hreg] at henc
          cases hpb : encPairs reg m with
          | error e => rw [hpb] at henc; exact absurd henc (by simp)
          | ok pb =>
            rw [hpb] at henc
            simp only [Except.ok.injEq] at henc
            subst henc
            rw [wfGoVal, Bool.and_eq_true] at hwf
            rw [namesOKV, Bool.and_eq_true, decide_eq_true_eq] at hnm
            have hwlen := ifaceWire_length mapAnyName (encU 1 ++ encU m.length ++ pb)
            have hwlen2 : (encU 1 ++ encU m.length ++ pb).length =
                (encU 1).length + (encU m.length).length + pb.length := by
              simp only [List.length_append]
            have hsn := encStr_length_ge mapAnyName
            have hu1 := encU_length_pos (encU 1 ++ encU m.length ++ pb).length
            have hu2 := encU_length_pos 1
            have hu3 := encU_length_pos m.length
            have hml := encPairs_length_ge reg m pb hpb
            rw [decGoVal_frame reg' fu mapAnyName _ rest (by decide) (by decide)
              (by omega)]
            rw [List.append_assoc]
            rw [← List.append_nil pb]
            rw [decIface_map reg' fu m hnm.1 m.length (by omega) (pb ++ [])
              (by rw [List.append_nil]
                  have := decPairs_enc_aux reg reg' fu IHfu m pb hpb hwf.1 hwf.2
                    hnm.2 (by omega) (by omega) []
                  rwa [List.append_nil] at this)]
        · rw [if_neg hreg] at henc
          exact absurd henc (by simp)
      | vSlice xs =>
        rw [encGoVal] at henc
        by_cases hreg : sliceAnyName ∈ reg
        · rw [if_pos hreg] at henc
          cases hpb : encElems reg xs with
          | error e => rw [hpb] at henc; exact absurd henc (by simp)
          | ok pb =>
            rw [hpb] at henc
            simp only [Except.ok.injEq] at henc
            subst henc
            rw [wfGoVal] at hwf
            rw [namesOKV, Bool.and_eq_true, decide_eq_true_eq] at hnm
            have hwlen := ifaceWire_length sliceAnyName (encU 1 ++ encU xs.length ++ pb)
            have hwlen2 : (encU 1 ++ encU xs.length ++ pb).length =
                (encU 1).length + (encU xs.length).length + pb.length := by
              simp only [List.length_append]
            have hsn := encStr_length_ge sliceAnyName
            have hu1 := encU_length_pos (encU 1 ++ encU xs.length ++ pb).length
            have hu2 := encU_length_pos 1
            have hu3 := encU_length_pos xs.length
            have hml := encElems_length_ge reg xs pb hpb
            rw [decGoVal_frame reg' fu sliceAnyName _ rest (by decide) (by decide)
              (by omega)]
            rw [List.append_assoc]
            rw [← List.append_nil pb]
            rw [decIface_slice reg' fu xs hnm.1 xs.length (by omega) (pb ++ [])
              (by rw [List.append_nil]
                  have := decElemsD_enc_aux reg reg' fu IHfu xs pb hpb hwf
                    hnm.2 (by omega) (by omega) []
                  rwa [List.append_nil] at this)]
        · rw [if_neg hreg] at henc
          exact absurd henc (by simp)
      | vCustom nm p =>
        rw [encGoVal] at henc
        by_cases hreg : nm ∈ reg
        · rw [if_pos hreg] at henc
          simp only [Except.ok.injEq] at henc
          subst henc
          rw [wfGoVal, decide_eq_true_eq] at hwf
          obtain ⟨h1, h2, h3, h4, h5, h6⟩ := hwf
          rw [namesOKV, decide_eq_true_eq] at hnm
          have ha := encStr_length_ge nm
          have hb := ifaceWire_length nm p
          have hc := encU_length_pos p.length
          have hnmL : nm.length < 2 ^ 64 := by omega
          rw [decGoVal_frame reg' fu nm _ rest h1 hnmL (by omega),
            decIface_custom reg' fu nm p hnm h2 h3 h4 h5 h6]
        · rw [if_neg hreg] at henc
          exact absurd henc (by simp)

mutual

/-- A successful interface-value encode means every name it uses is
available. -/
theorem encGoVal_namesOK (reg : Reg) (v : GoVal) (w : List Nat)
    (h : encGoVal reg v = .ok w) : namesOKV reg v = true := by
  cases v with
  | vNil => rfl
  | vString s => rfl
  | vBool b => rfl
  | vInt i => rfl
  | vMap m =>
    rw [encGoVal] at h
    by_cases hreg : mapAnyName ∈ reg
    · rw [if_pos hreg] at h
      cases hp : encPairs reg m with
      | error e => rw [hp] at h; exact absurd h (by simp)
      | ok pb =>
        rw [namesOKV, Bool.and_eq_true, decide_eq_true_eq]
        exact ⟨hreg, encPairs_namesOK reg m pb hp⟩
    · rw [if_neg hreg] at h
      exact absurd h (by simp)
  | vSlice xs =>
    rw [encGoVal] at h
    by_cases hreg : sliceAnyName ∈ reg
    · rw [if_pos hreg] at h
      cases hp : encElems reg xs with
      | error e => rw [hp] at h; exact absurd h (by simp)
      | ok pb =>
        rw [namesOKV, Bool.and_eq_true, decide_eq_true_eq]
        exact ⟨hreg, encElems_namesOK reg xs pb hp⟩
    · rw [if_neg hreg] at h
      exact absurd h (by simp)
  | vCustom nm p =>
    rw [encGoVal] at h
    by_cases hreg : nm ∈ reg
    · rw [namesOKV, decide_eq_true_eq]; exact hreg
    · rw [if_neg hreg] at h
      exact absurd h (by simp)

/-- Name availability extracted from a successful map-entry encode. -/
theorem encPairs_namesOK (reg : Reg) (m : List (String × GoVal)) (w : List Nat)
    (h : encPairs reg m = .ok w) : namesOKPairs reg m = true := by
  cases m with
  | nil => rfl
  | cons hd t =>
    rw [encPairs] at h
    cases hv : encGoVal reg hd.2 with
    | error e => rw [hv] at h; exact absurd h (by simp)
    | ok vb =>
      rw [hv] at h
      cases ht : encPairs reg t with
      | error e => rw [ht] at h; exact absurd h (by simp)
      | ok tb =>
        show (namesOKV reg hd.2 && namesOKPairs reg t) = true
        rw [Bool.and_eq_true]
        exact ⟨encGoVal_namesOK reg hd.2 vb hv, encPairs_namesOK reg t tb ht⟩

/-- Name availability extracted from a successful slice-element encode. -/
theorem encElems_namesOK (reg : Reg) (xs : List GoVal) (w : List Nat)
    (h : encElems reg xs = .ok w) : namesOKElems reg xs = true := by
  cases xs with
  | nil => rfl
  | cons v t =>
    rw [encElems] at h
    cases hv : encGoVal reg v with
    | error e => rw [hv] at h; exact absurd h (by simp)
    | ok vb =>
      rw [hv] at h
      cases ht : encElems reg t with
      | error e => rw [ht] at h; exact absurd h (by simp)
      | ok tb =>
        rw [namesOKElems, Bool.and_eq_true]
        exact ⟨encGoVal_namesOK reg v vb hv, encElems_namesOK reg t tb ht⟩

end

mutual

/-- With every used name available, an interface-value encode succeeds. -/
theorem encGoVal_total (reg : Reg) (v : GoVal) (h : namesOKV reg v = true) :
    ∃ w, encGoVal reg v = .ok w := by
  cases v with
  | vNil => exact ⟨_, rfl⟩
  | vString s => exact ⟨_, rfl⟩
  | vBool b => exact ⟨_, rfl⟩
  | vInt i => exact ⟨_, rfl⟩
  | vMap m =>
    rw [namesOKV, Bool.and_eq_true, decide_eq_true_eq] at h
    obtain ⟨pb, hpb⟩ := encPairs_total reg m h.2
    exact ⟨_, by rw [encGoVal, if_pos h.1, hpb]⟩
  | vSlice xs =>
    rw [namesOKV, Bool.and_eq_true, decide_eq_true_eq] at h
    obtain ⟨pb, hpb⟩ := encElems_total reg xs h.2
    exact ⟨_, by rw [encGoVal, if_pos h.1, hpb]⟩
  | vCustom nm p =>
    rw [namesOKV, decide_eq_true_eq] at h
    exact ⟨_, by rw [encGoVal, if_pos h]⟩

/-- With every used name available, a map-entry encode succeeds. -/
theorem encPairs_total (reg : Reg) (m : List (String × GoVal))
    (h : namesOKPairs reg m = true) : ∃ w, encPairs reg m = .ok w := by
  cases m with
  | nil => exact ⟨[], rfl⟩
  | cons hd t =>
    have h' : (namesOKV reg hd.2 && namesOKPairs reg t) = true := h
    rw [Bool.and_eq_true] at h'
    obtain ⟨vb, hvb⟩ := encGoVal_total reg hd.2 h'.1
    obtain ⟨tb, htb⟩ := encPairs_total reg t h'.2
    exact ⟨_, by rw [encPairs, hvb, htb]⟩

/-- With every used name available, a slice-element encode succeeds. -/
theorem encElems_total (reg : Reg) (xs : List GoVal)
    (h : namesOKElems reg xs = true) : ∃ w, encElems reg xs = .ok w := by
  cases xs with
  | nil => exact ⟨[], rfl⟩
  | cons v t =>
    rw [namesOKElems, Bool.and_eq_true] at h
    obtain ⟨vb, hvb⟩ := encGoVal_total reg v h.1
    obtain ⟨tb, htb⟩ := encElems_total reg t h.2
    exact ⟨_, by rw [encElems, hvb, htb]⟩

end

mutual

/-- When some used name is unavailable, an interface-value encode fails with
gob's "type not registered for interface" error naming an unregistered
name. -/
theorem encGoVal_err (reg : Reg) (v : GoVal) (h : namesOKV reg v = false) :
    ∃ nm, ¬nm ∈ reg ∧ encGoVal reg v = .error (.typeNotRegistered nm) := by
  cases v with
  | vNil => exact absurd h (by simp [namesOKV])
  | vString s => exact absurd h (by simp [namesOKV])
  | vBool b => exact absurd h (by simp [namesOKV])
  | vInt i => exact absurd h (by simp [namesOKV])
  | vMap m =>
    rw [namesOKV, Bool.and_eq_false_iff] at h
    by_cases hreg : mapAnyName ∈ reg
    · have hm : namesOKPairs reg m = false := by
        rcases h with h | h
        · exact absurd h (by simp [hreg])
        · exact h
      obtain ⟨nm, hnm, he⟩ := encPairs_err reg m hm
      refine ⟨nm, hnm, ?_⟩
      rw [encGoVal, if_pos hreg, he]
    · refine ⟨mapAnyName, hreg, ?_⟩
      rw [encGoVal, if_neg hreg]
  | vSlice xs =>
    rw [namesOKV, Bool.and_eq_false_iff] at h
    by_cases hreg : sliceAnyName ∈ reg
    · have hm : namesOKElems reg xs = false := by
        rcases h with h | h
        · exact absurd h (by simp [hreg])
        · exact h
      obtain ⟨nm, hnm, he⟩ := encElems_err reg xs hm
      refine ⟨nm, hnm, ?_⟩
      rw [encGoVal, if_pos hreg, he]
    · refine ⟨sliceAnyName, hreg, ?_⟩
      rw [encGoVal, if_neg hreg]
  | vCustom nm p =>
    rw [namesOKV, decide_eq_false_iff_not] at h
    exact ⟨nm, h, by rw [encGoVal, if_neg h]⟩

/-- When some used name is unavailable, a map-entry encode fails with the
"type not registered" error. -/
theorem encPairs_err (reg : Reg) (m : List (String × GoVal))
    (h : namesOKPairs reg m = false) :
    ∃ nm, ¬nm ∈ reg ∧ encPairs reg m = .error (.typeNotRegistered nm) := by
  cases m with
  | nil => exact absurd h (by simp [namesOKPairs])
  | cons hd t =>
    have h' : (namesOKV reg hd.2 && namesOKPairs reg t) = false := h
    rw [Bool.and_eq_false_iff] at h'
    by_cases hv : namesOKV reg hd.2 = false
    · obtain ⟨nm, hnm, he⟩ := encGoVal_err reg hd.2 hv
      exact ⟨nm, hnm, by rw [encPairs, he]⟩
    · have hvt : namesOKV reg hd.2 = true := by
        cases hb : namesOKV reg hd.2
        · exact absurd hb hv
        · rfl
      have ht : namesOKPairs reg t = false := by
        rcases h' with h' | h'
        · exact absurd h' hv
        · exact h'
      obtain ⟨vb, hvb⟩ := encGoVal_total reg hd.2 hvt
      obtain ⟨nm, hnm, he⟩ := encPairs_err reg t ht
      exact ⟨nm, hnm, by rw [encPairs, hvb, he]⟩

/-- When some used name is unavailable, a slice-element encode fails with the
"type not registered" error. -/
theorem encElems_err (reg : Reg) (xs : List GoVal)
    (h : namesOKElems reg xs = false) :
    ∃ nm, ¬nm ∈ reg ∧ encElems reg xs = .error (.typeNotRegistered nm) := by
  cases xs with
  | nil => exact absurd h (by simp [namesOKElems])
  | cons v t =>
    rw [namesOKElems, Bool.and_eq_false_iff] at h
    by_cases hv : namesOKV reg v = false
    · obtain ⟨nm, hnm, he⟩ := encGoVal_err reg v hv
      exact ⟨nm, hnm, by rw [encElems, he]⟩
    · have hvt : namesOKV reg v = true := by
        cases hb : namesOKV reg v
        · exact absurd hb hv
        · rfl
      have ht : namesOKElems reg t = false := by
        rcases h with h | h
        · exact absurd h hv
        · exact h
      obtain ⟨vb, hvb⟩ := encGoVal_total reg v hvt
      obtain ⟨nm, hnm, he⟩ := encElems_err reg t ht
      exact ⟨nm, hnm, by rw [encElems, hvb, he]⟩

end

theorem decIface_map_unreg (reg' : Reg) (fu : Nat) (b : List Nat)
    (h : ¬mapAnyName ∈ reg') :
    decIface reg' fu mapAnyName b = .error (.nameNotRegistered mapAnyName) := by
  rw [decIface, if_neg (by decide), if_neg (by decide), if_neg (by decide),
    if_pos rfl, if_neg h]

theorem decIface_slice_unreg (reg' : Reg) (fu : Nat) (b : List Nat)
    (h : ¬sliceAnyName ∈ reg') :
    decIface reg' fu sliceAnyName b = .error (.nameNotRegistered sliceAnyName) := by
  rw [decIface, if_neg (by decide), if_neg (by decide), if_neg (by decide),
    if_neg (by decide), if_pos rfl, if_neg h]

theorem decIface_custom_unreg (reg' : Reg) (fu : Nat) (nm : String) (p : List Nat)
    (h : ¬nm ∈ reg') (hn1 : ¬nm = "string") (hn2 : ¬nm = "bool")
    (hn3 : ¬nm = "int") (hn4 : ¬nm = mapAnyName) (hn5 : ¬nm = sliceAnyName) :
    decIface reg' fu nm p = .error (.nameNotRegistered nm) := by
  rw [decIface, if_neg hn1, if_neg hn2, if_neg hn3, if_neg hn4, if_neg hn5,
    if_neg h]

theorem decIface_map_err (reg' : Reg) (fu : Nat) (hreg : mapAnyName ∈ reg')
    (n : Nat) (hn : n < 2 ^ 64) (b2 : List Nat) (e : DecErr)
    (hp : decPairs reg' fu n b2 = .error e) :
    decIface reg' fu mapAnyName (encU 1 ++ (encU n ++ b2)) = .error e := by
  rw [decIface, if_neg (by decide), if_neg (by decide), if_neg (by decide),
    if_pos rfl, if_pos hreg, decU_encU 1 (by norm_num)]
  show (if 1 = 1 then _ else _) = _
  rw [if_pos rfl, decU_encU n hn]
  show (match decPairs reg' fu n b2 with
    | Except.error e => Except.error e
    | Except.ok (m, b3) =>
      if b3 = [] then Except.ok (GoVal.vMap m) else Except.error DecErr.extraData) = _
  rw [hp]

theorem decIface_slice_err (reg' : Reg) (fu : Nat) (hreg : sliceAnyName ∈ reg')
    (n : Nat) (hn : n < 2 ^ 64) (b2 : List Nat) (e : DecErr)
    (hp : decElemsD reg' fu n b2 = .error e) :
    decIface reg' fu sliceAnyName (encU 1 ++ (encU n ++ b2)) = .error e := by
  rw [decIface, if_neg (by decide), if_neg (by decide), if_neg (by decide),
    if_neg (by decide), if_pos rfl, if_pos hreg, decU_encU 1 (by norm_num)]
  show (if 1 = 1 then _ else _) = _
  rw [if_pos rfl, decU_encU n hn]
  show (match decElemsD reg' fu n b2 with
    | Except.error e => Except.error e
    | Except.ok (xs, b3) =>
      if b3 = [] then Except.ok (GoVal.vSlice xs) else Except.error DecErr.extraData) = _
  rw [hp]

theorem decPairs_unreg_aux (reg reg' : Reg) (N : Nat)
    (IHfail : ∀ (v : GoVal) (w : List Nat), encGoVal reg v = .ok w →
      wfGoVal v = true → namesOKV reg' v = false → w.length ≤ N →
      w.length ≤ 2 ^ 63 → ∃ nm, ¬nm ∈ reg' ∧ ∀ (fuel : Nat) (rest : List Nat),
        w.length ≤ fuel →
        decGoVal reg' fuel (w ++ rest) = .error (.nameNotRegistered nm)) :
    ∀ (m : List (String × GoVal)) (body : List Nat),
    encPairs reg m = .ok body → wfPairs m = true →
    namesOKPairs reg' m = false →
    body.length ≤ N → body.length ≤ 2 ^ 63 →
    ∃ nm, ¬nm ∈ reg' ∧ ∀ (fuel : Nat) (rest : List Nat), body.length ≤ fuel →
      decPairs reg' fuel m.length (body ++ rest) = .error (.nameNotRegistered nm) := by
  intro m
  induction m with
  | nil => intro body _ _ hnm _ _; exact absurd hnm (by simp [namesOKPairs])
  | cons hd t ih =>
    intro body henc hwf hnm hfu h63
    obtain ⟨k, v⟩ := hd
    rw [encPairs] at henc
    cases hv : encGoVal reg v with
    | error e => rw [hv] at henc; exact absurd henc (by simp)
    | ok vb =>
      rw [hv] at henc
      cases ht : encPairs reg t with
      | error e => rw [ht] at henc; exact absurd henc (by simp)
      | ok tb =>
        rw [ht] at henc
        simp only [Except.ok.injEq] at henc
        subst henc
        have hlen : (encStr k ++ vb ++ tb).length =
            (encStr k).length + vb.length + tb.length := by
          simp only [List.length_append]
        have hk : k.length < 2 ^ 64 := by
          have := encStr_length_ge k
          omega
        simp only [wfPairs, Bool.and_eq_true] at hwf
        simp only [namesOKPairs, Bool.and_eq_false_iff] at hnm
        by_cases hvn : namesOKV reg' v = false
        · obtain ⟨nm, hmem, hdec⟩ := IHfail v vb hv hwf.1 hvn (by omega) (by omega)
          refine ⟨nm, hmem, fun fuel rest hfuel => ?_⟩
          show decPairs reg' fuel (t.length + 1) ((encStr k ++ vb ++ tb) ++ rest) = _
          rw [decPairs, List.append_assoc, List.append_assoc, decStr_encStr k hk]
          show (match decGoVal reg' fuel (vb ++ (tb ++ rest)) with
            | Except.error e => Except.error e
            | Except.ok (v, r1) =>
              match decPairs reg' fuel t.length r1 with
              | Except.error e => Except.error e
              | Except.ok (m, r2) => Except.ok (insKV k v m, r2)) = _
          rw [hdec fuel (tb ++ rest) (by omega)]
        · have hvt : namesOKV reg' v = true := by
            cases hb : namesOKV reg' v
            · exact absurd hb hvn
            · rfl
          have htn : namesOKPairs reg' t = false := by
            rcases hnm with h | h
            · exact absurd h hvn
            · exact h
          obtain ⟨nm, hmem, hdec⟩ := ih tb ht hwf.2 htn (by omega) (by omega)
          refine ⟨nm, hmem, fun fuel rest hfuel => ?_⟩
          show decPairs reg' fuel (t.length + 1) ((encStr k ++ vb ++ tb) ++ rest) = _
          rw [decPairs, List.append_assoc, List.append_assoc, decStr_encStr k hk]
          show (match decGoVal reg' fuel (vb ++ (tb ++ rest)) with
            | Except.error e => Except.error e
            | Except.ok (v, r1) =>
              match decPairs reg' fuel t.length r1 with
              | Except.error e => Except.error e
              | Except.ok (m, r2) => Except.ok (insKV k v m, r2)) = _
          rw [decGoVal_enc reg reg' fuel v vb (tb ++ rest) hv hwf.1 hvt
            (by omega) (by omega)]
          show (match decPairs reg' fuel t.length (tb ++ rest) with
            | Except.error e => Except.error e
            | Except.ok (m, r2) => Except.ok (insKV k v m, r2)) = _
          rw [hdec fuel rest (by omega)]

theorem decElemsD_unreg_aux (reg reg' : Reg) (N : Nat)
    (IHfail : ∀ (v : GoVal) (w : List Nat), encGoVal reg v = .ok w →
      wfGoVal v = true → namesOKV reg' v = false → w.length ≤ N →
      w.length ≤ 2 ^ 63 → ∃ nm, ¬nm ∈ reg' ∧ ∀ (fuel : Nat) (rest : List Nat),
        w.length ≤ fuel →
        decGoVal reg' fuel (w ++ rest) = .error (.nameNotRegistered nm)) :
    ∀ (xs : List GoVal) (body : List Nat),
    encElems reg xs = .ok body → wfElems xs = true →
    namesOKElems reg' xs = false →
    body.length ≤ N → body.length ≤ 2 ^ 63 →
    ∃ nm, ¬nm ∈ reg' ∧ ∀ (fuel : Nat) (rest : List Nat), body.length ≤ fuel →
      decElemsD reg' fuel xs.length (body ++ rest) = .error (.nameNotRegistered nm) := by
  intro xs
  induction xs with
  | nil => intro body _ _ hnm _ _; exact absurd hnm (by simp [namesOKElems])
  | cons v t ih =>
    intro body henc hwf hnm hfu h63
    rw [encElems] at henc
    cases hv : encGoVal reg v with
    | error e => rw [hv] at henc; exact absurd henc (by simp)
    | ok vb =>
      rw [hv] at henc
      cases ht : encElems reg t with
      | error e => rw [ht] at henc; exact absurd henc (by simp)
      | ok tb =>
        rw [ht] at henc
        simp only [Except.ok.injEq] at henc
        subst henc
        have hlen : (vb ++ tb).length = vb.length + tb.length := by
          simp only [List.length_append]
        simp only [wfElems, Bool.and_eq_true] at hwf
        simp only [namesOKElems, Bool.and_eq_false_iff] at hnm
        by_cases hvn : namesOKV reg' v = false
        · obtain ⟨nm, hmem, hdec⟩ := IHfail v vb hv hwf.1 hvn (by omega) (by omega)
          refine ⟨nm, hmem, fun fuel rest hfuel => ?_⟩
          show decElemsD reg' fuel (t.length + 1) ((vb ++ tb) ++ rest) = _
          rw [decElemsD, List.append_assoc, hdec fuel (tb ++ rest) (by omega)]
        · have hvt : namesOKV reg' v = true := by
            cases hb : namesOKV reg' v
            · exact absurd hb hvn
            · rfl
          have htn : namesOKElems reg' t = false := by
            rcases hnm with h | h
            · exact absurd h hvn
            · exact h
          obtain ⟨nm, hmem, hdec⟩ := ih tb ht hwf.2 htn (by omega) (by omega)
          refine ⟨nm, hmem, fun fuel rest hfuel => ?_⟩
          show decElemsD reg' fuel (t.length + 1) ((vb ++ tb) ++ rest) = _
          rw [decElemsD, List.append_assoc,
            decGoVal_enc reg reg' fuel v vb (tb ++ rest) hv hwf.1 hvt
              (by omega) (by omega)]
          show (match decElemsD reg' fuel t.length (tb ++ rest) with
            | Except.error e => Except.error e
            | Except.ok (xs, r1) => Except.ok (v :: xs, r1)) = _
          rw [hdec fuel rest (by omega)]

/-- Decoding under registrations `reg'` an interface value that was encoded
under `reg` and uses a name unavailable to `reg'` fails with gob's "name not
registered for interface" error carrying an unregistered name — never a
silent substitution. -/
theorem decGoVal_unreg (reg reg' : Reg) :
    ∀ (n : Nat) (v : GoVal) (w : List Nat), w.length ≤ n →
    encGoVal reg v = .ok w → wfGoVal v = true → namesOKV reg' v = false →
    w.length ≤ 2 ^ 63 →
    ∃ nm, ¬nm ∈ reg' ∧ ∀ (fuel : Nat) (rest : List Nat), w.length ≤ fuel →
      decGoVal reg' fuel (w ++ rest) = .error (.nameNotRegistered nm) := by
  intro n
  induction n using Nat.strong_induction_on with
  | _ n IH =>
    intro v w hwn henc hwf hnm h63
    have hw1 : 1 ≤ w.length := encGoVal_length_pos reg v w henc
    have IHfail : ∀ (v : GoVal) (w : List Nat), encGoVal reg v = .ok w →
        wfGoVal v = true → namesOKV reg' v = false → w.length ≤ n - 1 →
        w.length ≤ 2 ^ 63 → ∃ nm, ¬nm ∈ reg' ∧ ∀ (fuel : Nat) (rest : List Nat),
          w.length ≤ fuel →
          decGoVal reg' fuel (w ++ rest) = .error (.nameNotRegistered nm) :=
      fun v w h1 h2 h3 h4 h5 => IH (n - 1) (by omega) v w h4 h1 h2 h3 h5
    cases v with
      | vNil => exact absurd hnm (by simp [namesOKV])
      | vString s => exact absurd hnm (by simp [namesOKV])
      | vBool b => exact absurd hnm (by simp [namesOKV])
      | vInt i => exact absurd hnm (by simp [namesOKV])
      | vMap m =>
        rw [encGoVal] at henc
        by_cases hreg : mapAnyName ∈ reg
        · rw [if_pos hreg] at henc
          cases hpb : encPairs reg m with
          | error e => rw [hpb] at henc; exact absurd henc (by simp)
          | ok pb =>
            rw [hpb] at henc
            simp only [Except.ok.injEq] at henc
            subst henc
            rw [wfGoVal, Bool.and_eq_true] at hwf
            rw [namesOKV, Bool.and_eq_false_iff] at hnm
            have hwlen := ifaceWire_length mapAnyName (encU 1 ++ encU m.length ++ pb)
            have hwlen2 : (encU 1 ++ encU m.length ++ pb).length =
                (encU 1).length + (encU m.length).length + pb.length := by
              simp only [List.length_append]
            have hsn := encStr_length_ge mapAnyName
            have hu1 := encU_length_pos (encU 1 ++ encU m.length ++ pb).length
            have hu2 := encU_length_pos 1
            have hu3 := encU_length_pos m.length
            have hml := encPairs_length_ge reg m pb hpb
            by_cases hreg' : mapAnyName ∈ reg'
            · have hpn : namesOKPairs reg' m = false := by
                rcases hnm with h | h
                · exact absurd h (by simp [hreg'])
                · exact h
              obtain ⟨nm, hmem, hdec⟩ := decPairs_unreg_aux reg reg' (n - 1) IHfail
                m pb hpb hwf.2 hpn (by omega) (by omega)
              refine ⟨nm, hmem, fun fuel rest hfuel => ?_⟩
              obtain ⟨fu, rfl⟩ : ∃ fu, fuel = fu + 1 := ⟨fuel - 1, by omega⟩
              rw [decGoVal_frame reg' fu mapAnyName _ rest (by decide) (by decide)
                (by omega)]
              rw [List.append_assoc, ← List.append_nil pb]
              rw [decIface_map_err reg' fu hreg' m.length (by omega) (pb ++ [])
                (.nameNotRegistered nm)
                (by rw [List.append_nil]
                    have := hdec fu [] (by omega)
                    rwa [List.append_nil] at this)]
            · refine ⟨mapAnyName, hreg', fun fuel rest hfuel => ?_⟩
              obtain ⟨fu, rfl⟩ : ∃ fu, fuel = fu + 1 := ⟨fuel - 1, by omega⟩
              rw [decGoVal_frame reg' fu mapAnyName _ rest (by decide) (by decide)
                (by omega)]
              rw [decIface_map_unreg reg' fu _ hreg']
        · rw [if_neg hreg] at henc
          exact absurd henc (by simp)
      | vSlice xs =>
        rw [encGoVal] at henc
        by_cases hreg : sliceAnyName ∈ reg
        · rw [if_pos hreg] at henc
          cases hpb : encElems reg xs with
          | error e => rw [hpb] at henc; exact absurd henc (by simp)
          | ok pb =>
            rw [hpb] at henc
            simp only [Except.ok.injEq] at henc
            subst henc
            rw [wfGoVal] at hwf
            rw [namesOKV, Bool.and_eq_false_iff] at hnm
            have hwlen := ifaceWire_length sliceAnyName (encU 1 ++ encU xs.length ++ pb)
            have hwlen2 : (encU 1 ++ encU xs.length ++ pb).length =
                (encU 1).length + (encU xs.length).length + pb.length := by
              simp only [List.length_append]
            have hsn := encStr_length_ge sliceAnyName
            have hu1 := encU_length_pos (encU 1 ++ encU xs.length ++ pb).length
            have hu2 := encU_length_pos 1
            have hu3 := encU_length_pos xs.length
            have hml := encElems_length_ge reg xs pb hpb
            by_cases hreg' : sliceAnyName ∈ reg'
            · have hpn : namesOKElems reg' xs = false := by
                rcases hnm with h | h
                · exact absurd h (by simp [hreg'])
                · exact h
              obtain ⟨nm, hmem, hdec⟩ := decElemsD_unreg_aux reg reg' (n - 1) IHfail
                xs pb hpb hwf hpn (by omega) (by omega)
              refine ⟨nm, hmem, fun fuel rest hfuel => ?_⟩
              obtain ⟨fu, rfl⟩ : ∃ fu, fuel = fu + 1 := ⟨fuel - 1, by omega⟩
              rw [decGoVal_frame reg' fu sliceAnyName _ rest (by decide) (by decide)
                (by omega)]
              rw [List.append_assoc, ← List.append_nil pb]
              rw [decIface_slice_err reg' fu hreg' xs.length (by omega) (pb ++ [])
                (.nameNotRegistered nm)
                (by rw [List.append_nil]
                    have := hdec fu [] (by omega)
                    rwa [List.append_nil] at this)]
            · refine ⟨sliceAnyName, hreg', fun fuel rest hfuel => ?_⟩
              obtain ⟨fu, rfl⟩ : ∃ fu, fuel = fu + 1 := ⟨fuel - 1, by omega⟩
              rw [decGoVal_frame reg' fu sliceAnyName _ rest (by decide) (by decide)
                (by omega)]
              rw [decIface_slice_unreg reg' fu _ hreg']
        · rw [if_neg hreg] at henc
          exact absurd henc (by simp)
      | vCustom nm p =>
        rw [encGoVal] at henc
        by_cases hreg : nm ∈ reg
        · rw [if_pos hreg] at henc
          simp only [Except.ok.injEq] at henc
          subst henc
          rw [wfGoVal, decide_eq_true_eq] at hwf
          obtain ⟨h1, h2, h3, h4, h5, h6⟩ := hwf
          rw [namesOKV, decide_eq_false_iff_not] at hnm
          have ha := encStr_length_ge nm
          have hb := ifaceWire_length nm p
          have hc := encU_length_pos p.length
          have hnmL : nm.length < 2 ^ 64 := by omega
          refine ⟨nm, hnm, fun fuel rest hfuel => ?_⟩
          obtain ⟨fu, rfl⟩ : ∃ fu, fuel = fu + 1 := ⟨fuel - 1, by omega⟩
          rw [decGoVal_frame reg' fu nm _ rest h1 hnmL (by omega),
            decIface_custom_unreg reg' fu nm p hnm h2 h3 h4 h5 h6]
        · rw [if_neg hreg] at henc
          exact absurd henc (by simp)

/-! ## Map-field and slice-field decode specifications -/

theorem dKVs_enc (reg reg' : Reg) :
    ∀ (m : List (String × GoVal)) (body : List Nat),
    encPairs reg m = .ok body → wfPairs m = true →
    namesOKPairs reg' m = true → body.length ≤ 2 ^ 63 →
    ∀ (acc : List (String × GoVal)) (rest : List Nat),
    dKVs reg' m.length (body ++ rest) acc
      = (m.foldl (fun a e => insKV e.1 e.2 a) acc, .ok rest) := by
  intro m
  induction m with
  | nil =>
    intro body henc _ _ _ acc rest
    simp only [encPairs, Except.ok.injEq] at henc
    subst henc
    simp [dKVs]
  | cons hd t ih =>
    intro body henc hwf hnm h63 acc rest
    obtain ⟨k, v⟩ := hd
    rw [encPairs] at henc
    cases hv : encGoVal reg v with
    | error e => rw [hv] at henc; exact absurd henc (by simp)
    | ok vb =>
      rw [hv] at henc
      cases ht : encPairs reg t with
      | error e => rw [ht] at henc; exact absurd henc (by simp)
      | ok tb =>
        rw [ht] at henc
        simp only [Except.ok.injEq] at henc
        subst henc
        have hlen : (encStr k ++ vb ++ tb).length =
            (encStr k).length + vb.length + tb.length := by
          simp only [List.length_append]
        have hk : k.length < 2 ^ 64 := by
          have := encStr_length_ge k
          omega
        simp only [wfPairs, Bool.and_eq_true] at hwf
        simp only [namesOKPairs, Bool.and_eq_true] at hnm
        show dKVs reg' (t.length + 1) ((encStr k ++ vb ++ tb) ++ rest) acc = _
        rw [dKVs, List.append_assoc, List.append_assoc, decStr_encStr k hk]
        show (match decGoVal reg' (vb ++ (tb ++ rest)).length (vb ++ (tb ++ rest)) with
          | Except.error e => (acc, Except.error e)
          | Except.ok (v, r1) => dKVs reg' t.length r1 (insKV k v acc)) = _
        rw [decGoVal_enc reg reg' (vb ++ (tb ++ rest)).length v vb (tb ++ rest)
          hv hwf.1 hnm.1 (by simp) (by omega)]
        show dKVs reg' t.length (tb ++ rest) (insKV k v acc) = _
        rw [ih tb ht hwf.2 hnm.2 (by omega) (insKV k v acc) rest]
        rfl

theorem dKVs_unreg (reg reg' : Reg) :
    ∀ (m : List (String × GoVal)) (body : List Nat),
    encPairs reg m = .ok body → wfPairs m = true →
    namesOKPairs reg' m = false → body.length ≤ 2 ^ 63 →
    ∃ nm, ¬nm ∈ reg' ∧ ∀ (acc : List (String × GoVal)) (rest : List Nat),
    ∃ acc', dKVs reg' m.length (body ++ rest) acc
      = (acc', .error (.nameNotRegistered nm)) := by
  intro m
  induction m with
  | nil => intro body _ _ hnm _; exact absurd hnm (by simp [namesOKPairs])
  | cons hd t ih =>
    intro body henc hwf hnm h63
    obtain ⟨k, v⟩ := hd
    rw [encPairs] at henc
    cases hv : encGoVal reg v with
    | error e => rw [hv] at henc; exact absurd henc (by simp)
    | ok vb =>
      rw [hv] at henc
      cases ht : encPairs reg t with
      | error e => rw [ht] at henc; exact absurd henc (by simp)
      | ok tb =>
        rw [ht] at henc
        simp only [Except.ok.injEq] at henc
        subst henc
        have hlen : (encStr k ++ vb ++ tb).length =
            (encStr k).length + vb.length + tb.length := by
          simp only [List.length_append]
        have hk : k.length < 2 ^ 64 := by
          have := encStr_length_ge k
          omega
        simp only [wfPairs, Bool.and_eq_true] at hwf
        simp only [namesOKPairs, Bool.and_eq_false_iff] at hnm
        by_cases hvn : namesOKV reg' v = false
        · obtain ⟨nm, hmem, hdec⟩ := decGoVal_unreg reg reg'
            vb.length v vb (by omega) hv hwf.1 hvn (by omega)
          refine ⟨nm, hmem, fun acc rest => ⟨acc, ?_⟩⟩
          show dKVs reg' (t.length + 1) ((encStr k ++ vb ++ tb) ++ rest) acc = _
          rw [dKVs, List.append_assoc, List.append_assoc, decStr_encStr k hk]
          show (match decGoVal reg' (vb ++ (tb ++ rest)).length (vb ++ (tb ++ rest)) with
            | Except.error e => (acc, Except.error e)
            | Except.ok (v, r1) => dKVs reg' t.length r1 (insKV k v acc)) = _
          rw [hdec (vb ++ (tb ++ rest)).length (tb ++ rest) (by simp)]
        · have hvt : namesOKV reg' v = true := by
            cases hb : namesOKV reg' v
            · exact absurd hb hvn
            · rfl
          have htn : namesOKPairs reg' t = false := by
            rcases hnm with h | h
            · exact absurd h hvn
            · exact h
          obtain ⟨nm, hmem, hdec⟩ := ih tb ht hwf.2 htn (by omega)
          refine ⟨nm, hmem, fun acc rest => ?_⟩
          obtain ⟨acc', hacc'⟩ := hdec (insKV k v acc) rest
          refine ⟨acc', ?_⟩
          show dKVs reg' (t.length + 1) ((encStr k ++ vb ++ tb) ++ rest) acc = _
          rw [dKVs, List.append_assoc, List.append_assoc, decStr_encStr k hk]
          show (match decGoVal reg' (vb ++ (tb ++ rest)).length (vb ++ (tb ++ rest)) with
            | Except.error e => (acc, Except.error e)
            | Except.ok (v, r1) => dKVs reg' t.length r1 (insKV k v acc)) = _
          rw [decGoVal_enc reg reg' (vb ++ (tb ++ rest)).length v vb (tb ++ rest)
            hv hwf.1 hvt (by simp) (by omega)]
          exact hacc'

theorem dMapField_spec {σ : Type} (reg reg' : Reg)
    (get : σ → List (String × GoVal)) (set : σ → List (String × GoVal) → σ)
    (m : List (String × GoVal)) (body : List Nat)
    (henc : encPairs reg m = .ok body) (hwf : wfPairs m = true)
    (hnm : namesOKPairs reg' m = true) (h63 : body.length ≤ 2 ^ 63)
    (s : σ) (rest : List Nat) :
    dMapField reg' get set ((encU m.length ++ body) ++ rest) s
      = (set s (m.foldl (fun a e => insKV e.1 e.2 a) (get s)), .ok rest) := by
  have hml : m.length < 2 ^ 64 := by
    have := encPairs_length_ge reg m body henc
    omega
  rw [dMapField, List.append_assoc, decU_encU m.length hml]
  show (match dKVs reg' m.length (body ++ rest) (get s) with
    | (t, Except.ok r') => (set s t, Except.ok r')
    | (t, Except.error e) => (set s t, Except.error e)) = _
  rw [dKVs_enc reg reg' m body henc hwf hnm h63 (get s) rest]

theorem dMapField_unreg {σ : Type} (reg reg' : Reg)
    (get : σ → List (String × GoVal)) (set : σ → List (String × GoVal) → σ)
    (m : List (String × GoVal)) (body : List Nat)
    (henc : encPairs reg m = .ok body) (hwf : wfPairs m = true)
    (hnm : namesOKPairs reg' m = false) (h63 : body.length ≤ 2 ^ 63) :
    ∃ nm, ¬nm ∈ reg' ∧ ∀ (s : σ) (rest : List Nat), ∃ m',
    dMapField reg' get set ((encU m.length ++ body) ++ rest) s
      = (set s m', .error (.nameNotRegistered nm)) := by
  obtain ⟨nm, hmem, hd⟩ := dKVs_unreg reg reg' m body henc hwf hnm h63
  refine ⟨nm, hmem, fun s rest => ?_⟩
  obtain ⟨acc', hacc⟩ := hd (get s) rest
  refine ⟨acc', ?_⟩
  have hml : m.length < 2 ^ 64 := by
    have := encPairs_length_ge reg m body henc
    omega
  rw [dMapField, List.append_assoc, decU_encU m.length hml]
  show (match dKVs reg' m.length (body ++ rest) (get s) with
    | (t, Except.ok r') => (set s t, Except.ok r')
    | (t, Except.error e) => (set s t, Except.error e)) = _
  rw [hacc]

theorem encOptElems_length_ge {τ : Type} (encB : τ → Except EncErr (List Nat))
    (hpos : ∀ (x : τ) (b : List Nat), encB x = .ok b → 1 ≤ b.length) :
    ∀ (l : List (Option τ)) (bs : List Nat),
    encOptElems encB l = .ok bs → l.length ≤ bs.length := by
  intro l
  induction l with
  | nil => intro bs h; simp only [encOptElems, Except.ok.injEq] at h; subst h; simp
  | cons hd t ih =>
    intro bs h
    cases hd with
    | none => exact absurd h (by simp [encOptElems])
    | some x =>
      rw [encOptElems] at h
      cases hx : encB x with
      | error e => rw [hx] at h; exact absurd h (by simp)
      | ok b =>
        rw [hx] at h
        cases ht : encOptElems encB t with
        | error e => rw [ht] at h; exact absurd h (by simp)
        | ok tb =>
          rw [ht] at h
          simp only [Except.ok.injEq] at h
          subst h
          have h1 := hpos x b hx
          have h2 := ih tb ht
          simp only [List.length_append, List.length_cons]
          omega

theorem dList_optSpec {τ : Type} (decB : List Nat → τ → DR τ) (zero : τ)
    (encB : τ → Except EncErr (List Nat)) (mrgZ : τ → τ) :
    ∀ (l : List (Option τ)) (bs : List Nat),
    encOptElems encB l = .ok bs →
    (∀ (x : τ), some x ∈ l → ∀ (b : List Nat), encB x = .ok b →
      ∀ (r : List Nat), decB (b ++ r) zero = (mrgZ x, .ok r)) →
    ∀ (rest : List Nat),
    dList (dPtrElem decB zero) none l.length (bs ++ rest)
      = (l.map (fun o => o.map mrgZ), .ok rest) := by
  intro l
  induction l with
  | nil =>
    intro bs h _ rest
    simp only [encOptElems, Except.ok.injEq] at h
    subst h
    simp [dList]
  | cons hd t ih =>
    intro bs h hdec rest
    cases hd with
    | none => exact absurd h (by simp [encOptElems])
    | some x =>
      rw [encOptElems] at h
      cases hx : encB x with
      | error e => rw [hx] at h; exact absurd h (by simp)
      | ok b =>
        rw [hx] at h
        cases ht : encOptElems encB t with
        | error e => rw [ht] at h; exact absurd h (by simp)
        | ok tb =>
          rw [ht] at h
          simp only [Except.ok.injEq] at h
          subst h
          have helem : dPtrElem decB zero (b ++ (tb ++ rest)) none
              = (some (mrgZ x), .ok (tb ++ rest)) := by
            rw [dPtrElem, hdec x (List.mem_cons_self _ _) b hx (tb ++ rest)]
          show dList (dPtrElem decB zero) none (t.length + 1) ((b ++ tb) ++ rest) = _
          rw [dList, List.append_assoc, helem]
          have hrec := ih tb ht (fun y hy => hdec y (List.mem_cons_of_mem _ hy)) rest
          dsimp only
          rw [hrec]
          rfl

theorem dSliceField_optSpec {σ τ : Type} (decB : List Nat → τ → DR τ) (zero : τ)
    (encB : τ → Except EncErr (List Nat)) (mrgZ : τ → τ)
    (set : σ → List (Option τ) → σ) (l : List (Option τ)) (bs : List Nat)
    (henc : encOptElems encB l = .ok bs) (h63 : bs.length ≤ 2 ^ 63)
    (hpos : ∀ (x : τ) (b : List Nat), encB x = .ok b → 1 ≤ b.length)
    (hdec : ∀ (x : τ), some x ∈ l → ∀ (b : List Nat), encB x = .ok b →
      ∀ (r : List Nat), decB (b ++ r) zero = (mrgZ x, .ok r))
    (s : σ) (rest : List Nat) :
    dSliceField (dPtrElem decB zero) none set ((encU l.length ++ bs) ++ rest) s
      = (set s (l.map (fun o => o.map mrgZ)), .ok rest) := by
  have hlb := encOptElems_length_ge encB hpos l bs henc
  have key := dList_optSpec decB zero encB mrgZ l bs henc hdec rest
  rw [dSliceField, List.append_assoc, decU_encU l.length (by omega)]
  dsimp only
  rw [if_neg (by simp only [List.length_append]; omega), key]

theorem mapFlatten_length_ge {τ : Type} (encB : τ → List Nat)
    (hpos : ∀ x, 1 ≤ (encB x).length) :
    ∀ (l : List τ), l.length ≤ (l.map encB).flatten.length := by
  intro l
  induction l with
  | nil => simp
  | cons x t ih =>
    show t.length + 1 ≤ (encB x ++ (t.map encB).flatten).length
    simp only [List.length_append]
    have := hpos x
    omega

theorem dList_valSpec {τ : Type} (decB : List Nat → τ → DR τ) (zero : τ)
    (encB : τ → List Nat) (mrgZ : τ → τ) :
    ∀ (l : List τ),
    (∀ x ∈ l, ∀ (r : List Nat), decB (encB x ++ r) zero = (mrgZ x, .ok r)) →
    ∀ (rest : List Nat),
    dList decB zero l.length ((l.map encB).flatten ++ rest)
      = (l.map mrgZ, .ok rest) := by
  intro l
  induction l with
  | nil => intro _ rest; simp [dList]
  | cons x t ih =>
    intro hdec rest
    show dList decB zero (t.length + 1) ((encB x ++ (t.map encB).flatten) ++ rest) = _
    rw [dList, List.append_assoc, hdec x (List.mem_cons_self _ _)]
    have hrec := ih (fun y hy r => hdec y (List.mem_cons_of_mem _ hy) r) rest
    dsimp only
    rw [hrec]
    rfl

theorem dSliceField_valSpec {σ τ : Type} (decB : List Nat → τ → DR τ) (zero : τ)
    (encB : τ → List Nat) (mrgZ : τ → τ) (set : σ → List τ → σ) (l : List τ)
    (h63 : (l.map encB).flatten.length ≤ 2 ^ 63)
    (hpos : ∀ x, 1 ≤ (encB x).length)
    (hdec : ∀ x ∈ l, ∀ (r : List Nat), decB (encB x ++ r) zero = (mrgZ x, .ok r))
    (s : σ) (rest : List Nat) :
    dSliceField decB zero set ((encU l.length ++ (l.map encB).flatten) ++ rest) s
      = (set s (l.map mrgZ), .ok rest) := by
  have hlb := mapFlatten_length_ge encB hpos l
  rw [dSliceField, List.append_assoc, decU_encU l.length (by omega)]
  show (if ((l.map encB).flatten ++ rest).length < l.length then
      (s, Except.error DecErr.lengthExceedsInput)
    else match dList decB zero l.length ((l.map encB).flatten ++ rest) with
      | (ts, Except.ok r') => (set s ts, Except.ok r')
      | (ts, Except.error e) => (set s ts, Except.error e)) = _
  rw [if_neg (by simp only [List.length_append]; omega)]
  rw [dList_valSpec decB zero encB mrgZ l hdec rest]

theorem forall2_mem_left {α β : Type} {R : α → β → Prop} :
    ∀ {l : List α} {ms : List β}, List.Forall₂ R l ms →
    ∀ a ∈ l, ∃ m ∈ ms, R a m := by
  intro l ms h
  induction h with
  | nil => intro a ha; exact absurd ha (List.not_mem_nil a)
  | @cons a' m' l' ms' h1 h2 ih =>
    intro a ha
    rcases List.mem_cons.mp ha with rfl | ha'
    · exact ⟨m', List.mem_cons_self _ _, h1⟩
    · obtain ⟨m, hm, hr⟩ := ih a ha'
      exact ⟨m, List.mem_cons_of_mem _ hm, hr⟩

theorem mem_opts_rev {l : List (Nat × Option (List Nat))} {f : Nat}
    {vb : List Nat} : (f, some vb) ∈ l → (f, vb) ∈ opts l := by
  induction l with
  | nil => intro h; exact absurd h (List.not_mem_nil _)
  | cons hd t ih =>
    intro h
    obtain ⟨g, ob⟩ := hd
    rcases List.mem_cons.mp h with heq | h'
    · rw [Prod.mk.injEq] at heq
      obtain ⟨h1, h2⟩ := heq
      subst h1
      subst h2
      show (f, vb) ∈ (f, vb) :: opts t
      exact List.mem_cons_self _ _
    · cases ob with
      | none => exact ih h'
      | some vb' =>
        show (f, vb) ∈ (g, vb') :: opts t
        exact List.mem_cons_of_mem _ (ih h')

theorem entBound {l : List (Nat × Option (List Nat))} {f : Nat} {b : List Nat}
    (hmem : (f, some b) ∈ l) (hL : (encEnts 0 (opts l)).length ≤ 2 ^ 63) :
    b.length ≤ 2 ^ 63 := by
  have h := mem_encEnts_length_le (mem_opts_rev hmem) 0
  dsimp only at h
  omega

theorem entBoundOpt {l : List (Nat × Option (List Nat))}
    {e : Nat × Option (List Nat)} (hmem : e ∈ l)
    (hL : (encEnts 0 (opts l)).length ≤ 2 ^ 63) :
    (e.2.getD []).length ≤ 2 ^ 63 := by
  cases he : e.2 with
  | none => simp
  | some b =>
    have hm2 : (e.1, some b) ∈ l := by
      rw [← he]
      exact hmem
    simpa using entBound hm2 hL

theorem strBound {l : List (Nat × Option (List Nat))} {f : Nat} {v : String}
    (hmem : (f, some (encStr v)) ∈ l)
    (hL : (encEnts 0 (opts l)).length ≤ 2 ^ 63) : v.length < 2 ^ 64 := by
  have h2 := mem_encEnts_length_le (mem_opts_rev hmem) 0
  have h3 := encStr_length_ge v
  dsimp only at h2
  omega

theorem encOptElems_elem_le {τ : Type} (encB : τ → Except EncErr (List Nat)) :
    ∀ (l : List (Option τ)) (bs : List Nat), encOptElems encB l = .ok bs →
    ∀ (x : τ), some x ∈ l → ∀ (b : List Nat), encB x = .ok b →
    b.length ≤ bs.length := by
  intro l
  induction l with
  | nil => intro bs _ x hx; exact absurd hx (List.not_mem_nil _)
  | cons hd t ih =>
    intro bs h x hx b hb
    cases hd with
    | none => exact absurd h (by simp [encOptElems])
    | some y =>
      rw [encOptElems] at h
      cases hy : encB y with
      | error e => rw [hy] at h; exact absurd h (by simp)
      | ok yb =>
        rw [hy] at h
        cases ht : encOptElems encB t with
        | error e => rw [ht] at h; exact absurd h (by simp)
        | ok tb =>
          rw [ht] at h
          simp only [Except.ok.injEq] at h
          subst h
          simp only [List.length_append]
          rcases List.mem_cons.mp hx with heq | hx'
          · injection heq with heq'
            subst heq'
            rw [hy] at hb
            simp only [Except.ok.injEq] at hb
            subst hb
            omega
          · have := ih tb ht x hx' b hb
            omega

theorem mapFlatten_elem_le {τ : Type} (encB : τ → List Nat) :
    ∀ (l : List τ), ∀ x ∈ l, (encB x).length ≤ (l.map encB).flatten.length := by
  intro l
  induction l with
  | nil => intro x hx; exact absurd hx (List.not_mem_nil _)
  | cons y t ih =>
    intro x hx
    show (encB x).length ≤ (encB y ++ (t.map encB).flatten).length
    simp only [List.length_append]
    rcases List.mem_cons.mp hx with rfl | hx'
    · omega
    · have := ih x hx'
      omega

theorem allOpt_some {τ : Type} {p : τ → Bool} {l : List τ}
    (h : allOpt p (some l) = true) : ∀ a ∈ l, p a = true := by
  simp only [allOpt, List.all_eq_true] at h
  exact h

theorem seqEnts_ok_cons {e : Except EncErr (Nat × Option (List Nat))}
    {t : List (Except EncErr (Nat × Option (List Nat)))}
    {l : List (Nat × Option (List Nat))} (h : seqEnts (e :: t) = .ok l) :
    ∃ p ps, e = .ok p ∧ seqEnts t = .ok ps ∧ l = p :: ps := by
  cases e with
  | error x =>
    rw [seqEnts] at h
    exact absurd h (by simp)
  | ok p =>
    rw [seqEnts] at h
    cases ht : seqEnts t with
    | error x =>
      rw [ht] at h
      exact absurd h (by simp)
    | ok ps =>
      rw [ht] at h
      dsimp only at h
      simp only [Except.ok.injEq] at h
      exact ⟨p, ps, rfl, rfl, h.symm⟩

theorem foldl_opts_contract {σ : Type} (disp : Nat → List Nat → σ → DR σ) :
    ∀ {l : List (Nat × Option (List Nat))} {ms : List (σ → σ)},
    List.Forall₂ (fieldContract disp) l ms → ∀ (s : σ),
    (opts l).foldl (fun a e => (disp e.1 (e.2 ++ []) a).1) s
      = ms.foldl (fun a m => m a) s := by
  intro l ms h
  induction h with
  | nil => intro s; rfl
  | @cons e m l' ms' hcm hrest ih =>
    intro s
    obtain ⟨f, ob⟩ := e
    cases ob with
    | none =>
      simp only [fieldContract] at hcm
      show (opts l').foldl _ s = List.foldl _ (m s) ms'
      rw [hcm s]
      exact ih s
    | some vb =>
      simp only [fieldContract] at hcm
      show List.foldl _ ((disp f (vb ++ []) s).1) (opts l')
        = List.foldl _ (m s) ms'
      rw [hcm s []]
      exact ih (m s)

theorem decLoop_fields {σ : Type} (disp : Nat → List Nat → σ → DR σ)
    (numF gas : Nat) (hNF : numF < 2 ^ 63)
    (l : List (Nat × Option (List Nat))) (ms : List (σ → σ)) (fs : List Nat)
    (hfs : l.map Prod.fst = fs) (hb : ∀ f ∈ fs, f < numF)
    (hp : List.Pairwise (fun a b => a < b) fs)
    (hc : List.Forall₂ (fieldContract disp) l ms) (hgas : numF + 1 ≤ gas)
    (s : σ) (rest : List Nat) :
    decLoop disp numF gas 0 (encEnts 0 (opts l) ++ rest) s
      = (ms.foldl (fun a m => m a) s, .ok rest) := by
  subst hfs
  have hpl : l.Pairwise (fun a b => a.1 < b.1) := List.pairwise_map.mp hp
  have hmem : ∀ e ∈ opts l, 0 ≤ e.1 ∧ e.1 < numF := by
    intro e he
    refine ⟨Nat.zero_le _, ?_⟩
    have h1 : (e.1, some e.2) ∈ l := mem_opts he
    exact hb e.1 (List.mem_map_of_mem Prod.fst h1)
  have hdisp : ∀ e ∈ opts l, ∀ (s' : σ) (r' : List Nat),
      disp e.1 (e.2 ++ r') s' = ((disp e.1 (e.2 ++ []) s').1, .ok r') := by
    intro e he s' r'
    obtain ⟨m, _, hcm⟩ := forall2_mem_left hc _ (mem_opts he)
    simp only [fieldContract] at hcm
    rw [hcm s' r', hcm s' []]
  have hres := decLoop_encEnts disp numF
    (fun e a => (disp e.1 (e.2 ++ []) a).1) hNF (opts l) 0 gas s rest
    hmem (opts_pairwise hpl) hdisp (by omega)
  rw [hres]
  exact congrArg (fun z => (z, Except.ok rest)) (foldl_opts_contract disp hc s)

theorem contract_fStr {σ : Type} (disp : Nat → List Nat → σ → DR σ) (f : Nat)
    (v : String) (set : σ → String → σ) (m : σ → σ)
    (hd : ∀ bs s, disp f bs s = dStrField set bs s)
    (hv : ¬v = "" → v.length < 2 ^ 64)
    (hm0 : v = "" → ∀ s, m s = s)
    (hm1 : ¬v = "" → ∀ s, set s v = m s) :
    fieldContract disp (fStr f v) m := by
  by_cases h : v = ""
  · have he : fStr f v = (f, none) := by rw [fStr, if_pos h]
    rw [he]
    simp only [fieldContract]
    exact hm0 h
  · have he : fStr f v = (f, some (encStr v)) := by rw [fStr, if_neg h]
    rw [he]
    simp only [fieldContract]
    intro s r
    rw [hd, dStrField_spec set v (hv h) r s, hm1 h s]

theorem contract_fOptStr {σ : Type} (disp : Nat → List Nat → σ → DR σ) (f : Nat)
    (o : Option String) (set : σ → String → σ) (m : σ → σ)
    (hd : ∀ bs s, disp f bs s = dStrField set bs s)
    (hv : ¬o.getD "" = "" → (o.getD "").length < 2 ^ 64)
    (hm0 : o.getD "" = "" → ∀ s, m s = s)
    (hm1 : ¬o.getD "" = "" → ∀ s, set s (o.getD "") = m s) :
    fieldContract disp (fOptStr f o) m :=
  contract_fStr disp f (o.getD "") set m hd hv hm0 hm1

theorem contract_fInt {σ : Type} (disp : Nat → List Nat → σ → DR σ) (f : Nat)
    (i : Int) (set : σ → Int → σ) (m : σ → σ)
    (hd : ∀ bs s, disp f bs s = dIntField set bs s)
    (h1 : -(2 ^ 63) ≤ i) (h2 : i < 2 ^ 63)
    (hm0 : i = 0 → ∀ s, m s = s)
    (hm1 : ¬i = 0 → ∀ s, set s i = m s) :
    fieldContract disp (fInt f i) m := by
  by_cases h : i = 0
  · have he : fInt f i = (f, none) := by rw [fInt, if_pos h]
    rw [he]
    simp only [fieldContract]
    exact hm0 h
  · have he : fInt f i = (f, some (encS i)) := by rw [fInt, if_neg h]
    rw [he]
    simp only [fieldContract]
    intro s r
    rw [hd, dIntField_spec set i h1 h2 r s, hm1 h s]

theorem contract_fOptInt {σ : Type} (disp : Nat → List Nat → σ → DR σ) (f : Nat)
    (o : Option Int) (set : σ → Int → σ) (m : σ → σ)
    (hd : ∀ bs s, disp f bs s = dIntField set bs s)
    (h1 : -(2 ^ 63) ≤ o.getD 0) (h2 : o.getD 0 < 2 ^ 63)
    (hm0 : o.getD 0 = 0 → ∀ s, m s = s)
    (hm1 : ¬o.getD 0 = 0 → ∀ s, set s (o.getD 0) = m s) :
    fieldContract disp (fOptInt f o) m :=
  contract_fInt disp f (o.getD 0) set m hd h1 h2 hm0 hm1

theorem contract_fBool {σ : Type} (disp : Nat → List Nat → σ → DR σ) (f : Nat)
    (b : Bool) (set : σ → Bool → σ) (m : σ → σ)
    (hd : ∀ bs s, disp f bs s = dBoolField set bs s)
    (hm0 : b = false → ∀ s, m s = s)
    (hm1 : b = true → ∀ s, set s true = m s) :
    fieldContract disp (fBool f b) m := by
  cases b with
  | false =>
    show fieldContract disp (f, none) m
    simp only [fieldContract]
    exact hm0 rfl
  | true =>
    show fieldContract disp (f, some (encU 1)) m
    simp only [fieldContract]
    intro s r
    rw [hd, dBoolField_true set r s, hm1 rfl s]

theorem contract_fSubV {σ τ : Type} (disp : Nat → List Nat → σ → DR σ) (f : Nat)
    (z : Bool) (body : List Nat) (decB : List Nat → τ → DR τ)
    (get : σ → τ) (set : σ → τ → σ) (msub : τ → τ) (m : σ → σ)
    (hd : ∀ bs s, disp f bs s = dSubField decB get set bs s)
    (hrec : z = false → ∀ (t : τ) (r : List Nat), decB (body ++ r) t = (msub t, .ok r))
    (hm0 : z = true → ∀ s, m s = s)
    (hm1 : z = false → ∀ s, set s (msub (get s)) = m s) :
    fieldContract disp (fSubV f z body) m := by
  cases z with
  | true =>
    show fieldContract disp (f, none) m
    simp only [fieldContract]
    exact hm0 rfl
  | false =>
    show fieldContract disp (f, some body) m
    simp only [fieldContract]
    intro s r
    rw [hd, dSubField_spec decB get set body (msub (get s)) r s
      (hrec rfl (get s) r), hm1 rfl s]

theorem contract_fPtrSubE {σ τ : Type} (disp : Nat → List Nat → σ → DR σ) (f : Nat)
    (o : Option τ) (isZ : τ → Bool) (encB : τ → Except EncErr (List Nat))
    (decB : List Nat → τ → DR τ) (get : σ → τ) (set : σ → τ → σ)
    (msub : τ → τ → τ) (ent : Nat × Option (List Nat)) (m : σ → σ)
    (henc : fPtrSubE f o isZ encB = .ok ent)
    (hd : ∀ bs s, disp f bs s = dSubField decB get set bs s)
    (hrec : ∀ t, o = some t → isZ t = false → ∀ b, encB t = .ok b →
      b.length ≤ 2 ^ 63 → ∀ (s' : τ) (r : List Nat),
      decB (b ++ r) s' = (msub s' t, .ok r))
    (hL : (ent.2.getD []).length ≤ 2 ^ 63)
    (hm0 : (o = none ∨ ∃ t, o = some t ∧ isZ t = true) → ∀ s, m s = s)
    (hm1 : ∀ t, o = some t → isZ t = false → ∀ s, set s (msub (get s) t) = m s) :
    ent.1 = f ∧ fieldContract disp ent m := by
  cases o with
  | none =>
    rw [fPtrSubE] at henc
    simp only [Except.ok.injEq] at henc
    subst henc
    refine ⟨rfl, ?_⟩
    simp only [fieldContract]
    exact hm0 (Or.inl rfl)
  | some t =>
    rw [fPtrSubE] at henc
    by_cases hz : isZ t = true
    · rw [if_pos hz] at henc
      simp only [Except.ok.injEq] at henc
      subst henc
      refine ⟨rfl, ?_⟩
      simp only [fieldContract]
      exact hm0 (Or.inr ⟨t, rfl, hz⟩)
    · have hzf : isZ t = false := by
        cases hzz : isZ t
        · rfl
        · exact absurd hzz hz
      rw [if_neg hz] at henc
      cases hb : encB t with
      | error e =>
        rw [hb] at henc
        exact absurd henc (by simp)
      | ok b =>
        rw [hb] at henc
        dsimp only at henc
        simp only [Except.ok.injEq] at henc
        subst henc
        refine ⟨rfl, ?_⟩
        simp only [fieldContract]
        intro s r
        rw [hd, dSubField_spec decB get set b (msub (get s) t) r s
          (hrec t rfl hzf b hb (by simpa using hL) (get s) r), hm1 t rfl hzf s]

theorem contract_fMapE {σ : Type} (disp : Nat → List Nat → σ → DR σ) (f : Nat)
    (reg reg' : Reg) (o : Option (List (String × GoVal)))
    (get : σ → List (String × GoVal)) (set : σ → List (String × GoVal) → σ)
    (ent : Nat × Option (List Nat)) (m : σ → σ)
    (henc : fMapE f reg o = .ok ent)
    (hd : ∀ bs s, disp f bs s = dMapField reg' get set bs s)
    (hwf : wfMapField o = true) (hnm : namesOKMap reg' o = true)
    (hL : (ent.2.getD []).length ≤ 2 ^ 63)
    (hm0 : o = none → ∀ s, m s = s)
    (hm1 : ∀ mm, o = some mm →
      ∀ s, set s (mm.foldl (fun a e => insKV e.1 e.2 a) (get s)) = m s) :
    ent.1 = f ∧ fieldContract disp ent m := by
  cases o with
  | none =>
    rw [fMapE] at henc
    simp only [Except.ok.injEq] at henc
    subst henc
    exact ⟨rfl, by simp only [fieldContract]; exact hm0 rfl⟩
  | some mm =>
    rw [fMapE] at henc
    rw [encMapBody] at henc
    cases hp : encPairs reg mm with
    | error e =>
      rw [hp] at henc
      exact absurd henc (by simp)
    | ok body =>
      rw [hp] at henc
      dsimp only at henc
      simp only [Except.ok.injEq] at henc
      subst henc
      refine ⟨rfl, ?_⟩
      simp only [fieldContract]
      intro s r
      have hwf2 : wfPairs mm = true := by
        simp only [wfMapField, Bool.and_eq_true] at hwf
        exact hwf.2
      have hb63 : body.length ≤ 2 ^ 63 := by
        have h := hL
        simp only [Option.getD_some, List.length_append] at h
        omega
      rw [hd, dMapField_spec reg reg' get set mm body hp hwf2 hnm
        hb63 s r, hm1 mm rfl s]

theorem contract_fSliceOptE {σ τ : Type} (disp : Nat → List Nat → σ → DR σ)
    (f : Nat) (o : Option (List (Option τ)))
    (encB : τ → Except EncErr (List Nat)) (decB : List Nat → τ → DR τ)
    (zero : τ) (set : σ → List (Option τ) → σ) (mrgZ : τ → τ)
    (ent : Nat × Option (List Nat)) (m : σ → σ)
    (henc : fSliceOptE f o encB = .ok ent)
    (hd : ∀ bs s, disp f bs s = dSliceField (dPtrElem decB zero) none set bs s)
    (hpos : ∀ (x : τ) (b : List Nat), encB x = .ok b → 1 ≤ b.length)
    (hrec : ∀ (x : τ) (l' : List (Option τ)), o = some l' → some x ∈ l' →
      ∀ b, encB x = .ok b → b.length ≤ 2 ^ 63 →
      ∀ r, decB (b ++ r) zero = (mrgZ x, .ok r))
    (hL : (ent.2.getD []).length ≤ 2 ^ 63)
    (hm0 : (o = none ∨ o = some []) → ∀ s, m s = s)
    (hm1 : ∀ l', o = some l' → ¬l' = [] →
      ∀ s, set s (l'.map (fun e => e.map mrgZ)) = m s) :
    ent.1 = f ∧ fieldContract disp ent m := by
  cases o with
  | none =>
    rw [fSliceOptE] at henc
    simp only [Except.ok.injEq] at henc
    subst henc
    exact ⟨rfl, by simp only [fieldContract]; exact hm0 (Or.inl rfl)⟩
  | some l' =>
    cases l' with
    | nil =>
      rw [fSliceOptE] at henc
      simp only [Except.ok.injEq] at henc
      subst henc
      exact ⟨rfl, by simp only [fieldContract]; exact hm0 (Or.inr rfl)⟩
    | cons e0 tl =>
      rw [fSliceOptE] at henc <;> try exact List.cons_ne_nil _ _
      cases he : encOptElems encB (e0 :: tl) with
      | error e =>
        rw [he] at henc
        exact absurd henc (by simp)
      | ok bsE =>
        rw [he] at henc
        dsimp only at henc
        simp only [Except.ok.injEq] at henc
        subst henc
        refine ⟨rfl, ?_⟩
        simp only [fieldContract]
        intro s r
        have hb63 : bsE.length ≤ 2 ^ 63 := by
          have h := hL
          simp only [Option.getD_some, List.length_append] at h
          omega
        rw [hd, dSliceField_optSpec decB zero encB mrgZ set (e0 :: tl) bsE he hb63
          hpos (fun x hx b hbx r2 => hrec x (e0 :: tl) rfl hx b hbx
            (le_trans (encOptElems_elem_le encB (e0 :: tl) bsE he x hx b hbx) hb63) r2)
          s r, hm1 (e0 :: tl) rfl (List.cons_ne_nil _ _) s]

theorem contract_fSliceVal {σ τ : Type} (disp : Nat → List Nat → σ → DR σ)
    (f : Nat) (o : Option (List τ)) (encB : τ → List Nat)
    (decB : List Nat → τ → DR τ) (zero : τ) (set : σ → List τ → σ)
    (mrgZ : τ → τ) (m : σ → σ)
    (hd : ∀ bs s, disp f bs s = dSliceField decB zero set bs s)
    (hpos : ∀ x, 1 ≤ (encB x).length)
    (hrec : ∀ x, (∃ l', o = some l' ∧ x ∈ l') → (encB x).length ≤ 2 ^ 63 →
      ∀ r, decB (encB x ++ r) zero = (mrgZ x, .ok r))
    (hL : ((fSliceVal f o encB).2.getD []).length ≤ 2 ^ 63)
    (hm0 : (o = none ∨ o = some []) → ∀ s, m s = s)
    (hm1 : ∀ l', o = some l' → ¬l' = [] → ∀ s, set s (l'.map mrgZ) = m s) :
    fieldContract disp (fSliceVal f o encB) m := by
  cases o with
  | none =>
    show fieldContract disp (f, none) m
    simp only [fieldContract]
    exact hm0 (Or.inl rfl)
  | some l' =>
    cases l' with
    | nil =>
      show fieldContract disp (f, none) m
      simp only [fieldContract]
      exact hm0 (Or.inr rfl)
    | cons e0 tl =>
      show fieldContract disp
        (f, some (encU (e0 :: tl).length ++ ((e0 :: tl).map encB).flatten)) m
      simp only [fieldContract]
      intro s r
      have hb63 : ((e0 :: tl).map encB).flatten.length ≤ 2 ^ 63 := by
        have h := hL
        simp only [fSliceVal, Option.getD_some, List.length_append] at h
        omega
      rw [hd, dSliceField_valSpec decB zero encB mrgZ set (e0 :: tl) hb63 hpos
        (fun x hx r2 => hrec x ⟨e0 :: tl, rfl, hx⟩
          (le_trans (mapFlatten_elem_le encB (e0 :: tl) x hx) hb63) r2)
        s r, hm1 (e0 :: tl) rfl (List.cons_ne_nil _ _) s]

theorem strBound_fStr {l : List (Nat × Option (List Nat))} {f : Nat} {v : String}
    (h : ¬v = "") (hmem : fStr f v ∈ l)
    (hL : (encEnts 0 (opts l)).length ≤ 2 ^ 63) : v.length < 2 ^ 64 := by
  refine strBound (f := f) ?_ hL
  have he : fStr f v = (f, some (encStr v)) := by rw [fStr, if_neg h]
  rw [← he]
  exact hmem

/-! ## Per-struct decode of an encoded body: the merge semantics, type by
type -/

theorem decFinishReasonB_enc (x : FinishReason)
    (hL : (encFinishReasonB x).length ≤ 2 ^ 63) (s : FinishReason)
    (rest : List Nat) :
    decFinishReasonB (encFinishReasonB x ++ rest) s
      = (mergeFinishReason s x, .ok rest) := by
  have hL2 : (encEnts 0 (opts (entsFinishReason x))).length ≤ 2 ^ 63 := hL
  have hc : List.Forall₂ (fieldContract dispFinishReason) (entsFinishReason x)
      [fun s => { s with Status := mStr s.Status x.Status },
       fun s => { s with Reason := mStr s.Reason x.Reason }] := by
    refine List.Forall₂.cons ?_ (List.Forall₂.cons ?_ List.Forall₂.nil)
    · exact contract_fStr _ 0 x.Status _ _ (fun bs s => rfl)
        (fun h => strBound_fStr h (List.mem_cons_self _ _) hL2)
        (fun h s => by rw [mStr, if_pos h])
        (fun h s => by rw [mStr, if_neg h])
    · exact contract_fStr _ 1 x.Reason _ _ (fun bs s => rfl)
        (fun h => strBound_fStr h
          (List.mem_cons_of_mem _ (List.mem_cons_self _ _)) hL2)
        (fun h s => by rw [mStr, if_pos h])
        (fun h s => by rw [mStr, if_neg h])
  exact decLoop_fields dispFinishReason 2 3 (by norm_num)
    (entsFinishReason x) _ [0, 1] rfl (by decide) (by decide) hc
    (by norm_num) s rest

theorem entBound_fSubV {l : List (Nat × Option (List Nat))} {f : Nat} {z : Bool}
    {b : List Nat} (h : z = false) (hmem : fSubV f z b ∈ l)
    (hL : (encEnts 0 (opts l)).length ≤ 2 ^ 63) : b.length ≤ 2 ^ 63 := by
  subst h
  exact entBound hmem hL

theorem decInputTokensUsageDetailsB_enc (x : InputTokensUsageDetails)
    (hwf : wfInputTokensUsageDetails x = true) (s : InputTokensUsageDetails)
    (rest : List Nat) :
    decInputTokensUsageDetailsB (encInputTokensUsageDetailsB x ++ rest) s
      = (mergeInputTokensUsageDetails s x, .ok rest) := by
  simp only [wfInputTokensUsageDetails, int64OK, decide_eq_true_eq] at hwf
  have hc : List.Forall₂ (fieldContract dispInputTokensUsageDetails)
      (entsInputTokensUsageDetails x)
      [fun s => { s with CachedTokens :=
        if x.CachedTokens = 0 then s.CachedTokens else x.CachedTokens }] := by
    refine List.Forall₂.cons ?_ List.Forall₂.nil
    exact contract_fInt _ 0 x.CachedTokens _ _ (fun bs s => rfl) hwf.1 hwf.2
      (fun h s => by rw [if_pos h])
      (fun h s => by rw [if_neg h])
  exact decLoop_fields dispInputTokensUsageDetails 1 2 (by norm_num)
    (entsInputTokensUsageDetails x) _ [0] rfl (by decide) (by decide) hc
    (by norm_num) s rest

theorem decOutputTokensUsageDetailsB_enc (x : OutputTokensUsageDetails)
    (hwf : wfOutputTokensUsageDetails x = true) (s : OutputTokensUsageDetails)
    (rest : List Nat) :
    decOutputTokensUsageDetailsB (encOutputTokensUsageDetailsB x ++ rest) s
      = (mergeOutputTokensUsageDetails s x, .ok rest) := by
  simp only [wfOutputTokensUsageDetails, int64OK, decide_eq_true_eq] at hwf
  have hc : List.Forall₂ (fieldContract dispOutputTokensUsageDetails)
      (entsOutputTokensUsageDetails x)
      [fun s => { s with ReasoningTokens :=
        if x.ReasoningTokens = 0 then s.ReasoningTokens else x.ReasoningTokens }] := by
    refine List.Forall₂.cons ?_ List.Forall₂.nil
    exact contract_fInt _ 0 x.ReasoningTokens _ _ (fun bs s => rfl) hwf.1 hwf.2
      (fun h s => by rw [if_pos h])
      (fun h s => by rw [if_neg h])
  exact decLoop_fields dispOutputTokensUsageDetails 1 2 (by norm_num)
    (entsOutputTokensUsageDetails x) _ [0] rfl (by decide) (by decide) hc
    (by norm_num) s rest

theorem decAgenticMessageInputTextB_enc (x : AgenticMessageInputText)
    (hL : (encAgenticMessageInputTextB x).length ≤ 2 ^ 63)
    (s : AgenticMessageInputText) (rest : List Nat) :
    decAgenticMessageInputTextB (encAgenticMessageInputTextB x ++ rest) s
      = (mergeAgenticMessageInputText s x, .ok rest) := by
  have hL2 : (encEnts 0 (opts [fStr 0 x.Content])).length ≤ 2 ^ 63 := hL
  have hc : List.Forall₂ (fieldContract dispAgenticMessageInputText)
      [fStr 0 x.Content]
      [fun s => { s with Content := mStr s.Content x.Content }] := by
    refine List.Forall₂.cons ?_ List.Forall₂.nil
    exact contract_fStr _ 0 x.Content _ _ (fun bs s => rfl)
      (fun h => strBound_fStr h (List.mem_cons_self _ _) hL2)
      (fun h s => by rw [mStr, if_pos h])
      (fun h s => by rw [mStr, if_neg h])
  exact decLoop_fields dispAgenticMessageInputText 1 2 (by norm_num)
    [fStr 0 x.Content] _ [0] rfl (by decide) (by decide) hc (by norm_num) s rest

theorem decToolCallOutputCustomB_enc (x : ToolCallOutputCustom)
    (hL : (encToolCallOutputCustomB x).length ≤ 2 ^ 63)
    (s : ToolCallOutputCustom) (rest : List Nat) :
    decToolCallOutputCustomB (encToolCallOutputCustomB x ++ rest) s
      = (mergeToolCallOutputCustom s x, .ok rest) := by
  have hL2 : (encEnts 0 (opts [fStr 0 x.Content])).length ≤ 2 ^ 63 := hL
  have hc : List.Forall₂ (fieldContract dispToolCallOutputCustom)
      [fStr 0 x.Content]
      [fun s => { s with Content := mStr s.Content x.Content }] := by
    refine List.Forall₂.cons ?_ List.Forall₂.nil
    exact contract_fStr _ 0 x.Content _ _ (fun bs s => rfl)
      (fun h => strBound_fStr h (List.mem_cons_self _ _) hL2)
      (fun h s => by rw [mStr, if_pos h])
      (fun h s => by rw [mStr, if_neg h])
  exact decLoop_fields dispToolCallOutputCustom 1 2 (by norm_num)
    [fStr 0 x.Content] _ [0] rfl (by decide) (by decide) hc (by norm_num) s rest

theorem decSchemaB_enc (x : Schema) (hL : (encSchemaB x).length ≤ 2 ^ 63)
    (s : Schema) (rest : List Nat) :
    decSchemaB (encSchemaB x ++ rest) s = (mergeSchema s x, .ok rest) := by
  have hL2 : (encEnts 0 (opts [fStr 0 x.Raw])).length ≤ 2 ^ 63 := hL
  have hc : List.Forall₂ (fieldContract dispSchema) [fStr 0 x.Raw]
      [fun s => { s with Raw := mStr s.Raw x.Raw }] := by
    refine List.Forall₂.cons ?_ List.Forall₂.nil
    exact contract_fStr _ 0 x.Raw _ _ (fun bs s => rfl)
      (fun h => strBound_fStr h (List.mem_cons_self _ _) hL2)
      (fun h s => by rw [mStr, if_pos h])
      (fun h s => by rw [mStr, if_neg h])
  exact decLoop_fields dispSchema 1 2 (by norm_num) [fStr 0 x.Raw] _ [0] rfl
    (by decide) (by decide) hc (by norm_num) s rest

theorem decContentBlockMCPToolApprovalRequestB_enc
    (x : ContentBlockMCPToolApprovalRequest)
    (hL : (encContentBlockMCPToolApprovalRequestB x).length ≤ 2 ^ 63)
    (s : ContentBlockMCPToolApprovalRequest) (rest : List Nat) :
    decContentBlockMCPToolApprovalRequestB
        (encContentBlockMCPToolApprovalRequestB x ++ rest) s
      = (mergeContentBlockMCPToolApprovalRequest s x, .ok rest) := by
  have hL2 : (encEnts 0 (opts [fStr 0 x.Name, fStr 1 x.Arguments,
      fStr 2 x.ServerLabel])).length ≤ 2 ^ 63 := hL
  have hc : List.Forall₂ (fieldContract dispContentBlockMCPToolApprovalRequest)
      [fStr 0 x.Name, fStr 1 x.Arguments, fStr 2 x.ServerLabel]
      [fun s => { s with Name := mStr s.Name x.Name },
       fun s => { s with Arguments := mStr s.Arguments x.Arguments },
       fun s => { s with ServerLabel := mStr s.ServerLabel x.ServerLabel }] := by
    refine List.Forall₂.cons ?_ (List.Forall₂.cons ?_
      (List.Forall₂.cons ?_ List.Forall₂.nil))
    · exact contract_fStr _ 0 x.Name _ _ (fun bs s => rfl)
        (fun h => strBound_fStr h (List.mem_cons_self _ _) hL2)
        (fun h s => by rw [mStr, if_pos h])
        (fun h s => by rw [mStr, if_neg h])
    · exact contract_fStr _ 1 x.Arguments _ _ (fun bs s => rfl)
        (fun h => strBound_fStr h
          (List.mem_cons_of_mem _ (List.mem_cons_self _ _)) hL2)
        (fun h s => by rw [mStr, if_pos h])
        (fun h s => by rw [mStr, if_neg h])
    · exact contract_fStr _ 2 x.ServerLabel _ _ (fun bs s => rfl)
        (fun h => strBound_fStr h (List.mem_cons_of_mem _
          (List.mem_cons_of_mem _ (List.mem_cons_self _ _))) hL2)
        (fun h s => by rw [mStr, if_pos h])
        (fun h s => by rw [mStr, if_neg h])
  exact decLoop_fields dispContentBlockMCPToolApprovalRequest 3 4 (by norm_num)
    [fStr 0 x.Name, fStr 1 x.Arguments, fStr 2 x.ServerLabel] _ [0, 1, 2] rfl
    (by decide) (by decide) hc (by norm_num) s rest

theorem decContentBlockMCPToolApprovalResponseB_enc
    (x : ContentBlockMCPToolApprovalResponse)
    (hL : (encContentBlockMCPToolApprovalResponseB x).length ≤ 2 ^ 63)
    (s : ContentBlockMCPToolApprovalResponse) (rest : List Nat) :
    decContentBlockMCPToolApprovalResponseB
        (encContentBlockMCPToolApprovalResponseB x ++ rest) s
      = (mergeContentBlockMCPToolApprovalResponse s x, .ok rest) := by
  have hL2 : (encEnts 0 (opts [fStr 0 x.ApprovalRequestID, fBool 1 x.Approve,
      fStr 2 x.Reason])).length ≤ 2 ^ 63 := hL
  have hc : List.Forall₂ (fieldContract dispContentBlockMCPToolApprovalResponse)
      [fStr 0 x.ApprovalRequestID, fBool 1 x.Approve, fStr 2 x.Reason]
      [fun s =>
        { s with ApprovalRequestID := mStr s.ApprovalRequestID x.ApprovalRequestID },
       fun s => { s with Approve := mBool s.Approve x.Approve },
       fun s => { s with Reason := mStr s.Reason x.Reason }] := by
    refine List.Forall₂.cons ?_ (List.Forall₂.cons ?_
      (List.Forall₂.cons ?_ List.Forall₂.nil))
    · exact contract_fStr _ 0 x.ApprovalRequestID _ _ (fun bs s => rfl)
        (fun h => strBound_fStr h (List.mem_cons_self _ _) hL2)
        (fun h s => by rw [mStr, if_pos h])
        (fun h s => by rw [mStr, if_neg h])
    · exact contract_fBool _ 1 x.Approve
        ((fun s v => { s with Approve := v }) :
          ContentBlockMCPToolApprovalResponse → Bool →
            ContentBlockMCPToolApprovalResponse) _
        (fun bs s => rfl)
        (fun h s => by rw [mBool, h]; rfl)
        (fun h s => by rw [mBool, h]; rfl)
    · exact contract_fStr _ 2 x.Reason _ _ (fun bs s => rfl)
        (fun h => strBound_fStr h (List.mem_cons_of_mem _
          (List.mem_cons_of_mem _ (List.mem_cons_self _ _))) hL2)
        (fun h s => by rw [mStr, if_pos h])
        (fun h s => by rw [mStr, if_neg h])
  exact decLoop_fields dispContentBlockMCPToolApprovalResponse 3 4 (by norm_num)
    [fStr 0 x.ApprovalRequestID, fBool 1 x.Approve, fStr 2 x.Reason] _ [0, 1, 2]
    rfl (by decide) (by decide) hc (by norm_num) s rest

theorem fSliceVal_fst {τ : Type} (f : Nat) (o : Option (List τ))
    (encB : τ → List Nat) : (fSliceVal f o encB).1 = f := by
  cases o with
  | none => rfl
  | some l =>
    cases l with
    | nil => rfl
    | cons a t => rfl

theorem decTokenUsageMetaB_enc (x : TokenUsageMeta)
    (hwf : wfTokenUsageMeta x = true) (s : TokenUsageMeta) (rest : List Nat) :
    decTokenUsageMetaB (encTokenUsageMetaB x ++ rest) s
      = (mergeTokenUsageMeta s x, .ok rest) := by
  simp only [wfTokenUsageMeta, Bool.and_eq_true] at hwf
  obtain ⟨⟨⟨⟨h0, h1⟩, h2⟩, h3⟩, h4⟩ := hwf
  simp only [int64OK, decide_eq_true_eq] at h0 h2 h4
  have hc : List.Forall₂ (fieldContract dispTokenUsageMeta) (entsTokenUsageMeta x)
      [fun s => { s with InputTokens :=
         if x.InputTokens = 0 then s.InputTokens else x.InputTokens },
       fun s => { s with InputTokensDetails :=
         if isZeroInputTokensUsageDetails x.InputTokensDetails then s.InputTokensDetails
         else mergeInputTokensUsageDetails s.InputTokensDetails x.InputTokensDetails },
       fun s => { s with OutputTokens :=
         if x.OutputTokens = 0 then s.OutputTokens else x.OutputTokens },
       fun s => { s with OutputTokensDetails :=
         if isZeroOutputTokensUsageDetails x.OutputTokensDetails then s.OutputTokensDetails
         else mergeOutputTokensUsageDetails s.OutputTokensDetails x.OutputTokensDetails },
       fun s => { s with TotalTokens :=
         if x.TotalTokens = 0 then s.TotalTokens else x.TotalTokens }] := by
    refine List.Forall₂.cons ?_ (List.Forall₂.cons ?_ (List.Forall₂.cons ?_
      (List.Forall₂.cons ?_ (List.Forall₂.cons ?_ List.Forall₂.nil))))
    · exact contract_fInt _ 0 x.InputTokens _ _ (fun bs s => rfl) h0.1 h0.2
        (fun h s => by rw [if_pos h])
        (fun h s => by rw [if_neg h])
    · exact contract_fSubV _ 1 (isZeroInputTokensUsageDetails x.InputTokensDetails)
        (encInputTokensUsageDetailsB x.InputTokensDetails)
        decInputTokensUsageDetailsB
        ((fun s => s.InputTokensDetails) : TokenUsageMeta → InputTokensUsageDetails)
        ((fun s t => { s with InputTokensDetails := t }) :
          TokenUsageMeta → InputTokensUsageDetails → TokenUsageMeta)
        (fun t => mergeInputTokensUsageDetails t x.InputTokensDetails) _
        (fun bs s => rfl)
        (fun _ t r => decInputTokensUsageDetailsB_enc x.InputTokensDetails h1 t r)
        (fun h s => by rw [h]; rfl)
        (fun h s => by rw [h]; rfl)
    · exact contract_fInt _ 2 x.OutputTokens _ _ (fun bs s => rfl) h2.1 h2.2
        (fun h s => by rw [if_pos h])
        (fun h s => by rw [if_neg h])
    · exact contract_fSubV _ 3 (isZeroOutputTokensUsageDetails x.OutputTokensDetails)
        (encOutputTokensUsageDetailsB x.OutputTokensDetails)
        decOutputTokensUsageDetailsB
        ((fun s => s.OutputTokensDetails) : TokenUsageMeta → OutputTokensUsageDetails)
        ((fun s t => { s with OutputTokensDetails := t }) :
          TokenUsageMeta → OutputTokensUsageDetails → TokenUsageMeta)
        (fun t => mergeOutputTokensUsageDetails t x.OutputTokensDetails) _
        (fun bs s => rfl)
        (fun _ t r => decOutputTokensUsageDetailsB_enc x.OutputTokensDetails h3 t r)
        (fun h s => by rw [h]; rfl)
        (fun h s => by rw [h]; rfl)
    · exact contract_fInt _ 4 x.TotalTokens _ _ (fun bs s => rfl) h4.1 h4.2
        (fun h s => by rw [if_pos h])
        (fun h s => by rw [if_neg h])
  exact decLoop_fields dispTokenUsageMeta 5 6 (by norm_num)
    (entsTokenUsageMeta x) _ [0, 1, 2, 3, 4] rfl (by decide) (by decide) hc
    (by norm_num) s rest

theorem decMCPListToolsItemB_enc (x : MCPListToolsItem)
    (hL : (encMCPListToolsItemB x).length ≤ 2 ^ 63) (s : MCPListToolsItem)
    (rest : List Nat) :
    decMCPListToolsItemB (encMCPListToolsItemB x ++ rest) s
      = (mergeMCPListToolsItem s x, .ok rest) := by
  have hent : (2, match x.InputSchema with
      | none => none
      | some t => if isZeroSchema t then none else some (encSchemaB t))
      = fSubV 2 (isZeroOpt isZeroSchema x.InputSchema)
          (encSchemaB (x.InputSchema.getD zeroSchema)) := by
    rcases x.InputSchema with _ | t
    · rfl
    · rfl
  have hL2 : (encEnts 0 (opts [fStr 0 x.Name, fStr 1 x.Description,
      fSubV 2 (isZeroOpt isZeroSchema x.InputSchema)
        (encSchemaB (x.InputSchema.getD zeroSchema))])).length ≤ 2 ^ 63 := by
    rw [← hent]
    exact hL
  have hc : List.Forall₂ (fieldContract dispMCPListToolsItem)
      [fStr 0 x.Name, fStr 1 x.Description,
       fSubV 2 (isZeroOpt isZeroSchema x.InputSchema)
         (encSchemaB (x.InputSchema.getD zeroSchema))]
      [fun s => { s with Name := mStr s.Name x.Name },
       fun s => { s with Description := mStr s.Description x.Description },
       fun s =>
        { s with InputSchema := mPtrSub isZeroSchema mergeSchema zeroSchema s.InputSchema x.InputSchema }] := by
    refine List.Forall₂.cons ?_ (List.Forall₂.cons ?_
      (List.Forall₂.cons ?_ List.Forall₂.nil))
    · exact contract_fStr _ 0 x.Name _ _ (fun bs s => rfl)
        (fun h => strBound_fStr h (List.mem_cons_self _ _) hL2)
        (fun h s => by rw [mStr, if_pos h])
        (fun h s => by rw [mStr, if_neg h])
    · exact contract_fStr _ 1 x.Description _ _ (fun bs s => rfl)
        (fun h => strBound_fStr h
          (List.mem_cons_of_mem _ (List.mem_cons_self _ _)) hL2)
        (fun h s => by rw [mStr, if_pos h])
        (fun h s => by rw [mStr, if_neg h])
    · refine contract_fSubV _ 2 (isZeroOpt isZeroSchema x.InputSchema)
        (encSchemaB (x.InputSchema.getD zeroSchema)) decSchemaB
        ((fun s => s.InputSchema.getD zeroSchema) : MCPListToolsItem → Schema)
        ((fun s t => { s with InputSchema := some t }) :
          MCPListToolsItem → Schema → MCPListToolsItem)
        (fun t => mergeSchema t (x.InputSchema.getD zeroSchema)) _
        (fun bs s => rfl)
        (fun hz t r => decSchemaB_enc (x.InputSchema.getD zeroSchema)
          (entBound_fSubV hz (List.mem_cons_of_mem _ (List.mem_cons_of_mem _
            (List.mem_cons_self _ _))) hL2) t r)
        ?_ ?_
      · intro h s
        cases hIS : x.InputSchema with
        | none => rfl
        | some t =>
          rw [hIS] at h
          simp only [isZeroOpt] at h
          show { s with InputSchema := mPtrSub isZeroSchema mergeSchema zeroSchema s.InputSchema (some t) } = s
          rw [mPtrSub]
          rw [if_pos h]
      · intro h s
        cases hIS : x.InputSchema with
        | none =>
          rw [hIS] at h
          exact absurd h (by simp [isZeroOpt])
        | some t =>
          rw [hIS] at h
          simp only [isZeroOpt] at h
          show { s with InputSchema := some (mergeSchema (s.InputSchema.getD zeroSchema) t) }
            = { s with InputSchema := mPtrSub isZeroSchema mergeSchema zeroSchema s.InputSchema (some t) }
          rw [mPtrSub]
          rw [if_neg (by rw [h]; exact Bool.false_ne_true)]
  have hres := decLoop_fields dispMCPListToolsItem 3 4 (by norm_num)
    [fStr 0 x.Name, fStr 1 x.Description,
     fSubV 2 (isZeroOpt isZeroSchema x.InputSchema)
       (encSchemaB (x.InputSchema.getD zeroSchema))] _ [0, 1, 2] rfl
    (by decide) (by decide) hc (by norm_num) s rest
  show decLoop dispMCPListToolsItem 3 4 0
    (encEnts 0 (opts [fStr 0 x.Name, fStr 1 x.Description,
      (2, match x.InputSchema with
        | none => none
        | some t => if isZeroSchema t then none else some (encSchemaB t))]) ++ rest) s
    = _
  rw [hent]
  exact hres

theorem decContentBlockMCPListToolsB_enc (x : ContentBlockMCPListTools)
    (hL : (encContentBlockMCPListToolsB x).length ≤ 2 ^ 63)
    (s : ContentBlockMCPListTools) (rest : List Nat) :
    decContentBlockMCPListToolsB (encContentBlockMCPListToolsB x ++ rest) s
      = (mergeContentBlockMCPListTools s x, .ok rest) := by
  have hL2 : (encEnts 0 (opts [fStr 0 x.ServerLabel,
      fSliceVal 1 x.Tools encMCPListToolsItemB, fStr 2 x.Error])).length ≤ 2 ^ 63 := hL
  have hc : List.Forall₂ (fieldContract dispContentBlockMCPListTools)
      [fStr 0 x.ServerLabel, fSliceVal 1 x.Tools encMCPListToolsItemB,
       fStr 2 x.Error]
      [fun s => { s with ServerLabel := mStr s.ServerLabel x.ServerLabel },
       fun s =>
        { s with Tools := mSliceVal (mergeMCPListToolsItem zeroMCPListToolsItem) s.Tools x.Tools },
       fun s => { s with Error := mStr s.Error x.Error }] := by
    refine List.Forall₂.cons ?_ (List.Forall₂.cons ?_
      (List.Forall₂.cons ?_ List.Forall₂.nil))
    · exact contract_fStr _ 0 x.ServerLabel _ _ (fun bs s => rfl)
        (fun h => strBound_fStr h (List.mem_cons_self _ _) hL2)
        (fun h s => by rw [mStr, if_pos h])
        (fun h s => by rw [mStr, if_neg h])
    · refine contract_fSliceVal _ 1 x.Tools encMCPListToolsItemB
        decMCPListToolsItemB zeroMCPListToolsItem
        ((fun s l => { s with Tools := some l }) :
          ContentBlockMCPListTools → List MCPListToolsItem → ContentBlockMCPListTools)
        (mergeMCPListToolsItem zeroMCPListToolsItem) _
        (fun bs s => rfl)
        (fun y => encEnts_length_pos 0 _)
        (fun y _ hb r => decMCPListToolsItemB_enc y hb zeroMCPListToolsItem r)
        (entBoundOpt (List.mem_cons_of_mem _ (List.mem_cons_self _ _)) hL2)
        ?_ ?_
      · intro h s
        rcases h with h | h
        · rw [h]
          rfl
        · rw [h]
          rfl
      · intro l' hl hne s
        rw [hl]
        cases l' with
        | nil => exact absurd rfl hne
        | cons a t => rfl
    · exact contract_fStr _ 2 x.Error _ _ (fun bs s => rfl)
        (fun h => strBound_fStr h (List.mem_cons_of_mem _
          (List.mem_cons_of_mem _ (List.mem_cons_self _ _))) hL2)
        (fun h s => by rw [mStr, if_pos h])
        (fun h s => by rw [mStr, if_neg h])
  exact decLoop_fields dispContentBlockMCPListTools 3 4 (by norm_num)
    [fStr 0 x.ServerLabel, fSliceVal 1 x.Tools encMCPListToolsItemB,
     fStr 2 x.Error] _ [0, 1, 2]
    (by simp only [List.map_cons, List.map_nil, fSliceVal_fst]; rfl)
    (by decide) (by decide) hc (by norm_num) s rest

theorem seqEnts_ok_nil {l : List (Nat × Option (List Nat))}
    (h : seqEnts [] = .ok l) : l = [] := by
  rw [seqEnts] at h
  simp only [Except.ok.injEq] at h
  exact h.symm

theorem seqEnts_ok2 {e0 e1 : Except EncErr (Nat × Option (List Nat))}
    {l : List (Nat × Option (List Nat))} (h : seqEnts [e0, e1] = .ok l) :
    ∃ p0 p1, e0 = .ok p0 ∧ e1 = .ok p1 ∧ l = [p0, p1] := by
  obtain ⟨p0, ps0, h0, hs, hl⟩ := seqEnts_ok_cons h
  obtain ⟨p1, ps1, h1, hs1, hl1⟩ := seqEnts_ok_cons hs
  have hn := seqEnts_ok_nil hs1
  subst hn
  subst hl1
  subst hl
  exact ⟨p0, p1, h0, h1, rfl⟩

theorem seqEnts_ok4 {e0 e1 e2 e3 : Except EncErr (Nat × Option (List Nat))}
    {l : List (Nat × Option (List Nat))} (h : seqEnts [e0, e1, e2, e3] = .ok l) :
    ∃ p0 p1 p2 p3, e0 = .ok p0 ∧ e1 = .ok p1 ∧ e2 = .ok p2 ∧ e3 = .ok p3 ∧
      l = [p0, p1, p2, p3] := by
  obtain ⟨p0, ps0, h0, hs, hl⟩ := seqEnts_ok_cons h
  obtain ⟨p1, ps1, h1, hs1, hl1⟩ := seqEnts_ok_cons hs
  obtain ⟨p2, p3, h2, h3, hl2⟩ := seqEnts_ok2 hs1
  subst hl2
  subst hl1
  subst hl
  exact ⟨p0, p1, p2, p3, h0, h1, h2, h3, rfl⟩

theorem seqEnts_ok5 {e0 e1 e2 e3 e4 : Except EncErr (Nat × Option (List Nat))}
    {l : List (Nat × Option (List Nat))}
    (h : seqEnts [e0, e1, e2, e3, e4] = .ok l) :
    ∃ p0 p1 p2 p3 p4, e0 = .ok p0 ∧ e1 = .ok p1 ∧ e2 = .ok p2 ∧ e3 = .ok p3 ∧
      e4 = .ok p4 ∧ l = [p0, p1, p2, p3, p4] := by
  obtain ⟨p0, ps0, h0, hs, hl⟩ := seqEnts_ok_cons h
  obtain ⟨p1, p2, p3, p4, h1, h2, h3, h4, hl1⟩ := seqEnts_ok4 hs
  subst hl1
  subst hl
  exact ⟨p0, p1, p2, p3, p4, h0, h1, h2, h3, h4, rfl⟩

theorem seqEnts_ok6 {e0 e1 e2 e3 e4 e5 : Except EncErr (Nat × Option (List Nat))}
    {l : List (Nat × Option (List Nat))}
    (h : seqEnts [e0, e1, e2, e3, e4, e5] = .ok l) :
    ∃ p0 p1 p2 p3 p4 p5, e0 = .ok p0 ∧ e1 = .ok p1 ∧ e2 = .ok p2 ∧
      e3 = .ok p3 ∧ e4 = .ok p4 ∧ e5 = .ok p5 ∧ l = [p0, p1, p2, p3, p4, p5] := by
  obtain ⟨p0, ps0, h0, hs, hl⟩ := seqEnts_ok_cons h
  obtain ⟨p1, p2, p3, p4, p5, h1, h2, h3, h4, h5, hl1⟩ := seqEnts_ok5 hs
  subst hl1
  subst hl
  exact ⟨p0, p1, p2, p3, p4, p5, h0, h1, h2, h3, h4, h5, rfl⟩

theorem seqEnts_ok8
    {e0 e1 e2 e3 e4 e5 e6 e7 : Except EncErr (Nat × Option (List Nat))}
    {l : List (Nat × Option (List Nat))}
    (h : seqEnts [e0, e1, e2, e3, e4, e5, e6, e7] = .ok l) :
    ∃ p0 p1 p2 p3 p4 p5 p6 p7, e0 = .ok p0 ∧ e1 = .ok p1 ∧ e2 = .ok p2 ∧
      e3 = .ok p3 ∧ e4 = .ok p4 ∧ e5 = .ok p5 ∧ e6 = .ok p6 ∧ e7 = .ok p7 ∧
      l = [p0, p1, p2, p3, p4, p5, p6, p7] := by
  obtain ⟨p0, ps0, h0, hs, hl⟩ := seqEnts_ok_cons h
  obtain ⟨p1, ps1, h1, hs1, hl1⟩ := seqEnts_ok_cons hs
  obtain ⟨p2, p3, p4, p5, p6, p7, h2, h3, h4, h5, h6, h7, hl2⟩ := seqEnts_ok6 hs1
  subst hl2
  subst hl1
  subst hl
  exact ⟨p0, p1, p2, p3, p4, p5, p6, p7, h0, h1, h2, h3, h4, h5, h6, h7, rfl⟩

theorem decAgenticMessageInputImageB_enc (reg reg' : Reg)
    (x : AgenticMessageInputImage) (bs : List Nat)
    (henc : encAgenticMessageInputImageB reg x = .ok bs)
    (hwf : wfAgenticMessageInputImage x = true)
    (hnm : namesOKAgenticMessageInputImage reg' x = true)
    (hL : bs.length ≤ 2 ^ 63) (s : AgenticMessageInputImage) (rest : List Nat) :
    decAgenticMessageInputImageB reg' (bs ++ rest) s
      = (mergeAgenticMessageInputImage s x, .ok rest) := by
  rw [encAgenticMessageInputImageB, entsAgenticMessageInputImage, encOf.eq_def] at henc
  cases hs : seqEnts [.ok (fOptStr 0 x.URL), .ok (fOptStr 1 x.Base64Data),
      .ok (fStr 2 x.MIMEType), .ok (fStr 3 x.Detail), fMapE 4 reg x.Extra] with
  | error e =>
    rw [hs] at henc
    exact absurd henc (by simp)
  | ok l =>
    rw [hs] at henc
    dsimp only at henc
    simp only [Except.ok.injEq] at henc
    obtain ⟨p0, p1, p2, p3, p4, hp0, hp1, hp2, hp3, hp4, hl⟩ := seqEnts_ok5 hs
    subst hl
    injection hp0 with hp0
    injection hp1 with hp1
    injection hp2 with hp2
    injection hp3 with hp3
    subst hp0
    subst hp1
    subst hp2
    subst hp3
    subst henc
    obtain ⟨h4f, hc4⟩ := contract_fMapE (dispAgenticMessageInputImage reg') 4
      reg reg' x.Extra
      ((fun s => s.Extra.getD []) :
        AgenticMessageInputImage → List (String × GoVal))
      ((fun s m => { s with Extra := some m }) :
        AgenticMessageInputImage → List (String × GoVal) → AgenticMessageInputImage)
      p4 (fun s => { s with Extra := mergeMap s.Extra x.Extra }) hp4
      (fun bs s => rfl) hwf hnm
      (entBoundOpt (List.mem_cons_of_mem _ (List.mem_cons_of_mem _
        (List.mem_cons_of_mem _ (List.mem_cons_of_mem _
          (List.mem_cons_self _ _))))) hL)
      (fun h s => by
        rw [h]
        rfl)
      (fun mm hm s => by
        rw [hm]
        rfl)
    have hc : List.Forall₂ (fieldContract (dispAgenticMessageInputImage reg'))
        [fOptStr 0 x.URL, fOptStr 1 x.Base64Data, fStr 2 x.MIMEType,
         fStr 3 x.Detail, p4]
        [fun s => { s with URL := mOptStr s.URL x.URL },
         fun s => { s with Base64Data := mOptStr s.Base64Data x.Base64Data },
         fun s => { s with MIMEType := mStr s.MIMEType x.MIMEType },
         fun s => { s with Detail := mStr s.Detail x.Detail },
         fun s => { s with Extra := mergeMap s.Extra x.Extra }] := by
      refine List.Forall₂.cons ?_ (List.Forall₂.cons ?_ (List.Forall₂.cons ?_
        (List.Forall₂.cons ?_ (List.Forall₂.cons ?_ List.Forall₂.nil))))
      · exact contract_fOptStr _ 0 x.URL _ _ (fun bs s => rfl)
          (fun h => strBound_fStr h (List.mem_cons_self _ _) hL)
          (fun h s => by rw [mOptStr, if_pos h])
          (fun h s => by rw [mOptStr, if_neg h])
      · exact contract_fOptStr _ 1 x.Base64Data _ _ (fun bs s => rfl)
          (fun h => strBound_fStr h
            (List.mem_cons_of_mem _ (List.mem_cons_self _ _)) hL)
          (fun h s => by rw [mOptStr, if_pos h])
          (fun h s => by rw [mOptStr, if_neg h])
      · exact contract_fStr _ 2 x.MIMEType _ _ (fun bs s => rfl)
          (fun h => strBound_fStr h (List.mem_cons_of_mem _
            (List.mem_cons_of_mem _ (List.mem_cons_self _ _))) hL)
          (fun h s => by rw [mStr, if_pos h])
          (fun h s => by rw [mStr, if_neg h])
      · exact contract_fStr _ 3 x.Detail _ _ (fun bs s => rfl)
          (fun h => strBound_fStr h (List.mem_cons_of_mem _
            (List.mem_cons_of_mem _ (List.mem_cons_of_mem _
              (List.mem_cons_self _ _)))) hL)
          (fun h s => by rw [mStr, if_pos h])
          (fun h s => by rw [mStr, if_neg h])
      · exact hc4
    exact decLoop_fields (dispAgenticMessageInputImage reg') 5 6 (by norm_num)
      [fOptStr 0 x.URL, fOptStr 1 x.Base64Data, fStr 2 x.MIMEType,
       fStr 3 x.Detail, p4] _ [0, 1, 2, 3, 4]
      (by simp only [List.map_cons, List.map_nil, h4f]; rfl)
      (by decide) (by decide) hc (by norm_num) s rest

theorem decAgenticMessageInputAudioB_enc (reg reg' : Reg) (x : AgenticMessageInputAudio) (bs : List Nat)
    (henc : encAgenticMessageInputAudioB reg x = .ok bs) (hwf : wfAgenticMessageInputAudio x = true)
    (hnm : namesOKAgenticMessageInputAudio reg' x = true) (hL : bs.length ≤ 2 ^ 63)
    (s : AgenticMessageInputAudio) (rest : List Nat) :
    decAgenticMessageInputAudioB reg' (bs ++ rest) s = (mergeAgenticMessageInputAudio s x, .ok rest) := by
  rw [encAgenticMessageInputAudioB, entsAgenticMessageInputAudio, encOf.eq_def] at henc
  cases hs : seqEnts [.ok (fOptStr 0 x.URL),
      .ok (fOptStr 1 x.Base64Data),
      .ok (fStr 2 x.MIMEType),
      fMapE 3 reg x.Extra] with
  | error e =>
    rw [hs] at henc
    exact absurd henc (by simp)
  | ok l =>
    rw [hs] at henc
    dsimp only at henc
    simp only [Except.ok.injEq] at henc
    obtain ⟨p0, p1, p2, p3, hp0, hp1, hp2, hp3, hl⟩ := seqEnts_ok4 hs
    subst hl
    injection hp0 with hp0
    injection hp1 with hp1
    injection hp2 with hp2
    subst hp0
    subst hp1
    subst hp2
    subst henc

    obtain ⟨h3f, hc3⟩ := contract_fMapE (dispAgenticMessageInputAudio reg') 3
      reg reg' x.Extra
      ((fun s => s.Extra.getD []) : AgenticMessageInputAudio → List (String × GoVal))
      ((fun s m => { s with Extra := some m }) :
        AgenticMessageInputAudio → List (String × GoVal) → AgenticMessageInputAudio)
      p3 (fun s => { s with Extra := mergeMap s.Extra x.Extra }) hp3
      (fun bs s => rfl) hwf hnm
      (entBoundOpt (List.mem_cons_of_mem _ (List.mem_cons_of_mem _ (List.mem_cons_of_mem _ (List.mem_cons_self _ _)))) hL)
      (fun h s => by
        rw [h]
        rfl)
      (fun mm hm s => by
        rw [hm]
        rfl)
    have hc : List.Forall₂ (fieldContract (dispAgenticMessageInputAudio reg'))
        [fOptStr 0 x.URL, fOptStr 1 x.Base64Data, fStr 2 x.MIMEType, p3]
        [fun s => { s with URL := mOptStr s.URL x.URL },
         fun s => { s with Base64Data := mOptStr s.Base64Data x.Base64Data },
         fun s => { s with MIMEType := mStr s.MIMEType x.MIMEType },
         fun s => { s with Extra := mergeMap s.Extra x.Extra }] := by
      refine List.Forall₂.cons ?_ (List.Forall₂.cons ?_ (List.Forall₂.cons ?_ (List.Forall₂.cons ?_ List.Forall₂.nil)))
      · exact contract_fOptStr _ 0 x.URL _ _ (fun bs s => rfl)
          (fun h => strBound_fStr h (List.mem_cons_self _ _) hL)
          (fun h s => by rw [mOptStr, if_pos h])
          (fun h s => by rw [mOptStr, if_neg h])
      · exact contract_fOptStr _ 1 x.Base64Data _ _ (fun bs s => rfl)
          (fun h => strBound_fStr h (List.mem_cons_of_mem _ (List.mem_cons_self _ _)) hL)
          (fun h s => by rw [mOptStr, if_pos h])
          (fun h s => by rw [mOptStr, if_neg h])
      · exact contract_fStr _ 2 x.MIMEType _ _ (fun bs s => rfl)
          (fun h => strBound_fStr h (List.mem_cons_of_mem _ (List.mem_cons_of_mem _ (List.mem_cons_self _ _))) hL)
          (fun h s => by rw [mStr, if_pos h])
          (fun h s => by rw [mStr, if_neg h])
      · exact hc3
    exact decLoop_fields (dispAgenticMessageInputAudio reg') 4 5 (by norm_num)
      [fOptStr 0 x.URL, fOptStr 1 x.Base64Data, fStr 2 x.MIMEType, p3] _ [0, 1, 2, 3]
      (by simp only [List.map_cons, List.map_nil, h3f]; rfl)
      (by decide) (by decide) hc (by norm_num) s rest

theorem decAgenticMessageInputVideoB_enc (reg reg' : Reg) (x : AgenticMessageInputVideo) (bs : List Nat)
    (henc : encAgenticMessageInputVideoB reg x = .ok bs) (hwf : wfAgenticMessageInputVideo x = true)
    (hnm : namesOKAgenticMessageInputVideo reg' x = true) (hL : bs.length ≤ 2 ^ 63)
    (s : AgenticMessageInputVideo) (rest : List Nat) :
    decAgenticMessageInputVideoB reg' (bs ++ rest) s = (mergeAgenticMessageInputVideo s x, .ok rest) := by
  rw [encAgenticMessageInputVideoB, entsAgenticMessageInputVideo, encOf.eq_def] at henc
  cases hs : seqEnts [.ok (fOptStr 0 x.URL),
      .ok (fOptStr 1 x.Base64Data),
      .ok (fStr 2 x.MIMEType),
      fMapE 3 reg x.Extra] with
  | error e =>
    rw [hs] at henc
    exact absurd henc (by simp)
  | ok l =>
    rw [hs] at henc
    dsimp only at henc
    simp only [Except.ok.injEq] at henc
    obtain ⟨p0, p1, p2, p3, hp0, hp1, hp2, hp3, hl⟩ := seqEnts_ok4 hs
    subst hl
    injection hp0 with hp0
    injection hp1 with hp1
    injection hp2 with hp2
    subst hp0
    subst hp1
    subst hp2
    subst henc

    obtain ⟨h3f, hc3⟩ := contract_fMapE (dispAgenticMessageInputVideo reg') 3
      reg reg' x.Extra
      ((fun s => s.Extra.getD []) : AgenticMessageInputVideo → List (String × GoVal))
      ((fun s m => { s with Extra := some m }) :
        AgenticMessageInputVideo → List (String × GoVal) → AgenticMessageInputVideo)
      p3 (fun s => { s with Extra := mergeMap s.Extra x.Extra }) hp3
      (fun bs s => rfl) hwf hnm
      (entBoundOpt (List.mem_cons_of_mem _ (List.mem_cons_of_mem _ (List.mem_cons_of_mem _ (List.mem_cons_self _ _)))) hL)
      (fun h s => by
        rw [h]
        rfl)
      (fun mm hm s => by
        rw [hm]
        rfl)
    have hc : List.Forall₂ (fieldContract (dispAgenticMessageInputVideo reg'))
        [fOptStr 0 x.URL, fOptStr 1 x.Base64Data, fStr 2 x.MIMEType, p3]
        [fun s => { s with URL := mOptStr s.URL x.URL },
         fun s => { s with Base64Data := mOptStr s.Base64Data x.Base64Data },
         fun s => { s with MIMEType := mStr s.MIMEType x.MIMEType },
         fun s => { s with Extra := mergeMap s.Extra x.Extra }] := by
      refine List.Forall₂.cons ?_ (List.Forall₂.cons ?_ (List.Forall₂.cons ?_ (List.Forall₂.cons ?_ List.Forall₂.nil)))
      · exact contract_fOptStr _ 0 x.URL _ _ (fun bs s => rfl)
          (fun h => strBound_fStr h (List.mem_cons_self _ _) hL)
          (fun h s => by rw [mOptStr, if_pos h])
          (fun h s => by rw [mOptStr, if_neg h])
      · exact contract_fOptStr _ 1 x.Base64Data _ _ (fun bs s => rfl)
          (fun h => strBound_fStr h (List.mem_cons_of_mem _ (List.mem_cons_self _ _)) hL)
          (fun h s => by rw [mOptStr, if_pos h])
          (fun h s => by rw [mOptStr, if_neg h])
      · exact contract_fStr _ 2 x.MIMEType _ _ (fun bs s => rfl)
          (fun h => strBound_fStr h (List.mem_cons_of_mem _ (List.mem_cons_of_mem _ (List.mem_cons_self _ _))) hL)
          (fun h s => by rw [mStr, if_pos h])
          (fun h s => by rw [mStr, if_neg h])
      · exact hc3
    exact decLoop_fields (dispAgenticMessageInputVideo reg') 4 5 (by norm_num)
      [fOptStr 0 x.URL, fOptStr 1 x.Base64Data, fStr 2 x.MIMEType, p3] _ [0, 1, 2, 3]
      (by simp only [List.map_cons, List.map_nil, h3f]; rfl)
      (by decide) (by decide) hc (by norm_num) s rest

theorem decAgenticMessageOutputImageB_enc (reg reg' : Reg) (x : AgenticMessageOutputImage) (bs : List Nat)
    (henc : encAgenticMessageOutputImageB reg x = .ok bs) (hwf : wfAgenticMessageOutputImage x = true)
    (hnm : namesOKAgenticMessageOutputImage reg' x = true) (hL : bs.length ≤ 2 ^ 63)
    (s : AgenticMessageOutputImage) (rest : List Nat) :
    decAgenticMessageOutputImageB reg' (bs ++ rest) s = (mergeAgenticMessageOutputImage s x, .ok rest) := by
  rw [encAgenticMessageOutputImageB, entsAgenticMessageOutputImage, encOf.eq_def] at henc
  cases hs : seqEnts [.ok (fOptStr 0 x.URL),
      .ok (fOptStr 1 x.Base64Data),
      .ok (fStr 2 x.MIMEType),
      fMapE 3 reg x.Extra] with
  | error e =>
    rw [hs] at henc
    exact absurd henc (by simp)
  | ok l =>
    rw [hs] at henc
    dsimp only at henc
    simp only [Except.ok.injEq] at henc
    obtain ⟨p0, p1, p2, p3, hp0, hp1, hp2, hp3, hl⟩ := seqEnts_ok4 hs
    subst hl
    injection hp0 with hp0
    injection hp1 with hp1
    injection hp2 with hp2
    subst hp0
    subst hp1
    subst hp2
    subst henc

    obtain ⟨h3f, hc3⟩ := contract_fMapE (dispAgenticMessageOutputImage reg') 3
      reg reg' x.Extra
      ((fun s => s.Extra.getD []) : AgenticMessageOutputImage → List (String × GoVal))
      ((fun s m => { s with Extra := some m }) :
        AgenticMessageOutputImage → List (String × GoVal) → AgenticMessageOutputImage)
      p3 (fun s => { s with Extra := mergeMap s.Extra x.Extra }) hp3
      (fun bs s => rfl) hwf hnm
      (entBoundOpt (List.mem_cons_of_mem _ (List.mem_cons_of_mem _ (List.mem_cons_of_mem _ (List.mem_cons_self _ _)))) hL)
      (fun h s => by
        rw [h]
        rfl)
      (fun mm hm s => by
        rw [hm]
        rfl)
    have hc : List.Forall₂ (fieldContract (dispAgenticMessageOutputImage reg'))
        [fOptStr 0 x.URL, fOptStr 1 x.Base64Data, fStr 2 x.MIMEType, p3]
        [fun s => { s with URL := mOptStr s.URL x.URL },
         fun s => { s with Base64Data := mOptStr s.Base64Data x.Base64Data },
         fun s => { s with MIMEType := mStr s.MIMEType x.MIMEType },
         fun s => { s with Extra := mergeMap s.Extra x.Extra }] := by
      refine List.Forall₂.cons ?_ (List.Forall₂.cons ?_ (List.Forall₂.cons ?_ (List.Forall₂.cons ?_ List.Forall₂.nil)))
      · exact contract_fOptStr _ 0 x.URL _ _ (fun bs s => rfl)
          (fun h => strBound_fStr h (List.mem_cons_self _ _) hL)
          (fun h s => by rw [mOptStr, if_pos h])
          (fun h s => by rw [mOptStr, if_neg h])
      · exact contract_fOptStr _ 1 x.Base64Data _ _ (fun bs s => rfl)
          (fun h => strBound_fStr h (List.mem_cons_of_mem _ (List.mem_cons_self _ _)) hL)
          (fun h s => by rw [mOptStr, if_pos h])
          (fun h s => by rw [mOptStr, if_neg h])
      · exact contract_fStr _ 2 x.MIMEType _ _ (fun bs s => rfl)
          (fun h => strBound_fStr h (List.mem_cons_of_mem _ (List.mem_cons_of_mem _ (List.mem_cons_self _ _))) hL)
          (fun h s => by rw [mStr, if_pos h])
          (fun h s => by rw [mStr, if_neg h])
      · exact hc3
    exact decLoop_fields (dispAgenticMessageOutputImage reg') 4 5 (by norm_num)
      [fOptStr 0 x.URL, fOptStr 1 x.Base64Data, fStr 2 x.MIMEType, p3] _ [0, 1, 2, 3]
      (by simp only [List.map_cons, List.map_nil, h3f]; rfl)
      (by decide) (by decide) hc (by norm_num) s rest

theorem decAgenticMessageOutputAudioB_enc (reg reg' : Reg) (x : AgenticMessageOutputAudio) (bs : List Nat)
    (henc : encAgenticMessageOutputAudioB reg x = .ok bs) (hwf : wfAgenticMessageOutputAudio x = true)
    (hnm : namesOKAgenticMessageOutputAudio reg' x = true) (hL : bs.length ≤ 2 ^ 63)
    (s : AgenticMessageOutputAudio) (rest : List Nat) :
    decAgenticMessageOutputAudioB reg' (bs ++ rest) s = (mergeAgenticMessageOutputAudio s x, .ok rest) := by
  rw [encAgenticMessageOutputAudioB, entsAgenticMessageOutputAudio, encOf.eq_def] at henc
  cases hs : seqEnts [.ok (fOptStr 0 x.URL),
      .ok (fOptStr 1 x.Base64Data),
      .ok (fStr 2 x.MIMEType),
      fMapE 3 reg x.Extra] with
  | error e =>
    rw [hs] at henc
    exact absurd henc (by simp)
  | ok l =>
    rw [hs] at henc
    dsimp only at henc
    simp only [Except.ok.injEq] at henc
    obtain ⟨p0, p1, p2, p3, hp0, hp1, hp2, hp3, hl⟩ := seqEnts_ok4 hs
    subst hl
    injection hp0 with hp0
    injection hp1 with hp1
    injection hp2 with hp2
    subst hp0
    subst hp1
    subst hp2
    subst henc

    obtain ⟨h3f, hc3⟩ := contract_fMapE (dispAgenticMessageOutputAudio reg') 3
      reg reg' x.Extra
      ((fun s => s.Extra.getD []) : AgenticMessageOutputAudio → List (String × GoVal))
      ((fun s m => { s with Extra := some m }) :
        AgenticMessageOutputAudio → List (String × GoVal) → AgenticMessageOutputAudio)
      p3 (fun s => { s with Extra := mergeMap s.Extra x.Extra }) hp3
      (fun bs s => rfl) hwf hnm
      (entBoundOpt (List.mem_cons_of_mem _ (List.mem_cons_of_mem _ (List.mem_cons_of_mem _ (List.mem_cons_self _ _)))) hL)
      (fun h s => by
        rw [h]
        rfl)
      (fun mm hm s => by
        rw [hm]
        rfl)
    have hc : List.Forall₂ (fieldContract (dispAgenticMessageOutputAudio reg'))
        [fOptStr 0 x.URL, fOptStr 1 x.Base64Data, fStr 2 x.MIMEType, p3]
        [fun s => { s with URL := mOptStr s.URL x.URL },
         fun s => { s with Base64Data := mOptStr s.Base64Data x.Base64Data },
         fun s => { s with MIMEType := mStr s.MIMEType x.MIMEType },
         fun s => { s with Extra := mergeMap s.Extra x.Extra }] := by
      refine List.Forall₂.cons ?_ (List.Forall₂.cons ?_ (List.Forall₂.cons ?_ (List.Forall₂.cons ?_ List.Forall₂.nil)))
      · exact contract_fOptStr _ 0 x.URL _ _ (fun bs s => rfl)
          (fun h => strBound_fStr h (List.mem_cons_self _ _) hL)
          (fun h s => by rw [mOptStr, if_pos h])
          (fun h s => by rw [mOptStr, if_neg h])
      · exact contract_fOptStr _ 1 x.Base64Data _ _ (fun bs s => rfl)
          (fun h => strBound_fStr h (List.mem_cons_of_mem _ (List.mem_cons_self _ _)) hL)
          (fun h s => by rw [mOptStr, if_pos h])
          (fun h s => by rw [mOptStr, if_neg h])
      · exact contract_fStr _ 2 x.MIMEType _ _ (fun bs s => rfl)
          (fun h => strBound_fStr h (List.mem_cons_of_mem _ (List.mem_cons_of_mem _ (List.mem_cons_self _ _))) hL)
          (fun h s => by rw [mStr, if_pos h])
          (fun h s => by rw [mStr, if_neg h])
      · exact hc3
    exact decLoop_fields (dispAgenticMessageOutputAudio reg') 4 5 (by norm_num)
      [fOptStr 0 x.URL, fOptStr 1 x.Base64Data, fStr 2 x.MIMEType, p3] _ [0, 1, 2, 3]
      (by simp only [List.map_cons, List.map_nil, h3f]; rfl)
      (by decide) (by decide) hc (by norm_num) s rest

theorem decAgenticMessageOutputVideoB_enc (reg reg' : Reg) (x : AgenticMessageOutputVideo) (bs : List Nat)
    (henc : encAgenticMessageOutputVideoB reg x = .ok bs) (hwf : wfAgenticMessageOutputVideo x = true)
    (hnm : namesOKAgenticMessageOutputVideo reg' x = true) (hL : bs.length ≤ 2 ^ 63)
    (s : AgenticMessageOutputVideo) (rest : List Nat) :
    decAgenticMessageOutputVideoB reg' (bs ++ rest) s = (mergeAgenticMessageOutputVideo s x, .ok rest) := by
  rw [encAgenticMessageOutputVideoB, entsAgenticMessageOutputVideo, encOf.eq_def] at henc
  cases hs : seqEnts [.ok (fOptStr 0 x.URL),
      .ok (fOptStr 1 x.Base64Data),
      .ok (fStr 2 x.MIMEType),
      fMapE 3 reg x.Extra] with
  | error e =>
    rw [hs] at henc
    exact absurd henc (by simp)
  | ok l =>
    rw [hs] at henc
    dsimp only at henc
    simp only [Except.ok.injEq] at henc
    obtain ⟨p0, p1, p2, p3, hp0, hp1, hp2, hp3, hl⟩ := seqEnts_ok4 hs
    subst hl
    injection hp0 with hp0
    injection hp1 with hp1
    injection hp2 with hp2
    subst hp0
    subst hp1
    subst hp2
    subst henc

    obtain ⟨h3f, hc3⟩ := contract_fMapE (dispAgenticMessageOutputVideo reg') 3
      reg reg' x.Extra
      ((fun s => s.Extra.getD []) : AgenticMessageOutputVideo → List (String × GoVal))
      ((fun s m => { s with Extra := some m }) :
        AgenticMessageOutputVideo → List (String × GoVal) → AgenticMessageOutputVideo)
      p3 (fun s => { s with Extra := mergeMap s.Extra x.Extra }) hp3
      (fun bs s => rfl) hwf hnm
      (entBoundOpt (List.mem_cons_of_mem _ (List.mem_cons_of_mem _ (List.mem_cons_of_mem _ (List.mem_cons_self _ _)))) hL)
      (fun h s => by
        rw [h]
        rfl)
      (fun mm hm s => by
        rw [hm]
        rfl)
    have hc : List.Forall₂ (fieldContract (dispAgenticMessageOutputVideo reg'))
        [fOptStr 0 x.URL, fOptStr 1 x.Base64Data, fStr 2 x.MIMEType, p3]
        [fun s => { s with URL := mOptStr s.URL x.URL },
         fun s => { s with Base64Data := mOptStr s.Base64Data x.Base64Data },
         fun s => { s with MIMEType := mStr s.MIMEType x.MIMEType },
         fun s => { s with Extra := mergeMap s.Extra x.Extra }] := by
      refine List.Forall₂.cons ?_ (List.Forall₂.cons ?_ (List.Forall₂.cons ?_ (List.Forall₂.cons ?_ List.Forall₂.nil)))
      · exact contract_fOptStr _ 0 x.URL _ _ (fun bs s => rfl)
          (fun h => strBound_fStr h (List.mem_cons_self _ _) hL)
          (fun h s => by rw [mOptStr, if_pos h])
          (fun h s => by rw [mOptStr, if_neg h])
      · exact contract_fOptStr _ 1 x.Base64Data _ _ (fun bs s => rfl)
          (fun h => strBound_fStr h (List.mem_cons_of_mem _ (List.mem_cons_self _ _)) hL)
          (fun h s => by rw [mOptStr, if_pos h])
          (fun h s => by rw [mOptStr, if_neg h])
      · exact contract_fStr _ 2 x.MIMEType _ _ (fun bs s => rfl)
          (fun h => strBound_fStr h (List.mem_cons_of_mem _ (List.mem_cons_of_mem _ (List.mem_cons_self _ _))) hL)
          (fun h s => by rw [mStr, if_pos h])
          (fun h s => by rw [mStr, if_neg h])
      · exact hc3
    exact decLoop_fields (dispAgenticMessageOutputVideo reg') 4 5 (by norm_num)
      [fOptStr 0 x.URL, fOptStr 1 x.Base64Data, fStr 2 x.MIMEType, p3] _ [0, 1, 2, 3]
      (by simp only [List.map_cons, List.map_nil, h3f]; rfl)
      (by decide) (by decide) hc (by norm_num) s rest

theorem decAgenticMessageOutputTextB_enc (reg reg' : Reg) (x : AgenticMessageOutputText) (bs : List Nat)
    (henc : encAgenticMessageOutputTextB reg x = .ok bs) (hwf : wfAgenticMessageOutputText x = true)
    (hnm : namesOKAgenticMessageOutputText reg' x = true) (hL : bs.length ≤ 2 ^ 63)
    (s : AgenticMessageOutputText) (rest : List Nat) :
    decAgenticMessageOutputTextB reg' (bs ++ rest) s = (mergeAgenticMessageOutputText s x, .ok rest) := by
  rw [encAgenticMessageOutputTextB, entsAgenticMessageOutputText, encOf.eq_def] at henc
  cases hs : seqEnts [.ok (fStr 0 x.Content),
      fMapE 1 reg x.Extra] with
  | error e =>
    rw [hs] at henc
    exact absurd henc (by simp)
  | ok l =>
    rw [hs] at henc
    dsimp only at henc
    simp only [Except.ok.injEq] at henc
    obtain ⟨p0, p1, hp0, hp1, hl⟩ := seqEnts_ok2 hs
    subst hl
    injection hp0 with hp0
    subst hp0
    subst henc

    obtain ⟨h1f, hc1⟩ := contract_fMapE (dispAgenticMessageOutputText reg') 1
      reg reg' x.Extra
      ((fun s => s.Extra.getD []) : AgenticMessageOutputText → List (String × GoVal))
      ((fun s m => { s with Extra := some m }) :
        AgenticMessageOutputText → List (String × GoVal) → AgenticMessageOutputText)
      p1 (fun s => { s with Extra := mergeMap s.Extra x.Extra }) hp1
      (fun bs s => rfl) hwf hnm
      (entBoundOpt (List.mem_cons_of_mem _ (List.mem_cons_self _ _)) hL)
      (fun h s => by
        rw [h]
        rfl)
      (fun mm hm s => by
        rw [hm]
        rfl)
    have hc : List.Forall₂ (fieldContract (dispAgenticMessageOutputText reg'))
        [fStr 0 x.Content, p1]
        [fun s => { s with Content := mStr s.Content x.Content },
         fun s => { s with Extra := mergeMap s.Extra x.Extra }] := by
      refine List.Forall₂.cons ?_ (List.Forall₂.cons ?_ List.Forall₂.nil)
      · exact contract_fStr _ 0 x.Content _ _ (fun bs s => rfl)
          (fun h => strBound_fStr h (List.mem_cons_self _ _) hL)
          (fun h s => by rw [mStr, if_pos h])
          (fun h s => by rw [mStr, if_neg h])
      · exact hc1
    exact decLoop_fields (dispAgenticMessageOutputText reg') 2 3 (by norm_num)
      [fStr 0 x.Content, p1] _ [0, 1]
      (by simp only [List.map_cons, List.map_nil, h1f]; rfl)
      (by decide) (by decide) hc (by norm_num) s rest

theorem decAgenticMessageInputFileB_enc (reg reg' : Reg) (x : AgenticMessageInputFile) (bs : List Nat)
    (henc : encAgenticMessageInputFileB reg x = .ok bs) (hwf : wfAgenticMessageInputFile x = true)
    (hnm : namesOKAgenticMessageInputFile reg' x = true) (hL : bs.length ≤ 2 ^ 63)
    (s : AgenticMessageInputFile) (rest : List Nat) :
    decAgenticMessageInputFileB reg' (bs ++ rest) s = (mergeAgenticMessageInputFile s x, .ok rest) := by
  rw [encAgenticMessageInputFileB, entsAgenticMessageInputFile, encOf.eq_def] at henc
  cases hs : seqEnts [.ok (fOptStr 0 x.URL),
      .ok (fOptStr 1 x.Name),
      .ok (fOptStr 2 x.Base64Data),
      .ok (fStr 3 x.MIMEType),
      fMapE 4 reg x.Extra] with
  | error e =>
    rw [hs] at henc
    exact absurd henc (by simp)
  | ok l =>
    rw [hs] at henc
    dsimp only at henc
    simp only [Except.ok.injEq] at henc
    obtain ⟨p0, p1, p2, p3, p4, hp0, hp1, hp2, hp3, hp4, hl⟩ := seqEnts_ok5 hs
    subst hl
    injection hp0 with hp0
    injection hp1 with hp1
    injection hp2 with hp2
    injection hp3 with hp3
    subst hp0
    subst hp1
    subst hp2
    subst hp3
    subst henc

    obtain ⟨h4f, hc4⟩ := contract_fMapE (dispAgenticMessageInputFile reg') 4
      reg reg' x.Extra
      ((fun s => s.Extra.getD []) : AgenticMessageInputFile → List (String × GoVal))
      ((fun s m => { s with Extra := some m }) :
        AgenticMessageInputFile → List (String × GoVal) → AgenticMessageInputFile)
      p4 (fun s => { s with Extra := mergeMap s.Extra x.Extra }) hp4
      (fun bs s => rfl) hwf hnm
      (entBoundOpt (List.mem_cons_of_mem _ (List.mem_cons_of_mem _ (List.mem_cons_of_mem _ (List.mem_cons_of_mem _ (List.mem_cons_self _ _))))) hL)
      (fun h s => by
        rw [h]
        rfl)
      (fun mm hm s => by
        rw [hm]
        rfl)
    have hc : List.Forall₂ (fieldContract (dispAgenticMessageInputFile reg'))
        [fOptStr 0 x.URL, fOptStr 1 x.Name, fOptStr 2 x.Base64Data, fStr 3 x.MIMEType, p4]
        [fun s => { s with URL := mOptStr s.URL x.URL },
         fun s => { s with Name := mOptStr s.Name x.Name },
         fun s => { s with Base64Data := mOptStr s.Base64Data x.Base64Data },
         fun s => { s with MIMEType := mStr s.MIMEType x.MIMEType },
         fun s => { s with Extra := mergeMap s.Extra x.Extra }] := by
      refine List.Forall₂.cons ?_ (List.Forall₂.cons ?_ (List.Forall₂.cons ?_ (List.Forall₂.cons ?_ (List.Forall₂.cons ?_ List.Forall₂.nil))))
      · exact contract_fOptStr _ 0 x.URL _ _ (fun bs s => rfl)
          (fun h => strBound_fStr h (List.mem_cons_self _ _) hL)
          (fun h s => by rw [mOptStr, if_pos h])
          (fun h s => by rw [mOptStr, if_neg h])
      · exact contract_fOptStr _ 1 x.Name _ _ (fun bs s => rfl)
          (fun h => strBound_fStr h (List.mem_cons_of_mem _ (List.mem_cons_self _ _)) hL)
          (fun h s => by rw [mOptStr, if_pos h])
          (fun h s => by rw [mOptStr, if_neg h])
      · exact contract_fOptStr _ 2 x.Base64Data _ _ (fun bs s => rfl)
          (fun h => strBound_fStr h (List.mem_cons_of_mem _ (List.mem_cons_of_mem _ (List.mem_cons_self _ _))) hL)
          (fun h s => by rw [mOptStr, if_pos h])
          (fun h s => by rw [mOptStr, if_neg h])
      · exact contract_fStr _ 3 x.MIMEType _ _ (fun bs s => rfl)
          (fun h => strBound_fStr h (List.mem_cons_of_mem _ (List.mem_cons_of_mem _ (List.mem_cons_of_mem _ (List.mem_cons_self _ _)))) hL)
          (fun h s => by rw [mStr, if_pos h])
          (fun h s => by rw [mStr, if_neg h])
      · exact hc4
    exact decLoop_fields (dispAgenticMessageInputFile reg') 5 6 (by norm_num)
      [fOptStr 0 x.URL, fOptStr 1 x.Name, fOptStr 2 x.Base64Data, fStr 3 x.MIMEType, p4] _ [0, 1, 2, 3, 4]
      (by simp only [List.map_cons, List.map_nil, h4f]; rfl)
      (by decide) (by decide) hc (by norm_num) s rest

theorem decReasoningSummaryB_enc (reg reg' : Reg) (x : ReasoningSummary) (bs : List Nat)
    (henc : encReasoningSummaryB reg x = .ok bs) (hwf : wfReasoningSummary x = true)
    (hnm : namesOKReasoningSummary reg' x = true) (hL : bs.length ≤ 2 ^ 63)
    (s : ReasoningSummary) (rest : List Nat) :
    decReasoningSummaryB reg' (bs ++ rest) s = (mergeReasoningSummary s x, .ok rest) := by
  rw [encReasoningSummaryB, entsReasoningSummary, encOf.eq_def] at henc
  cases hs : seqEnts [.ok (fStr 0 x.Text),
      fMapE 1 reg x.Extra] with
  | error e =>
    rw [hs] at henc
    exact absurd henc (by simp)
  | ok l =>
    rw [hs] at henc
    dsimp only at henc
    simp only [Except.ok.injEq] at henc
    obtain ⟨p0, p1, hp0, hp1, hl⟩ := seqEnts_ok2 hs
    subst hl
    injection hp0 with hp0
    subst hp0
    subst henc

    obtain ⟨h1f, hc1⟩ := contract_fMapE (dispReasoningSummary reg') 1
      reg reg' x.Extra
      ((fun s => s.Extra.getD []) : ReasoningSummary → List (String × GoVal))
      ((fun s m => { s with Extra := some m }) :
        ReasoningSummary → List (String × GoVal) → ReasoningSummary)
      p1 (fun s => { s with Extra := mergeMap s.Extra x.Extra }) hp1
      (fun bs s => rfl) hwf hnm
      (entBoundOpt (List.mem_cons_of_mem _ (List.mem_cons_self _ _)) hL)
      (fun h s => by
        rw [h]
        rfl)
      (fun mm hm s => by
        rw [hm]
        rfl)
    have hc : List.Forall₂ (fieldContract (dispReasoningSummary reg'))
        [fStr 0 x.Text, p1]
        [fun s => { s with Text := mStr s.Text x.Text },
         fun s => { s with Extra := mergeMap s.Extra x.Extra }] := by
      refine List.Forall₂.cons ?_ (List.Forall₂.cons ?_ List.Forall₂.nil)
      · exact contract_fStr _ 0 x.Text _ _ (fun bs s => rfl)
          (fun h => strBound_fStr h (List.mem_cons_self _ _) hL)
          (fun h s => by rw [mStr, if_pos h])
          (fun h s => by rw [mStr, if_neg h])
      · exact hc1
    exact decLoop_fields (dispReasoningSummary reg') 2 3 (by norm_num)
      [fStr 0 x.Text, p1] _ [0, 1]
      (by simp only [List.map_cons, List.map_nil, h1f]; rfl)
      (by decide) (by decide) hc (by norm_num) s rest

theorem decToolCallOutputMCPB_enc (reg reg' : Reg) (x : ToolCallOutputMCP) (bs : List Nat)
    (henc : encToolCallOutputMCPB reg x = .ok bs) (hwf : wfToolCallOutputMCP x = true)
    (hnm : namesOKToolCallOutputMCP reg' x = true) (hL : bs.length ≤ 2 ^ 63)
    (s : ToolCallOutputMCP) (rest : List Nat) :
    decToolCallOutputMCPB reg' (bs ++ rest) s = (mergeToolCallOutputMCP s x, .ok rest) := by
  rw [encToolCallOutputMCPB, entsToolCallOutputMCP, encOf.eq_def] at henc
  cases hs : seqEnts [.ok (fStr 0 x.Content),
      .ok (fStr 1 x.ApprovalRequestID),
      .ok (fStr 2 x.Status),
      .ok (fStr 3 x.Error),
      fMapE 4 reg x.Extra] with
  | error e =>
    rw [hs] at henc
    exact absurd henc (by simp)
  | ok l =>
    rw [hs] at henc
    dsimp only at henc
    simp only [Except.ok.injEq] at henc
    obtain ⟨p0, p1, p2, p3, p4, hp0, hp1, hp2, hp3, hp4, hl⟩ := seqEnts_ok5 hs
    subst hl
    injection hp0 with hp0
    injection hp1 with hp1
    injection hp2 with hp2
    injection hp3 with hp3
    subst hp0
    subst hp1
    subst hp2
    subst hp3
    subst henc

    obtain ⟨h4f, hc4⟩ := contract_fMapE (dispToolCallOutputMCP reg') 4
      reg reg' x.Extra
      ((fun s => s.Extra.getD []) : ToolCallOutputMCP → List (String × GoVal))
      ((fun s m => { s with Extra := some m }) :
        ToolCallOutputMCP → List (String × GoVal) → ToolCallOutputMCP)
      p4 (fun s => { s with Extra := mergeMap s.Extra x.Extra }) hp4
      (fun bs s => rfl) hwf hnm
      (entBoundOpt (List.mem_cons_of_mem _ (List.mem_cons_of_mem _ (List.mem_cons_of_mem _ (List.mem_cons_of_mem _ (List.mem_cons_self _ _))))) hL)
      (fun h s => by
        rw [h]
        rfl)
      (fun mm hm s => by
        rw [hm]
        rfl)
    have hc : List.Forall₂ (fieldContract (dispToolCallOutputMCP reg'))
        [fStr 0 x.Content, fStr 1 x.ApprovalRequestID, fStr 2 x.Status, fStr 3 x.Error, p4]
        [fun s => { s with Content := mStr s.Content x.Content },
         fun s => { s with ApprovalRequestID := mStr s.ApprovalRequestID x.ApprovalRequestID },
         fun s => { s with Status := mStr s.Status x.Status },
         fun s => { s with Error := mStr s.Error x.Error },
         fun s => { s with Extra := mergeMap s.Extra x.Extra }] := by
      refine List.Forall₂.cons ?_ (List.Forall₂.cons ?_ (List.Forall₂.cons ?_ (List.Forall₂.cons ?_ (List.Forall₂.cons ?_ List.Forall₂.nil))))
      · exact contract_fStr _ 0 x.Content _ _ (fun bs s => rfl)
          (fun h => strBound_fStr h (List.mem_cons_self _ _) hL)
          (fun h s => by rw [mStr, if_pos h])
          (fun h s => by rw [mStr, if_neg h])
      · exact contract_fStr _ 1 x.ApprovalRequestID _ _ (fun bs s => rfl)
          (fun h => strBound_fStr h (List.mem_cons_of_mem _ (List.mem_cons_self _ _)) hL)
          (fun h s => by rw [mStr, if_pos h])
          (fun h s => by rw [mStr, if_neg h])
      · exact contract_fStr _ 2 x.Status _ _ (fun bs s => rfl)
          (fun h => strBound_fStr h (List.mem_cons_of_mem _ (List.mem_cons_of_mem _ (List.mem_cons_self _ _))) hL)
          (fun h s => by rw [mStr, if_pos h])
          (fun h s => by rw [mStr, if_neg h])
      · exact contract_fStr _ 3 x.Error _ _ (fun bs s => rfl)
          (fun h => strBound_fStr h (List.mem_cons_of_mem _ (List.mem_cons_of_mem _ (List.mem_cons_of_mem _ (List.mem_cons_self _ _)))) hL)
          (fun h s => by rw [mStr, if_pos h])
          (fun h s => by rw [mStr, if_neg h])
      · exact hc4
    exact decLoop_fields (dispToolCallOutputMCP reg') 5 6 (by norm_num)
      [fStr 0 x.Content, fStr 1 x.ApprovalRequestID, fStr 2 x.Status, fStr 3 x.Error, p4] _ [0, 1, 2, 3, 4]
      (by simp only [List.map_cons, List.map_nil, h4f]; rfl)
      (by decide) (by decide) hc (by norm_num) s rest

theorem decContentBlockToolCallB_enc (reg reg' : Reg) (x : ContentBlockToolCall) (bs : List Nat)
    (henc : encContentBlockToolCallB reg x = .ok bs) (hwf : wfContentBlockToolCall x = true)
    (hnm : namesOKContentBlockToolCall reg' x = true) (hL : bs.length ≤ 2 ^ 63)
    (s : ContentBlockToolCall) (rest : List Nat) :
    decContentBlockToolCallB reg' (bs ++ rest) s = (mergeContentBlockToolCall s x, .ok rest) := by
  rw [encContentBlockToolCallB, entsContentBlockToolCall, encOf.eq_def] at henc
  cases hs : seqEnts [.ok (fOptInt 0 x.Index),
      .ok (fStr 1 x.Typ),
      .ok (fStr 2 x.ID),
      .ok (fStr 3 x.Name),
      .ok (fStr 4 x.Arguments),
      fMapE 5 reg x.Extra] with
  | error e =>
    rw [hs] at henc
    exact absurd henc (by simp)
  | ok l =>
    rw [hs] at henc
    dsimp only at henc
    simp only [Except.ok.injEq] at henc
    obtain ⟨p0, p1, p2, p3, p4, p5, hp0, hp1, hp2, hp3, hp4, hp5, hl⟩ := seqEnts_ok6 hs
    subst hl
    injection hp0 with hp0
    injection hp1 with hp1
    injection hp2 with hp2
    injection hp3 with hp3
    injection hp4 with hp4
    subst hp0
    subst hp1
    subst hp2
    subst hp3
    subst hp4
    subst henc
    simp only [wfContentBlockToolCall, Bool.and_eq_true] at hwf
    obtain ⟨hI, hM⟩ := hwf
    simp only [wfOptInt, int64OK, decide_eq_true_eq] at hI
    obtain ⟨h5f, hc5⟩ := contract_fMapE (dispContentBlockToolCall reg') 5
      reg reg' x.Extra
      ((fun s => s.Extra.getD []) : ContentBlockToolCall → List (String × GoVal))
      ((fun s m => { s with Extra := some m }) :
        ContentBlockToolCall → List (String × GoVal) → ContentBlockToolCall)
      p5 (fun s => { s with Extra := mergeMap s.Extra x.Extra }) hp5
      (fun bs s => rfl) hM hnm
      (entBoundOpt (List.mem_cons_of_mem _ (List.mem_cons_of_mem _ (List.mem_cons_of_mem _ (List.mem_cons_of_mem _ (List.mem_cons_of_mem _ (List.mem_cons_self _ _)))))) hL)
      (fun h s => by
        rw [h]
        rfl)
      (fun mm hm s => by
        rw [hm]
        rfl)
    have hc : List.Forall₂ (fieldContract (dispContentBlockToolCall reg'))
        [fOptInt 0 x.Index, fStr 1 x.Typ, fStr 2 x.ID, fStr 3 x.Name, fStr 4 x.Arguments, p5]
        [fun s => { s with Index := mOptInt s.Index x.Index },
         fun s => { s with Typ := mStr s.Typ x.Typ },
         fun s => { s with ID := mStr s.ID x.ID },
         fun s => { s with Name := mStr s.Name x.Name },
         fun s => { s with Arguments := mStr s.Arguments x.Arguments },
         fun s => { s with Extra := mergeMap s.Extra x.Extra }] := by
      refine List.Forall₂.cons ?_ (List.Forall₂.cons ?_ (List.Forall₂.cons ?_ (List.Forall₂.cons ?_ (List.Forall₂.cons ?_ (List.Forall₂.cons ?_ List.Forall₂.nil)))))
      · exact contract_fOptInt _ 0 x.Index _ _ (fun bs s => rfl)
          hI.1 hI.2
          (fun h s => by rw [mOptInt, if_pos h])
          (fun h s => by rw [mOptInt, if_neg h])
      · exact contract_fStr _ 1 x.Typ _ _ (fun bs s => rfl)
          (fun h => strBound_fStr h (List.mem_cons_of_mem _ (List.mem_cons_self _ _)) hL)
          (fun h s => by rw [mStr, if_pos h])
          (fun h s => by rw [mStr, if_neg h])
      · exact contract_fStr _ 2 x.ID _ _ (fun bs s => rfl)
          (fun h => strBound_fStr h (List.mem_cons_of_mem _ (List.mem_cons_of_mem _ (List.mem_cons_self _ _))) hL)
          (fun h s => by rw [mStr, if_pos h])
          (fun h s => by rw [mStr, if_neg h])
      · exact contract_fStr _ 3 x.Name _ _ (fun bs s => rfl)
          (fun h => strBound_fStr h (List.mem_cons_of_mem _ (List.mem_cons_of_mem _ (List.mem_cons_of_mem _ (List.mem_cons_self _ _)))) hL)
          (fun h s => by rw [mStr, if_pos h])
          (fun h s => by rw [mStr, if_neg h])
      · exact contract_fStr _ 4 x.Arguments _ _ (fun bs s => rfl)
          (fun h => strBound_fStr h (List.mem_cons_of_mem _ (List.mem_cons_of_mem _ (List.mem_cons_of_mem _ (List.mem_cons_of_mem _ (List.mem_cons_self _ _))))) hL)
          (fun h s => by rw [mStr, if_pos h])
          (fun h s => by rw [mStr, if_neg h])
      · exact hc5
    exact decLoop_fields (dispContentBlockToolCall reg') 6 7 (by norm_num)
      [fOptInt 0 x.Index, fStr 1 x.Typ, fStr 2 x.ID, fStr 3 x.Name, fStr 4 x.Arguments, p5] _ [0, 1, 2, 3, 4, 5]
      (by simp only [List.map_cons, List.map_nil, h5f]; rfl)
      (by decide) (by decide) hc (by norm_num) s rest

theorem encOf_length_pos {es : Except EncErr (List (Nat × Option (List Nat)))}
    {b : List Nat} (h : encOf es = .ok b) : 1 ≤ b.length := by
  rw [encOf.eq_def] at h
  cases es with
  | error e => exact absurd h (by simp)
  | ok l =>
    dsimp only at h
    simp only [Except.ok.injEq] at h
    subst h
    exact encEnts_length_pos 0 _

theorem decAgenticMessageInputPartB_enc (reg reg' : Reg)
    (x : AgenticMessageInputPart) (bs : List Nat)
    (henc : encAgenticMessageInputPartB reg x = .ok bs)
    (hwf : wfAgenticMessageInputPart x = true)
    (hnm : namesOKAgenticMessageInputPart reg' x = true)
    (hL : bs.length ≤ 2 ^ 63) (s : AgenticMessageInputPart) (rest : List Nat) :
    decAgenticMessageInputPartB reg' (bs ++ rest) s
      = (mergeAgenticMessageInputPart s x, .ok rest) := by
  rw [encAgenticMessageInputPartB, entsAgenticMessageInputPart, encOf.eq_def] at henc
  cases hs : seqEnts [.ok (fStr 0 x.Typ),
      fPtrSubE 1 x.Text isZeroAgenticMessageInputText
        (fun t => .ok (encAgenticMessageInputTextB t)),
      fPtrSubE 2 x.Image isZeroAgenticMessageInputImage
        (encAgenticMessageInputImageB reg),
      fPtrSubE 3 x.Audio isZeroAgenticMessageInputAudio
        (encAgenticMessageInputAudioB reg),
      fPtrSubE 4 x.Video isZeroAgenticMessageInputVideo
        (encAgenticMessageInputVideoB reg),
      fPtrSubE 5 x.File isZeroAgenticMessageInputFile
        (encAgenticMessageInputFileB reg)] with
  | error e =>
    rw [hs] at henc
    exact absurd henc (by simp)
  | ok l =>
    rw [hs] at henc
    dsimp only at henc
    simp only [Except.ok.injEq] at henc
    obtain ⟨p0, p1, p2, p3, p4, p5, hp0, hp1, hp2, hp3, hp4, hp5, hl⟩ :=
      seqEnts_ok6 hs
    subst hl
    injection hp0 with hp0
    subst hp0
    subst henc
    simp only [wfAgenticMessageInputPart, Bool.and_eq_true] at hwf
    obtain ⟨⟨⟨hIm, hAu⟩, hVi⟩, hFi⟩ := hwf
    simp only [namesOKAgenticMessageInputPart, Bool.and_eq_true] at hnm
    obtain ⟨⟨⟨nIm, nAu⟩, nVi⟩, nFi⟩ := hnm
    obtain ⟨h1f, hc1⟩ := contract_fPtrSubE (dispAgenticMessageInputPart reg') 1
      x.Text isZeroAgenticMessageInputText (fun t => Except.ok (encAgenticMessageInputTextB t)) decAgenticMessageInputTextB
      ((fun s => s.Text.getD zeroAgenticMessageInputText) : AgenticMessageInputPart → AgenticMessageInputText)
      ((fun s t => { s with Text := some t }) : AgenticMessageInputPart → AgenticMessageInputText → AgenticMessageInputPart)
      (fun u t => mergeAgenticMessageInputText u t) p1
      (fun s =>
        { s with Text := mPtrSub isZeroAgenticMessageInputText mergeAgenticMessageInputText zeroAgenticMessageInputText s.Text x.Text })
      hp1 (fun bs s => rfl)
      (fun t ht hz b hb hbL s' r => by
        have hb2 : Except.ok (encAgenticMessageInputTextB t) = Except.ok b := hb
        injection hb2 with hb2
        subst hb2
        exact decAgenticMessageInputTextB_enc t hbL s' r)
      (entBoundOpt (List.mem_cons_of_mem _ (List.mem_cons_self _ _)) hL)
      (fun h s => by
        rcases h with h | ⟨t, ht, hz⟩
        · rw [h]
          rfl
        · rw [ht]
          simp only [mPtrSub]
          rw [if_pos hz])
      (fun t ht hz s => by
        rw [ht]
        simp only [mPtrSub]
        rw [if_neg (by simp [hz])])
    obtain ⟨h2f, hc2⟩ := contract_fPtrSubE (dispAgenticMessageInputPart reg') 2
      x.Image isZeroAgenticMessageInputImage (encAgenticMessageInputImageB reg) (decAgenticMessageInputImageB reg')
      ((fun s => s.Image.getD zeroAgenticMessageInputImage) : AgenticMessageInputPart → AgenticMessageInputImage)
      ((fun s t => { s with Image := some t }) : AgenticMessageInputPart → AgenticMessageInputImage → AgenticMessageInputPart)
      (fun u t => mergeAgenticMessageInputImage u t) p2
      (fun s =>
        { s with Image := mPtrSub isZeroAgenticMessageInputImage mergeAgenticMessageInputImage zeroAgenticMessageInputImage s.Image x.Image })
      hp2 (fun bs s => rfl)
      (fun t ht hz b hb hbL s' r =>
        decAgenticMessageInputImageB_enc reg reg' t b hb (by rw [ht] at hIm; exact hIm) (by rw [ht] at nIm; exact nIm) hbL s' r)
      (entBoundOpt (List.mem_cons_of_mem _ (List.mem_cons_of_mem _ (List.mem_cons_self _ _))) hL)
      (fun h s => by
        rcases h with h | ⟨t, ht, hz⟩
        · rw [h]
          rfl
        · rw [ht]
          simp only [mPtrSub]
          rw [if_pos hz])
      (fun t ht hz s => by
        rw [ht]
        simp only [mPtrSub]
        rw [if_neg (by simp [hz])])
    obtain ⟨h3f, hc3⟩ := contract_fPtrSubE (dispAgenticMessageInputPart reg') 3
      x.Audio isZeroAgenticMessageInputAudio (encAgenticMessageInputAudioB reg) (decAgenticMessageInputAudioB reg')
      ((fun s => s.Audio.getD zeroAgenticMessageInputAudio) : AgenticMessageInputPart → AgenticMessageInputAudio)
      ((fun s t => { s with Audio := some t }) : AgenticMessageInputPart → AgenticMessageInputAudio → AgenticMessageInputPart)
      (fun u t => mergeAgenticMessageInputAudio u t) p3
      (fun s =>
        { s with Audio := mPtrSub isZeroAgenticMessageInputAudio mergeAgenticMessageInputAudio zeroAgenticMessageInputAudio s.Audio x.Audio })
      hp3 (fun bs s => rfl)
      (fun t ht hz b hb hbL s' r =>
        decAgenticMessageInputAudioB_enc reg reg' t b hb (by rw [ht] at hAu; exact hAu) (by rw [ht] at nAu; exact nAu) hbL s' r)
      (entBoundOpt (List.mem_cons_of_mem _ (List.mem_cons_of_mem _ (List.mem_cons_of_mem _ (List.mem_cons_self _ _)))) hL)
      (fun h s => by
        rcases h with h | ⟨t, ht, hz⟩
        · rw [h]
          rfl
        · rw [ht]
          simp only [mPtrSub]
          rw [if_pos hz])
      (fun t ht hz s => by
        rw [ht]
        simp only [mPtrSub]
        rw [if_neg (by simp [hz])])
    obtain ⟨h4f, hc4⟩ := contract_fPtrSubE (dispAgenticMessageInputPart reg') 4
      x.Video isZeroAgenticMessageInputVideo (encAgenticMessageInputVideoB reg) (decAgenticMessageInputVideoB reg')
      ((fun s => s.Video.getD zeroAgenticMessageInputVideo) : AgenticMessageInputPart → AgenticMessageInputVideo)
      ((fun s t => { s with Video := some t }) : AgenticMessageInputPart → AgenticMessageInputVideo → AgenticMessageInputPart)
      (fun u t => mergeAgenticMessageInputVideo u t) p4
      (fun s =>
        { s with Video := mPtrSub isZeroAgenticMessageInputVideo mergeAgenticMessageInputVideo zeroAgenticMessageInputVideo s.Video x.Video })
      hp4 (fun bs s => rfl)
      (fun t ht hz b hb hbL s' r =>
        decAgenticMessageInputVideoB_enc reg reg' t b hb (by rw [ht] at hVi; exact hVi) (by rw [ht] at nVi; exact nVi) hbL s' r)
      (entBoundOpt (List.mem_cons_of_mem _ (List.mem_cons_of_mem _ (List.mem_cons_of_mem _ (List.mem_cons_of_mem _ (List.mem_cons_self _ _))))) hL)
      (fun h s => by
        rcases h with h | ⟨t, ht, hz⟩
        · rw [h]
          rfl
        · rw [ht]
          simp only [mPtrSub]
          rw [if_pos hz])
      (fun t ht hz s => by
        rw [ht]
        simp only [mPtrSub]
        rw [if_neg (by simp [hz])])
    obtain ⟨h5f, hc5⟩ := contract_fPtrSubE (dispAgenticMessageInputPart reg') 5
      x.File isZeroAgenticMessageInputFile (encAgenticMessageInputFileB reg) (decAgenticMessageInputFileB reg')
      ((fun s => s.File.getD zeroAgenticMessageInputFile) : AgenticMessageInputPart → AgenticMessageInputFile)
      ((fun s t => { s with File := some t }) : AgenticMessageInputPart → AgenticMessageInputFile → AgenticMessageInputPart)
      (fun u t => mergeAgenticMessageInputFile u t) p5
      (fun s =>
        { s with File := mPtrSub isZeroAgenticMessageInputFile mergeAgenticMessageInputFile zeroAgenticMessageInputFile s.File x.File })
      hp5 (fun bs s => rfl)
      (fun t ht hz b hb hbL s' r =>
        decAgenticMessageInputFileB_enc reg reg' t b hb (by rw [ht] at hFi; exact hFi) (by rw [ht] at nFi; exact nFi) hbL s' r)
      (entBoundOpt (List.mem_cons_of_mem _ (List.mem_cons_of_mem _ (List.mem_cons_of_mem _ (List.mem_cons_of_mem _ (List.mem_cons_of_mem _ (List.mem_cons_self _ _)))))) hL)
      (fun h s => by
        rcases h with h | ⟨t, ht, hz⟩
        · rw [h]
          rfl
        · rw [ht]
          simp only [mPtrSub]
          rw [if_pos hz])
      (fun t ht hz s => by
        rw [ht]
        simp only [mPtrSub]
        rw [if_neg (by simp [hz])])
    have hc : List.Forall₂ (fieldContract (dispAgenticMessageInputPart reg'))
        [fStr 0 x.Typ, p1, p2, p3, p4, p5]
        [fun s => { s with Typ := mStr s.Typ x.Typ },
         fun s =>
          { s with Text := mPtrSub isZeroAgenticMessageInputText mergeAgenticMessageInputText zeroAgenticMessageInputText s.Text x.Text },
         fun s =>
          { s with Image := mPtrSub isZeroAgenticMessageInputImage mergeAgenticMessageInputImage zeroAgenticMessageInputImage s.Image x.Image },
         fun s =>
          { s with Audio := mPtrSub isZeroAgenticMessageInputAudio mergeAgenticMessageInputAudio zeroAgenticMessageInputAudio s.Audio x.Audio },
         fun s =>
          { s with Video := mPtrSub isZeroAgenticMessageInputVideo mergeAgenticMessageInputVideo zeroAgenticMessageInputVideo s.Video x.Video },
         fun s =>
          { s with File := mPtrSub isZeroAgenticMessageInputFile mergeAgenticMessageInputFile zeroAgenticMessageInputFile s.File x.File }] := by
      refine List.Forall₂.cons ?_ (List.Forall₂.cons ?_ (List.Forall₂.cons ?_
        (List.Forall₂.cons ?_ (List.Forall₂.cons ?_
          (List.Forall₂.cons ?_ List.Forall₂.nil)))))
      · exact contract_fStr _ 0 x.Typ _ _ (fun bs s => rfl)
          (fun h => strBound_fStr h (List.mem_cons_self _ _) hL)
          (fun h s => by rw [mStr, if_pos h])
          (fun h s => by rw [mStr, if_neg h])
      · exact hc1
      · exact hc2
      · exact hc3
      · exact hc4
      · exact hc5
    exact decLoop_fields (dispAgenticMessageInputPart reg') 6 7 (by norm_num)
      [fStr 0 x.Typ, p1, p2, p3, p4, p5] _ [0, 1, 2, 3, 4, 5]
      (by simp only [List.map_cons, List.map_nil, h1f, h2f, h3f, h4f, h5f]; rfl)
      (by decide) (by decide) hc (by norm_num) s rest

theorem decAgenticMessageOutputPartB_enc (reg reg' : Reg)
    (x : AgenticMessageOutputPart) (bs : List Nat)
    (henc : encAgenticMessageOutputPartB reg x = .ok bs)
    (hwf : wfAgenticMessageOutputPart x = true)
    (hnm : namesOKAgenticMessageOutputPart reg' x = true)
    (hL : bs.length ≤ 2 ^ 63) (s : AgenticMessageOutputPart) (rest : List Nat) :
    decAgenticMessageOutputPartB reg' (bs ++ rest) s
      = (mergeAgenticMessageOutputPart s x, .ok rest) := by
  rw [encAgenticMessageOutputPartB, entsAgenticMessageOutputPart,
    encOf.eq_def] at henc
  cases hs : seqEnts [.ok (fStr 0 x.Typ),
      fPtrSubE 1 x.Text isZeroAgenticMessageOutputText
        (encAgenticMessageOutputTextB reg),
      fPtrSubE 2 x.Image isZeroAgenticMessageOutputImage
        (encAgenticMessageOutputImageB reg),
      fPtrSubE 3 x.Audio isZeroAgenticMessageOutputAudio
        (encAgenticMessageOutputAudioB reg),
      fPtrSubE 4 x.Video isZeroAgenticMessageOutputVideo
        (encAgenticMessageOutputVideoB reg)] with
  | error e =>
    rw [hs] at henc
    exact absurd henc (by simp)
  | ok l =>
    rw [hs] at henc
    dsimp only at henc
    simp only [Except.ok.injEq] at henc
    obtain ⟨p0, p1, p2, p3, p4, hp0, hp1, hp2, hp3, hp4, hl⟩ := seqEnts_ok5 hs
    subst hl
    injection hp0 with hp0
    subst hp0
    subst henc
    simp only [wfAgenticMessageOutputPart, Bool.and_eq_true] at hwf
    obtain ⟨⟨⟨hTx, hIm⟩, hAu⟩, hVi⟩ := hwf
    simp only [namesOKAgenticMessageOutputPart, Bool.and_eq_true] at hnm
    obtain ⟨⟨⟨nTx, nIm⟩, nAu⟩, nVi⟩ := hnm
    obtain ⟨h1f, hc1⟩ := contract_fPtrSubE (dispAgenticMessageOutputPart reg') 1
      x.Text isZeroAgenticMessageOutputText (encAgenticMessageOutputTextB reg) (decAgenticMessageOutputTextB reg')
      ((fun s => s.Text.getD zeroAgenticMessageOutputText) : AgenticMessageOutputPart → AgenticMessageOutputText)
      ((fun s t => { s with Text := some t }) : AgenticMessageOutputPart → AgenticMessageOutputText → AgenticMessageOutputPart)
      (fun u t => mergeAgenticMessageOutputText u t) p1
      (fun s =>
        { s with Text := mPtrSub isZeroAgenticMessageOutputText mergeAgenticMessageOutputText zeroAgenticMessageOutputText s.Text x.Text })
      hp1 (fun bs s => rfl)
      (fun t ht hz b hb hbL s' r =>
        decAgenticMessageOutputTextB_enc reg reg' t b hb (by rw [ht] at hTx; exact hTx)
          (by rw [ht] at nTx; exact nTx) hbL s' r)
      (entBoundOpt (List.mem_cons_of_mem _ (List.mem_cons_self _ _)) hL)
      (fun h s => by
        rcases h with h | ⟨t, ht, hz⟩
        · rw [h]
          rfl
        · rw [ht]
          simp only [mPtrSub]
          rw [if_pos hz])
      (fun t ht hz s => by
        rw [ht]
        simp only [mPtrSub]
        rw [if_neg (by simp [hz])])
    obtain ⟨h2f, hc2⟩ := contract_fPtrSubE (dispAgenticMessageOutputPart reg') 2
      x.Image isZeroAgenticMessageOutputImage (encAgenticMessageOutputImageB reg) (decAgenticMessageOutputImageB reg')
      ((fun s => s.Image.getD zeroAgenticMessageOutputImage) : AgenticMessageOutputPart → AgenticMessageOutputImage)
      ((fun s t => { s with Image := some t }) : AgenticMessageOutputPart → AgenticMessageOutputImage → AgenticMessageOutputPart)
      (fun u t => mergeAgenticMessageOutputImage u t) p2
      (fun s =>
        { s with Image := mPtrSub isZeroAgenticMessageOutputImage mergeAgenticMessageOutputImage zeroAgenticMessageOutputImage s.Image x.Image })
      hp2 (fun bs s => rfl)
      (fun t ht hz b hb hbL s' r =>
        decAgenticMessageOutputImageB_enc reg reg' t b hb (by rw [ht] at hIm; exact hIm)
          (by rw [ht] at nIm; exact nIm) hbL s' r)
      (entBoundOpt (List.mem_cons_of_mem _ (List.mem_cons_of_mem _ (List.mem_cons_self _ _))) hL)
      (fun h s => by
        rcases h with h | ⟨t, ht, hz⟩
        · rw [h]
          rfl
        · rw [ht]
          simp only [mPtrSub]
          rw [if_pos hz])
      (fun t ht hz s => by
        rw [ht]
        simp only [mPtrSub]
        rw [if_neg (by simp [hz])])
    obtain ⟨h3f, hc3⟩ := contract_fPtrSubE (dispAgenticMessageOutputPart reg') 3
      x.Audio isZeroAgenticMessageOutputAudio (encAgenticMessageOutputAudioB reg) (decAgenticMessageOutputAudioB reg')
      ((fun s => s.Audio.getD zeroAgenticMessageOutputAudio) : AgenticMessageOutputPart → AgenticMessageOutputAudio)
      ((fun s t => { s with Audio := some t }) : AgenticMessageOutputPart → AgenticMessageOutputAudio → AgenticMessageOutputPart)
      (fun u t => mergeAgenticMessageOutputAudio u t) p3
      (fun s =>
        { s with Audio := mPtrSub isZeroAgenticMessageOutputAudio mergeAgenticMessageOutputAudio zeroAgenticMessageOutputAudio s.Audio x.Audio })
      hp3 (fun bs s => rfl)
      (fun t ht hz b hb hbL s' r =>
        decAgenticMessageOutputAudioB_enc reg reg' t b hb (by rw [ht] at hAu; exact hAu)
          (by rw [ht] at nAu; exact nAu) hbL s' r)
      (entBoundOpt (List.mem_cons_of_mem _ (List.mem_cons_of_mem _ (List.mem_cons_of_mem _ (List.mem_cons_self _ _)))) hL)
      (fun h s => by
        rcases h with h | ⟨t, ht, hz⟩
        · rw [h]
          rfl
        · rw [ht]
          simp only [mPtrSub]
          rw [if_pos hz])
      (fun t ht hz s => by
        rw [ht]
        simp only [mPtrSub]
        rw [if_neg (by simp [hz])])
    obtain ⟨h4f, hc4⟩ := contract_fPtrSubE (dispAgenticMessageOutputPart reg') 4
      x.Video isZeroAgenticMessageOutputVideo (encAgenticMessageOutputVideoB reg) (decAgenticMessageOutputVideoB reg')
      ((fun s => s.Video.getD zeroAgenticMessageOutputVideo) : AgenticMessageOutputPart → AgenticMessageOutputVideo)
      ((fun s t => { s with Video := some t }) : AgenticMessageOutputPart → AgenticMessageOutputVideo → AgenticMessageOutputPart)
      (fun u t => mergeAgenticMessageOutputVideo u t) p4
      (fun s =>
        { s with Video := mPtrSub isZeroAgenticMessageOutputVideo mergeAgenticMessageOutputVideo zeroAgenticMessageOutputVideo s.Video x.Video })
      hp4 (fun bs s => rfl)
      (fun t ht hz b hb hbL s' r =>
        decAgenticMessageOutputVideoB_enc reg reg' t b hb (by rw [ht] at hVi; exact hVi)
          (by rw [ht] at nVi; exact nVi) hbL s' r)
      (entBoundOpt (List.mem_cons_of_mem _ (List.mem_cons_of_mem _ (List.mem_cons_of_mem _ (List.mem_cons_of_mem _ (List.mem_cons_self _ _))))) hL)
      (fun h s => by
        rcases h with h | ⟨t, ht, hz⟩
        · rw [h]
          rfl
        · rw [ht]
          simp only [mPtrSub]
          rw [if_pos hz])
      (fun t ht hz s => by
        rw [ht]
        simp only [mPtrSub]
        rw [if_neg (by simp [hz])])
    have hc : List.Forall₂ (fieldContract (dispAgenticMessageOutputPart reg'))
        [fStr 0 x.Typ, p1, p2, p3, p4]
        [fun s => { s with Typ := mStr s.Typ x.Typ },
         fun s =>
          { s with Text := mPtrSub isZeroAgenticMessageOutputText mergeAgenticMessageOutputText zeroAgenticMessageOutputText s.Text x.Text },
         fun s =>
          { s with Image := mPtrSub isZeroAgenticMessageOutputImage mergeAgenticMessageOutputImage zeroAgenticMessageOutputImage s.Image x.Image },
         fun s =>
          { s with Audio := mPtrSub isZeroAgenticMessageOutputAudio mergeAgenticMessageOutputAudio zeroAgenticMessageOutputAudio s.Audio x.Audio },
         fun s =>
          { s with Video := mPtrSub isZeroAgenticMessageOutputVideo mergeAgenticMessageOutputVideo zeroAgenticMessageOutputVideo s.Video x.Video }] := by
      refine List.Forall₂.cons ?_ (List.Forall₂.cons ?_ (List.Forall₂.cons ?_
        (List.Forall₂.cons ?_ (List.Forall₂.cons ?_ List.Forall₂.nil))))
      · exact contract_fStr _ 0 x.Typ _ _ (fun bs s => rfl)
          (fun h => strBound_fStr h (List.mem_cons_self _ _) hL)
          (fun h s => by rw [mStr, if_pos h])
          (fun h s => by rw [mStr, if_neg h])
      · exact hc1
      · exact hc2
      · exact hc3
      · exact hc4
    exact decLoop_fields (dispAgenticMessageOutputPart reg') 5 6 (by norm_num)
      [fStr 0 x.Typ, p1, p2, p3, p4] _ [0, 1, 2, 3, 4]
      (by simp only [List.map_cons, List.map_nil, h1f, h2f, h3f, h4f]; rfl)
      (by decide) (by decide) hc (by norm_num) s rest

theorem decContentBlockMessageB_enc (reg reg' : Reg) (x : ContentBlockMessage)
    (bs : List Nat) (henc : encContentBlockMessageB reg x = .ok bs)
    (hwf : wfContentBlockMessage x = true)
    (hnm : namesOKContentBlockMessage reg' x = true)
    (hL : bs.length ≤ 2 ^ 63) (s : ContentBlockMessage) (rest : List Nat) :
    decContentBlockMessageB reg' (bs ++ rest) s
      = (mergeContentBlockMessage s x, .ok rest) := by
  rw [encContentBlockMessageB, entsContentBlockMessage, encOf.eq_def] at henc
  cases hs : seqEnts [.ok (fOptInt 0 x.Index), .ok (fStr 1 x.Role),
      .ok (fStr 2 x.InputText),
      fSliceOptE 3 x.UserInputMultiContent (encAgenticMessageInputPartB reg),
      fSliceOptE 4 x.AssistantGenMultiContent (encAgenticMessageOutputPartB reg),
      fMapE 5 reg x.Extra] with
  | error e =>
    rw [hs] at henc
    exact absurd henc (by simp)
  | ok l =>
    rw [hs] at henc
    dsimp only at henc
    simp only [Except.ok.injEq] at henc
    obtain ⟨p0, p1, p2, p3, p4, p5, hp0, hp1, hp2, hp3, hp4, hp5, hl⟩ :=
      seqEnts_ok6 hs
    subst hl
    injection hp0 with hp0
    injection hp1 with hp1
    injection hp2 with hp2
    subst hp0
    subst hp1
    subst hp2
    subst henc
    simp only [wfContentBlockMessage, Bool.and_eq_true] at hwf
    obtain ⟨⟨⟨hI, hU⟩, hA⟩, hE⟩ := hwf
    simp only [wfOptInt, int64OK, decide_eq_true_eq] at hI
    simp only [namesOKContentBlockMessage, Bool.and_eq_true] at hnm
    obtain ⟨⟨nU, nA⟩, nE⟩ := hnm
    obtain ⟨h3f, hc3⟩ := contract_fSliceOptE (dispContentBlockMessage reg') 3
      x.UserInputMultiContent (encAgenticMessageInputPartB reg) (decAgenticMessageInputPartB reg') zeroAgenticMessageInputPart
      ((fun s l => { s with UserInputMultiContent := some l }) : ContentBlockMessage → List (Option AgenticMessageInputPart) → ContentBlockMessage)
      (mergeAgenticMessageInputPart zeroAgenticMessageInputPart) p3
      (fun s =>
        { s with UserInputMultiContent := mSliceOpt (mergeAgenticMessageInputPart zeroAgenticMessageInputPart) s.UserInputMultiContent x.UserInputMultiContent })
      hp3 (fun bs s => rfl)
      (fun y b hb => @encOf_length_pos (entsAgenticMessageInputPart reg y) _ hb)
      (fun y l2 ho hy b hb hbL r =>
        decAgenticMessageInputPartB_enc reg reg' y b hb
          (by rw [ho] at hU; exact allOpt_some hU (some y) hy)
          (by rw [ho] at nU; exact allOpt_some nU (some y) hy)
          hbL zeroAgenticMessageInputPart r)
      (entBoundOpt (List.mem_cons_of_mem _ (List.mem_cons_of_mem _ (List.mem_cons_of_mem _ (List.mem_cons_self _ _)))) hL)
      (fun h s => by
        rcases h with h | h
        · rw [h]
          rfl
        · rw [h]
          rfl)
      (fun l2 hl hne s => by
        rw [hl]
        cases l2 with
        | nil => exact absurd rfl hne
        | cons a t => rfl)
    obtain ⟨h4f, hc4⟩ := contract_fSliceOptE (dispContentBlockMessage reg') 4
      x.AssistantGenMultiContent (encAgenticMessageOutputPartB reg) (decAgenticMessageOutputPartB reg') zeroAgenticMessageOutputPart
      ((fun s l => { s with AssistantGenMultiContent := some l }) : ContentBlockMessage → List (Option AgenticMessageOutputPart) → ContentBlockMessage)
      (mergeAgenticMessageOutputPart zeroAgenticMessageOutputPart) p4
      (fun s =>
        { s with AssistantGenMultiContent := mSliceOpt (mergeAgenticMessageOutputPart zeroAgenticMessageOutputPart) s.AssistantGenMultiContent x.AssistantGenMultiContent })
      hp4 (fun bs s => rfl)
      (fun y b hb => @encOf_length_pos (entsAgenticMessageOutputPart reg y) _ hb)
      (fun y l2 ho hy b hb hbL r =>
        decAgenticMessageOutputPartB_enc reg reg' y b hb
          (by rw [ho] at hA; exact allOpt_some hA (some y) hy)
          (by rw [ho] at nA; exact allOpt_some nA (some y) hy)
          hbL zeroAgenticMessageOutputPart r)
      (entBoundOpt (List.mem_cons_of_mem _ (List.mem_cons_of_mem _ (List.mem_cons_of_mem _ (List.mem_cons_of_mem _ (List.mem_cons_self _ _))))) hL)
      (fun h s => by
        rcases h with h | h
        · rw [h]
          rfl
        · rw [h]
          rfl)
      (fun l2 hl hne s => by
        rw [hl]
        cases l2 with
        | nil => exact absurd rfl hne
        | cons a t => rfl)
    obtain ⟨h5f, hc5⟩ := contract_fMapE (dispContentBlockMessage reg') 5
      reg reg' x.Extra
      ((fun s => s.Extra.getD []) : ContentBlockMessage → List (String × GoVal))
      ((fun s m => { s with Extra := some m }) :
        ContentBlockMessage → List (String × GoVal) → ContentBlockMessage)
      p5 (fun s => { s with Extra := mergeMap s.Extra x.Extra }) hp5
      (fun bs s => rfl) hE nE
      (entBoundOpt (List.mem_cons_of_mem _ (List.mem_cons_of_mem _
        (List.mem_cons_of_mem _ (List.mem_cons_of_mem _
          (List.mem_cons_of_mem _ (List.mem_cons_self _ _)))))) hL)
      (fun h s => by
        rw [h]
        rfl)
      (fun mm hm s => by
        rw [hm]
        rfl)
    have hc : List.Forall₂ (fieldContract (dispContentBlockMessage reg'))
        [fOptInt 0 x.Index, fStr 1 x.Role, fStr 2 x.InputText, p3, p4, p5]
        [fun s => { s with Index := mOptInt s.Index x.Index },
         fun s => { s with Role := mStr s.Role x.Role },
         fun s => { s with InputText := mStr s.InputText x.InputText },
         fun s =>
          { s with UserInputMultiContent := mSliceOpt (mergeAgenticMessageInputPart zeroAgenticMessageInputPart) s.UserInputMultiContent x.UserInputMultiContent },
         fun s =>
          { s with AssistantGenMultiContent := mSliceOpt (mergeAgenticMessageOutputPart zeroAgenticMessageOutputPart) s.AssistantGenMultiContent x.AssistantGenMultiContent },
         fun s => { s with Extra := mergeMap s.Extra x.Extra }] := by
      refine List.Forall₂.cons ?_ (List.Forall₂.cons ?_ (List.Forall₂.cons ?_
        (List.Forall₂.cons ?_ (List.Forall₂.cons ?_
          (List.Forall₂.cons ?_ List.Forall₂.nil)))))
      · exact contract_fOptInt _ 0 x.Index _ _ (fun bs s => rfl) hI.1 hI.2
          (fun h s => by rw [mOptInt, if_pos h])
          (fun h s => by rw [mOptInt, if_neg h])
      · exact contract_fStr _ 1 x.Role _ _ (fun bs s => rfl)
          (fun h => strBound_fStr h
            (List.mem_cons_of_mem _ (List.mem_cons_self _ _)) hL)
          (fun h s => by rw [mStr, if_pos h])
          (fun h s => by rw [mStr, if_neg h])
      · exact contract_fStr _ 2 x.InputText _ _ (fun bs s => rfl)
          (fun h => strBound_fStr h (List.mem_cons_of_mem _
            (List.mem_cons_of_mem _ (List.mem_cons_self _ _))) hL)
          (fun h s => by rw [mStr, if_pos h])
          (fun h s => by rw [mStr, if_neg h])
      · exact hc3
      · exact hc4
      · exact hc5
    exact decLoop_fields (dispContentBlockMessage reg') 6 7 (by norm_num)
      [fOptInt 0 x.Index, fStr 1 x.Role, fStr 2 x.InputText, p3, p4, p5] _
      [0, 1, 2, 3, 4, 5]
      (by simp only [List.map_cons, List.map_nil, h3f, h4f, h5f]; rfl)
      (by decide) (by decide) hc (by norm_num) s rest

theorem decContentBlockReasoningB_enc (reg reg' : Reg) (x : ContentBlockReasoning)
    (bs : List Nat) (henc : encContentBlockReasoningB reg x = .ok bs)
    (hwf : wfContentBlockReasoning x = true)
    (hnm : namesOKContentBlockReasoning reg' x = true)
    (hL : bs.length ≤ 2 ^ 63) (s : ContentBlockReasoning) (rest : List Nat) :
    decContentBlockReasoningB reg' (bs ++ rest) s
      = (mergeContentBlockReasoning s x, .ok rest) := by
  rw [encContentBlockReasoningB, entsContentBlockReasoning, encOf.eq_def] at henc
  cases hs : seqEnts [.ok (fOptInt 0 x.Index), .ok (fOptInt 1 x.SummaryIndex),
      fSliceOptE 2 x.Summary (encReasoningSummaryB reg),
      .ok (fStr 3 x.EncryptedContent), fMapE 4 reg x.Extra] with
  | error e =>
    rw [hs] at henc
    exact absurd henc (by simp)
  | ok l =>
    rw [hs] at henc
    dsimp only at henc
    simp only [Except.ok.injEq] at henc
    obtain ⟨p0, p1, p2, p3, p4, hp0, hp1, hp2, hp3, hp4, hl⟩ := seqEnts_ok5 hs
    subst hl
    injection hp0 with hp0
    injection hp1 with hp1
    injection hp3 with hp3
    subst hp0
    subst hp1
    subst hp3
    subst henc
    simp only [wfContentBlockReasoning, Bool.and_eq_true] at hwf
    obtain ⟨⟨⟨hI0, hI1⟩, hS⟩, hE⟩ := hwf
    simp only [wfOptInt, int64OK, decide_eq_true_eq] at hI0 hI1
    simp only [namesOKContentBlockReasoning, Bool.and_eq_true] at hnm
    obtain ⟨nS, nE⟩ := hnm
    obtain ⟨h2f, hc2⟩ := contract_fSliceOptE (dispContentBlockReasoning reg') 2
      x.Summary (encReasoningSummaryB reg) (decReasoningSummaryB reg') zeroReasoningSummary
      ((fun s l => { s with Summary := some l }) : ContentBlockReasoning → List (Option ReasoningSummary) → ContentBlockReasoning)
      (mergeReasoningSummary zeroReasoningSummary) p2
      (fun s =>
        { s with Summary := mSliceOpt (mergeReasoningSummary zeroReasoningSummary) s.Summary x.Summary })
      hp2 (fun bs s => rfl)
      (fun y b hb => @encOf_length_pos (entsReasoningSummary reg y) _ hb)
      (fun y l2 ho hy b hb hbL r =>
        decReasoningSummaryB_enc reg reg' y b hb
          (by rw [ho] at hS; exact allOpt_some hS (some y) hy)
          (by rw [ho] at nS; exact allOpt_some nS (some y) hy)
          hbL zeroReasoningSummary r)
      (entBoundOpt (List.mem_cons_of_mem _ (List.mem_cons_of_mem _ (List.mem_cons_self _ _))) hL)
      (fun h s => by
        rcases h with h | h
        · rw [h]
          rfl
        · rw [h]
          rfl)
      (fun l2 hl hne s => by
        rw [hl]
        cases l2 with
        | nil => exact absurd rfl hne
        | cons a t => rfl)
    obtain ⟨h4f, hc4⟩ := contract_fMapE (dispContentBlockReasoning reg') 4
      reg reg' x.Extra
      ((fun s => s.Extra.getD []) : ContentBlockReasoning → List (String × GoVal))
      ((fun s m => { s with Extra := some m }) :
        ContentBlockReasoning → List (String × GoVal) → ContentBlockReasoning)
      p4 (fun s => { s with Extra := mergeMap s.Extra x.Extra }) hp4
      (fun bs s => rfl) hE nE
      (entBoundOpt (List.mem_cons_of_mem _ (List.mem_cons_of_mem _
        (List.mem_cons_of_mem _ (List.mem_cons_of_mem _
          (List.mem_cons_self _ _))))) hL)
      (fun h s => by
        rw [h]
        rfl)
      (fun mm hm s => by
        rw [hm]
        rfl)
    have hc : List.Forall₂ (fieldContract (dispContentBlockReasoning reg'))
        [fOptInt 0 x.Index, fOptInt 1 x.SummaryIndex, p2,
         fStr 3 x.EncryptedContent, p4]
        [fun s => { s with Index := mOptInt s.Index x.Index },
         fun s => { s with SummaryIndex := mOptInt s.SummaryIndex x.SummaryIndex },
         fun s =>
          { s with Summary := mSliceOpt (mergeReasoningSummary zeroReasoningSummary) s.Summary x.Summary },
         fun s => { s with EncryptedContent := mStr s.EncryptedContent x.EncryptedContent },
         fun s => { s with Extra := mergeMap s.Extra x.Extra }] := by
      refine List.Forall₂.cons ?_ (List.Forall₂.cons ?_ (List.Forall₂.cons ?_
        (List.Forall₂.cons ?_ (List.Forall₂.cons ?_ List.Forall₂.nil))))
      · exact contract_fOptInt _ 0 x.Index _ _ (fun bs s => rfl) hI0.1 hI0.2
          (fun h s => by rw [mOptInt, if_pos h])
          (fun h s => by rw [mOptInt, if_neg h])
      · exact contract_fOptInt _ 1 x.SummaryIndex _ _ (fun bs s => rfl)
          hI1.1 hI1.2
          (fun h s => by rw [mOptInt, if_pos h])
          (fun h s => by rw [mOptInt, if_neg h])
      · exact hc2
      · exact contract_fStr _ 3 x.EncryptedContent _ _ (fun bs s => rfl)
          (fun h => strBound_fStr h (List.mem_cons_of_mem _
            (List.mem_cons_of_mem _ (List.mem_cons_of_mem _
              (List.mem_cons_self _ _)))) hL)
          (fun h s => by rw [mStr, if_pos h])
          (fun h s => by rw [mStr, if_neg h])
      · exact hc4
    exact decLoop_fields (dispContentBlockReasoning reg') 5 6 (by norm_num)
      [fOptInt 0 x.Index, fOptInt 1 x.SummaryIndex, p2,
       fStr 3 x.EncryptedContent, p4] _ [0, 1, 2, 3, 4]
      (by simp only [List.map_cons, List.map_nil, h2f, h4f]; rfl)
      (by decide) (by decide) hc (by norm_num) s rest

theorem decContentBlockToolCallOutputB_enc (reg reg' : Reg)
    (x : ContentBlockToolCallOutput) (bs : List Nat)
    (henc : encContentBlockToolCallOutputB reg x = .ok bs)
    (hwf : wfContentBlockToolCallOutput x = true)
    (hnm : namesOKContentBlockToolCallOutput reg' x = true)
    (hL : bs.length ≤ 2 ^ 63) (s : ContentBlockToolCallOutput) (rest : List Nat) :
    decContentBlockToolCallOutputB reg' (bs ++ rest) s
      = (mergeContentBlockToolCallOutput s x, .ok rest) := by
  rw [encContentBlockToolCallOutputB, entsContentBlockToolCallOutput,
    encOf.eq_def] at henc
  cases hs : seqEnts [.ok (fOptInt 0 x.Index), .ok (fStr 1 x.Typ),
      .ok (fStr 2 x.ToolCallID), .ok (fStr 3 x.ToolName),
      fPtrSubE 4 x.CustomTool isZeroToolCallOutputCustom
        (fun t => .ok (encToolCallOutputCustomB t)),
      fPtrSubE 5 x.MCPTool isZeroToolCallOutputMCP (encToolCallOutputMCPB reg)] with
  | error e =>
    rw [hs] at henc
    exact absurd henc (by simp)
  | ok l =>
    rw [hs] at henc
    dsimp only at henc
    simp only [Except.ok.injEq] at henc
    obtain ⟨p0, p1, p2, p3, p4, p5, hp0, hp1, hp2, hp3, hp4, hp5, hl⟩ :=
      seqEnts_ok6 hs
    subst hl
    injection hp0 with hp0
    injection hp1 with hp1
    injection hp2 with hp2
    injection hp3 with hp3
    subst hp0
    subst hp1
    subst hp2
    subst hp3
    subst henc
    simp only [wfContentBlockToolCallOutput, Bool.and_eq_true] at hwf
    obtain ⟨hI, hM⟩ := hwf
    simp only [wfOptInt, int64OK, decide_eq_true_eq] at hI
    simp only [namesOKContentBlockToolCallOutput] at hnm
    obtain ⟨h4f, hc4⟩ := contract_fPtrSubE (dispContentBlockToolCallOutput reg') 4
      x.CustomTool isZeroToolCallOutputCustom (fun t => Except.ok (encToolCallOutputCustomB t)) decToolCallOutputCustomB
      ((fun s => s.CustomTool.getD zeroToolCallOutputCustom) : ContentBlockToolCallOutput → ToolCallOutputCustom)
      ((fun s t => { s with CustomTool := some t }) : ContentBlockToolCallOutput → ToolCallOutputCustom → ContentBlockToolCallOutput)
      (fun u t => mergeToolCallOutputCustom u t) p4
      (fun s =>
        { s with CustomTool := mPtrSub isZeroToolCallOutputCustom mergeToolCallOutputCustom zeroToolCallOutputCustom s.CustomTool x.CustomTool })
      hp4 (fun bs s => rfl)
      (fun t ht hz b hb hbL s' r => by
        have hb2 : Except.ok (encToolCallOutputCustomB t) = Except.ok b := hb
        injection hb2 with hb2
        subst hb2
        exact decToolCallOutputCustomB_enc t hbL s' r)
      (entBoundOpt (List.mem_cons_of_mem _ (List.mem_cons_of_mem _ (List.mem_cons_of_mem _ (List.mem_cons_of_mem _ (List.mem_cons_self _ _))))) hL)
      (fun h s => by
        rcases h with h | ⟨t, ht, hz⟩
        · rw [h]
          rfl
        · rw [ht]
          simp only [mPtrSub]
          rw [if_pos hz])
      (fun t ht hz s => by
        rw [ht]
        simp only [mPtrSub]
        rw [if_neg (by simp [hz])])
    obtain ⟨h5f, hc5⟩ := contract_fPtrSubE (dispContentBlockToolCallOutput reg') 5
      x.MCPTool isZeroToolCallOutputMCP (encToolCallOutputMCPB reg) (decToolCallOutputMCPB reg')
      ((fun s => s.MCPTool.getD zeroToolCallOutputMCP) : ContentBlockToolCallOutput → ToolCallOutputMCP)
      ((fun s t => { s with MCPTool := some t }) : ContentBlockToolCallOutput → ToolCallOutputMCP → ContentBlockToolCallOutput)
      (fun u t => mergeToolCallOutputMCP u t) p5
      (fun s =>
        { s with MCPTool := mPtrSub isZeroToolCallOutputMCP mergeToolCallOutputMCP zeroToolCallOutputMCP s.MCPTool x.MCPTool })
      hp5 (fun bs s => rfl)
      (fun t ht hz b hb hbL s' r =>
        decToolCallOutputMCPB_enc reg reg' t b hb (by rw [ht] at hM; exact hM)
          (by rw [ht] at hnm; exact hnm) hbL s' r)
      (entBoundOpt (List.mem_cons_of_mem _ (List.mem_cons_of_mem _ (List.mem_cons_of_mem _ (List.mem_cons_of_mem _ (List.mem_cons_of_mem _ (List.mem_cons_self _ _)))))) hL)
      (fun h s => by
        rcases h with h | ⟨t, ht, hz⟩
        · rw [h]
          rfl
        · rw [ht]
          simp only [mPtrSub]
          rw [if_pos hz])
      (fun t ht hz s => by
        rw [ht]
        simp only [mPtrSub]
        rw [if_neg (by simp [hz])])
    have hc : List.Forall₂ (fieldContract (dispContentBlockToolCallOutput reg'))
        [fOptInt 0 x.Index, fStr 1 x.Typ, fStr 2 x.ToolCallID,
         fStr 3 x.ToolName, p4, p5]
        [fun s => { s with Index := mOptInt s.Index x.Index },
         fun s => { s with Typ := mStr s.Typ x.Typ },
         fun s => { s with ToolCallID := mStr s.ToolCallID x.ToolCallID },
         fun s => { s with ToolName := mStr s.ToolName x.ToolName },
         fun s =>
          { s with CustomTool := mPtrSub isZeroToolCallOutputCustom mergeToolCallOutputCustom zeroToolCallOutputCustom s.CustomTool x.CustomTool },
         fun s =>
          { s with MCPTool := mPtrSub isZeroToolCallOutputMCP mergeToolCallOutputMCP zeroToolCallOutputMCP s.MCPTool x.MCPTool }] := by
      refine List.Forall₂.cons ?_ (List.Forall₂.cons ?_ (List.Forall₂.cons ?_
        (List.Forall₂.cons ?_ (List.Forall₂.cons ?_
          (List.Forall₂.cons ?_ List.Forall₂.nil)))))
      · exact contract_fOptInt _ 0 x.Index _ _ (fun bs s => rfl) hI.1 hI.2
          (fun h s => by rw [mOptInt, if_pos h])
          (fun h s => by rw [mOptInt, if_neg h])
      · exact contract_fStr _ 1 x.Typ _ _ (fun bs s => rfl)
          (fun h => strBound_fStr h
            (List.mem_cons_of_mem _ (List.mem_cons_self _ _)) hL)
          (fun h s => by rw [mStr, if_pos h])
          (fun h s => by rw [mStr, if_neg h])
      · exact contract_fStr _ 2 x.ToolCallID _ _ (fun bs s => rfl)
          (fun h => strBound_fStr h (List.mem_cons_of_mem _
            (List.mem_cons_of_mem _ (List.mem_cons_self _ _))) hL)
          (fun h s => by rw [mStr, if_pos h])
          (fun h s => by rw [mStr, if_neg h])
      · exact contract_fStr _ 3 x.ToolName _ _ (fun bs s => rfl)
          (fun h => strBound_fStr h (List.mem_cons_of_mem _
            (List.mem_cons_of_mem _ (List.mem_cons_of_mem _
              (List.mem_cons_self _ _)))) hL)
          (fun h s => by rw [mStr, if_pos h])
          (fun h s => by rw [mStr, if_neg h])
      · exact hc4
      · exact hc5
    exact decLoop_fields (dispContentBlockToolCallOutput reg') 6 7 (by norm_num)
      [fOptInt 0 x.Index, fStr 1 x.Typ, fStr 2 x.ToolCallID,
       fStr 3 x.ToolName, p4, p5] _ [0, 1, 2, 3, 4, 5]
      (by simp only [List.map_cons, List.map_nil, h4f, h5f]; rfl)
      (by decide) (by decide) hc (by norm_num) s rest

theorem decContentBlockB_enc (reg reg' : Reg) (x : ContentBlock)
    (bs : List Nat) (henc : encContentBlockB reg x = .ok bs)
    (hwf : wfContentBlock x = true) (hnm : namesOKContentBlock reg' x = true)
    (hL : bs.length ≤ 2 ^ 63) (s : ContentBlock) (rest : List Nat) :
    decContentBlockB reg' (bs ++ rest) s = (mergeContentBlock s x, .ok rest) := by
  rw [encContentBlockB, entsContentBlock, encOf.eq_def] at henc
  cases hs : seqEnts [.ok (fStr 0 x.Typ),
      fPtrSubE 1 x.Message isZeroContentBlockMessage (encContentBlockMessageB reg),
      fPtrSubE 2 x.Reasoning isZeroContentBlockReasoning
        (encContentBlockReasoningB reg),
      fPtrSubE 3 x.ToolCall isZeroContentBlockToolCall (encContentBlockToolCallB reg),
      fPtrSubE 4 x.ToolCallOutput isZeroContentBlockToolCallOutput
        (encContentBlockToolCallOutputB reg),
      fPtrSubE 5 x.MCPListTools isZeroContentBlockMCPListTools
        (fun t => .ok (encContentBlockMCPListToolsB t)),
      fPtrSubE 6 x.MCPToolApprovalRequest isZeroContentBlockMCPToolApprovalRequest
        (fun t => .ok (encContentBlockMCPToolApprovalRequestB t)),
      fPtrSubE 7 x.MCPToolApprovalResponse isZeroContentBlockMCPToolApprovalResponse
        (fun t => .ok (encContentBlockMCPToolApprovalResponseB t))] with
  | error e =>
    rw [hs] at henc
    exact absurd henc (by simp)
  | ok l =>
    rw [hs] at henc
    dsimp only at henc
    simp only [Except.ok.injEq] at henc
    obtain ⟨p0, p1, p2, p3, p4, p5, p6, p7, hp0, hp1, hp2, hp3, hp4, hp5, hp6,
      hp7, hl⟩ := seqEnts_ok8 hs
    subst hl
    injection hp0 with hp0
    subst hp0
    subst henc
    simp only [wfContentBlock, Bool.and_eq_true] at hwf
    obtain ⟨⟨⟨hMsg, hRsn⟩, hTC⟩, hTCO⟩ := hwf
    simp only [namesOKContentBlock, Bool.and_eq_true] at hnm
    obtain ⟨⟨⟨nMsg, nRsn⟩, nTC⟩, nTCO⟩ := hnm
    obtain ⟨h1f, hc1⟩ := contract_fPtrSubE (dispContentBlock reg') 1
      x.Message isZeroContentBlockMessage (encContentBlockMessageB reg) (decContentBlockMessageB reg')
      ((fun s => s.Message.getD zeroContentBlockMessage) : ContentBlock → ContentBlockMessage)
      ((fun s t => { s with Message := some t }) : ContentBlock → ContentBlockMessage → ContentBlock)
      (fun u t => mergeContentBlockMessage u t) p1
      (fun s =>
        { s with Message := mPtrSub isZeroContentBlockMessage mergeContentBlockMessage zeroContentBlockMessage s.Message x.Message })
      hp1 (fun bs s => rfl)
      (fun t ht hz b hb hbL s' r =>
        decContentBlockMessageB_enc reg reg' t b hb (by rw [ht] at hMsg; exact hMsg)
          (by rw [ht] at nMsg; exact nMsg) hbL s' r)
      (entBoundOpt (List.mem_cons_of_mem _ (List.mem_cons_self _ _)) hL)
      (fun h s => by
        rcases h with h | ⟨t, ht, hz⟩
        · rw [h]
          rfl
        · rw [ht]
          simp only [mPtrSub]
          rw [if_pos hz])
      (fun t ht hz s => by
        rw [ht]
        simp only [mPtrSub]
        rw [if_neg (by simp [hz])])
    obtain ⟨h2f, hc2⟩ := contract_fPtrSubE (dispContentBlock reg') 2
      x.Reasoning isZeroContentBlockReasoning (encContentBlockReasoningB reg) (decContentBlockReasoningB reg')
      ((fun s => s.Reasoning.getD zeroContentBlockReasoning) : ContentBlock → ContentBlockReasoning)
      ((fun s t => { s with Reasoning := some t }) : ContentBlock → ContentBlockReasoning → ContentBlock)
      (fun u t => mergeContentBlockReasoning u t) p2
      (fun s =>
        { s with Reasoning := mPtrSub isZeroContentBlockReasoning mergeContentBlockReasoning zeroContentBlockReasoning s.Reasoning x.Reasoning })
      hp2 (fun bs s => rfl)
      (fun t ht hz b hb hbL s' r =>
        decContentBlockReasoningB_enc reg reg' t b hb (by rw [ht] at hRsn; exact hRsn)
          (by rw [ht] at nRsn; exact nRsn) hbL s' r)
      (entBoundOpt (List.mem_cons_of_mem _ (List.mem_cons_of_mem _ (List.mem_cons_self _ _))) hL)
      (fun h s => by
        rcases h with h | ⟨t, ht, hz⟩
        · rw [h]
          rfl
        · rw [ht]
          simp only [mPtrSub]
          rw [if_pos hz])
      (fun t ht hz s => by
        rw [ht]
        simp only [mPtrSub]
        rw [if_neg (by simp [hz])])
    obtain ⟨h3f, hc3⟩ := contract_fPtrSubE (dispContentBlock reg') 3
      x.ToolCall isZeroContentBlockToolCall (encContentBlockToolCallB reg) (decContentBlockToolCallB reg')
      ((fun s => s.ToolCall.getD zeroContentBlockToolCall) : ContentBlock → ContentBlockToolCall)
      ((fun s t => { s with ToolCall := some t }) : ContentBlock → ContentBlockToolCall → ContentBlock)
      (fun u t => mergeContentBlockToolCall u t) p3
      (fun s =>
        { s with ToolCall := mPtrSub isZeroContentBlockToolCall mergeContentBlockToolCall zeroContentBlockToolCall s.ToolCall x.ToolCall })
      hp3 (fun bs s => rfl)
      (fun t ht hz b hb hbL s' r =>
        decContentBlockToolCallB_enc reg reg' t b hb (by rw [ht] at hTC; exact hTC)
          (by rw [ht] at nTC; exact nTC) hbL s' r)
      (entBoundOpt (List.mem_cons_of_mem _ (List.mem_cons_of_mem _ (List.mem_cons_of_mem _ (List.mem_cons_self _ _)))) hL)
      (fun h s => by
        rcases h with h | ⟨t, ht, hz⟩
        · rw [h]
          rfl
        · rw [ht]
          simp only [mPtrSub]
          rw [if_pos hz])
      (fun t ht hz s => by
        rw [ht]
        simp only [mPtrSub]
        rw [if_neg (by simp [hz])])
    obtain ⟨h4f, hc4⟩ := contract_fPtrSubE (dispContentBlock reg') 4
      x.ToolCallOutput isZeroContentBlockToolCallOutput (encContentBlockToolCallOutputB reg) (decContentBlockToolCallOutputB reg')
      ((fun s => s.ToolCallOutput.getD zeroContentBlockToolCallOutput) : ContentBlock → ContentBlockToolCallOutput)
      ((fun s t => { s with ToolCallOutput := some t }) : ContentBlock → ContentBlockToolCallOutput → ContentBlock)
      (fun u t => mergeContentBlockToolCallOutput u t) p4
      (fun s =>
        { s with ToolCallOutput := mPtrSub isZeroContentBlockToolCallOutput mergeContentBlockToolCallOutput zeroContentBlockToolCallOutput s.ToolCallOutput x.ToolCallOutput })
      hp4 (fun bs s => rfl)
      (fun t ht hz b hb hbL s' r =>
        decContentBlockToolCallOutputB_enc reg reg' t b hb (by rw [ht] at hTCO; exact hTCO)
          (by rw [ht] at nTCO; exact nTCO) hbL s' r)
      (entBoundOpt (List.mem_cons_of_mem _ (List.mem_cons_of_mem _ (List.mem_cons_of_mem _ (List.mem_cons_of_mem _ (List.mem_cons_self _ _))))) hL)
      (fun h s => by
        rcases h with h | ⟨t, ht, hz⟩
        · rw [h]
          rfl
        · rw [ht]
          simp only [mPtrSub]
          rw [if_pos hz])
      (fun t ht hz s => by
        rw [ht]
        simp only [mPtrSub]
        rw [if_neg (by simp [hz])])
    obtain ⟨h5f, hc5⟩ := contract_fPtrSubE (dispContentBlock reg') 5
      x.MCPListTools isZeroContentBlockMCPListTools (fun t => Except.ok (encContentBlockMCPListToolsB t)) decContentBlockMCPListToolsB
      ((fun s => s.MCPListTools.getD zeroContentBlockMCPListTools) : ContentBlock → ContentBlockMCPListTools)
      ((fun s t => { s with MCPListTools := some t }) : ContentBlock → ContentBlockMCPListTools → ContentBlock)
      (fun u t => mergeContentBlockMCPListTools u t) p5
      (fun s =>
        { s with MCPListTools := mPtrSub isZeroContentBlockMCPListTools mergeContentBlockMCPListTools zeroContentBlockMCPListTools s.MCPListTools x.MCPListTools })
      hp5 (fun bs s => rfl)
      (fun t ht hz b hb hbL s' r => by
        have hb2 : Except.ok (encContentBlockMCPListToolsB t) = Except.ok b := hb
        injection hb2 with hb2
        subst hb2
        exact decContentBlockMCPListToolsB_enc t hbL s' r)
      (entBoundOpt (List.mem_cons_of_mem _ (List.mem_cons_of_mem _ (List.mem_cons_of_mem _ (List.mem_cons_of_mem _ (List.mem_cons_of_mem _ (List.mem_cons_self _ _)))))) hL)
      (fun h s => by
        rcases h with h | ⟨t, ht, hz⟩
        · rw [h]
          rfl
        · rw [ht]
          simp only [mPtrSub]
          rw [if_pos hz])
      (fun t ht hz s => by
        rw [ht]
        simp only [mPtrSub]
        rw [if_neg (by simp [hz])])
    obtain ⟨h6f, hc6⟩ := contract_fPtrSubE (dispContentBlock reg') 6
      x.MCPToolApprovalRequest isZeroContentBlockMCPToolApprovalRequest (fun t => Except.ok (encContentBlockMCPToolApprovalRequestB t)) decContentBlockMCPToolApprovalRequestB
      ((fun s => s.MCPToolApprovalRequest.getD zeroContentBlockMCPToolApprovalRequest) : ContentBlock → ContentBlockMCPToolApprovalRequest)
      ((fun s t => { s with MCPToolApprovalRequest := some t }) : ContentBlock → ContentBlockMCPToolApprovalRequest → ContentBlock)
      (fun u t => mergeContentBlockMCPToolApprovalRequest u t) p6
      (fun s =>
        { s with MCPToolApprovalRequest := mPtrSub isZeroContentBlockMCPToolApprovalRequest mergeContentBlockMCPToolApprovalRequest zeroContentBlockMCPToolApprovalRequest s.MCPToolApprovalRequest x.MCPToolApprovalRequest })
      hp6 (fun bs s => rfl)
      (fun t ht hz b hb hbL s' r => by
        have hb2 : Except.ok (encContentBlockMCPToolApprovalRequestB t) = Except.ok b := hb
        injection hb2 with hb2
        subst hb2
        exact decContentBlockMCPToolApprovalRequestB_enc t hbL s' r)
      (entBoundOpt (List.mem_cons_of_mem _ (List.mem_cons_of_mem _ (List.mem_cons_of_mem _ (List.mem_cons_of_mem _ (List.mem_cons_of_mem _ (List.mem_cons_of_mem _ (List.mem_cons_self _ _))))))) hL)
      (fun h s => by
        rcases h with h | ⟨t, ht, hz⟩
        · rw [h]
          rfl
        · rw [ht]
          simp only [mPtrSub]
          rw [if_pos hz])
      (fun t ht hz s => by
        rw [ht]
        simp only [mPtrSub]
        rw [if_neg (by simp [hz])])
    obtain ⟨h7f, hc7⟩ := contract_fPtrSubE (dispContentBlock reg') 7
      x.MCPToolApprovalResponse isZeroContentBlockMCPToolApprovalResponse (fun t => Except.ok (encContentBlockMCPToolApprovalResponseB t)) decContentBlockMCPToolApprovalResponseB
      ((fun s => s.MCPToolApprovalResponse.getD zeroContentBlockMCPToolApprovalResponse) : ContentBlock → ContentBlockMCPToolApprovalResponse)
      ((fun s t => { s with MCPToolApprovalResponse := some t }) : ContentBlock → ContentBlockMCPToolApprovalResponse → ContentBlock)
      (fun u t => mergeContentBlockMCPToolApprovalResponse u t) p7
      (fun s =>
        { s with MCPToolApprovalResponse := mPtrSub isZeroContentBlockMCPToolApprovalResponse mergeContentBlockMCPToolApprovalResponse zeroContentBlockMCPToolApprovalResponse s.MCPToolApprovalResponse x.MCPToolApprovalResponse })
      hp7 (fun bs s => rfl)
      (fun t ht hz b hb hbL s' r => by
        have hb2 : Except.ok (encContentBlockMCPToolApprovalResponseB t) = Except.ok b := hb
        injection hb2 with hb2
        subst hb2
        exact decContentBlockMCPToolApprovalResponseB_enc t hbL s' r)
      (entBoundOpt (List.mem_cons_of_mem _ (List.mem_cons_of_mem _ (List.mem_cons_of_mem _ (List.mem_cons_of_mem _ (List.mem_cons_of_mem _ (List.mem_cons_of_mem _ (List.mem_cons_of_mem _ (List.mem_cons_self _ _)))))))) hL)
      (fun h s => by
        rcases h with h | ⟨t, ht, hz⟩
        · rw [h]
          rfl
        · rw [ht]
          simp only [mPtrSub]
          rw [if_pos hz])
      (fun t ht hz s => by
        rw [ht]
        simp only [mPtrSub]
        rw [if_neg (by simp [hz])])
    have hc : List.Forall₂ (fieldContract (dispContentBlock reg'))
        [fStr 0 x.Typ, p1, p2, p3, p4, p5, p6, p7]
        [fun s => { s with Typ := mStr s.Typ x.Typ },
         fun s =>
          { s with Message := mPtrSub isZeroContentBlockMessage mergeContentBlockMessage zeroContentBlockMessage s.Message x.Message },
         fun s =>
          { s with Reasoning := mPtrSub isZeroContentBlockReasoning mergeContentBlockReasoning zeroContentBlockReasoning s.Reasoning x.Reasoning },
         fun s =>
          { s with ToolCall := mPtrSub isZeroContentBlockToolCall mergeContentBlockToolCall zeroContentBlockToolCall s.ToolCall x.ToolCall },
         fun s =>
          { s with ToolCallOutput := mPtrSub isZeroContentBlockToolCallOutput mergeContentBlockToolCallOutput zeroContentBlockToolCallOutput s.ToolCallOutput x.ToolCallOutput },
         fun s =>
          { s with MCPListTools := mPtrSub isZeroContentBlockMCPListTools mergeContentBlockMCPListTools zeroContentBlockMCPListTools s.MCPListTools x.MCPListTools },
         fun s =>
          { s with MCPToolApprovalRequest := mPtrSub isZeroContentBlockMCPToolApprovalRequest mergeContentBlockMCPToolApprovalRequest zeroContentBlockMCPToolApprovalRequest s.MCPToolApprovalRequest x.MCPToolApprovalRequest },
         fun s =>
          { s with MCPToolApprovalResponse := mPtrSub isZeroContentBlockMCPToolApprovalResponse mergeContentBlockMCPToolApprovalResponse zeroContentBlockMCPToolApprovalResponse s.MCPToolApprovalResponse x.MCPToolApprovalResponse }] := by
      refine List.Forall₂.cons ?_ (List.Forall₂.cons ?_ (List.Forall₂.cons ?_
        (List.Forall₂.cons ?_ (List.Forall₂.cons ?_ (List.Forall₂.cons ?_
          (List.Forall₂.cons ?_ (List.Forall₂.cons ?_ List.Forall₂.nil)))))))
      · exact contract_fStr _ 0 x.Typ _ _ (fun bs s => rfl)
          (fun h => strBound_fStr h (List.mem_cons_self _ _) hL)
          (fun h s => by rw [mStr, if_pos h])
          (fun h s => by rw [mStr, if_neg h])
      · exact hc1
      · exact hc2
      · exact hc3
      · exact hc4
      · exact hc5
      · exact hc6
      · exact hc7
    exact decLoop_fields (dispContentBlock reg') 8 9 (by norm_num)
      [fStr 0 x.Typ, p1, p2, p3, p4, p5, p6, p7] _ [0, 1, 2, 3, 4, 5, 6, 7]
      (by simp only [List.map_cons, List.map_nil, h1f, h2f, h3f, h4f, h5f,
        h6f, h7f]; rfl)
      (by decide) (by decide) hc (by norm_num) s rest

theorem decAgenticResponseB_enc (reg reg' : Reg) (x : AgenticResponse)
    (bs : List Nat) (henc : encAgenticResponseB reg x = .ok bs)
    (hwf : wfAgenticResponse x = true) (hnm : namesOKAgenticResponse reg' x = true)
    (hL : bs.length ≤ 2 ^ 63) (s : AgenticResponse) (rest : List Nat) :
    decAgenticResponseB reg' (bs ++ rest) s
      = (mergeAgenticResponse s x, .ok rest) := by
  rw [encAgenticResponseB, entsAgenticResponse, encOf.eq_def] at henc
  cases hs : seqEnts [.ok (fStr 0 x.ID),
      fPtrSubE 1 x.FinishReason isZeroFinishReason
        (fun t => .ok (encFinishReasonB t)),
      fPtrSubE 2 x.Usage isZeroTokenUsageMeta (fun t => .ok (encTokenUsageMetaB t)),
      fSliceOptE 3 x.Blocks (encContentBlockB reg)] with
  | error e =>
    rw [hs] at henc
    exact absurd henc (by simp)
  | ok l =>
    rw [hs] at henc
    dsimp only at henc
    simp only [Except.ok.injEq] at henc
    obtain ⟨p0, p1, p2, p3, hp0, hp1, hp2, hp3, hl⟩ := seqEnts_ok4 hs
    subst hl
    injection hp0 with hp0
    subst hp0
    subst henc
    simp only [wfAgenticResponse, Bool.and_eq_true] at hwf
    obtain ⟨hUs, hB⟩ := hwf
    simp only [namesOKAgenticResponse] at hnm
    obtain ⟨h1f, hc1⟩ := contract_fPtrSubE (dispAgenticResponse reg') 1
      x.FinishReason isZeroFinishReason (fun t => Except.ok (encFinishReasonB t)) decFinishReasonB
      ((fun s => s.FinishReason.getD zeroFinishReason) : AgenticResponse → FinishReason)
      ((fun s t => { s with FinishReason := some t }) : AgenticResponse → FinishReason → AgenticResponse)
      (fun u t => mergeFinishReason u t) p1
      (fun s =>
        { s with FinishReason := mPtrSub isZeroFinishReason mergeFinishReason zeroFinishReason s.FinishReason x.FinishReason })
      hp1 (fun bs s => rfl)
      (fun t ht hz b hb hbL s' r => by
        have hb2 : Except.ok (encFinishReasonB t) = Except.ok b := hb
        injection hb2 with hb2
        subst hb2
        exact decFinishReasonB_enc t hbL s' r)
      (entBoundOpt (List.mem_cons_of_mem _ (List.mem_cons_self _ _)) hL)
      (fun h s => by
        rcases h with h | ⟨t, ht, hz⟩
        · rw [h]
          rfl
        · rw [ht]
          simp only [mPtrSub]
          rw [if_pos hz])
      (fun t ht hz s => by
        rw [ht]
        simp only [mPtrSub]
        rw [if_neg (by simp [hz])])
    obtain ⟨h2f, hc2⟩ := contract_fPtrSubE (dispAgenticResponse reg') 2
      x.Usage isZeroTokenUsageMeta (fun t => Except.ok (encTokenUsageMetaB t)) decTokenUsageMetaB
      ((fun s => s.Usage.getD zeroTokenUsageMeta) : AgenticResponse → TokenUsageMeta)
      ((fun s t => { s with Usage := some t }) : AgenticResponse → TokenUsageMeta → AgenticResponse)
      (fun u t => mergeTokenUsageMeta u t) p2
      (fun s =>
        { s with Usage := mPtrSub isZeroTokenUsageMeta mergeTokenUsageMeta zeroTokenUsageMeta s.Usage x.Usage })
      hp2 (fun bs s => rfl)
      (fun t ht hz b hb hbL s' r => by
        have hb2 : Except.ok (encTokenUsageMetaB t) = Except.ok b := hb
        injection hb2 with hb2
        subst hb2
        exact decTokenUsageMetaB_enc t (by rw [ht] at hUs; exact hUs) s' r)
      (entBoundOpt (List.mem_cons_of_mem _ (List.mem_cons_of_mem _ (List.mem_cons_self _ _))) hL)
      (fun h s => by
        rcases h with h | ⟨t, ht, hz⟩
        · rw [h]
          rfl
        · rw [ht]
          simp only [mPtrSub]
          rw [if_pos hz])
      (fun t ht hz s => by
        rw [ht]
        simp only [mPtrSub]
        rw [if_neg (by simp [hz])])
    obtain ⟨h3f, hc3⟩ := contract_fSliceOptE (dispAgenticResponse reg') 3
      x.Blocks (encContentBlockB reg) (decContentBlockB reg') zeroContentBlock
      ((fun s l => { s with Blocks := some l }) : AgenticResponse → List (Option ContentBlock) → AgenticResponse)
      (mergeContentBlock zeroContentBlock) p3
      (fun s =>
        { s with Blocks := mSliceOpt (mergeContentBlock zeroContentBlock) s.Blocks x.Blocks })
      hp3 (fun bs s => rfl)
      (fun y b hb => @encOf_length_pos (entsContentBlock reg y) _ hb)
      (fun y l2 ho hy b hb hbL r =>
        decContentBlockB_enc reg reg' y b hb
          (by rw [ho] at hB; exact allOpt_some hB (some y) hy)
          (by rw [ho] at hnm; exact allOpt_some hnm (some y) hy)
          hbL zeroContentBlock r)
      (entBoundOpt (List.mem_cons_of_mem _ (List.mem_cons_of_mem _ (List.mem_cons_of_mem _ (List.mem_cons_self _ _)))) hL)
      (fun h s => by
        rcases h with h | h
        · rw [h]
          rfl
        · rw [h]
          rfl)
      (fun l2 hl hne s => by
        rw [hl]
        cases l2 with
        | nil => exact absurd rfl hne
        | cons a t => rfl)
    have hc : List.Forall₂ (fieldContract (dispAgenticResponse reg'))
        [fStr 0 x.ID, p1, p2, p3]
        [fun s => { s with ID := mStr s.ID x.ID },
         fun s =>
          { s with FinishReason := mPtrSub isZeroFinishReason mergeFinishReason zeroFinishReason s.FinishReason x.FinishReason },
         fun s =>
          { s with Usage := mPtrSub isZeroTokenUsageMeta mergeTokenUsageMeta zeroTokenUsageMeta s.Usage x.Usage },
         fun s =>
          { s with Blocks := mSliceOpt (mergeContentBlock zeroContentBlock) s.Blocks x.Blocks }] := by
      refine List.Forall₂.cons ?_ (List.Forall₂.cons ?_ (List.Forall₂.cons ?_
        (List.Forall₂.cons ?_ List.Forall₂.nil)))
      · exact contract_fStr _ 0 x.ID _ _ (fun bs s => rfl)
          (fun h => strBound_fStr h (List.mem_cons_self _ _) hL)
          (fun h s => by rw [mStr, if_pos h])
          (fun h s => by rw [mStr, if_neg h])
      · exact hc1
      · exact hc2
      · exact hc3
    exact decLoop_fields (dispAgenticResponse reg') 4 5 (by norm_num)
      [fStr 0 x.ID, p1, p2, p3] _ [0, 1, 2, 3]
      (by simp only [List.map_cons, List.map_nil, h1f, h2f, h3f]; rfl)
      (by decide) (by decide) hc (by norm_num) s rest

/-! ## The framed stream: type definitions, value message, round trip -/

theorem encU_length_le (n : Nat) (h : n < 2 ^ 64) : (encU n).length ≤ 9 := by
  rw [encU]
  by_cases h1 : n < 128
  · rw [if_pos h1]
    simp
  · rw [if_neg h1]
    have h256 : (256 : Nat) ^ 8 = 2 ^ 64 := by norm_num
    have hb := beBytes_length_le 8 n (by omega)
    simp only [List.length_cons]
    omega

theorem encChars_length_le : ∀ (l : List Char), (encChars l).length ≤ 9 * l.length := by
  intro l
  induction l with
  | nil => simp [encChars]
  | cons c t ih =>
    show (encU c.toNat ++ encChars t).length ≤ 9 * (t.length + 1)
    simp only [List.length_append]
    have := encU_length_le c.toNat (char_toNat_lt c)
    omega

theorem encStr_length_le (s : String) (h : s.length < 2 ^ 64) :
    (encStr s).length ≤ 9 + 9 * s.length := by
  rw [encStr]
  simp only [List.length_append]
  have h1 := encU_length_le s.length h
  have h2 := encChars_length_le s.data
  have h3 : s.data.length = s.length := rfl
  omega

theorem encS_length_le (i : Int) (h1 : -(2 ^ 63) ≤ i) (h2 : i < 2 ^ 63) :
    (encS i).length ≤ 9 := by
  rw [encS]
  refine encU_length_le _ ?_
  rw [zig]
  by_cases h : 0 ≤ i
  · rw [if_pos h]
    omega
  · rw [if_neg h]
    omega

theorem encS_respTypeId_length : (encS respTypeId).length = 2 := by
  have hb : beBytes 130 = [130] := by
    rw [beBytes, if_neg (by norm_num)]
    rw [show (130 : Nat) / 256 = 0 from by norm_num]
    rw [beBytes, if_pos rfl]
    rfl
  show (encU (zig 65)).length = 2
  rw [show zig 65 = 130 from by decide]
  rw [encU, if_neg (by norm_num), hb]
  rfl

theorem readFrame_frameB (p rest : List Nat) (h : p.length < tooBig) :
    readFrame (frameB p ++ rest) = .ok (p, rest) := by
  have ht : tooBig = 2 ^ 31 := rfl
  have h64 : p.length < 2 ^ 64 := by omega
  rw [frameB, List.append_assoc, readFrame, decU_encU p.length h64]
  dsimp only
  rw [if_neg (by omega), if_neg (by simp only [List.length_append]; omega)]
  rw [List.take_left, List.drop_left]

theorem checkTypeDefs_append :
    ∀ (ps : List (List Nat)) (rest : List Nat),
    (∀ p ∈ ps, p.length < tooBig) →
    checkTypeDefs ps ((ps.map frameB).flatten ++ rest) = .ok rest := by
  intro ps
  induction ps with
  | nil => intro rest _; rfl
  | cons p t ih =>
    intro rest hb
    show checkTypeDefs (p :: t) ((frameB p ++ (t.map frameB).flatten) ++ rest) = _
    rw [checkTypeDefs, List.append_assoc,
      readFrame_frameB p _ (hb p (List.mem_cons_self _ _))]
    dsimp only
    rw [if_pos rfl]
    exact ih rest (fun q hq => hb q (List.mem_cons_of_mem _ hq))

theorem typeDefMsgs_short : ∀ p ∈ typeDefMsgs, p.length < tooBig := by
  have hb : ∀ q ∈ gobTypeIdTable, -(2 ^ 63) ≤ -q.1 ∧ -q.1 < 2 ^ 63 ∧
      q.2.length ≤ 40 := by decide
  intro p hp
  rw [typeDefMsgs] at hp
  simp only [List.mem_map] at hp
  obtain ⟨q, hq, rfl⟩ := hp
  obtain ⟨hq1, hq2, hq3⟩ := hb q hq
  have h1 := encS_length_le (-q.1) hq1 hq2
  have h2 := encStr_length_le q.2 (by omega)
  have ht : tooBig = 2 ^ 31 := rfl
  simp only [List.length_append]
  omega

theorem stage1_frame (body : List Nat)
    (hfit : body.length + 2 < 2 ^ 31) :
    stage1 (tdefBytes ++ frameB (encS respTypeId ++ body)) = .ok body := by
  have hvp : (encS respTypeId ++ body).length < tooBig := by
    have h2 := encS_respTypeId_length
    have ht : tooBig = 2 ^ 31 := rfl
    simp only [List.length_append, h2]
    omega
  rw [stage1, tdefBytes, checkTypeDefs_append typeDefMsgs _ typeDefMsgs_short]
  dsimp only
  have hrf : readFrame (frameB (encS respTypeId ++ body)) = .ok (encS respTypeId ++ body, []) := by
    have := readFrame_frameB (encS respTypeId ++ body) [] hvp
    rwa [List.append_nil] at this
  rw [hrf]
  dsimp only
  rw [decS_encS respTypeId (by decide) (by decide)]
  dsimp only
  rw [if_pos rfl]

theorem Serialize_eq (reg : Reg) (r : AgenticResponse) (body : List Nat)
    (henc : encAgenticResponseB reg r = .ok body) :
    Serialize reg r = .ok (tdefBytes ++ frameB (encS respTypeId ++ body)) := by
  rw [Serialize, henc]

theorem serializeFits_bound (reg : Reg) (r : AgenticResponse) (body : List Nat)
    (henc : encAgenticResponseB reg r = .ok body)
    (hfit : serializeFits reg r = true) : body.length + 2 < 2 ^ 31 := by
  rw [serializeFits, henc] at hfit
  dsimp only at hfit
  exact of_decide_eq_true hfit

theorem Deserialize_Serialize (reg reg' : Reg) (r : AgenticResponse)
    (out : List Nat) (hout : Serialize reg r = .ok out)
    (hwf : wfAgenticResponse r = true)
    (hnm : namesOKAgenticResponse reg' r = true)
    (hfit : serializeFits reg r = true) (s : AgenticResponse) :
    Deserialize reg' out s = (mergeAgenticResponse s r, none) := by
  rw [Serialize] at hout
  cases henc : encAgenticResponseB reg r with
  | error e => rw [henc] at hout; exact absurd hout (by simp)
  | ok body =>
    rw [henc] at hout
    dsimp only at hout
    simp only [Except.ok.injEq] at hout
    subst hout
    have hfit2 := serializeFits_bound reg r body henc hfit
    rw [Deserialize, stage1_frame body hfit2]
    dsimp only
    have hdec := decAgenticResponseB_enc reg reg' r body henc hwf hnm
      (by omega) s []
    rw [List.append_nil] at hdec
    rw [hdec]
    dsimp only
    rfl

/-! ## Truncated streams always fail before any receiver mutation -/

theorem decU_encU_prefix (n : Nat) (hn : n < 2 ^ 64) :
    ∀ k, k < (encU n).length → ∃ e, decU ((encU n).take k) = .error e := by
  intro k hk
  by_cases h1 : n < 128
  · rw [encU, if_pos h1] at hk ⊢
    simp only [List.length_cons, List.length_nil] at hk
    have hk0 : k = 0 := by omega
    subst hk0
    exact ⟨.eof, rfl⟩
  · rw [encU, if_neg h1] at hk ⊢
    have hn0 : ¬n = 0 := by omega
    have hLpos := beBytes_length_pos n hn0
    have h256 : (256 : Nat) ^ 8 = 2 ^ 64 := by norm_num
    have hLle := beBytes_length_le 8 n (by omega)
    cases k with
    | zero => exact ⟨.eof, rfl⟩
    | succ k' =>
      simp only [List.length_cons] at hk
      rw [List.take_succ_cons]
      show ∃ e, decU ((256 - (beBytes n).length) :: (beBytes n).take k') = .error e
      rw [decU.eq_def]
      dsimp only
      rw [if_neg (by omega)]
      show ∃ e, (if 8 < 256 - (256 - (beBytes n).length) then _ else _) = _
      rw [if_neg (by omega)]
      show ∃ e, (if ((beBytes n).take k').length < 256 - (256 - (beBytes n).length)
        then _ else _) = _
      rw [if_pos (by
        rw [List.length_take]
        omega)]
      exact ⟨.unexpectedEOF, rfl⟩

theorem readFrame_frameB_prefix (p : List Nat) (hp : p.length < tooBig) :
    ∀ k, k < (frameB p).length → ∃ e, readFrame ((frameB p).take k) = .error e := by
  intro k hk
  have ht : tooBig = 2 ^ 31 := rfl
  have h64 : p.length < 2 ^ 64 := by omega
  rw [frameB] at hk ⊢
  rw [List.take_append_eq_append_take]
  by_cases h1 : k < (encU p.length).length
  · have h2 : k - (encU p.length).length = 0 := by omega
    rw [h2]
    simp only [List.take_zero, List.append_nil]
    obtain ⟨e, he⟩ := decU_encU_prefix p.length h64 k h1
    refine ⟨e, ?_⟩
    rw [readFrame, he]
  · have h2 : (encU p.length).take k = encU p.length :=
      List.take_of_length_le (by omega)
    rw [h2]
    rw [readFrame, decU_encU p.length h64]
    dsimp only
    rw [if_neg (by omega)]
    rw [if_pos (by
      rw [List.length_take]
      simp only [List.length_append] at hk
      omega)]
    exact ⟨.unexpectedEOF, rfl⟩

theorem checkTypeDefs_prefix :
    ∀ (ps : List (List Nat)) (k : Nat),
    (∀ p ∈ ps, p.length < tooBig) →
    k < ((ps.map frameB).flatten).length →
    ∃ e, checkTypeDefs ps (((ps.map frameB).flatten).take k) = .error e := by
  intro ps
  induction ps with
  | nil =>
    intro k _ hk
    simp at hk
  | cons p t ih =>
    intro k hb hk
    have hfr : ((p :: t).map frameB).flatten = frameB p ++ (t.map frameB).flatten :=
      rfl
    rw [hfr] at hk ⊢
    rw [List.take_append_eq_append_take]
    by_cases h1 : k < (frameB p).length
    · have h2 : k - (frameB p).length = 0 := by omega
      rw [h2]
      simp only [List.take_zero, List.append_nil]
      obtain ⟨e, he⟩ := readFrame_frameB_prefix p
        (hb p (List.mem_cons_self _ _)) k h1
      refine ⟨e, ?_⟩
      rw [checkTypeDefs, he]
    · have h2 : (frameB p).take k = frameB p := List.take_of_length_le (by omega)
      rw [h2]
      have h3 := readFrame_frameB p ((t.map frameB).flatten.take
        (k - (frameB p).length)) (hb p (List.mem_cons_self _ _))
      rw [checkTypeDefs, h3]
      dsimp only
      rw [if_pos rfl]
      refine ih (k - (frameB p).length)
        (fun q hq => hb q (List.mem_cons_of_mem _ hq)) ?_
      simp only [List.length_append] at hk
      omega

theorem stage1_prefix (body : List Nat) (hfit : body.length + 2 < 2 ^ 31) :
    ∀ k, k < (tdefBytes ++ frameB (encS respTypeId ++ body)).length →
    ∃ e, stage1 ((tdefBytes ++ frameB (encS respTypeId ++ body)).take k)
      = .error e := by
  intro k hk
  have ht : tooBig = 2 ^ 31 := rfl
  have hvp : (encS respTypeId ++ body).length < tooBig := by
    have h2 := encS_respTypeId_length
    simp only [List.length_append, h2]
    omega
  rw [List.take_append_eq_append_take]
  by_cases h1 : k < tdefBytes.length
  · have h2 : k - tdefBytes.length = 0 := by omega
    rw [h2]
    simp only [List.take_zero, List.append_nil]
    obtain ⟨e, he⟩ := checkTypeDefs_prefix typeDefMsgs k typeDefMsgs_short
      (by rw [← tdefBytes]; exact h1)
    refine ⟨e, ?_⟩
    rw [stage1]
    rw [show (tdefBytes.take k) = (((typeDefMsgs.map frameB).flatten).take k)
      from rfl]
    rw [he]
  · have h2 : tdefBytes.take k = tdefBytes := List.take_of_length_le (by omega)
    rw [h2]
    rw [stage1, tdefBytes, checkTypeDefs_append typeDefMsgs _ typeDefMsgs_short]
    dsimp only
    obtain ⟨e, he⟩ := readFrame_frameB_prefix (encS respTypeId ++ body) hvp
      (k - tdefBytes.length)
      (by simp only [List.length_append] at hk; omega)
    refine ⟨e, ?_⟩
    rw [show ((typeDefMsgs.map frameB).flatten) = tdefBytes from rfl]
    rw [he]

theorem Deserialize_truncated (reg reg' : Reg) (r : AgenticResponse)
    (out : List Nat) (hout : Serialize reg r = .ok out)
    (hfit : serializeFits reg r = true) :
    ∀ k, k < out.length → ∀ (s : AgenticResponse),
    ∃ e, Deserialize reg' (out.take k) s = (s, some e) := by
  rw [Serialize] at hout
  cases henc : encAgenticResponseB reg r with
  | error e => rw [henc] at hout; exact absurd hout (by simp)
  | ok body =>
    rw [henc] at hout
    dsimp only at hout
    simp only [Except.ok.injEq] at hout
    subst hout
    have hfit2 := serializeFits_bound reg r body henc hfit
    intro k hk s
    obtain ⟨e, he⟩ := stage1_prefix body hfit2 k hk
    refine ⟨e, ?_⟩
    rw [Deserialize, he]

/-! ## The extension-map example family: encodings and the unregistered-name
decode failure -/

theorem encMsgExtra (reg : Reg) (kv : String × GoVal) (t : List (String × GoVal)) :
    encContentBlockMessageB reg (msgExtra (kv :: t))
      = match encPairs reg (kv :: t) with
        | .error e => .error e
        | .ok pb => .ok (encEnts 0 [(5, encU (kv :: t).length ++ pb)]) := by
  cases hp : encPairs reg (kv :: t) with
  | error e =>
    show encOf (seqEnts [.ok (fOptInt 0 none), .ok (fStr 1 ""), .ok (fStr 2 ""),
      fSliceOptE 3 none (encAgenticMessageInputPartB reg),
      fSliceOptE 4 none (encAgenticMessageOutputPartB reg),
      fMapE 5 reg (some (kv :: t))]) = .error e
    rw [fMapE] <;> try exact List.cons_ne_nil _ _
    rw [encMapBody, hp]
    rfl
  | ok pb =>
    show encOf (seqEnts [.ok (fOptInt 0 none), .ok (fStr 1 ""), .ok (fStr 2 ""),
      fSliceOptE 3 none (encAgenticMessageInputPartB reg),
      fSliceOptE 4 none (encAgenticMessageOutputPartB reg),
      fMapE 5 reg (some (kv :: t))]) = _
    rw [fMapE] <;> try exact List.cons_ne_nil _ _
    rw [encMapBody, hp]
    rfl

theorem encBlockExtra (reg : Reg) (kv : String × GoVal)
    (t : List (String × GoVal)) (mb : List Nat)
    (hmsg : encContentBlockMessageB reg (msgExtra (kv :: t)) = .ok mb) :
    encContentBlockB reg (blockExtra (kv :: t))
      = .ok (encEnts 0 [(0, encStr ContentBlockTypeMessage), (1, mb)]) := by
  show encOf (seqEnts [.ok (fStr 0 ContentBlockTypeMessage),
    fPtrSubE 1 (some (msgExtra (kv :: t))) isZeroContentBlockMessage
      (encContentBlockMessageB reg),
    fPtrSubE 2 none isZeroContentBlockReasoning (encContentBlockReasoningB reg),
    fPtrSubE 3 none isZeroContentBlockToolCall (encContentBlockToolCallB reg),
    fPtrSubE 4 none isZeroContentBlockToolCallOutput
      (encContentBlockToolCallOutputB reg),
    fPtrSubE 5 none isZeroContentBlockMCPListTools
      (fun t => .ok (encContentBlockMCPListToolsB t)),
    fPtrSubE 6 none isZeroContentBlockMCPToolApprovalRequest
      (fun t => .ok (encContentBlockMCPToolApprovalRequestB t)),
    fPtrSubE 7 none isZeroContentBlockMCPToolApprovalResponse
      (fun t => .ok (encContentBlockMCPToolApprovalResponseB t))]) = _
  rw [show fPtrSubE 1 (some (msgExtra (kv :: t))) isZeroContentBlockMessage
      (encContentBlockMessageB reg) = .ok (1, some mb) from by
    rw [fPtrSubE]
    rw [if_neg (show ¬isZeroContentBlockMessage (msgExtra (kv :: t)) = true from by
      rw [show isZeroContentBlockMessage (msgExtra (kv :: t)) = false from rfl]
      exact Bool.false_ne_true), hmsg]]
  rfl

theorem encRespExtraB (reg : Reg) (kv : String × GoVal)
    (t : List (String × GoVal)) (bb : List Nat)
    (hblk : encContentBlockB reg (blockExtra (kv :: t)) = .ok bb) :
    encAgenticResponseB reg (respExtra (kv :: t))
      = .ok (encEnts 0 [(3, encU 1 ++ bb)]) := by
  show encOf (seqEnts [.ok (fStr 0 ""),
    fPtrSubE 1 none isZeroFinishReason (fun t => .ok (encFinishReasonB t)),
    fPtrSubE 2 none isZeroTokenUsageMeta (fun t => .ok (encTokenUsageMetaB t)),
    fSliceOptE 3 (some [some (blockExtra (kv :: t))]) (encContentBlockB reg)]) = _
  rw [fSliceOptE] <;> try exact List.cons_ne_nil _ _
  rw [show encOptElems (encContentBlockB reg) [some (blockExtra (kv :: t))]
      = .ok (bb ++ []) from by rw [encOptElems, hblk]; rfl]
  rw [List.append_nil]
  rfl

theorem encBlockExtra_err (reg : Reg) (kv : String × GoVal)
    (t : List (String × GoVal)) (e : EncErr)
    (hmsg : encContentBlockMessageB reg (msgExtra (kv :: t)) = .error e) :
    encContentBlockB reg (blockExtra (kv :: t)) = .error e := by
  show encOf (seqEnts [.ok (fStr 0 ContentBlockTypeMessage),
    fPtrSubE 1 (some (msgExtra (kv :: t))) isZeroContentBlockMessage
      (encContentBlockMessageB reg),
    fPtrSubE 2 none isZeroContentBlockReasoning (encContentBlockReasoningB reg),
    fPtrSubE 3 none isZeroContentBlockToolCall (encContentBlockToolCallB reg),
    fPtrSubE 4 none isZeroContentBlockToolCallOutput
      (encContentBlockToolCallOutputB reg),
    fPtrSubE 5 none isZeroContentBlockMCPListTools
      (fun t => .ok (encContentBlockMCPListToolsB t)),
    fPtrSubE 6 none isZeroContentBlockMCPToolApprovalRequest
      (fun t => .ok (encContentBlockMCPToolApprovalRequestB t)),
    fPtrSubE 7 none isZeroContentBlockMCPToolApprovalResponse
      (fun t => .ok (encContentBlockMCPToolApprovalResponseB t))]) = .error e
  rw [show fPtrSubE 1 (some (msgExtra (kv :: t))) isZeroContentBlockMessage
      (encContentBlockMessageB reg) = .error e from by
    rw [fPtrSubE]
    rw [if_neg (show ¬isZeroContentBlockMessage (msgExtra (kv :: t)) = true from by
      rw [show isZeroContentBlockMessage (msgExtra (kv :: t)) = false from rfl]
      exact Bool.false_ne_true), hmsg]]
  rfl

theorem encRespExtraB_err (reg : Reg) (kv : String × GoVal)
    (t : List (String × GoVal)) (e : EncErr)
    (hblk : encContentBlockB reg (blockExtra (kv :: t)) = .error e) :
    encAgenticResponseB reg (respExtra (kv :: t)) = .error e := by
  show encOf (seqEnts [.ok (fStr 0 ""),
    fPtrSubE 1 none isZeroFinishReason (fun t => .ok (encFinishReasonB t)),
    fPtrSubE 2 none isZeroTokenUsageMeta (fun t => .ok (encTokenUsageMetaB t)),
    fSliceOptE 3 (some [some (blockExtra (kv :: t))])
      (encContentBlockB reg)]) = .error e
  rw [fSliceOptE] <;> try exact List.cons_ne_nil _ _
  rw [show encOptElems (encContentBlockB reg) [some (blockExtra (kv :: t))]
      = .error e from by rw [encOptElems, hblk]]
  rfl

theorem decRespExtra_unreg (reg reg' : Reg) (kv : String × GoVal)
    (t : List (String × GoVal)) (pb mb bb : List Nat)
    (hp : encPairs reg (kv :: t) = .ok pb)
    (hwf : wfPairs (kv :: t) = true)
    (hnm : namesOKPairs reg' (kv :: t) = false)
    (hpb : pb.length ≤ 2 ^ 63)
    (hmb : mb = encEnts 0 [(5, encU (kv :: t).length ++ pb)])
    (hbb : bb = encEnts 0 [(0, encStr ContentBlockTypeMessage), (1, mb)]) :
    ∃ nm, ¬nm ∈ reg' ∧ ∀ (s : AgenticResponse) (r' : List Nat), ∃ s',
    decAgenticResponseB reg' (encEnts 0 [(3, encU 1 ++ bb)] ++ r') s
      = (s', .error (.nameNotRegistered nm)) := by
  obtain ⟨nm, hmem, hmap⟩ := dMapField_unreg reg reg'
    ((fun s => s.Extra.getD []) : ContentBlockMessage → List (String × GoVal))
    ((fun s m => { s with Extra := some m }) :
      ContentBlockMessage → List (String × GoVal) → ContentBlockMessage)
    (kv :: t) pb hp hwf hnm hpb
  refine ⟨nm, hmem, ?_⟩
  have hmsgf : ∀ (s1 : ContentBlockMessage) (r1 : List Nat), ∃ s2,
      decContentBlockMessageB reg' (mb ++ r1) s1
        = (s2, .error (.nameNotRegistered nm)) := by
    intro s1 r1
    subst hmb
    have hrun := decLoop_encEnts_err (dispContentBlockMessage reg') 6
      (fun e a => a) (.nameNotRegistered nm) (by norm_num)
      [] (5, encU (kv :: t).length ++ pb) [] 0 7 s1 r1
      (by
        intro e he
        simp only [List.nil_append, List.mem_cons, List.not_mem_nil,
          or_false] at he
        subst he
        refine ⟨Nat.zero_le _, ?_⟩
        show (5 : Nat) < 6
        norm_num)
      (by simp)
      (by intro e he; exact absurd he (List.not_mem_nil e))
      (by
        intro s' r2
        obtain ⟨m', hm'⟩ := hmap s' r2
        exact ⟨_, hm'⟩)
      (by omega)
    exact hrun
  have hblkf : ∀ (s1 : ContentBlock) (r1 : List Nat), ∃ s2,
      decContentBlockB reg' (bb ++ r1) s1
        = (s2, .error (.nameNotRegistered nm)) := by
    intro s1 r1
    subst hbb
    have hrun := decLoop_encEnts_err (dispContentBlock reg') 8
      (fun e a => (dispContentBlock reg' e.1 (e.2 ++ []) a).1)
      (.nameNotRegistered nm) (by norm_num)
      [(0, encStr ContentBlockTypeMessage)] (1, mb) [] 0 9 s1 r1
      (by
        intro e he
        simp only [List.cons_append, List.nil_append, List.mem_cons,
          List.not_mem_nil, or_false] at he
        rcases he with rfl | rfl
        · refine ⟨Nat.zero_le _, ?_⟩
          show (0 : Nat) < 8
          norm_num
        · refine ⟨Nat.zero_le _, ?_⟩
          show (1 : Nat) < 8
          norm_num)
      (by
        simp only [List.cons_append, List.nil_append]
        refine List.Pairwise.cons ?_ (List.Pairwise.cons (by simp) List.Pairwise.nil)
        intro e he
        simp only [List.mem_cons, List.not_mem_nil, or_false] at he
        subst he
        show (0 : Nat) < 1
        norm_num)
      (by
        intro e he s' r2
        simp only [List.mem_cons, List.not_mem_nil, or_false] at he
        subst he
        rfl)
      (by
        intro s' r2
        obtain ⟨s2, h2⟩ := hmsgf (s'.Message.getD zeroContentBlockMessage) r2
        refine ⟨{ s' with Message := some s2 }, ?_⟩
        show dSubField (decContentBlockMessageB reg')
          (fun s => s.Message.getD zeroContentBlockMessage)
          (fun s t => { s with Message := some t }) (mb ++ r2) s' = _
        rw [dSubField, h2])
      (by omega)
    exact hrun
  intro s r'
  have hbl : 1 ≤ bb.length := by
    rw [hbb]
    exact encEnts_length_pos 0 _
  have hrun := decLoop_encEnts_err (dispAgenticResponse reg') 4
    (fun e a => a) (.nameNotRegistered nm) (by norm_num)
    [] (3, encU 1 ++ bb) [] 0 5 s r'
    (by
      intro e he
      simp only [List.nil_append, List.mem_cons, List.not_mem_nil,
        or_false] at he
      subst he
      refine ⟨Nat.zero_le _, ?_⟩
      show (3 : Nat) < 4
      norm_num)
    (by simp)
    (by intro e he; exact absurd he (List.not_mem_nil e))
    (by
      intro s' r2
      obtain ⟨s2, h2⟩ := hblkf zeroContentBlock r2
      have hkey : dList (dPtrElem (decContentBlockB reg') zeroContentBlock)
          none 1 (bb ++ r2) = ([some s2], .error (.nameNotRegistered nm)) := by
        rw [dList]
        rw [show dPtrElem (decContentBlockB reg') zeroContentBlock (bb ++ r2) none
            = (some s2, .error (.nameNotRegistered nm)) from by
          rw [dPtrElem, h2]]
        rfl
      refine ⟨{ s' with Blocks := some [some s2] }, ?_⟩
      show dSliceField (dPtrElem (decContentBlockB reg') zeroContentBlock) none
        (fun s l => { s with Blocks := some l }) ((encU 1 ++ bb) ++ r2) s' = _
      rw [dSliceField, List.append_assoc, decU_encU 1 (by norm_num)]
      dsimp only
      rw [if_neg (by simp only [List.length_append]; omega), hkey])
    (by omega)
  exact hrun

theorem Deserialize_unregExtension (reg reg' : Reg) (kv : String × GoVal)
    (t : List (String × GoVal)) (out : List Nat)
    (hout : Serialize reg (respExtra (kv :: t)) = .ok out)
    (hfit : serializeFits reg (respExtra (kv :: t)) = true)
    (hwf : wfPairs (kv :: t) = true)
    (hnm : namesOKPairs reg' (kv :: t) = false) :
    ∃ nm, ¬nm ∈ reg' ∧ ∀ (s : AgenticResponse), ∃ s',
    Deserialize reg' out s = (s', some (.nameNotRegistered nm)) := by
  cases hp : encPairs reg (kv :: t) with
  | error e =>
    exfalso
    have h1 := encMsgExtra reg kv t
    rw [hp] at h1
    have h2 := encRespExtraB_err reg kv t e (encBlockExtra_err reg kv t e h1)
    rw [Serialize, h2] at hout
    exact absurd hout (by simp)
  | ok pb =>
    have h1 := encMsgExtra reg kv t
    rw [hp] at h1
    have h2 := encBlockExtra reg kv t _ h1
    have h3 := encRespExtraB reg kv t _ h2
    have hfit2 := serializeFits_bound reg (respExtra (kv :: t)) _ h3 hfit
    have hpb : pb.length ≤ 2 ^ 63 := by
      have ha : ((5 : Nat), encU (kv :: t).length ++ pb) ∈
          [((5 : Nat), encU (kv :: t).length ++ pb)] := List.mem_cons_self _ _
      have h4 := mem_encEnts_length_le ha 0
      have hb2 : ((1 : Nat), encEnts 0 [(5, encU (kv :: t).length ++ pb)]) ∈
          [((0 : Nat), encStr ContentBlockTypeMessage),
           ((1 : Nat), encEnts 0 [(5, encU (kv :: t).length ++ pb)])] := by
        exact List.mem_cons_of_mem _ (List.mem_cons_self _ _)
      have h5 := mem_encEnts_length_le hb2 0
      have hc2 : ((3 : Nat), encU 1 ++
          encEnts 0 [((0 : Nat), encStr ContentBlockTypeMessage),
            ((1 : Nat), encEnts 0 [(5, encU (kv :: t).length ++ pb)])]) ∈
          [((3 : Nat), encU 1 ++
            encEnts 0 [((0 : Nat), encStr ContentBlockTypeMessage),
              ((1 : Nat), encEnts 0 [(5, encU (kv :: t).length ++ pb)])])] :=
        List.mem_cons_self _ _
      have h6 := mem_encEnts_length_le hc2 0
      dsimp only at h4 h5 h6
      simp only [List.length_append] at h4 h5 h6 ⊢
      omega
    obtain ⟨nm, hmem, hchain⟩ := decRespExtra_unreg reg reg' kv t pb _ _ hp hwf
      hnm hpb rfl rfl
    refine ⟨nm, hmem, fun s => ?_⟩
    obtain ⟨s', hs'⟩ := hchain s []
    rw [List.append_nil] at hs'
    refine ⟨s', ?_⟩
    rw [Serialize, h3] at hout
    dsimp only at hout
    simp only [Except.ok.injEq] at hout
    subst hout
    rw [Deserialize, stage1_frame _ hfit2]
    dsimp only
    rw [hs']

/-! ## Totality of the encoder under registered names and nil-free slices -/

theorem fMapE_total (f : Nat) (reg : Reg) (o : Option (List (String × GoVal)))
    (h : namesOKMap reg o = true) : ∃ ent, fMapE f reg o = .ok ent := by
  cases o with
  | none => exact ⟨_, rfl⟩
  | some m =>
    obtain ⟨pb, hpb⟩ := encPairs_total reg m h
    refine ⟨(f, some (encU m.length ++ pb)), ?_⟩
    rw [fMapE, encMapBody, hpb]

theorem fPtrSubE_total {τ : Type} (f : Nat) (o : Option τ) (isZ : τ → Bool)
    (encB : τ → Except EncErr (List Nat))
    (h : ∀ t, o = some t → isZ t = false → ∃ b, encB t = .ok b) :
    ∃ ent, fPtrSubE f o isZ encB = .ok ent := by
  cases o with
  | none => exact ⟨_, rfl⟩
  | some t =>
    rw [fPtrSubE]
    by_cases hz : isZ t = true
    · rw [if_pos hz]
      exact ⟨_, rfl⟩
    · rw [if_neg hz]
      obtain ⟨b, hb⟩ := h t rfl (Bool.eq_false_iff.mpr hz)
      rw [hb]
      exact ⟨_, rfl⟩

theorem encOptElems_total {τ : Type} (encB : τ → Except EncErr (List Nat)) :
    ∀ (l : List (Option τ)), (∀ e ∈ l, e.isSome = true) →
    (∀ x, some x ∈ l → ∃ b, encB x = .ok b) →
    ∃ bs, encOptElems encB l = .ok bs := by
  intro l
  induction l with
  | nil => intro _ _; exact ⟨_, rfl⟩
  | cons hd tl ih =>
    intro hnn htot
    cases hd with
    | none => exact absurd (hnn none (List.mem_cons_self _ _)) (by simp)
    | some x =>
      obtain ⟨b, hb⟩ := htot x (List.mem_cons_self _ _)
      obtain ⟨bs, hbs⟩ := ih (fun e he => hnn e (List.mem_cons_of_mem _ he))
        (fun y hy => htot y (List.mem_cons_of_mem _ hy))
      refine ⟨b ++ bs, ?_⟩
      rw [encOptElems, hb, hbs]

theorem fSliceOptE_total {τ : Type} (f : Nat) (o : Option (List (Option τ)))
    (encB : τ → Except EncErr (List Nat))
    (hnn : allOpt (fun e => e.isSome) o = true)
    (htot : ∀ x l2, o = some l2 → some x ∈ l2 → ∃ b, encB x = .ok b) :
    ∃ ent, fSliceOptE f o encB = .ok ent := by
  cases o with
  | none => exact ⟨_, rfl⟩
  | some l =>
    cases l with
    | nil => exact ⟨_, rfl⟩
    | cons e0 tl =>
      obtain ⟨bs, hbs⟩ := encOptElems_total encB (e0 :: tl)
        (allOpt_some hnn) (fun x hx => htot x _ rfl hx)
      rw [fSliceOptE] <;> try exact List.cons_ne_nil _ _
      rw [hbs]
      exact ⟨_, rfl⟩

theorem encAgenticMessageInputImageB_total (reg : Reg) (x : AgenticMessageInputImage)
    (hnm : namesOKAgenticMessageInputImage reg x = true) :
    ∃ bs, encAgenticMessageInputImageB reg x = .ok bs := by
  obtain ⟨e4, he4⟩ := fMapE_total 4 reg x.Extra hnm
  have key : encAgenticMessageInputImageB reg x = encOf (seqEnts [.ok (fOptStr 0 x.URL), .ok (fOptStr 1 x.Base64Data), .ok (fStr 2 x.MIMEType), .ok (fStr 3 x.Detail), fMapE 4 reg x.Extra]) := rfl
  rw [key, he4]
  exact ⟨_, rfl⟩

theorem encAgenticMessageInputAudioB_total (reg : Reg) (x : AgenticMessageInputAudio)
    (hnm : namesOKAgenticMessageInputAudio reg x = true) :
    ∃ bs, encAgenticMessageInputAudioB reg x = .ok bs := by
  obtain ⟨e3, he3⟩ := fMapE_total 3 reg x.Extra hnm
  have key : encAgenticMessageInputAudioB reg x = encOf (seqEnts [.ok (fOptStr 0 x.URL), .ok (fOptStr 1 x.Base64Data), .ok (fStr 2 x.MIMEType), fMapE 3 reg x.Extra]) := rfl
  rw [key, he3]
  exact ⟨_, rfl⟩

theorem encAgenticMessageInputVideoB_total (reg : Reg) (x : AgenticMessageInputVideo)
    (hnm : namesOKAgenticMessageInputVideo reg x = true) :
    ∃ bs, encAgenticMessageInputVideoB reg x = .ok bs := by
  obtain ⟨e3, he3⟩ := fMapE_total 3 reg x.Extra hnm
  have key : encAgenticMessageInputVideoB reg x = encOf (seqEnts [.ok (fOptStr 0 x.URL), .ok (fOptStr 1 x.Base64Data), .ok (fStr 2 x.MIMEType), fMapE 3 reg x.Extra]) := rfl
  rw [key, he3]
  exact ⟨_, rfl⟩

theorem encAgenticMessageInputFileB_total (reg : Reg) (x : AgenticMessageInputFile)
    (hnm : namesOKAgenticMessageInputFile reg x = true) :
    ∃ bs, encAgenticMessageInputFileB reg x = .ok bs := by
  obtain ⟨e4, he4⟩ := fMapE_total 4 reg x.Extra hnm
  have key : encAgenticMessageInputFileB reg x = encOf (seqEnts [.ok (fOptStr 0 x.URL), .ok (fOptStr 1 x.Name), .ok (fOptStr 2 x.Base64Data), .ok (fStr 3 x.MIMEType), fMapE 4 reg x.Extra]) := rfl
  rw [key, he4]
  exact ⟨_, rfl⟩

theorem encAgenticMessageOutputTextB_total (reg : Reg) (x : AgenticMessageOutputText)
    (hnm : namesOKAgenticMessageOutputText reg x = true) :
    ∃ bs, encAgenticMessageOutputTextB reg x = .ok bs := by
  obtain ⟨e1, he1⟩ := fMapE_total 1 reg x.Extra hnm
  have key : encAgenticMessageOutputTextB reg x = encOf (seqEnts [.ok (fStr 0 x.Content), fMapE 1 reg x.Extra]) := rfl
  rw [key, he1]
  exact ⟨_, rfl⟩

theorem encAgenticMessageOutputImageB_total (reg : Reg) (x : AgenticMessageOutputImage)
    (hnm : namesOKAgenticMessageOutputImage reg x = true) :
    ∃ bs, encAgenticMessageOutputImageB reg x = .ok bs := by
  obtain ⟨e3, he3⟩ := fMapE_total 3 reg x.Extra hnm
  have key : encAgenticMessageOutputImageB reg x = encOf (seqEnts [.ok (fOptStr 0 x.URL), .ok (fOptStr 1 x.Base64Data), .ok (fStr 2 x.MIMEType), fMapE 3 reg x.Extra]) := rfl
  rw [key, he3]
  exact ⟨_, rfl⟩

theorem encAgenticMessageOutputAudioB_total (reg : Reg) (x : AgenticMessageOutputAudio)
    (hnm : namesOKAgenticMessageOutputAudio reg x = true) :
    ∃ bs, encAgenticMessageOutputAudioB reg x = .ok bs := by
  obtain ⟨e3, he3⟩ := fMapE_total 3 reg x.Extra hnm
  have key : encAgenticMessageOutputAudioB reg x = encOf (seqEnts [.ok (fOptStr 0 x.URL), .ok (fOptStr 1 x.Base64Data), .ok (fStr 2 x.MIMEType), fMapE 3 reg x.Extra]) := rfl
  rw [key, he3]
  exact ⟨_, rfl⟩

theorem encAgenticMessageOutputVideoB_total (reg : Reg) (x : AgenticMessageOutputVideo)
    (hnm : namesOKAgenticMessageOutputVideo reg x = true) :
    ∃ bs, encAgenticMessageOutputVideoB reg x = .ok bs := by
  obtain ⟨e3, he3⟩ := fMapE_total 3 reg x.Extra hnm
  have key : encAgenticMessageOutputVideoB reg x = encOf (seqEnts [.ok (fOptStr 0 x.URL), .ok (fOptStr 1 x.Base64Data), .ok (fStr 2 x.MIMEType), fMapE 3 reg x.Extra]) := rfl
  rw [key, he3]
  exact ⟨_, rfl⟩

theorem encReasoningSummaryB_total (reg : Reg) (x : ReasoningSummary)
    (hnm : namesOKReasoningSummary reg x = true) :
    ∃ bs, encReasoningSummaryB reg x = .ok bs := by
  obtain ⟨e1, he1⟩ := fMapE_total 1 reg x.Extra hnm
  have key : encReasoningSummaryB reg x = encOf (seqEnts [.ok (fStr 0 x.Text), fMapE 1 reg x.Extra]) := rfl
  rw [key, he1]
  exact ⟨_, rfl⟩

theorem encToolCallOutputMCPB_total (reg : Reg) (x : ToolCallOutputMCP)
    (hnm : namesOKToolCallOutputMCP reg x = true) :
    ∃ bs, encToolCallOutputMCPB reg x = .ok bs := by
  obtain ⟨e4, he4⟩ := fMapE_total 4 reg x.Extra hnm
  have key : encToolCallOutputMCPB reg x = encOf (seqEnts [.ok (fStr 0 x.Content), .ok (fStr 1 x.ApprovalRequestID), .ok (fStr 2 x.Status), .ok (fStr 3 x.Error), fMapE 4 reg x.Extra]) := rfl
  rw [key, he4]
  exact ⟨_, rfl⟩

theorem encContentBlockToolCallB_total (reg : Reg) (x : ContentBlockToolCall)
    (hnm : namesOKContentBlockToolCall reg x = true) :
    ∃ bs, encContentBlockToolCallB reg x = .ok bs := by
  obtain ⟨e5, he5⟩ := fMapE_total 5 reg x.Extra hnm
  have key : encContentBlockToolCallB reg x = encOf (seqEnts [.ok (fOptInt 0 x.Index), .ok (fStr 1 x.Typ), .ok (fStr 2 x.ID), .ok (fStr 3 x.Name), .ok (fStr 4 x.Arguments), fMapE 5 reg x.Extra]) := rfl
  rw [key, he5]
  exact ⟨_, rfl⟩

theorem encAgenticMessageInputPartB_total (reg : Reg) (x : AgenticMessageInputPart)
    (hnm : namesOKAgenticMessageInputPart reg x = true) :
    ∃ bs, encAgenticMessageInputPartB reg x = .ok bs := by
  simp only [namesOKAgenticMessageInputPart, Bool.and_eq_true] at hnm
  obtain ⟨⟨⟨nIm, nAu⟩, nVi⟩, nFi⟩ := hnm
  obtain ⟨e1, he1⟩ := fPtrSubE_total 1 x.Text isZeroAgenticMessageInputText
    (fun t => .ok (encAgenticMessageInputTextB t)) (fun t _ _ => ⟨_, rfl⟩)
  obtain ⟨e2, he2⟩ := fPtrSubE_total 2 x.Image isZeroAgenticMessageInputImage
    (encAgenticMessageInputImageB reg) (fun t ht _ =>
      encAgenticMessageInputImageB_total reg t (by rw [ht] at nIm; exact nIm))
  obtain ⟨e3, he3⟩ := fPtrSubE_total 3 x.Audio isZeroAgenticMessageInputAudio
    (encAgenticMessageInputAudioB reg) (fun t ht _ =>
      encAgenticMessageInputAudioB_total reg t (by rw [ht] at nAu; exact nAu))
  obtain ⟨e4, he4⟩ := fPtrSubE_total 4 x.Video isZeroAgenticMessageInputVideo
    (encAgenticMessageInputVideoB reg) (fun t ht _ =>
      encAgenticMessageInputVideoB_total reg t (by rw [ht] at nVi; exact nVi))
  obtain ⟨e5, he5⟩ := fPtrSubE_total 5 x.File isZeroAgenticMessageInputFile
    (encAgenticMessageInputFileB reg) (fun t ht _ =>
      encAgenticMessageInputFileB_total reg t (by rw [ht] at nFi; exact nFi))
  have key : encAgenticMessageInputPartB reg x = encOf (seqEnts [.ok (fStr 0 x.Typ),
    fPtrSubE 1 x.Text isZeroAgenticMessageInputText
      (fun t => .ok (encAgenticMessageInputTextB t)),
    fPtrSubE 2 x.Image isZeroAgenticMessageInputImage
      (encAgenticMessageInputImageB reg),
    fPtrSubE 3 x.Audio isZeroAgenticMessageInputAudio
      (encAgenticMessageInputAudioB reg),
    fPtrSubE 4 x.Video isZeroAgenticMessageInputVideo
      (encAgenticMessageInputVideoB reg),
    fPtrSubE 5 x.File isZeroAgenticMessageInputFile
      (encAgenticMessageInputFileB reg)]) := rfl
  rw [key, he1, he2, he3, he4, he5]
  exact ⟨_, rfl⟩

theorem encAgenticMessageOutputPartB_total (reg : Reg)
    (x : AgenticMessageOutputPart)
    (hnm : namesOKAgenticMessageOutputPart reg x = true) :
    ∃ bs, encAgenticMessageOutputPartB reg x = .ok bs := by
  simp only [namesOKAgenticMessageOutputPart, Bool.and_eq_true] at hnm
  obtain ⟨⟨⟨nTx, nIm⟩, nAu⟩, nVi⟩ := hnm
  obtain ⟨e1, he1⟩ := fPtrSubE_total 1 x.Text isZeroAgenticMessageOutputText
    (encAgenticMessageOutputTextB reg) (fun t ht _ =>
      encAgenticMessageOutputTextB_total reg t (by rw [ht] at nTx; exact nTx))
  obtain ⟨e2, he2⟩ := fPtrSubE_total 2 x.Image isZeroAgenticMessageOutputImage
    (encAgenticMessageOutputImageB reg) (fun t ht _ =>
      encAgenticMessageOutputImageB_total reg t (by rw [ht] at nIm; exact nIm))
  obtain ⟨e3, he3⟩ := fPtrSubE_total 3 x.Audio isZeroAgenticMessageOutputAudio
    (encAgenticMessageOutputAudioB reg) (fun t ht _ =>
      encAgenticMessageOutputAudioB_total reg t (by rw [ht] at nAu; exact nAu))
  obtain ⟨e4, he4⟩ := fPtrSubE_total 4 x.Video isZeroAgenticMessageOutputVideo
    (encAgenticMessageOutputVideoB reg) (fun t ht _ =>
      encAgenticMessageOutputVideoB_total reg t (by rw [ht] at nVi; exact nVi))
  have key : encAgenticMessageOutputPartB reg x = encOf (seqEnts [.ok (fStr 0 x.Typ),
    fPtrSubE 1 x.Text isZeroAgenticMessageOutputText
      (encAgenticMessageOutputTextB reg),
    fPtrSubE 2 x.Image isZeroAgenticMessageOutputImage
      (encAgenticMessageOutputImageB reg),
    fPtrSubE 3 x.Audio isZeroAgenticMessageOutputAudio
      (encAgenticMessageOutputAudioB reg),
    fPtrSubE 4 x.Video isZeroAgenticMessageOutputVideo
      (encAgenticMessageOutputVideoB reg)]) := rfl
  rw [key, he1, he2, he3, he4]
  exact ⟨_, rfl⟩

theorem encContentBlockMessageB_total (reg : Reg) (x : ContentBlockMessage)
    (hnm : namesOKContentBlockMessage reg x = true)
    (hnn : noNilContentBlockMessage x = true) :
    ∃ bs, encContentBlockMessageB reg x = .ok bs := by
  simp only [namesOKContentBlockMessage, Bool.and_eq_true] at hnm
  obtain ⟨⟨nU, nA⟩, nE⟩ := hnm
  simp only [noNilContentBlockMessage, Bool.and_eq_true] at hnn
  obtain ⟨eU, eA⟩ := hnn
  obtain ⟨e3, he3⟩ := fSliceOptE_total 3 x.UserInputMultiContent
    (encAgenticMessageInputPartB reg) eU (fun y l2 ho hy =>
      encAgenticMessageInputPartB_total reg y
        (by rw [ho] at nU; exact allOpt_some nU (some y) hy))
  obtain ⟨e4, he4⟩ := fSliceOptE_total 4 x.AssistantGenMultiContent
    (encAgenticMessageOutputPartB reg) eA (fun y l2 ho hy =>
      encAgenticMessageOutputPartB_total reg y
        (by rw [ho] at nA; exact allOpt_some nA (some y) hy))
  obtain ⟨e5, he5⟩ := fMapE_total 5 reg x.Extra nE
  have key : encContentBlockMessageB reg x = encOf (seqEnts [.ok (fOptInt 0 x.Index), .ok (fStr 1 x.Role),
    .ok (fStr 2 x.InputText),
    fSliceOptE 3 x.UserInputMultiContent (encAgenticMessageInputPartB reg),
    fSliceOptE 4 x.AssistantGenMultiContent (encAgenticMessageOutputPartB reg),
    fMapE 5 reg x.Extra]) := rfl
  rw [key, he3, he4, he5]
  exact ⟨_, rfl⟩

theorem encContentBlockReasoningB_total (reg : Reg) (x : ContentBlockReasoning)
    (hnm : namesOKContentBlockReasoning reg x = true)
    (hnn : noNilContentBlockReasoning x = true) :
    ∃ bs, encContentBlockReasoningB reg x = .ok bs := by
  simp only [namesOKContentBlockReasoning, Bool.and_eq_true] at hnm
  obtain ⟨nS, nE⟩ := hnm
  obtain ⟨e2, he2⟩ := fSliceOptE_total 2 x.Summary (encReasoningSummaryB reg)
    hnn (fun y l2 ho hy =>
      encReasoningSummaryB_total reg y
        (by rw [ho] at nS; exact allOpt_some nS (some y) hy))
  obtain ⟨e4, he4⟩ := fMapE_total 4 reg x.Extra nE
  have key : encContentBlockReasoningB reg x = encOf (seqEnts [.ok (fOptInt 0 x.Index), .ok (fOptInt 1 x.SummaryIndex),
    fSliceOptE 2 x.Summary (encReasoningSummaryB reg),
    .ok (fStr 3 x.EncryptedContent), fMapE 4 reg x.Extra]) := rfl
  rw [key, he2, he4]
  exact ⟨_, rfl⟩

theorem encContentBlockToolCallOutputB_total (reg : Reg)
    (x : ContentBlockToolCallOutput)
    (hnm : namesOKContentBlockToolCallOutput reg x = true) :
    ∃ bs, encContentBlockToolCallOutputB reg x = .ok bs := by
  simp only [namesOKContentBlockToolCallOutput] at hnm
  obtain ⟨e4, he4⟩ := fPtrSubE_total 4 x.CustomTool isZeroToolCallOutputCustom
    (fun t => .ok (encToolCallOutputCustomB t)) (fun t _ _ => ⟨_, rfl⟩)
  obtain ⟨e5, he5⟩ := fPtrSubE_total 5 x.MCPTool isZeroToolCallOutputMCP
    (encToolCallOutputMCPB reg) (fun t ht _ =>
      encToolCallOutputMCPB_total reg t (by rw [ht] at hnm; exact hnm))
  have key : encContentBlockToolCallOutputB reg x = encOf (seqEnts [.ok (fOptInt 0 x.Index), .ok (fStr 1 x.Typ),
    .ok (fStr 2 x.ToolCallID), .ok (fStr 3 x.ToolName),
    fPtrSubE 4 x.CustomTool isZeroToolCallOutputCustom
      (fun t => .ok (encToolCallOutputCustomB t)),
    fPtrSubE 5 x.MCPTool isZeroToolCallOutputMCP (encToolCallOutputMCPB reg)]) := rfl
  rw [key, he4, he5]
  exact ⟨_, rfl⟩

theorem encContentBlockB_total (reg : Reg) (x : ContentBlock)
    (hnm : namesOKContentBlock reg x = true) (hnn : noNilContentBlock x = true) :
    ∃ bs, encContentBlockB reg x = .ok bs := by
  simp only [namesOKContentBlock, Bool.and_eq_true] at hnm
  obtain ⟨⟨⟨nMsg, nRsn⟩, nTC⟩, nTCO⟩ := hnm
  simp only [noNilContentBlock, Bool.and_eq_true] at hnn
  obtain ⟨eMsg, eRsn⟩ := hnn
  obtain ⟨e1, he1⟩ := fPtrSubE_total 1 x.Message isZeroContentBlockMessage
    (encContentBlockMessageB reg) (fun t ht _ =>
      encContentBlockMessageB_total reg t (by rw [ht] at nMsg; exact nMsg)
        (by rw [ht] at eMsg; exact eMsg))
  obtain ⟨e2, he2⟩ := fPtrSubE_total 2 x.Reasoning isZeroContentBlockReasoning
    (encContentBlockReasoningB reg) (fun t ht _ =>
      encContentBlockReasoningB_total reg t (by rw [ht] at nRsn; exact nRsn)
        (by rw [ht] at eRsn; exact eRsn))
  obtain ⟨e3, he3⟩ := fPtrSubE_total 3 x.ToolCall isZeroContentBlockToolCall
    (encContentBlockToolCallB reg) (fun t ht _ =>
      encContentBlockToolCallB_total reg t (by rw [ht] at nTC; exact nTC))
  obtain ⟨e4, he4⟩ := fPtrSubE_total 4 x.ToolCallOutput
    isZeroContentBlockToolCallOutput (encContentBlockToolCallOutputB reg)
    (fun t ht _ =>
      encContentBlockToolCallOutputB_total reg t (by rw [ht] at nTCO; exact nTCO))
  obtain ⟨e5, he5⟩ := fPtrSubE_total 5 x.MCPListTools isZeroContentBlockMCPListTools
    (fun t => .ok (encContentBlockMCPListToolsB t)) (fun t _ _ => ⟨_, rfl⟩)
  obtain ⟨e6, he6⟩ := fPtrSubE_total 6 x.MCPToolApprovalRequest
    isZeroContentBlockMCPToolApprovalRequest
    (fun t => .ok (encContentBlockMCPToolApprovalRequestB t)) (fun t _ _ => ⟨_, rfl⟩)
  obtain ⟨e7, he7⟩ := fPtrSubE_total 7 x.MCPToolApprovalResponse
    isZeroContentBlockMCPToolApprovalResponse
    (fun t => .ok (encContentBlockMCPToolApprovalResponseB t)) (fun t _ _ => ⟨_, rfl⟩)
  have key : encContentBlockB reg x = encOf (seqEnts [.ok (fStr 0 x.Typ),
    fPtrSubE 1 x.Message isZeroContentBlockMessage (encContentBlockMessageB reg),
    fPtrSubE 2 x.Reasoning isZeroContentBlockReasoning
      (encContentBlockReasoningB reg),
    fPtrSubE 3 x.ToolCall isZeroContentBlockToolCall (encContentBlockToolCallB reg),
    fPtrSubE 4 x.ToolCallOutput isZeroContentBlockToolCallOutput
      (encContentBlockToolCallOutputB reg),
    fPtrSubE 5 x.MCPListTools isZeroContentBlockMCPListTools
      (fun t => .ok (encContentBlockMCPListToolsB t)),
    fPtrSubE 6 x.MCPToolApprovalRequest isZeroContentBlockMCPToolApprovalRequest
      (fun t => .ok (encContentBlockMCPToolApprovalRequestB t)),
    fPtrSubE 7 x.MCPToolApprovalResponse isZeroContentBlockMCPToolApprovalResponse
      (fun t => .ok (encContentBlockMCPToolApprovalResponseB t))]) := rfl
  rw [key, he1, he2, he3, he4, he5, he6, he7]
  exact ⟨_, rfl⟩

theorem encAgenticResponseB_total (reg : Reg) (x : AgenticResponse)
    (hnm : namesOKAgenticResponse reg x = true)
    (hnn : noNilAgenticResponse x = true) :
    ∃ bs, encAgenticResponseB reg x = .ok bs := by
  simp only [namesOKAgenticResponse] at hnm
  simp only [noNilAgenticResponse, Bool.and_eq_true] at hnn
  obtain ⟨eS, eB⟩ := hnn
  obtain ⟨e1, he1⟩ := fPtrSubE_total 1 x.FinishReason isZeroFinishReason
    (fun t => .ok (encFinishReasonB t)) (fun t _ _ => ⟨_, rfl⟩)
  obtain ⟨e2, he2⟩ := fPtrSubE_total 2 x.Usage isZeroTokenUsageMeta
    (fun t => .ok (encTokenUsageMetaB t)) (fun t _ _ => ⟨_, rfl⟩)
  obtain ⟨e3, he3⟩ := fSliceOptE_total 3 x.Blocks (encContentBlockB reg) eS
    (fun y l2 ho hy =>
      encContentBlockB_total reg y
        (by rw [ho] at hnm; exact allOpt_some hnm (some y) hy)
        (by rw [ho] at eB; exact allOpt_some eB (some y) hy))
  have key : encAgenticResponseB reg x = encOf (seqEnts [.ok (fStr 0 x.ID),
    fPtrSubE 1 x.FinishReason isZeroFinishReason (fun t => .ok (encFinishReasonB t)),
    fPtrSubE 2 x.Usage isZeroTokenUsageMeta (fun t => .ok (encTokenUsageMetaB t)),
    fSliceOptE 3 x.Blocks (encContentBlockB reg)]) := rfl
  rw [key, he1, he2, he3]
  exact ⟨_, rfl⟩

theorem Serialize_total (reg : Reg) (r : AgenticResponse)
    (hnm : namesOKAgenticResponse reg r = true)
    (hnn : noNilAgenticResponse r = true) :
    ∃ out, Serialize reg r = .ok out := by
  obtain ⟨bs, hbs⟩ := encAgenticResponseB_total reg r hnm hnn
  exact ⟨_, by rw [Serialize, hbs]⟩

theorem Serialize_unregExtension (reg : Reg) (kv : String × GoVal)
    (t : List (String × GoVal)) (hnm : namesOKPairs reg (kv :: t) = false) :
    ∃ nm, ¬nm ∈ reg ∧ Serialize reg (respExtra (kv :: t))
      = .error (.typeNotRegistered nm) := by
  obtain ⟨nm, hmem, hp⟩ := encPairs_err reg (kv :: t) hnm
  have h1 := encMsgExtra reg kv t
  rw [hp] at h1
  have h2 := encRespExtraB_err reg kv t _ (encBlockExtra_err reg kv t _ h1)
  exact ⟨nm, hmem, by rw [Serialize, h2]⟩


/-! ## Support for the claims: primitive extras, canonical merges, stream shape -/

theorem primPairs_wfPairs (m : List (String × GoVal))
    (h : primPairs m = true) : wfPairs m = true := by
  induction m with
  | nil => rfl
  | cons p t ih =>
    obtain ⟨k, v⟩ := p
    rw [primPairs, List.all_cons, Bool.and_eq_true] at h
    rw [wfPairs, Bool.and_eq_true]
    refine ⟨?_, ih h.2⟩
    cases v with
    | vString s => rfl
    | vBool b => rfl
    | vInt i => exact h.1
    | vNil => exact absurd h.1 (by simp [primVal])
    | vMap m2 => exact absurd h.1 (by simp [primVal])
    | vSlice l2 => exact absurd h.1 (by simp [primVal])
    | vCustom n p2 => exact absurd h.1 (by simp [primVal])

theorem primPairs_namesOK (reg : Reg) (m : List (String × GoVal))
    (h : primPairs m = true) : namesOKPairs reg m = true := by
  induction m with
  | nil => rfl
  | cons p t ih =>
    obtain ⟨k, v⟩ := p
    rw [primPairs, List.all_cons, Bool.and_eq_true] at h
    rw [namesOKPairs, Bool.and_eq_true]
    refine ⟨?_, ih h.2⟩
    cases v with
    | vString s => rfl
    | vBool b => rfl
    | vInt i => rfl
    | vNil => exact absurd h.1 (by simp [primVal])
    | vMap m2 => exact absurd h.1 (by simp [primVal])
    | vSlice l2 => exact absurd h.1 (by simp [primVal])
    | vCustom n p2 => exact absurd h.1 (by simp [primVal])

theorem respExtra_wf (m : List (String × GoVal)) (h1 : keysSorted m = true)
    (h2 : wfPairs m = true) : wfAgenticResponse (respExtra m) = true := by
  simp only [wfAgenticResponse, respExtra, blockExtra, msgExtra, wfOpt, allOpt,
    List.all_cons, List.all_nil, wfContentBlock, wfContentBlockMessage,
    wfMapField, wfOptInt, Option.getD, int64OK, h1, h2, Bool.and_true,
    Bool.true_and, Bool.and_self]
  rfl

theorem respExtra_namesOK (reg : Reg) (m : List (String × GoVal))
    (h : namesOKPairs reg m = true) :
    namesOKAgenticResponse reg (respExtra m) = true := by
  simp only [namesOKAgenticResponse, respExtra, blockExtra, msgExtra, wfOpt,
    allOpt, List.all_cons, List.all_nil, namesOKContentBlock,
    namesOKContentBlockMessage, namesOKMap, h, Bool.and_true, Bool.true_and,
    Bool.and_self]

theorem mergeMap_sorted (m : List (String × GoVal))
    (hs : keysSorted m = true) :
    mergeMap none (some m) = some m := by
  rw [mergeMap]
  rw [show (Option.getD (none : Option (List (String × GoVal))) []) = []
    from rfl]
  rw [foldl_insKV_sorted m hs]

theorem merge_respExtra (kv : String × GoVal) (t : List (String × GoVal))
    (hs : keysSorted (kv :: t) = true) :
    mergeAgenticResponse zeroAgenticResponse (respExtra (kv :: t))
      = respExtra (kv :: t) := by
  have hmsg : mergeContentBlockMessage zeroContentBlockMessage
      (msgExtra (kv :: t)) = msgExtra (kv :: t) := by
    dsimp only [mergeContentBlockMessage, zeroContentBlockMessage, msgExtra]
    rw [mergeMap_sorted (kv :: t) hs]
    rfl
  have hblk : mergeContentBlock zeroContentBlock (blockExtra (kv :: t))
      = blockExtra (kv :: t) := by
    dsimp only [mergeContentBlock, zeroContentBlock, blockExtra, mPtrSub]
    rw [if_neg (show ¬(isZeroContentBlockMessage (msgExtra (kv :: t)) = true)
      from by rw [show isZeroContentBlockMessage (msgExtra (kv :: t)) = false
        from rfl]; exact Bool.false_ne_true)]
    dsimp only [Option.getD]
    rw [hmsg]
    rfl
  dsimp only [mergeAgenticResponse, zeroAgenticResponse, respExtra, mSliceOpt,
    List.map, Option.map]
  rw [hblk]
  rfl

theorem respMsg_wf (m : List (String × GoVal)) (h1 : keysSorted m = true)
    (h2 : wfPairs m = true) : wfAgenticResponse (respMsg m) = true := by
  simp only [wfAgenticResponse, respMsg, blockRole, msgRole, wfOpt, allOpt,
    List.all_cons, List.all_nil, wfContentBlock, wfContentBlockMessage,
    wfMapField, wfOptInt, Option.getD, int64OK, h1, h2, Bool.and_true,
    Bool.true_and, Bool.and_self]
  rfl

theorem respMsg_namesOK (reg : Reg) (m : List (String × GoVal))
    (h : namesOKPairs reg m = true) :
    namesOKAgenticResponse reg (respMsg m) = true := by
  simp only [namesOKAgenticResponse, respMsg, blockRole, msgRole, wfOpt,
    allOpt, List.all_cons, List.all_nil, namesOKContentBlock,
    namesOKContentBlockMessage, namesOKMap, h, Bool.and_true, Bool.true_and,
    Bool.and_self]

theorem merge_respMsg (m : List (String × GoVal))
    (hs : keysSorted m = true) :
    mergeAgenticResponse zeroAgenticResponse (respMsg m) = respMsg m := by
  have hmsg : mergeContentBlockMessage zeroContentBlockMessage (msgRole m)
      = msgRole m := by
    dsimp only [mergeContentBlockMessage, zeroContentBlockMessage, msgRole]
    rw [mergeMap_sorted m hs]
    rfl
  have hblk : mergeContentBlock zeroContentBlock (blockRole m)
      = blockRole m := by
    dsimp only [mergeContentBlock, zeroContentBlock, blockRole, mPtrSub]
    rw [if_neg (show ¬(isZeroContentBlockMessage (msgRole m) = true)
      from by rw [show isZeroContentBlockMessage (msgRole m) = false
        from rfl]; exact Bool.false_ne_true)]
    dsimp only [Option.getD]
    rw [hmsg]
    rfl
  dsimp only [mergeAgenticResponse, zeroAgenticResponse, respMsg, mSliceOpt,
    List.map, Option.map]
  rw [hblk]
  rfl

theorem Serialize_length (reg : Reg) (r : AgenticResponse) (out : List Nat)
    (hout : Serialize reg r = .ok out) : 3 ≤ out.length := by
  cases h : encAgenticResponseB reg r with
  | error e => rw [Serialize, h] at hout; exact absurd hout (by simp)
  | ok body =>
    have hS := Serialize_eq reg r body h
    rw [hout] at hS
    injection hS with h2
    subst h2
    have h3 := encU_length_pos (encS respTypeId ++ body).length
    simp only [List.length_append, encS_respTypeId_length] at h3
    simp only [frameB, List.length_append, encS_respTypeId_length]
    omega

theorem typeDefMsgs_min_length (p : List Nat) (hp : p ∈ typeDefMsgs) :
    2 ≤ p.length := by
  rw [typeDefMsgs] at hp
  obtain ⟨⟨i, n⟩, hmem, rfl⟩ := List.mem_map.mp hp
  have h1 := encS_length_pos (-i)
  have h2 := encStr_length_ge n
  simp only [List.length_append]
  omega

theorem checkTypeDefs_firstMismatch (M : List (List Nat)) (bs pl r : List Nat)
    (hr : readFrame bs = .ok (pl, r)) (hlt : ∀ p ∈ M, ¬pl = p)
    (hM : ¬M = []) :
    checkTypeDefs M bs = .error .typeDefMismatch := by
  cases M with
  | nil => exact absurd rfl hM
  | cons p ps =>
    rw [checkTypeDefs, hr]
    dsimp only
    rw [if_neg (hlt p (List.mem_cons_self _ _))]


/-! ## The claims -/

/-- C1: Deserialize of Serialize is gob's decode-merge into the receiver, so
from a fresh (zero) receiver the round trip reproduces exactly the canonical
responses — those fixed by merging into the zero receiver. Allocated-but-empty
collections are not canonical (see the counterexample), so the claim's
unconditional deep-equality round trip needed correction. -/
theorem C1_roundtripCanonical (reg reg2 : Reg) (r : AgenticResponse)
    (out : List Nat) (hout : Serialize reg r = .ok out)
    (hwf : wfAgenticResponse r = true)
    (hnm : namesOKAgenticResponse reg2 r = true)
    (hfit : serializeFits reg r = true)
    (hcanon : mergeAgenticResponse zeroAgenticResponse r = r) :
    Deserialize reg2 out zeroAgenticResponse = (r, none) := by
  rw [Deserialize_Serialize reg reg2 r out hout hwf hnm hfit zeroAgenticResponse,
    hcanon]

theorem C1_witness :
    ∃ out, Serialize [] respRound = .ok out ∧
      Deserialize [] out zeroAgenticResponse = (respRound, none) := by
  obtain ⟨out, hout⟩ := Serialize_total [] respRound (by decide) (by decide)
  exact ⟨out, hout,
    C1_roundtripCanonical [] [] respRound out hout (by decide) (by decide)
      (by decide) rfl⟩

/-- C1 counterexample: a response whose Blocks slice is allocated but empty
round-trips to Blocks = nil, so deep equality with the original fails even
though the decode reports no error. -/
theorem C1_counterexample :
    ∃ out, Serialize [] respEmptyBlocks = .ok out ∧
      (Deserialize [] out zeroAgenticResponse).1 ≠ respEmptyBlocks ∧
      (Deserialize [] out zeroAgenticResponse).2 = none := by
  obtain ⟨out, hout⟩ := Serialize_total [] respEmptyBlocks (by decide) (by decide)
  have h := Deserialize_Serialize [] [] respEmptyBlocks out hout (by decide)
    (by decide) (by decide) zeroAgenticResponse
  refine ⟨out, hout, ?_, by rw [h]⟩
  rw [h]
  intro hEq
  have hB := congrArg AgenticResponse.Blocks hEq
  exact Option.noConfusion
    (show (none : Option (List (Option ContentBlock))) = some [] from hB)

/-- C2: bytes encoded while the extension value's concrete type was
registered, decoded in a process that never registered it, fail with gob's
"name not registered for interface" error carrying the missing name — the
receiver never silently holds a substituted value. -/
theorem C2_unknownExtension (reg reg2 : Reg) (kv : String × GoVal)
    (t : List (String × GoVal)) (out : List Nat)
    (hout : Serialize reg (respExtra (kv :: t)) = .ok out)
    (hfit : serializeFits reg (respExtra (kv :: t)) = true)
    (hwf : wfPairs (kv :: t) = true)
    (hnm : namesOKPairs reg2 (kv :: t) = false) :
    ∃ nm, ¬nm ∈ reg2 ∧ ∀ (s : AgenticResponse), ∃ s2,
      Deserialize reg2 out s = (s2, some (.nameNotRegistered nm)) :=
  Deserialize_unregExtension reg reg2 kv t out hout hfit hwf hnm

theorem C2_witness :
    ∃ out, Serialize ["pkg.T"] (respExtra extraCustom) = .ok out ∧
      ∃ nm, ¬nm ∈ ([] : Reg) ∧ ∀ (s : AgenticResponse), ∃ s2,
        Deserialize [] out s = (s2, some (.nameNotRegistered nm)) := by
  obtain ⟨out, hout⟩ := Serialize_total ["pkg.T"] (respExtra extraCustom)
    (by decide) (by decide)
  exact ⟨out, hout, C2_unknownExtension ["pkg.T"] []
    ("k", .vCustom "pkg.T" [7]) [] out hout (by decide) (by decide) (by decide)⟩

/-- C3: an extension map of flat primitives (strings, booleans, 64-bit
integers) round-trips with no registrations at all; the claim's "nested
mappings/sequences thereof" needed correction — a nested map or slice is an
interface value of a composite concrete type, and serializing it requires
that type's registration (counterexample). -/
theorem C3_flatPrimitives (kv : String × GoVal) (t : List (String × GoVal))
    (out : List Nat) (hprim : primPairs (kv :: t) = true)
    (hsort : keysSorted (kv :: t) = true)
    (hout : Serialize [] (respExtra (kv :: t)) = .ok out)
    (hfit : serializeFits [] (respExtra (kv :: t)) = true) :
    Deserialize [] out zeroAgenticResponse = (respExtra (kv :: t), none) := by
  have h := Deserialize_Serialize [] [] (respExtra (kv :: t)) out hout
    (respExtra_wf (kv :: t) hsort (primPairs_wfPairs (kv :: t) hprim))
    (respExtra_namesOK [] (kv :: t) (primPairs_namesOK [] (kv :: t) hprim))
    hfit zeroAgenticResponse
  rw [h, merge_respExtra kv t hsort]

theorem extraPrim_sorted : keysSorted extraPrim = true := by
  have h1 : decide (("a" : String) < "b") = true := by
    rw [decide_eq_true_iff, String.lt_iff_toList_lt]
    exact List.Lex.rel (by decide)
  have h2 : decide (("b" : String) < "c") = true := by
    rw [decide_eq_true_iff, String.lt_iff_toList_lt]
    exact List.Lex.rel (by decide)
  simp only [extraPrim, keysSorted, h1, h2, Bool.true_and]

theorem C3_witness :
    ∃ out, Serialize [] (respExtra extraPrim) = .ok out ∧
      Deserialize [] out zeroAgenticResponse = (respExtra extraPrim, none) := by
  obtain ⟨out, hout⟩ := Serialize_total [] (respExtra extraPrim)
    (by decide) (by decide)
  exact ⟨out, hout, C3_flatPrimitives ("a", .vBool true)
    [("b", .vInt 3), ("c", .vString "s")] out (by decide) extraPrim_sorted hout
    (by decide)⟩

/-- C3 counterexample: with an empty registry a nested mapping of primitives
does not even serialize — the inner interface value has the composite
concrete type map[string]interface\x7b\x7d, which must be registered. -/
theorem C3_counterexample :
    Serialize [] (respExtra extraNested)
      = .error (.typeNotRegistered mapAnyName) := rfl

/-- C4: Deserialize runs no validation over the reconstructed blocks: decoding
succeeds with no error even when the result violates the specified
single-populated-variant invariant, so the claimed VariantMismatch failure
does not exist. -/
theorem C4_noValidation (reg reg2 : Reg) (r : AgenticResponse)
    (out : List Nat) (hout : Serialize reg r = .ok out)
    (hwf : wfAgenticResponse r = true)
    (hnm : namesOKAgenticResponse reg2 r = true)
    (hfit : serializeFits reg r = true)
    (hinv : allOpt (wfOpt specValidateBlock) r.Blocks = false)
    (s : AgenticResponse) :
    Deserialize reg2 out s = (mergeAgenticResponse s r, none) :=
  Deserialize_Serialize reg reg2 r out hout hwf hnm hfit s

theorem C4_witness :
    ∃ out, Serialize [] respNoPayload = .ok out ∧
      Deserialize [] out zeroAgenticResponse
        = (mergeAgenticResponse zeroAgenticResponse respNoPayload, none) := by
  obtain ⟨out, hout⟩ := Serialize_total [] respNoPayload (by decide) (by decide)
  exact ⟨out, hout, C4_noValidation [] [] respNoPayload out hout (by decide)
    (by decide) (by decide) (by decide) zeroAgenticResponse⟩

/-- C4 counterexample: the decoded value violates the specified Validate
check (type tag "message", no payload populated), yet Deserialize returns it
with no error. -/
theorem C4_counterexample :
    specValidateBlock blockNoPayload = false ∧
    ∃ out, Serialize [] respNoPayload = .ok out ∧
      Deserialize [] out zeroAgenticResponse = (respNoPayload, none) := by
  refine ⟨by decide, ?_⟩
  obtain ⟨out, hout⟩ := Serialize_total [] respNoPayload (by decide) (by decide)
  have h := Deserialize_Serialize [] [] respNoPayload out hout (by decide)
    (by decide) (by decide) zeroAgenticResponse
  refine ⟨out, hout, ?_⟩
  rw [h]
  rfl

/-- C5: truncating a valid encoding anywhere strictly inside it makes
Deserialize fail, and the receiver comes back exactly as passed — the
truncation is caught while the framed messages are read, before any field
decoding touches the receiver. -/
theorem C5_truncation (reg reg2 : Reg) (r : AgenticResponse) (out : List Nat)
    (hout : Serialize reg r = .ok out) (hfit : serializeFits reg r = true)
    (k : Nat) (hk1 : 1 ≤ k) (hk2 : k < out.length) (s : AgenticResponse) :
    ∃ e, Deserialize reg2 (out.take k) s = (s, some e) :=
  Deserialize_truncated reg reg2 r out hout hfit k hk2 s

theorem C5_witness :
    ∃ out, Serialize [] zeroAgenticResponse = .ok out ∧
      ∃ e, Deserialize [] (out.take 1) zeroAgenticResponse
        = (zeroAgenticResponse, some e) := by
  obtain ⟨out, hout⟩ := Serialize_total [] zeroAgenticResponse
    (by decide) (by decide)
  refine ⟨out, hout, C5_truncation [] [] zeroAgenticResponse out hout
    (by decide) 1 (by decide) ?_ zeroAgenticResponse⟩
  have h := Serialize_length [] zeroAgenticResponse out hout
  omega

/-- C6: when an extension value's concrete type is unregistered, Serialize
fails with gob's "type not registered for interface" error naming it; the
claim's "otherwise Serialize succeeds" needed correction — success also
requires that no slice holds a nil pointer (counterexample), and with
registered names and nil-free slices Serialize does succeed. -/
theorem C6_unregisteredValue :
    (∀ (reg : Reg) (kv : String × GoVal) (t : List (String × GoVal)),
      namesOKPairs reg (kv :: t) = false →
      ∃ nm, ¬nm ∈ reg ∧
        Serialize reg (respExtra (kv :: t)) = .error (.typeNotRegistered nm)) ∧
    (∀ (reg : Reg) (r : AgenticResponse),
      namesOKAgenticResponse reg r = true → noNilAgenticResponse r = true →
      ∃ out, Serialize reg r = .ok out) :=
  ⟨fun reg kv t h => Serialize_unregExtension reg kv t h,
   fun reg r h1 h2 => Serialize_total reg r h1 h2⟩

theorem C6_witness :
    (∃ nm, ¬nm ∈ ([] : Reg) ∧
      Serialize [] (respExtra extraCustom) = .error (.typeNotRegistered nm)) ∧
    ∃ out, Serialize [] respKeep = .ok out :=
  ⟨C6_unregisteredValue.1 [] ("k", .vCustom "pkg.T" [7]) [] (by decide),
   C6_unregisteredValue.2 [] respKeep (by decide) (by decide)⟩

/-- C6 counterexample: every extension value's type is registered (there are
no extension values at all), yet Serialize fails — a nil pointer sits in the
Blocks slice, which gob cannot transmit. -/
theorem C6_counterexample :
    namesOKAgenticResponse [] respNilElem = true ∧
    Serialize [] respNilElem = .error .nilPointer :=
  ⟨rfl, rfl⟩

/-- C7: a failure before the value body is reached (framing, type
definitions, type id) leaves the receiver exactly as passed; the claim's
"mutates no caller-visible state on any failure" needed correction — a
failure inside the value body keeps the fields decoded before the corruption
(counterexample). -/
theorem C7_failBeforeBody (reg : Reg) (data : List Nat) (r : AgenticResponse)
    (e : DecErr) (hs : stage1 data = .error e) :
    Deserialize reg data r = (r, some e) := by
  rw [Deserialize, hs]

theorem C7_witness :
    Deserialize [] [] zeroAgenticResponse = (zeroAgenticResponse, some .eof) :=
  C7_failBeforeBody [] [] zeroAgenticResponse .eof rfl

/-- C7 counterexample: a stream whose value body sets the ID field and then
breaks off inside the next count byte fails — and the returned receiver
carries the new ID: caller-visible mutation on failure. -/
theorem C7_counterexample :
    (Deserialize [] corruptStream zeroAgenticResponse).1 ≠ zeroAgenticResponse ∧
    (Deserialize [] corruptStream zeroAgenticResponse).2
      = some .unexpectedEOF := by
  have h1 : stage1 corruptStream = .ok corruptBody :=
    stage1_frame corruptBody (by decide)
  have h2 : Deserialize [] corruptStream zeroAgenticResponse
      = ({ zeroAgenticResponse with ID := "x" }, some .unexpectedEOF) := by
    rw [Deserialize, h1]
    rfl
  rw [h2]
  refine ⟨?_, rfl⟩
  intro hEq
  have hID := congrArg AgenticResponse.ID hEq
  exact absurd hID (by decide)

/-- C8: there is no version marker and no UnsupportedVersion error: the
first bytes of every encoding are the fixed framed type-definition messages,
and a stream whose first message differs from them is rejected with the
type-definition mismatch error (counterexample shows the rejection). -/
theorem C8_fixedLeadingBytes (reg : Reg) (r : AgenticResponse)
    (out : List Nat) (hout : Serialize reg r = .ok out) :
    ∃ body, out = tdefBytes ++ frameB (encS respTypeId ++ body) := by
  cases h : encAgenticResponseB reg r with
  | error e => rw [Serialize, h] at hout; exact absurd hout (by simp)
  | ok body =>
    have hS := Serialize_eq reg r body h
    rw [hout] at hS
    injection hS with h2
    exact ⟨body, h2⟩

theorem C8_witness :
    ∃ out body, Serialize [] zeroAgenticResponse = .ok out ∧
      out = tdefBytes ++ frameB (encS respTypeId ++ body) := by
  obtain ⟨out, hout⟩ := Serialize_total [] zeroAgenticResponse
    (by decide) (by decide)
  obtain ⟨body, hb⟩ := C8_fixedLeadingBytes [] zeroAgenticResponse out hout
  exact ⟨out, body, hout, hb⟩

/-- C8 counterexample: a stream whose first framed message is not the
expected type definition is rejected with typeDefMismatch — DecErr has no
UnsupportedVersion, and the stream carries no version marker to check. -/
theorem C8_counterexample :
    Deserialize [] (frameB [7]) zeroAgenticResponse
      = (zeroAgenticResponse, some .typeDefMismatch) := by
  have h0 : readFrame (frameB [7]) = .ok ([7], []) := rfl
  have hM : checkTypeDefs typeDefMsgs (frameB [7])
      = .error .typeDefMismatch := by
    refine checkTypeDefs_firstMismatch typeDefMsgs (frameB [7]) [7] [] h0 ?_ ?_
    · intro p hp h
      have h2 := typeDefMsgs_min_length p hp
      rw [← h] at h2
      simp at h2
    · simp [typeDefMsgs, gobTypeIdTable]
  have hs : stage1 (frameB [7]) = .error .typeDefMismatch := by
    rw [stage1, hM]
  rw [Deserialize, hs]

/-- C9: gob decode merges into the receiver rather than resetting it: a field
that was zero in the encoded source is omitted from the stream, and the
receiver's prior value survives a successful decode (shown for the ID
field). -/
theorem C9_mergeSemantics (reg reg2 : Reg) (r : AgenticResponse)
    (out : List Nat) (hout : Serialize reg r = .ok out)
    (hwf : wfAgenticResponse r = true)
    (hnm : namesOKAgenticResponse reg2 r = true)
    (hfit : serializeFits reg r = true) (hid : r.ID = "")
    (s : AgenticResponse) :
    (Deserialize reg2 out s).1.ID = s.ID ∧ (Deserialize reg2 out s).2 = none := by
  rw [Deserialize_Serialize reg reg2 r out hout hwf hnm hfit s]
  refine ⟨?_, rfl⟩
  show mStr s.ID r.ID = s.ID
  rw [hid, mStr, if_pos rfl]

theorem C9_witness :
    ∃ out, Serialize [] zeroAgenticResponse = .ok out ∧
      (Deserialize [] out respKeep).1.ID = respKeep.ID ∧
      (Deserialize [] out respKeep).2 = none := by
  obtain ⟨out, hout⟩ := Serialize_total [] zeroAgenticResponse
    (by decide) (by decide)
  exact ⟨out, hout, C9_mergeSemantics [] [] zeroAgenticResponse out hout
    (by decide) (by decide) (by decide) rfl respKeep⟩

/-- C10: corrected. The empty-versus-nil distinction is lost for slice
fields only: an allocated-but-empty Blocks slice is zero, omitted, and
decodes from a fresh receiver to nil (first half). gob transmits zero-length
non-nil maps, so an allocated-but-empty Extra map round-trips to an
allocated empty map, not nil (second half, over every sorted flat-primitive
extension map, the empty one included) — the claim's map case contradicts
the program (counterexample). -/
theorem C10_emptyCollections :
    (∀ (reg reg2 : Reg) (r : AgenticResponse) (out : List Nat),
      Serialize reg r = .ok out → wfAgenticResponse r = true →
      namesOKAgenticResponse reg2 r = true → serializeFits reg r = true →
      r.Blocks = some [] →
      mergeAgenticResponse zeroAgenticResponse r = { r with Blocks := none } →
      Deserialize reg2 out zeroAgenticResponse
          = ({ r with Blocks := none }, none)
        ∧ ¬(none : Option (List (Option ContentBlock))) = r.Blocks) ∧
    (∀ (m : List (String × GoVal)) (out : List Nat),
      keysSorted m = true → primPairs m = true →
      Serialize [] (respMsg m) = .ok out →
      serializeFits [] (respMsg m) = true →
      Deserialize [] out zeroAgenticResponse = (respMsg m, none)) := by
  constructor
  · intro reg reg2 r out hout hwf hnm hfit hb hcanon
    refine ⟨?_, by rw [hb]; exact fun h => Option.noConfusion h⟩
    rw [Deserialize_Serialize reg reg2 r out hout hwf hnm hfit
      zeroAgenticResponse, hcanon]
  · intro m out hs hp hout hfit
    have h := Deserialize_Serialize [] [] (respMsg m) out hout
      (respMsg_wf m hs (primPairs_wfPairs m hp))
      (respMsg_namesOK [] m (primPairs_namesOK [] m hp)) hfit
      zeroAgenticResponse
    rw [h, merge_respMsg m hs]

theorem C10_witness :
    (∃ out, Serialize [] respEmptyBlocks = .ok out ∧
      (Deserialize [] out zeroAgenticResponse
          = ({ respEmptyBlocks with Blocks := none }, none)
        ∧ ¬(none : Option (List (Option ContentBlock)))
            = respEmptyBlocks.Blocks)) ∧
    (∃ out, Serialize [] (respMsg []) = .ok out ∧
      Deserialize [] out zeroAgenticResponse = (respMsg [], none)) := by
  constructor
  · obtain ⟨out, hout⟩ := Serialize_total [] respEmptyBlocks (by decide)
      (by decide)
    exact ⟨out, hout, C10_emptyCollections.1 [] [] respEmptyBlocks out hout
      (by decide) (by decide) (by decide) rfl rfl⟩
  · obtain ⟨out, hout⟩ := Serialize_total [] (respMsg []) (by decide)
      (by decide)
    exact ⟨out, hout, C10_emptyCollections.2 [] out rfl rfl hout (by decide)⟩

/-- C10 counterexample: a response whose message carries an allocated-but-
empty Extra map round-trips to exactly itself — the Extra field comes back
as the allocated empty map, not nil, refuting the claimed empty-to-nil
collapse for map fields. -/
theorem C10_counterexample :
    ∃ out, Serialize [] (respMsg []) = .ok out ∧
      Deserialize [] out zeroAgenticResponse = (respMsg [], none) ∧
      ¬(msgRole []).Extra = none := by
  obtain ⟨out, hout⟩ := Serialize_total [] (respMsg []) (by decide) (by decide)
  have h := Deserialize_Serialize [] [] (respMsg []) out hout (by decide)
    (by decide) (by decide) zeroAgenticResponse
  refine ⟨out, hout, ?_, fun h2 => Option.noConfusion h2⟩
  rw [h]
  rfl

end GobSpec
